import Mathlib

/-!
GEMS 1.4 ASCII codec: a verification development.

A shallow embedding of the ASCII side of the GEMS protocol implementation
(packages `ascii`, `gems` and `gemsV14`) together with theorems about it.

Conventions of the embedding.

* A Go `string` or `[]byte` is a `List Char`, one `Char` per byte.  A byte of a
  multi-byte UTF-8 sequence is a `Char` with code above 127, so the Go loop
  `for _, c := range val { if c > 127 ... }` of `ascii.Valid` is the test that every
  element of the list has code at most 127.  `len` is `List.length`.
* A Go slice is a `List`; `nil` and the empty slice are not told apart.
* A Go method that mutates an `ascii.Buffer` and returns an `error` is a function from the
  buffer content to the new content paired with `Option GoError`.
* A Go method with a pointer receiver that returns an `error` is a function from the
  old value to the new value paired with `Option GoError`, or an `Except` when the
  caller drops the value on failure.
-/

namespace Gems

/-! ## Byte-string helpers (Go packages `bytes` and `strings`) -/

/-- Go `bytes.HasPrefix(s, p)`. -/
def startsWith : List Char → List Char → Bool
  | _, [] => true
  | [], _ :: _ => false
  | c :: s, d :: p => c == d && startsWith s p

/-- Go `bytes.HasSuffix(s, p)`. -/
def endsWith (s p : List Char) : Bool :=
  startsWith s.reverse p.reverse

/-- Go `bytes.TrimSuffix(s, p)`. -/
def trimSuffix (s p : List Char) : List Char :=
  if endsWith s p then s.take (s.length - p.length) else s

/-- Go `bytes.TrimPrefix(s, p)`. -/
def trimPrefix (s p : List Char) : List Char :=
  if startsWith s p then s.drop p.length else s

/-- Go `bytes.Index(s, sep)` for a non-empty separator: the index of the first
occurrence, `none` for Go's `-1`. -/
def indexOf (sep : List Char) : List Char → Option Nat
  | [] => none
  | c :: s =>
    if startsWith (c :: s) sep then some 0
    else (indexOf sep s).map (· + 1)

/-- Go `bytes.LastIndex(s, []byte{c})`: the index of the last occurrence of the byte. -/
def lastIndexByte (c : Char) : List Char → Option Nat
  | [] => none
  | d :: s =>
    match lastIndexByte c s with
    | some i => some (i + 1)
    | none => if d == c then some 0 else none

/-- Go `bytes.IndexAny(s, chars)` for ASCII `chars`: the index of the first byte of `s`
that occurs in `chars`. -/
def indexAny (chars : List Char) : List Char → Option Nat
  | [] => none
  | d :: s => if chars.contains d then some 0 else (indexAny chars s).map (· + 1)

/-- Go `bytes.Cut(s, sep)` for a non-empty separator: the text before the first
occurrence, the text after it, and whether it was found. -/
def cut (sep : List Char) (s : List Char) : List Char × List Char × Bool :=
  match indexOf sep s with
  | some i => (s.take i, s.drop (i + sep.length), true)
  | none => (s, [], false)

/-- Puts a byte in front of the first field of a split. -/
def consField (c : Char) : List (List Char) → List (List Char)
  | [] => [[c]]
  | f :: r => (c :: f) :: r

/-- Worker of `splitOn`: `skip` counts the bytes of a separator occurrence that are still
to be passed over. -/
def splitOnAux (sep : List Char) : List Char → Nat → List (List Char)
  | [], _ => [[]]
  | _ :: s, skip + 1 => splitOnAux sep s skip
  | c :: s, 0 =>
    if startsWith (c :: s) sep then [] :: splitOnAux sep s (sep.length - 1)
    else consField c (splitOnAux sep s 0)

/-- Go `bytes.Split(s, sep)` for a non-empty separator: the fields between the
non-overlapping occurrences of `sep`, found from the left.  An empty input gives one
empty field. -/
def splitOn (sep : List Char) (s : List Char) : List (List Char) :=
  splitOnAux sep s 0

/-- Go `bytes.Join(fields, sep)`. -/
def joinWith (sep : List Char) : List (List Char) → List Char
  | [] => []
  | [f] => f
  | f :: g :: r => f ++ sep ++ joinWith sep (g :: r)


/-! ## Errors -/

/-- The two sentinel errors of `strconv`: `ErrSyntax` and `ErrRange`. -/
inductive NumErr where
  | ErrSyntax
  | ErrRange
deriving DecidableEq, Repr

/-- The Go `error` values the codec produces. -/
inductive GoError where
  /-- The type `*ascii.MarshalError` with its `Msg`. -/
  | MarshalError (Msg : List Char)
  /-- The type `*ascii.UnmarshalError` with its `Data` (`none` for `nil`) and `Msg`. -/
  | UnmarshalError (Data : Option (List Char)) (Msg : List Char)
  /-- An error made by `fmt.Errorf`, with its text. -/
  | Errorf (msg : List Char)
  /-- The type `*strconv.NumError` with `Func`, `Num` and `Err`. -/
  | NumError (Func : List Char) (Num : List Char) (Err : NumErr)
  /-- The errors of `encoding/hex`: `InvalidByteError` and `ErrLength`. -/
  | HexError (invalidByte : Option Char)
  /-- An error of a library function that is a parameter of the embedding. -/
  | LibError (msg : List Char)
deriving DecidableEq, Repr

/-! ## Number formatting and parsing (Go package `strconv`, verbs of `fmt`) -/

namespace strconv

/-- The decimal digit character of `d < 10`. -/
def digitChar (d : Nat) : Char := Char.ofNat (48 + d)

/-- Worker of `FormatUint`, with fuel: puts the decimal digits of `n` in front of `acc`. -/
def formatUintAux : Nat → Nat → List Char → List Char
  | 0, _, acc => acc
  | fuel + 1, n, acc =>
    if n < 10 then digitChar n :: acc
    else formatUintAux fuel (n / 10) (digitChar (n % 10) :: acc)

/-- Go `strconv.FormatUint(n, 10)`: the decimal digits of `n`, no leading zero. -/
def FormatUint (n : Nat) : List Char := formatUintAux (n + 1) n []

/-- Go `strconv.FormatInt(i, 10)` and the verb `%d`: a minus sign for a negative number,
then the decimal digits of its magnitude. -/
def FormatInt (i : Int) : List Char :=
  if i < 0 then '-' :: FormatUint i.natAbs else FormatUint i.natAbs

/-- The verb `%010d` at a non-negative number: its decimal digits, padded with zeros on the
left to ten bytes (longer numbers are not cut). -/
def FormatPad10 (n : Nat) : List Char :=
  List.replicate (10 - (FormatUint n).length) '0' ++ FormatUint n

/-- Go `strconv.FormatBool`. -/
def FormatBool (b : Bool) : List Char :=
  if b then "true".toList else "false".toList

/-- Go `strconv.ParseBool`. -/
def ParseBool (s : List Char) : Except GoError Bool :=
  if s = "1".toList ∨ s = "t".toList ∨ s = "T".toList ∨ s = "TRUE".toList
      ∨ s = "true".toList ∨ s = "True".toList then .ok true
  else if s = "0".toList ∨ s = "f".toList ∨ s = "F".toList ∨ s = "FALSE".toList
      ∨ s = "false".toList ∨ s = "False".toList then .ok false
  else .error (.NumError "ParseBool".toList s .ErrSyntax)

/-- The loop of Go `strconv.ParseUint(s, 10, bitSize)` with `maxVal = 2^bitSize - 1`:
a byte that is no decimal digit is a syntax error, a value above `maxVal` (or one that
leaves 64 bits) a range error, whichever comes first from the left. -/
def parseUintLoop (maxVal : Nat) : List Char → Nat → Except NumErr Nat
  | [], n => .ok n
  | c :: s, n =>
    if 48 ≤ c.toNat ∧ c.toNat ≤ 57 then
      if n ≥ (2 ^ 64 - 1) / 10 + 1 then .error .ErrRange
      else
        let n1 := n * 10 + (c.toNat - 48)
        if n1 ≥ 2 ^ 64 ∨ n1 > maxVal then .error .ErrRange
        else parseUintLoop maxVal s n1
    else .error .ErrSyntax

/-- Go `strconv.ParseUint(s, 10, bitSize)` without the wrapping into a `NumError`. -/
def parseUintCore (s : List Char) (bitSize : Nat) : Except NumErr Nat :=
  if s = [] then .error .ErrSyntax else parseUintLoop (2 ^ bitSize - 1) s 0

/-- Go `strconv.ParseUint(s, 10, bitSize)`. -/
def ParseUint (s : List Char) (bitSize : Nat) : Except GoError Nat :=
  match parseUintCore s bitSize with
  | .ok n => .ok n
  | .error e => .error (.NumError "ParseUint".toList s e)

/-- The body of Go `strconv.ParseInt(s, 10, bitSize)`; `fn` is the function name that the
`NumError` reports. -/
def parseIntCore (fn : List Char) (s : List Char) (bitSize : Nat) : Except GoError Int :=
  if s = [] then .error (.NumError fn s .ErrSyntax)
  else
    let neg : Bool := s.head? = some '-'
    let t : List Char := if s.head? = some '+' ∨ s.head? = some '-' then s.tail else s
    match parseUintCore t bitSize with
    | .error e => .error (.NumError fn s e)
    | .ok un =>
      let cutoff : Nat := 2 ^ (bitSize - 1)
      if !neg ∧ un ≥ cutoff then .error (.NumError fn s .ErrRange)
      else if neg ∧ un > cutoff then .error (.NumError fn s .ErrRange)
      else .ok (if neg then - (un : Int) else (un : Int))

/-- Go `strconv.ParseInt(s, 10, bitSize)`. -/
def ParseInt (s : List Char) (bitSize : Nat) : Except GoError Int :=
  parseIntCore "ParseInt".toList s bitSize

/-- Go `strconv.Atoi(s)` on a 64-bit platform: `ParseInt(s, 10, 0)` with the function name
of the error replaced by `Atoi`. -/
def Atoi (s : List Char) : Except GoError Int :=
  parseIntCore "Atoi".toList s 64

end strconv


/-! ## Hexadecimal text (Go package `encoding/hex`) -/

namespace hex

/-- The upper-case hexadecimal digit of `n < 16`. -/
def upperDigit (n : Nat) : Char :=
  if n < 10 then Char.ofNat (48 + n) else Char.ofNat (55 + n)

/-- Go `strings.ToUpper(string(dst))` after `hex.Encode(dst, data)`: two upper-case
hexadecimal digits for every byte. -/
def EncodeUpper : List Char → List Char
  | [] => []
  | b :: r => upperDigit (b.toNat / 16) :: upperDigit (b.toNat % 16) :: EncodeUpper r

/-- The table `reverseHexTable` of `encoding/hex`: the value of a hexadecimal digit in
either case. -/
def fromHexChar (c : Char) : Option Nat :=
  if 48 ≤ c.toNat ∧ c.toNat ≤ 57 then some (c.toNat - 48)
  else if 97 ≤ c.toNat ∧ c.toNat ≤ 102 then some (c.toNat - 87)
  else if 65 ≤ c.toNat ∧ c.toNat ≤ 70 then some (c.toNat - 55)
  else none

/-- Go `hex.DecodeString(s)`; the bytes decoded before an error are dropped, as every
ASCII caller drops them. -/
def DecodeString : List Char → Except GoError (List Char)
  | [] => .ok []
  | [p] =>
    match fromHexChar p with
    | none => .error (.HexError (some p))
    | some _ => .error (.HexError none)
  | p :: q :: r =>
    match fromHexChar p, fromHexChar q with
    | none, _ => .error (.HexError (some p))
    | some _, none => .error (.HexError (some q))
    | some a, some b =>
      match DecodeString r with
      | .ok bs => .ok (Char.ofNat (a * 16 + b) :: bs)
      | .error e => .error e

end hex

/-- Go `strings.ToUpper` on the bytes of an ASCII string; bytes above 127 are kept (Go
case-maps whole runes there, which never yields a hexadecimal digit). -/
def toUpper (s : List Char) : List Char :=
  s.map (fun c => if 97 ≤ c.toNat ∧ c.toNat ≤ 122 then Char.ofNat (c.toNat - 32) else c)

/-! ## Common types (package `gems`, file `types.go`) -/

namespace gems

/-- The enumeration `Datatype`. -/
inductive Datatype where
  | UndefinedType | StringType | BooleanType | ByteType | UbyteType | HexValueType
  | DoubleType | LongType | UlongType | IntType | UintType | ShortType | UshortType
  | TimeType | UtimeType | ParameterType | ParameterSetType
deriving DecidableEq, Repr

/-- Go `Datatype.ASCIIName`. -/
def Datatype.ASCIIName : Datatype → List Char
  | .StringType => "string".toList
  | .BooleanType => "bool".toList
  | .ByteType => "byte".toList
  | .UbyteType => "ubyte".toList
  | .HexValueType => "hex_value".toList
  | .DoubleType => "double".toList
  | .LongType => "long".toList
  | .UlongType => "ulong".toList
  | .IntType => "int".toList
  | .UintType => "uint".toList
  | .ShortType => "short".toList
  | .UshortType => "ushort".toList
  | .TimeType => "time".toList
  | .UtimeType => "utime".toList
  | .ParameterSetType => "set_type".toList
  | _ => "undefined".toList

/-- Go `DatatypeFromASCII`. -/
def DatatypeFromASCII (typ : List Char) : Datatype :=
  if typ = "string".toList then .StringType
  else if typ = "bool".toList ∨ typ = "boolean".toList then .BooleanType
  else if typ = "byte".toList then .ByteType
  else if typ = "ubyte".toList then .UbyteType
  else if typ = "hex_value".toList then .HexValueType
  else if typ = "double".toList then .DoubleType
  else if typ = "long".toList ∨ typ = "int64".toList then .LongType
  else if typ = "ulong".toList then .UlongType
  else if typ = "int".toList then .IntType
  else if typ = "uint".toList then .UintType
  else if typ = "short".toList then .ShortType
  else if typ = "ushort".toList then .UshortType
  else if typ = "time".toList then .TimeType
  else if typ = "utime".toList then .UtimeType
  else if typ = "set_type".toList then .ParameterSetType
  else .UndefinedType

/-- Conversion of a Go `int` to a signed integer of `w` bits (two's complement wrap). -/
def wrapInt (w : Nat) (i : Int) : Int :=
  (i + 2 ^ (w - 1)) % 2 ^ w - 2 ^ (w - 1)

/-- The struct `NullInt32`. -/
structure NullInt32 where
  Int32 : Int
  Valid : Bool
deriving DecidableEq, Repr

/-- Go `NewNullInt32(i)`: the conversion `int32(i)` wraps. -/
def NewNullInt32 (i : Int) : NullInt32 := ⟨wrapInt 32 i, true⟩

/-- The struct `NullInt64`. -/
structure NullInt64 where
  Int64 : Int
  Valid : Bool
deriving DecidableEq, Repr

/-- Go `NewNullInt64`. -/
def NewNullInt64 (i : Int) : NullInt64 := ⟨i, true⟩

/-- Go `NullInt64.String`. -/
def NullInt64.String (i : NullInt64) : List Char :=
  if !i.Valid then [] else strconv.FormatInt i.Int64

/-- Go `NullInt64.UnmarshalASCII`: the new value and the error. -/
def NullInt64.UnmarshalASCII (data : List Char) : NullInt64 × Option GoError :=
  if data.length = 0 then (⟨0, false⟩, none)
  else
    match strconv.ParseInt data 64 with
    | .error _ =>
      (⟨0, false⟩, some (.UnmarshalError (some data) "invalid Transaction ID number".toList))
    | .ok val => (⟨val, true⟩, none)

end gems


/-! ## Time (package `gems`, file `types.go`, over Go package `time`) -/

namespace gems

/-- The struct `gems.Time`, which embeds `time.Time`: an instant as the seconds since the
Unix epoch (`t.Unix()`) and the nanoseconds within that second.  Location and monotonic
clock reading are not modelled. -/
structure Time where
  sec : Int
  nsec : Nat
deriving DecidableEq, Repr

/-- The zero value `Time{}`: January 1 of year 1, 00:00:00 UTC. -/
def Time.zero : Time := ⟨-62135596800, 0⟩

/-- Go `t.IsZero()`. -/
def Time.IsZero (t : Time) : Bool := t.sec = -62135596800 ∧ t.nsec = 0

/-- Go `time.Unix(sec, nsec)`: nanoseconds outside `[0, 1e9)` are carried into the
seconds (division truncates toward zero, then a negative rest is fixed up); the seconds
wrap at 64 bits. -/
def timeUnix (sec nsec : Int) : Time :=
  if nsec < 0 ∨ nsec ≥ 1000000000 then
    let n := Int.tdiv nsec 1000000000
    let sec1 := sec + n
    let nsec1 := nsec - n * 1000000000
    if nsec1 < 0 then ⟨wrapInt 64 (sec1 - 1), (nsec1 + 1000000000).toNat⟩
    else ⟨wrapInt 64 sec1, nsec1.toNat⟩
  else ⟨sec, nsec.toNat⟩

/-- Go `TimeFromString`: `<seconds>.<nanoseconds>`, the nanoseconds padded with zeros on
the right to nine digits. -/
def TimeFromString (s : List Char) : Except GoError Time :=
  let (secStr, nsecStr, found) := cut ".".toList s
  let nsecStr := if nsecStr.length < 9
    then nsecStr ++ List.replicate (9 - nsecStr.length) '0' else nsecStr
  match (if found then strconv.ParseInt nsecStr 64 else .ok 0) with
  | .error e => .error e
  | .ok nsec =>
    match strconv.ParseInt secStr 64 with
    | .error e => .error e
    | .ok sec => .ok (timeUnix sec nsec)

/-- Go `Time.String`: `fmt.Sprintf("%d.%d", sec, nsec)` with `sec = t.Unix()` and `nsec`
the nanoseconds of `t` after that second. -/
def Time.String (t : Time) : List Char :=
  strconv.FormatInt t.sec ++ '.' :: strconv.FormatInt t.nsec

/-- Go `Time.FormatTime`. -/
def Time.FormatTime (t : Time) : List Char := t.String

/-- Go `Time.UnmarshalASCII`: the value is replaced also when parsing fails (by the zero
time). -/
def Time.UnmarshalASCII (data : List Char) : Time × Option GoError :=
  match TimeFromString data with
  | .error e => (Time.zero, some e)
  | .ok t => (t, none)

/-- The helper `appendInt(b, x, width)` of Go package `time`: a minus sign for a negative
number, then its digits padded with zeros on the left to `width`. -/
def appendInt (x : Int) (width : Nat) : List Char :=
  let ds := strconv.FormatUint x.natAbs
  (if x < 0 then ['-'] else []) ++ List.replicate (width - ds.length) '0' ++ ds

/-- Year and day of the year (from 1) of the day that lies `d1` days after January 1 of
year 1 in the proleptic Gregorian calendar, by cutting off cycles of 400, 100, 4 and 1
years as Go package `time` does. -/
def yearDay (d1 : Int) : Int × Nat :=
  let n400 := d1 / 146097
  let d := (d1 % 146097).toNat
  let n100 := d / 36524
  let n100 := n100 - n100 / 4
  let d := d - 36524 * n100
  let n4 := d / 1461
  let d := d - 1461 * n4
  let n1 := d / 365
  let n1 := n1 - n1 / 4
  let d := d - 365 * n1
  (400 * n400 + 100 * n100 + 4 * n4 + n1 + 1, d + 1)

/-- Go `Time.FormatUtime`: `t.UTC().Format("2006-__2T15:04:05.000000000Z")`.  The year has
at least four digits, the day of the year (`__2`) is padded with blanks to three bytes,
hour, minute and second have two digits and the nanoseconds nine. -/
def Time.FormatUtime (t : Time) : List Char :=
  let days := t.sec / 86400
  let secOfDay := (t.sec % 86400).toNat
  let (year, yday) := yearDay (days + 719162)
  appendInt year 4 ++ '-' ::
    (List.replicate (3 - (strconv.FormatUint yday).length) ' ' ++ strconv.FormatUint yday)
    ++ 'T' :: appendInt (secOfDay / 3600) 2 ++ ':' :: appendInt (secOfDay % 3600 / 60) 2
    ++ ':' :: appendInt (secOfDay % 60) 2
    ++ '.' :: appendInt t.nsec 9 ++ ['Z']

end gems

/-- The IEEE-754 binary64 value of a Go `float64`, as its bit pattern. -/
structure Float64 where
  bits : Nat
deriving DecidableEq, Repr

/-- Library functions that the embedding takes as parameters. -/
structure GoLib where
  /-- Go `strconv.FormatFloat(x, 'f', -1, 64)`. -/
  FormatFloat : Float64 → List Char
  /-- Go `strconv.ParseFloat(s, 64)`. -/
  ParseFloat : List Char → Except GoError Float64
  /-- Go `time.Parse("2006-__2T15:04:05.000000000Z", s)`. -/
  ParseUtimeLayout : List Char → Except GoError gems.Time

namespace gems

/-- Go `TimeFromUtime`: the fraction is padded on the right to nine bytes, every blank of
the text becomes `0`, and the result is parsed with the `utime` layout. -/
def TimeFromUtime (lib : GoLib) (s : List Char) : Except GoError Time :=
  let (left, right, found) := cut ".".toList s
  if !found then .error (.Errorf "Utime missing decimal seconds separator".toList)
  else if !endsWith right "Z".toList then
    .error (.Errorf "Utime missing 'Z' time zone character".toList)
  else
    let right := right.take (right.length - 1)
    let right := right ++ List.replicate (9 - right.length) ' '
    let padded := left ++ '.' :: right ++ ['Z']
    let padded := padded.map (fun c => if c = ' ' then '0' else c)
    lib.ParseUtimeLayout padded

end gems


/-! ## Buffers (package `ascii`) -/

namespace ascii

/-- Go `ascii.Valid`: no code point above 127, that is no byte above 127. -/
def Valid (val : List Char) : Bool :=
  val.all (fun c => decide (c.toNat ≤ 127))

/-- Go `Buffer.SafeWrite`: the new buffer content and the error. -/
def SafeWrite (b : List Char) (val : List Char) : List Char × Option GoError :=
  if val = "|GEMS".toList ∨ val = "|END|".toList then
    (b, some (.MarshalError ("use of reserved word '".toList ++ val ++ "'".toList)))
  else if !Valid val then
    (b, some (.MarshalError
      ("unable to encode non-ASCII characters in '".toList ++ val ++ "'".toList)))
  else (b ++ val, none)

end ascii


/-! ## Message types (package `gems`, file `types.go`) -/

namespace gems

/-- The enumeration `MessageType`. -/
inductive MessageType where
  | UndefinedMessageType | MessageSequenceType
  | SetConfigMessageType | SetConfigResponseType
  | GetConfigMessageType | GetConfigResponseType
  | GetConfigListMessageType | GetConfigListResponseType
  | LoadConfigMessageType | LoadConfigResponseType
  | SaveConfigMessageType | SaveConfigResponseType
  | DirectiveMessageType | DirectiveResponseType
  | PingMessageType | PingResponseType
  | ConnectMessageType | ConnectResponseType
  | DisconnectMessageType | AsyncStatusMessageType | UnknownResponseType
deriving DecidableEq, Repr

/-- Go `MessageType.String`. -/
def MessageType.String : MessageType → List Char
  | .MessageSequenceType => "MessageSequence".toList
  | .SetConfigMessageType => "SetConfigMessage".toList
  | .SetConfigResponseType => "SetConfigResponse".toList
  | .GetConfigMessageType => "GetConfigMessage".toList
  | .GetConfigResponseType => "GetConfigResponse".toList
  | .GetConfigListMessageType => "GetConfigListMessage".toList
  | .GetConfigListResponseType => "GetConfigListResponse".toList
  | .LoadConfigMessageType => "LoadConfigMessage".toList
  | .LoadConfigResponseType => "LoadConfigResponse".toList
  | .SaveConfigMessageType => "SaveConfigMessage".toList
  | .SaveConfigResponseType => "SaveConfigResponse".toList
  | .DirectiveMessageType => "DirectiveMessage".toList
  | .DirectiveResponseType => "DirectiveResponse".toList
  | .PingMessageType => "PingMessage".toList
  | .PingResponseType => "PingResponse".toList
  | .ConnectMessageType => "ConnectionRequestMessage".toList
  | .ConnectResponseType => "ConnectionRequestResponse".toList
  | .DisconnectMessageType => "DisconnectMessage".toList
  | .AsyncStatusMessageType => "AsyncStatusMessage".toList
  | .UnknownResponseType => "UnknownResponse".toList
  | .UndefinedMessageType => "undefined".toList

/-- Go `MessageType.ASCII`. -/
def MessageType.ASCII : MessageType → List Char
  | .SetConfigMessageType => "SET".toList
  | .SetConfigResponseType => "SET-R".toList
  | .GetConfigMessageType => "GET".toList
  | .GetConfigResponseType => "GET-R".toList
  | .GetConfigListMessageType => "GETL".toList
  | .GetConfigListResponseType => "GETL-R".toList
  | .LoadConfigMessageType => "LOAD".toList
  | .LoadConfigResponseType => "LOAD-R".toList
  | .SaveConfigMessageType => "SAVE".toList
  | .SaveConfigResponseType => "SAVE-R".toList
  | .DirectiveMessageType => "DIR".toList
  | .DirectiveResponseType => "DIR-R".toList
  | .PingMessageType => "PING".toList
  | .PingResponseType => "PING-R".toList
  | .ConnectMessageType => "CON".toList
  | .ConnectResponseType => "CON-R".toList
  | .DisconnectMessageType => "DISC".toList
  | .AsyncStatusMessageType => "ASYNC".toList
  | .UnknownResponseType => "UKN-R".toList
  | _ => []

/-- Go `MessageTypeFromASCII`. -/
def MessageTypeFromASCII (t : List Char) : MessageType :=
  if t = "SET".toList then .SetConfigMessageType
  else if t = "SET-R".toList then .SetConfigResponseType
  else if t = "GET".toList then .GetConfigMessageType
  else if t = "GET-R".toList then .GetConfigResponseType
  else if t = "GETL".toList then .GetConfigListMessageType
  else if t = "GETL-R".toList then .GetConfigListResponseType
  else if t = "LOAD".toList then .LoadConfigMessageType
  else if t = "LOAD-R".toList then .LoadConfigResponseType
  else if t = "SAVE".toList then .SaveConfigMessageType
  else if t = "SAVE-R".toList then .SaveConfigResponseType
  else if t = "DIR".toList then .DirectiveMessageType
  else if t = "DIR-R".toList then .DirectiveResponseType
  else if t = "PING".toList then .PingMessageType
  else if t = "PING-R".toList then .PingResponseType
  else if t = "CON".toList then .ConnectMessageType
  else if t = "CON-R".toList then .ConnectResponseType
  else if t = "DISC".toList ∨ t = "DIS".toList then .DisconnectMessageType
  else if t = "ASYNC".toList then .AsyncStatusMessageType
  else if t = "UKN-R".toList ∨ t = "ERR-R".toList ∨ t = "DIS-R".toList then .UnknownResponseType
  else .UndefinedMessageType

/-- The struct `Result`; a `ResultCode` is a Go string. -/
structure Result where
  Code : List Char
  Description : List Char
deriving DecidableEq, Repr

end gems

/-! ## Escaping (package `gemsV14`, file `ascii.go`) -/

namespace gemsV14

/-- The table of `escaper`: `strings.NewReplacer("&", "&a", "|", "&b", ",", "&c", ";", "&d")`.
All old strings are single bytes, so the replacer maps every byte on its own. -/
def escapeByte (c : Char) : List Char :=
  if c = '&' then ['&', 'a']
  else if c = '|' then ['&', 'b']
  else if c = ',' then ['&', 'c']
  else if c = ';' then ['&', 'd']
  else [c]

/-- Go `escape(s) = escaper.Replace(s)`. -/
def escape : List Char → List Char
  | [] => []
  | c :: s => escapeByte c ++ escape s

/-- Go `unescape(s) = unescaper.Replace(s)` with
`strings.NewReplacer("&a", "&", "&b", "|", "&c", ",", "&d", ";")`: one pass from the left;
at each position a matching two-byte old string is replaced and skipped, any other byte is
copied. -/
def unescape : List Char → List Char
  | [] => []
  | [c] => [c]
  | c :: d :: s =>
    if c = '&' ∧ d = 'a' then '&' :: unescape s
    else if c = '&' ∧ d = 'b' then '|' :: unescape s
    else if c = '&' ∧ d = 'c' then ',' :: unescape s
    else if c = '&' ∧ d = 'd' then ';' :: unescape s
    else c :: unescape (d :: s)

/-! ## Values (package `gemsV14`, file `values.go`) -/

/-- The implementations of the interface `gems.XMLValue`: the fourteen scalar value
structs with their `Data` and `Empty` fields, and `Parameter` and `ParameterSet` with
their fields `Values`, `Multiplicity`, `name` and `typeAttr`.  Integer payloads are
mathematical integers; the range of the Go field type is the predicate `Value.InRange`. -/
inductive Value where
  | vString (Data : List Char) (Empty : Bool)
  | vBoolean (Data : Bool) (Empty : Bool)
  | vByte (Data : Int) (Empty : Bool)
  | vUbyte (Data : Int) (Empty : Bool)
  | vShort (Data : Int) (Empty : Bool)
  | vUshort (Data : Int) (Empty : Bool)
  | vInt (Data : Int) (Empty : Bool)
  | vUint (Data : Int) (Empty : Bool)
  | vLong (Data : Int) (Empty : Bool)
  | vUlong (Data : Int) (Empty : Bool)
  | vDouble (Data : Float64) (Empty : Bool)
  | vHexValue (Data : List Char) (BitLength : Int) (Empty : Bool)
  | vTime (Data : gems.Time) (Empty : Bool)
  | vUtime (Data : gems.Time) (Empty : Bool)
  | vParameter (Values : List Value) (Multiplicity : gems.NullInt32) (name : List Char)
      (typeAttr : gems.Datatype)
  | vParameterSet (Values : List Value) (Multiplicity : gems.NullInt32) (name : List Char)
      (typeAttr : gems.Datatype)

/-- The method `Type()` of every value struct. -/
def Value.Type : Value → gems.Datatype
  | .vString _ _ => .StringType
  | .vBoolean _ _ => .BooleanType
  | .vByte _ _ => .ByteType
  | .vUbyte _ _ => .UbyteType
  | .vShort _ _ => .ShortType
  | .vUshort _ _ => .UshortType
  | .vInt _ _ => .IntType
  | .vUint _ _ => .UintType
  | .vLong _ _ => .LongType
  | .vUlong _ _ => .UlongType
  | .vDouble _ _ => .DoubleType
  | .vHexValue _ _ _ => .HexValueType
  | .vTime _ _ => .TimeType
  | .vUtime _ _ => .UtimeType
  | .vParameter _ _ _ _ => .ParameterType
  | .vParameterSet _ _ _ _ => .ParameterSetType

/-- The loop of Go `Parameter.ValueType` and `ParameterSet.ValueType`. -/
def valueTypeLoop : List Value → gems.Datatype → gems.Datatype
  | [], typ => typ
  | v :: r, typ =>
    let typ1 := if typ = .UndefinedType then v.Type else typ
    if typ1 ≠ v.Type then .UndefinedType else valueTypeLoop r typ1

/-- Go `Parameter.ValueType` and `ParameterSet.ValueType` on the field `Values`. -/
def ValueType (vs : List Value) : gems.Datatype :=
  valueTypeLoop vs .UndefinedType

/-- Go `HexValue.String`. -/
def HexValue.String (Data : List Char) (BitLength : Int) (Empty : Bool) : List Char :=
  let encodedLen : Int := 2 * Data.length
  let bitLength := if BitLength < encodedLen then encodedLen else BitLength
  if Empty ∨ bitLength = 0 then "0/0".toList else hex.EncodeUpper Data

/-- The Go idiom `if err != nil { return err }` after a call that writes to a buffer: what
follows runs on the new buffer content only when the call returned no error. -/
def andThen (x : List Char × Option GoError)
    (k : List Char → List Char × Option GoError) : List Char × Option GoError :=
  match x with
  | (b1, some err) => (b1, some err)
  | (b1, none) => k b1

/-- The methods `MarshalASCII` of the value structs, of `Parameter` and of `ParameterSet`:
the new buffer content and the error.  `Value.MarshalASCII.slice` is Go
`ValueSlice.MarshalASCII`. -/
def Value.MarshalASCII (lib : GoLib) : Value → List Char → List Char × Option GoError
  | .vString d e, b => if e then (b, none) else ascii.SafeWrite b (escape d)
  | .vBoolean d e, b => if e then (b, none) else (b ++ strconv.FormatBool d, none)
  | .vByte d e, b => if e then (b, none) else (b ++ strconv.FormatInt d, none)
  | .vUbyte d e, b => if e then (b, none) else (b ++ strconv.FormatInt d, none)
  | .vShort d e, b => if e then (b, none) else (b ++ strconv.FormatInt d, none)
  | .vUshort d e, b => if e then (b, none) else (b ++ strconv.FormatInt d, none)
  | .vInt d e, b => if e then (b, none) else (b ++ strconv.FormatInt d, none)
  | .vUint d e, b => if e then (b, none) else (b ++ strconv.FormatInt d, none)
  | .vLong d e, b => if e then (b, none) else (b ++ strconv.FormatInt d, none)
  | .vUlong d e, b => if e then (b, none) else (b ++ strconv.FormatInt d, none)
  | .vDouble d e, b => if e then (b, none) else (b ++ lib.FormatFloat d, none)
  | .vHexValue d bl e, b =>
    if e then (b, none)
    else if bl = 0 then (b ++ "0/0".toList, none)
    else (b ++ HexValue.String d bl e ++ '/' :: strconv.FormatInt bl, none)
  | .vTime d e, b => if e then (b, none) else (b ++ d.FormatTime, none)
  | .vUtime d e, b => if e then (b, none) else (b ++ d.FormatUtime, none)
  | .vParameter vs m n _, b =>
    andThen (ascii.SafeWrite b (escape n)) (fun b1 =>
      if ValueType vs = .UndefinedType then
        if vs.length = 0 then (b1, none)
        else (b1, some (.MarshalError "cannot marshal a Parameter of undefined type".toList))
      else
        slice lib vs (b1 ++ ':' :: (ValueType vs).ASCIIName ++
          (if !m.Valid then ['='] else '[' :: strconv.FormatInt m.Int32 ++ "]=".toList)))
  | .vParameterSet vs m n _, b =>
    andThen (ascii.SafeWrite b (escape n)) (fun b1 =>
      slice lib vs (b1 ++ ':' :: gems.Datatype.ParameterSetType.ASCIIName ++
        (if !m.Valid then ['='] else '[' :: strconv.FormatInt m.Int32 ++ "]=".toList)))
where
  /-- Go `ValueSlice.MarshalASCII`: a child `ParameterSet` contributes only its values; a
  `Parameter` is followed by `;`, any other value but the last by `,`. -/
  slice (lib : GoLib) : List Value → List Char → List Char × Option GoError
  | [], b => (b, none)
  | v :: r, b =>
    andThen (match v with
      | .vParameterSet vs _ _ _ => slice lib vs b
      | w => Value.MarshalASCII lib w b) (fun b1 =>
      if v.Type = .ParameterType then slice lib r (b1 ++ [';'])
      else if r.length > 0 then slice lib r (b1 ++ [','])
      else slice lib r b1)

/-- The methods `String()` of the value structs; for `Parameter` and `ParameterSet` the
content of a fresh buffer after `MarshalASCII`, whose error is ignored. -/
def Value.String (lib : GoLib) : Value → List Char
  | .vString d _ => d
  | .vBoolean d e => if e then [] else strconv.FormatBool d
  | .vByte d e => if e then [] else strconv.FormatInt d
  | .vUbyte d e => if e then [] else strconv.FormatInt d
  | .vShort d e => if e then [] else strconv.FormatInt d
  | .vUshort d e => if e then [] else strconv.FormatInt d
  | .vInt d e => if e then [] else strconv.FormatInt d
  | .vUint d e => if e then [] else strconv.FormatInt d
  | .vLong d e => if e then [] else strconv.FormatInt d
  | .vUlong d e => if e then [] else strconv.FormatInt d
  | .vDouble d e => if e then [] else lib.FormatFloat d
  | .vHexValue d bl e => HexValue.String d bl e
  | .vTime d e => if e then [] else d.FormatTime
  | .vUtime d e => if e then [] else d.FormatUtime
  | .vParameter vs m n t => (Value.MarshalASCII lib (.vParameter vs m n t) []).1
  | .vParameterSet vs m n t => (Value.MarshalASCII lib (.vParameterSet vs m n t) []).1

/-- The range of the Go field type of an integer payload, and bytes below 256 in a
`HexValue`. -/
def Value.InRange : Value → Prop
  | .vByte d _ => -128 ≤ d ∧ d ≤ 127
  | .vUbyte d _ => 0 ≤ d ∧ d ≤ 255
  | .vShort d _ => -32768 ≤ d ∧ d ≤ 32767
  | .vUshort d _ => 0 ≤ d ∧ d ≤ 65535
  | .vInt d _ => -2147483648 ≤ d ∧ d ≤ 2147483647
  | .vUint d _ => 0 ≤ d ∧ d ≤ 4294967295
  | .vLong d _ => -9223372036854775808 ≤ d ∧ d ≤ 9223372036854775807
  | .vUlong d _ => 0 ≤ d ∧ d ≤ 18446744073709551615
  | .vHexValue d _ _ => ∀ c ∈ d, c.toNat < 256
  | _ => True

/-! ## Parameters (package `gemsV14`, file `parameters.go`) -/

/-- The struct `Parameter`. -/
structure Parameter where
  Values : List Value
  Multiplicity : gems.NullInt32
  name : List Char
  typeAttr : gems.Datatype

/-- The struct `ParameterSet`. -/
structure ParameterSet where
  Values : List Value
  Multiplicity : gems.NullInt32
  name : List Char
  typeAttr : gems.Datatype

/-- A `*Parameter` as a `gems.XMLValue`. -/
def Parameter.toValue (p : Parameter) : Value :=
  .vParameter p.Values p.Multiplicity p.name p.typeAttr

/-- A `*ParameterSet` as a `gems.XMLValue`. -/
def ParameterSet.toValue (p : ParameterSet) : Value :=
  .vParameterSet p.Values p.Multiplicity p.name p.typeAttr

/-- The implementations of the interface `gems.XMLParameter`. -/
inductive XMLParameter where
  | Parameter (p : Parameter)
  | ParameterSet (ps : ParameterSet)

/-- An `XMLParameter` as a `gems.XMLValue`. -/
def XMLParameter.toValue : XMLParameter → Value
  | .Parameter p => p.toValue
  | .ParameterSet ps => ps.toValue

/-- The method `Name()` of an `XMLParameter`. -/
def XMLParameter.Name : XMLParameter → List Char
  | .Parameter p => p.name
  | .ParameterSet ps => ps.name

/-- The field `Values` of an `XMLParameter`. -/
def XMLParameter.Values : XMLParameter → List Value
  | .Parameter p => p.Values
  | .ParameterSet ps => ps.Values

/-- The field `Multiplicity` of an `XMLParameter`. -/
def XMLParameter.Multiplicity : XMLParameter → gems.NullInt32
  | .Parameter p => p.Multiplicity
  | .ParameterSet ps => ps.Multiplicity

/-- Go `Parameter.MarshalASCII`. -/
def Parameter.MarshalASCII (lib : GoLib) (p : Parameter) (b : List Char) :
    List Char × Option GoError :=
  Value.MarshalASCII lib p.toValue b

/-- Go `ParameterSet.MarshalASCII`. -/
def ParameterSet.MarshalASCII (lib : GoLib) (ps : ParameterSet) (b : List Char) :
    List Char × Option GoError :=
  Value.MarshalASCII lib ps.toValue b

/-- The method `MarshalASCII` of an `XMLParameter`. -/
def XMLParameter.MarshalASCII (lib : GoLib) (p : XMLParameter) (b : List Char) :
    List Char × Option GoError :=
  Value.MarshalASCII lib p.toValue b

/-- Go `strings.ContainsAny(name, " \t\n\r\v\f")`. -/
def containsWhitespace (name : List Char) : Bool :=
  name.any (fun c => c = ' ' ∨ c = '\t' ∨ c = '\n' ∨ c = '\r'
    ∨ c = Char.ofNat 11 ∨ c = Char.ofNat 12)

/-- Go `Parameter.Validate`: `none` for `nil`. -/
def Parameter.Validate (lib : GoLib) (p : Parameter) : Option GoError :=
  if containsWhitespace p.name then
    some (.Errorf "Parameter name cannot contain spaces".toList)
  else if !p.Multiplicity.Valid ∧ p.Values.length > 1 then
    some (.Errorf "scalar Parameter contains multiple values".toList)
  else if p.Multiplicity.Valid ∧ (p.Values.length : Int) > p.Multiplicity.Int32
      ∧ p.Multiplicity.Int32 ≠ -1 then
    some (.Errorf "array Parameter has invalid multiplicity value".toList)
  else if p.Values.any (fun v => !ascii.Valid (v.String lib)) then
    some (.Errorf "Parameter contains non-ASCII characters".toList)
  else if p.Values.length = 0 then none
  else if ValueType p.Values = .UndefinedType then
    some (.Errorf "Parameter contains inconsistent or undefined value types".toList)
  else if ValueType p.Values = .ParameterType ∨ ValueType p.Values = .ParameterSetType then
    some (.Errorf "Parameter contains Parameter or ParameterSet values".toList)
  else none

/-- Go `ParameterSet.Validate`: `none` for `nil`. -/
def ParameterSet.Validate (lib : GoLib) (ps : ParameterSet) : Option GoError :=
  if containsWhitespace ps.name then
    some (.Errorf "ParameterSet name cannot contain spaces".toList)
  else if !ps.Multiplicity.Valid ∧ ps.Values.length > 1 then
    some (.Errorf "scalar ParameterSet contains multiple values".toList)
  else if ps.Multiplicity.Valid ∧ (ps.Values.length : Int) > ps.Multiplicity.Int32
      ∧ ps.Multiplicity.Int32 ≠ -1 then
    some (.Errorf "array ParameterSet has invalid multiplicity value".toList)
  else if ps.Values.any (fun v => !ascii.Valid (v.String lib)) then
    some (.Errorf "ParameterSet contains non-ASCII characters".toList)
  else if ps.Values.length = 0 then none
  else if ValueType ps.Values = .UndefinedType then
    some (.Errorf "ParameterSet contains inconsistent or undefined value types".toList)
  else none

/-- Go `ascii.Marshal(v)` for a value: the content of a fresh buffer, or the error. -/
def marshalValue (lib : GoLib) (v : Value) : Except GoError (List Char) :=
  match Value.MarshalASCII lib v [] with
  | (_, some err) => .error err
  | (b, none) => .ok b

/-! ## Decoding of values and parameters -/

/-- Go `String.UnmarshalASCII` on the fresh value of `newValue`, and likewise for the other
scalar value structs: an empty field gives the empty marker. -/
def unmarshalScalar (lib : GoLib) (typ : gems.Datatype) (data : List Char) :
    Except GoError Value :=
  match typ with
  | .StringType =>
    if data.length = 0 then .ok (.vString [] true) else .ok (.vString (unescape data) false)
  | .BooleanType =>
    if data.length = 0 then .ok (.vBoolean false true)
    else (strconv.ParseBool data).map (fun d => .vBoolean d false)
  | .ByteType =>
    if data.length = 0 then .ok (.vByte 0 true)
    else (strconv.ParseInt data 8).map (fun d => .vByte d false)
  | .UbyteType =>
    if data.length = 0 then .ok (.vUbyte 0 true)
    else (strconv.ParseUint data 8).map (fun d => .vUbyte d false)
  | .ShortType =>
    if data.length = 0 then .ok (.vShort 0 true)
    else (strconv.ParseInt data 16).map (fun d => .vShort d false)
  | .UshortType =>
    if data.length = 0 then .ok (.vUshort 0 true)
    else (strconv.ParseUint data 16).map (fun d => .vUshort d false)
  | .IntType =>
    if data.length = 0 then .ok (.vInt 0 true)
    else (strconv.ParseInt data 32).map (fun d => .vInt d false)
  | .UintType =>
    if data.length = 0 then .ok (.vUint 0 true)
    else (strconv.ParseUint data 32).map (fun d => .vUint d false)
  | .LongType =>
    if data.length = 0 then .ok (.vLong 0 true)
    else (strconv.ParseInt data 64).map (fun d => .vLong d false)
  | .UlongType =>
    if data.length = 0 then .ok (.vUlong 0 true)
    else (strconv.ParseUint data 64).map (fun d => .vUlong d false)
  | .DoubleType =>
    if data.length = 0 then .ok (.vDouble ⟨0⟩ true)
    else (lib.ParseFloat data).map (fun d => .vDouble d false)
  | .HexValueType =>
    if data.length = 0 ∨ data = "0/0".toList then .ok (.vHexValue [] 0 true)
    else
      let (valueStr, bitLengthStr, found) := cut "/".toList data
      if !found then
        .error (.UnmarshalError (some data) "HexValue missing '/' separator".toList)
      else
        match strconv.Atoi bitLengthStr with
        | .error e => .error e
        | .ok bitLength =>
          (hex.DecodeString (trimPrefix (toUpper valueStr) "0X".toList)).map
            (fun d => .vHexValue d bitLength false)
  | .TimeType =>
    if data.length = 0 then .ok (.vTime gems.Time.zero true)
    else (gems.TimeFromString data).map (fun d => .vTime d false)
  | .UtimeType =>
    if data.length = 0 then .ok (.vUtime gems.Time.zero true)
    else (gems.TimeFromUtime lib data).map (fun d => .vUtime d false)
  | _ => .error (.Errorf "unexpected type 'undefined'".toList)

/-- The type part of a parameter header (the text after the last `:`): the datatype name
and the multiplicity in brackets, as `Parameter.UnmarshalASCII` and
`ParameterSet.UnmarshalASCII` read it. -/
def parseTypeString (typ : List Char) :
    Except GoError (List Char × gems.NullInt32) :=
  match indexOf "[".toList typ with
  | none => .ok (typ, ⟨0, false⟩)
  | some idx =>
    if typ.getLast? ≠ some ']' ∨ (idx : Int) > (typ.length : Int) - 3 then
      .error (.UnmarshalError (some typ) "invalid type string".toList)
    else
      let multiplicityBytes := (typ.take (typ.length - 1)).drop (idx + 1)
      match strconv.ParseInt multiplicityBytes 32 with
      | .error _ =>
        .error (.UnmarshalError (some multiplicityBytes) "invalid multiplicity value".toList)
      | .ok multiplicity => .ok (typ.take idx, gems.NewNullInt32 multiplicity)

/-- Go `Parameter.UnmarshalASCII` (for `typ = ParameterType`), `ParameterSet.UnmarshalASCII`
(for `typ = ParameterSetType`) and the `UnmarshalASCII` of the scalar value structs, each on
the fresh value of `newValue(typ)`.  The two parameter decoders call each other on fields
of the text after the first `=`, which is shorter than the input; `fuel` bounds the depth
of these calls and `length data + 1` is always enough. -/
def unmarshalFuel (lib : GoLib) : Nat → gems.Datatype → List Char → Except GoError Value
  | 0, _, _ => .error (.LibError "out of fuel".toList)
  | fuel + 1, .ParameterType, data =>
    let (header, values, found) := cut "=".toList data
    if !found then .ok (.vParameter [] ⟨0, false⟩ (unescape header) .UndefinedType)
    else
      match lastIndexByte ':' header with
      | none => .error (.UnmarshalError (some data) "parameter missing ':' separator".toList)
      | some idx =>
        let name := unescape (header.take idx)
        match parseTypeString (header.drop (idx + 1)) with
        | .error e => .error e
        | .ok (typ, multiplicity) =>
          let valueType := gems.DatatypeFromASCII typ
          if valueType = .UndefinedType then
            .error (.UnmarshalError (some typ) "invalid value type".toList)
          else
            ((splitOn ",".toList values).mapM (unmarshalFuel lib fuel valueType)).map
              (fun vs => .vParameter vs multiplicity name .UndefinedType)
  | fuel + 1, .ParameterSetType, data =>
    let (header, values, found) := cut "=".toList data
    if !found then .ok (.vParameterSet [] ⟨0, false⟩ (unescape header) .UndefinedType)
    else
      match lastIndexByte ':' header with
      | none => .error (.UnmarshalError (some data) "parameter missing ':' separator".toList)
      | some idx =>
        let name := unescape (header.take idx)
        match parseTypeString (header.drop (idx + 1)) with
        | .error e => .error e
        | .ok (typ, multiplicity) =>
          if multiplicity.Valid ∧ gems.DatatypeFromASCII typ ≠ .ParameterSetType then
            .error (.UnmarshalError (some typ) "unexpected type for ParameterSet".toList)
          else if values.length = 0 then .ok (.vParameterSet [] multiplicity name .UndefinedType)
          else
            let values := trimSuffix values ";".toList
            if multiplicity.Valid then
              ((splitOn ";,".toList values).mapM (fun setData =>
                ((splitOn ";".toList setData).mapM (unmarshalFuel lib fuel .ParameterType)).map
                  (fun vs => Value.vParameterSet vs ⟨0, false⟩ [] .UndefinedType))).map
                (fun sets => .vParameterSet sets multiplicity name .UndefinedType)
            else
              ((splitOn ";".toList values).mapM (unmarshalFuel lib fuel .ParameterType)).map
                (fun vs => .vParameterSet vs multiplicity name .UndefinedType)
  | _ + 1, typ, data => unmarshalScalar lib typ data

/-- Go `getASCIIParameterType`. -/
def getASCIIParameterType (data : List Char) : gems.Datatype :=
  let (header, _, found) := cut "=".toList data
  if !found then .UndefinedType
  else
    match lastIndexByte ':' header with
    | none => .UndefinedType
    | some idx =>
      let typ := header.drop (idx + 1)
      match indexAny "[(".toList typ with
      | none => gems.DatatypeFromASCII typ
      | some i => gems.DatatypeFromASCII (typ.take i)

/-- Go `UnmarshalParameterASCII`: the decoded `*ParameterSet` or `*Parameter`. -/
def UnmarshalParameterASCII (lib : GoLib) (data : List Char) : Except GoError Value :=
  if getASCIIParameterType data = .ParameterSetType then
    unmarshalFuel lib (data.length + 1) .ParameterSetType data
  else unmarshalFuel lib (data.length + 1) .ParameterType data

/-! ## The parameter builder (package `gemsV14`, file `parameter_builder.go`) -/

/-- The struct `ParameterBuilder`. -/
structure ParameterBuilder where
  name : List Char
  multiplicity : gems.NullInt32
  values : List Value

/-- Go `NewParameterBuilder`. -/
def NewParameterBuilder : ParameterBuilder := ⟨[], ⟨0, false⟩, []⟩

/-- Go `newByte`: values above the maximum are clamped, then converted to `int8`. -/
def newByte (value : Int) : Value :=
  .vByte (gems.wrapInt 8 (if value > 127 then 127 else value)) false

/-- Go `newUbyte`: clamped above, then converted to `uint8`. -/
def newUbyte (value : Int) : Value :=
  .vUbyte ((if value > 255 then 255 else value) % 2 ^ 8) false

/-- Go `newShort`. -/
def newShort (value : Int) : Value :=
  .vShort (gems.wrapInt 16 (if value > 32767 then 32767 else value)) false

/-- Go `newUshort`. -/
def newUshort (value : Int) : Value :=
  .vUshort ((if value > 65535 then 65535 else value) % 2 ^ 16) false

/-- Go `newInt`. -/
def newInt (value : Int) : Value :=
  .vInt (gems.wrapInt 32 (if value > 2147483647 then 2147483647 else value)) false

/-- Go `newUint`. -/
def newUint (value : Int) : Value :=
  .vUint ((if value > 4294967295 then 4294967295 else value) % 2 ^ 32) false

/-- Go `newLong`. -/
def newLong (value : Int) : Value := .vLong value false

/-- Go `newUlong`: the conversion `uint64(value)` of a Go `int`. -/
def newUlong (value : Int) : Value := .vUlong (value % 2 ^ 64) false

/-- Go `newHexValueFromASCII`. -/
def newHexValueFromASCII (lib : GoLib) (value : List Char) : Value :=
  if value.length = 0 then .vHexValue [] 0 true
  else
    match unmarshalScalar lib .HexValueType value with
    | .error _ => .vHexValue [] 0 true
    | .ok v => v

/-- Go `newTimeValueFromString`. -/
def newTimeValueFromString (value : List Char) : Value :=
  match gems.TimeFromString value with
  | .error _ => .vTime gems.Time.zero true
  | .ok t => .vTime t false

/-- Go `newUtimeFromString`. -/
def newUtimeFromString (lib : GoLib) (value : List Char) : Value :=
  match gems.TimeFromUtime lib value with
  | .error _ => .vUtime gems.Time.zero true
  | .ok t => .vUtime t false

/-- The common body of the value setters of `ParameterBuilder`: without arguments one
empty marker `e` is appended to the values, otherwise the values are replaced. -/
def ParameterBuilder.setValues (pb : ParameterBuilder) (e : Value) (vs : List Value) :
    ParameterBuilder :=
  if vs.length = 0 then { pb with values := pb.values ++ [e] } else { pb with values := vs }

/-- One call of a setter of `ParameterBuilder`, with its arguments (a Go `int` argument is
an integer of 64 bits). -/
inductive Setter where
  | Name (name : List Char)
  | Multiplicity (i : Int)
  | Parameters (values : List XMLParameter)
  | String (values : List (List Char))
  | Boolean (values : List Bool)
  | Byte (values : List Int)
  | Ubyte (values : List Int)
  | Short (values : List Int)
  | Ushort (values : List Int)
  | Int (values : List Int)
  | Uint (values : List Int)
  | Long (values : List Int)
  | Ulong (values : List Int)
  | Double (values : List Float64)
  | HexValue (values : List (List Char))
  | Time (values : List (List Char))
  | Utime (values : List (List Char))

/-- The effect of one setter call on the builder. -/
def ParameterBuilder.apply (lib : GoLib) (pb : ParameterBuilder) : Setter → ParameterBuilder
  | .Name name => { pb with name := name }
  | .Multiplicity i => { pb with multiplicity := gems.NewNullInt32 i }
  | .Parameters values =>
    pb.setValues (.vParameter [] ⟨0, false⟩ [] .UndefinedType) (values.map XMLParameter.toValue)
  | .String values => pb.setValues (.vString [] true) (values.map (fun d => .vString d false))
  | .Boolean values => pb.setValues (.vBoolean false true) (values.map (fun d => .vBoolean d false))
  | .Byte values => pb.setValues (.vByte 0 true) (values.map newByte)
  | .Ubyte values => pb.setValues (.vUbyte 0 true) (values.map newUbyte)
  | .Short values => pb.setValues (.vShort 0 true) (values.map newShort)
  | .Ushort values => pb.setValues (.vUshort 0 true) (values.map newUshort)
  | .Int values => pb.setValues (.vInt 0 true) (values.map newInt)
  | .Uint values => pb.setValues (.vUint 0 true) (values.map newUint)
  | .Long values => pb.setValues (.vLong 0 true) (values.map newLong)
  | .Ulong values => pb.setValues (.vUlong 0 true) (values.map newUlong)
  | .Double values => pb.setValues (.vDouble ⟨0⟩ true) (values.map (fun d => .vDouble d false))
  | .HexValue values => pb.setValues (.vHexValue [] 0 true) (values.map (newHexValueFromASCII lib))
  | .Time values => pb.setValues (.vTime gems.Time.zero true) (values.map newTimeValueFromString)
  | .Utime values => pb.setValues (.vUtime gems.Time.zero true) (values.map (newUtimeFromString lib))

/-- The first loop of Go `ParameterBuilder.Build`: the common type of the values, or
`none` when two values differ in type (`build failed: inconsistent value types`). -/
def buildTypeLoop : List Value → gems.Datatype → Option gems.Datatype
  | [], typ => some typ
  | v :: r, typ =>
    let typ1 := if typ = .UndefinedType then v.Type else typ
    if typ1 ≠ v.Type then none else buildTypeLoop r typ1

/-- Go `ParameterBuilder.Build`: the parameter returned and the error. -/
def ParameterBuilder.Build (lib : GoLib) (pb : ParameterBuilder) :
    XMLParameter × Option GoError :=
  match buildTypeLoop pb.values .UndefinedType with
  | none =>
    (.ParameterSet ⟨[], ⟨0, false⟩, [], .UndefinedType⟩,
      some (.Errorf "build failed: inconsistent value types".toList))
  | some .ParameterSetType =>
    let m := if pb.multiplicity.Valid then pb.multiplicity
      else if pb.values.length > 1 then gems.NewNullInt32 pb.values.length else ⟨0, false⟩
    let p : ParameterSet := ⟨pb.values, m, pb.name, .UndefinedType⟩
    (.ParameterSet p, p.Validate lib)
  | some .ParameterType =>
    let m := if pb.multiplicity.Valid then pb.multiplicity else ⟨0, false⟩
    let p : ParameterSet := ⟨pb.values, m, pb.name, .UndefinedType⟩
    (.ParameterSet p, p.Validate lib)
  | some _ =>
    let m := if pb.multiplicity.Valid then pb.multiplicity
      else if pb.values.length > 1 then gems.NewNullInt32 pb.values.length else ⟨0, false⟩
    let p : Parameter := ⟨pb.values, m, pb.name, .UndefinedType⟩
    (.Parameter p, p.Validate lib)

/-- A chain of setter calls on a new builder, followed by `Build`. -/
def buildWith (lib : GoLib) (calls : List Setter) : XMLParameter × Option GoError :=
  (calls.foldl (ParameterBuilder.apply lib) NewParameterBuilder).Build lib

/-! ## Messages (package `gemsV14`, files `messages.go` and `ascii.go`) -/

/-- The constant `asciiVersion`. -/
def asciiVersion : List Char := "14".toList

/-- The struct `MessageHeader`. -/
structure MessageHeader where
  target : List Char
  timestamp : gems.Time
  token : List Char
  transactionID : gems.NullInt64
deriving DecidableEq, Repr

/-- The nineteen message structs, each with its header and its own fields.  A connection
type, a disconnect reason and a result code are Go strings; `*Arguments` is `none` for
`nil`. -/
inductive Message where
  | UnknownResponse (h : MessageHeader) (result : gems.Result)
  | ConnectMessage (h : MessageHeader) (ConnectionType : List Char)
  | ConnectResponse (h : MessageHeader) (result : gems.Result)
  | DisconnectMessage (h : MessageHeader) (DisconnectReason : List Char)
  | PingMessage (h : MessageHeader)
  | PingResponse (h : MessageHeader) (result : gems.Result)
  | GetConfigMessage (h : MessageHeader) (DesiredParameters : List (List Char))
  | GetConfigResponse (h : MessageHeader) (result : gems.Result)
      (Parameters : List XMLParameter)
  | AsyncStatusMessage (h : MessageHeader) (result : gems.Result)
      (Parameters : List XMLParameter)
  | SetConfigMessage (h : MessageHeader) (Parameters : List XMLParameter)
  | SetConfigResponse (h : MessageHeader) (result : gems.Result) (ParametersSet : Int)
  | GetConfigListMessage (h : MessageHeader)
  | GetConfigListResponse (h : MessageHeader) (result : gems.Result)
      (Configurations : List (List Char))
  | LoadConfigMessage (h : MessageHeader) (ConfigName : List Char)
  | LoadConfigResponse (h : MessageHeader) (result : gems.Result) (ParametersLoaded : Int)
  | SaveConfigMessage (h : MessageHeader) (ConfigName : List Char)
  | SaveConfigResponse (h : MessageHeader) (result : gems.Result) (ParametersSaved : Int)
  | DirectiveMessage (h : MessageHeader) (DirectiveName : List Char)
      (Arguments : Option (List XMLParameter))
  | DirectiveResponse (h : MessageHeader) (result : gems.Result) (DirectiveName : List Char)
      (ReturnValues : Option (List XMLParameter))

/-- The method `Type()` of every message struct. -/
def Message.Type : Message → gems.MessageType
  | .UnknownResponse _ _ => .UnknownResponseType
  | .ConnectMessage _ _ => .ConnectMessageType
  | .ConnectResponse _ _ => .ConnectResponseType
  | .DisconnectMessage _ _ => .DisconnectMessageType
  | .PingMessage _ => .PingMessageType
  | .PingResponse _ _ => .PingResponseType
  | .GetConfigMessage _ _ => .GetConfigMessageType
  | .GetConfigResponse _ _ _ => .GetConfigResponseType
  | .AsyncStatusMessage _ _ _ => .AsyncStatusMessageType
  | .SetConfigMessage _ _ => .SetConfigMessageType
  | .SetConfigResponse _ _ _ => .SetConfigResponseType
  | .GetConfigListMessage _ => .GetConfigListMessageType
  | .GetConfigListResponse _ _ _ => .GetConfigListResponseType
  | .LoadConfigMessage _ _ => .LoadConfigMessageType
  | .LoadConfigResponse _ _ _ => .LoadConfigResponseType
  | .SaveConfigMessage _ _ => .SaveConfigMessageType
  | .SaveConfigResponse _ _ _ => .SaveConfigResponseType
  | .DirectiveMessage _ _ _ => .DirectiveMessageType
  | .DirectiveResponse _ _ _ _ => .DirectiveResponseType

/-- The embedded `MessageHeader` of a message. -/
def Message.header : Message → MessageHeader
  | .UnknownResponse h _ => h
  | .ConnectMessage h _ => h
  | .ConnectResponse h _ => h
  | .DisconnectMessage h _ => h
  | .PingMessage h => h
  | .PingResponse h _ => h
  | .GetConfigMessage h _ => h
  | .GetConfigResponse h _ _ => h
  | .AsyncStatusMessage h _ _ => h
  | .SetConfigMessage h _ => h
  | .SetConfigResponse h _ _ => h
  | .GetConfigListMessage h => h
  | .GetConfigListResponse h _ _ => h
  | .LoadConfigMessage h _ => h
  | .LoadConfigResponse h _ _ => h
  | .SaveConfigMessage h _ => h
  | .SaveConfigResponse h _ _ => h
  | .DirectiveMessage h _ _ => h
  | .DirectiveResponse h _ _ _ => h

/-- Go `marshalASCIIMessage`: the header fields, the content and `END` are collected, and
the frame is written to `b` with the length `20 + len(msg)` in the verb `%010d`.  It
returns no error. -/
def marshalASCIIMessage (b : List Char) (h : MessageHeader) (content : List Char) :
    List Char × Option GoError :=
  let msg := h.transactionID.String ++ '|' :: h.token ++ '|' :: h.timestamp.String
    ++ '|' :: h.target ++ '|' :: content ++ "END".toList
  let messageLength := 20 + msg.length
  (b ++ "|GEMS|".toList ++ asciiVersion ++ '|' :: strconv.FormatPad10 messageLength
    ++ '|' :: msg, none)

/-- The loop `for _, param := range params { param.MarshalASCII(&content);
content.WriteRune('|') }` of the message encoders; the error of a parameter is dropped
and what it wrote before failing stays in the buffer. -/
def writeParameters (lib : GoLib) : List XMLParameter → List Char → List Char
  | [], content => content
  | param :: r, content =>
    writeParameters lib r ((param.MarshalASCII lib content).1 ++ ['|'])

/-- The loop over names in `GetConfigMessage.MarshalASCII` (`escaped = false`, the name is
passed to `SafeWrite` as it is) and in `GetConfigListResponse.MarshalASCII`
(`escaped = true`); the error of `SafeWrite` is dropped. -/
def writeNames (escaped : Bool) : List (List Char) → List Char → List Char
  | [], content => content
  | n :: r, content =>
    writeNames escaped r
      ((ascii.SafeWrite content (if escaped then escape n else n)).1 ++ ['|'])

/-- Go `Arguments.MarshalASCII`: it returns no error. -/
def Arguments.MarshalASCII (lib : GoLib) (params : List XMLParameter) (b : List Char) :
    List Char :=
  writeParameters lib params (b ++ strconv.FormatInt params.length ++ ['|'])

/-- The text `"%s|%s|%s|"` of type tag, result code and description that starts the
content of a response. -/
def responseStart (typ : gems.MessageType) (r : gems.Result) : List Char :=
  typ.ASCII ++ '|' :: r.Code ++ '|' :: r.Description ++ ['|']

/-- The methods `MarshalASCII` of the nineteen message structs. -/
def Message.MarshalASCII (lib : GoLib) (m : Message) (b : List Char) :
    List Char × Option GoError :=
  match m with
  | .UnknownResponse h r => marshalASCIIMessage b h (responseStart m.Type r)
  | .ConnectMessage h c => marshalASCIIMessage b h (m.Type.ASCII ++ '|' :: c ++ ['|'])
  | .ConnectResponse h r => marshalASCIIMessage b h (responseStart m.Type r)
  | .DisconnectMessage h d => marshalASCIIMessage b h (m.Type.ASCII ++ '|' :: d ++ ['|'])
  | .PingMessage h => marshalASCIIMessage b h (m.Type.ASCII ++ ['|'])
  | .PingResponse h r => marshalASCIIMessage b h (responseStart m.Type r)
  | .GetConfigMessage h ps =>
    if ps.length = 0 then marshalASCIIMessage b h (m.Type.ASCII ++ "||".toList)
    else marshalASCIIMessage b h
      (writeNames false ps (m.Type.ASCII ++ '|' :: strconv.FormatInt ps.length ++ ['|']))
  | .GetConfigResponse h r ps =>
    marshalASCIIMessage b h
      (writeParameters lib ps (responseStart m.Type r ++ strconv.FormatInt ps.length ++ ['|']))
  | .AsyncStatusMessage h r ps =>
    marshalASCIIMessage b h
      (writeParameters lib ps (responseStart m.Type r ++ strconv.FormatInt ps.length ++ ['|']))
  | .SetConfigMessage h ps =>
    if ps.length = 0 then (b, some (.Errorf "cannot marshal empty SetConfigMessage".toList))
    else marshalASCIIMessage b h
      (writeParameters lib ps (m.Type.ASCII ++ '|' :: strconv.FormatInt ps.length ++ ['|']))
  | .SetConfigResponse h r n =>
    marshalASCIIMessage b h (responseStart m.Type r ++ strconv.FormatInt n ++ ['|'])
  | .GetConfigListMessage h => marshalASCIIMessage b h (m.Type.ASCII ++ ['|'])
  | .GetConfigListResponse h r cs =>
    marshalASCIIMessage b h
      (writeNames true cs (responseStart m.Type r ++ strconv.FormatInt cs.length ++ ['|']))
  | .LoadConfigMessage h c => marshalASCIIMessage b h (m.Type.ASCII ++ '|' :: c ++ ['|'])
  | .LoadConfigResponse h r n =>
    marshalASCIIMessage b h (responseStart m.Type r ++ strconv.FormatInt n ++ ['|'])
  | .SaveConfigMessage h c => marshalASCIIMessage b h (m.Type.ASCII ++ '|' :: c ++ ['|'])
  | .SaveConfigResponse h r n =>
    marshalASCIIMessage b h (responseStart m.Type r ++ strconv.FormatInt n ++ ['|'])
  | .DirectiveMessage h d args =>
    let content := (ascii.SafeWrite (m.Type.ASCII ++ ['|']) d).1 ++ ['|']
    match args with
    | none => marshalASCIIMessage b h (content ++ "0|".toList)
    | some ps => marshalASCIIMessage b h (Arguments.MarshalASCII lib ps content)
  | .DirectiveResponse h r d args =>
    let content := (ascii.SafeWrite (responseStart m.Type r) d).1 ++ ['|']
    match args with
    | none => marshalASCIIMessage b h (content ++ "0|".toList)
    | some ps => marshalASCIIMessage b h (Arguments.MarshalASCII lib ps content)

/-- Go `ascii.Marshal(m)` for a message: the content of a fresh buffer, or the error. -/
def marshalMessage (lib : GoLib) (m : Message) : Except GoError (List Char) :=
  match m.MarshalASCII lib [] with
  | (_, some err) => .error err
  | (b, none) => .ok b

/-! ## Decoding of messages -/

/-- Go `MessageHeader.UnmarshalASCII` on the zero header: the decoded header, or the first
error. -/
def MessageHeader.UnmarshalASCII (data : List Char) : Except GoError MessageHeader :=
  if data.length < 9 then
    .error (.UnmarshalError (some data) "incomplete GEMS-ASCII message".toList)
  else if data.take 5 ≠ "|GEMS".toList then
    .error (.UnmarshalError (some (data.take 5)) "invalid start of message field".toList)
  else if (data.drop 6).take 2 ≠ asciiVersion then
    .error (.Errorf ("incorrect gems version '".toList ++ (data.drop 6).take 2 ++ "'".toList))
  else
    let fields := splitOn "|".toList (data.drop 9)
    if fields.length < 6 then
      .error (.UnmarshalError (some data) "incomplete GEMS-ASCII message".toList)
    else if fields.getLast? ≠ some "END".toList then
      .error (.UnmarshalError (some data) "missing message trailer".toList)
    else
      match strconv.ParseInt (fields.getD 0 []) 64 with
      | .error _ => .error (.UnmarshalError (some data) "invalid message length".toList)
      | .ok msgLen =>
        if msgLen ≠ (data.length : Int) then
          .error (.UnmarshalError (some data)
            "message length field does not match data length".toList)
        else
          match gems.NullInt64.UnmarshalASCII (fields.getD 1 []) with
          | (_, some err) => .error err
          | (transactionID, none) =>
            match gems.Time.UnmarshalASCII (fields.getD 3 []) with
            | (_, some err) => .error err
            | (timestamp, none) =>
              .ok ⟨fields.getD 4 [], timestamp, fields.getD 2 [], transactionID⟩

/-- Go `unmarshalASCIIHeader`: the decoded header and the fields after the type tag. -/
def unmarshalASCIIHeader (data : List Char) (typ : gems.MessageType) (minFields : Nat) :
    Except GoError (MessageHeader × List (List Char)) :=
  match MessageHeader.UnmarshalASCII data with
  | .error err => .error err
  | .ok h =>
    let fields := splitOn "|".toList (trimSuffix (data.drop 9) "|END".toList)
    if fields.length < minFields + 6 then
      .error (.UnmarshalError none ("incomplete ".toList ++ typ.String ++ " message".toList))
    else if fields.getD 5 [] ≠ typ.ASCII then
      .error (.UnmarshalError (some (fields.getD 5 []))
        ("invalid type for ".toList ++ typ.String ++ " message".toList))
    else .ok (h, fields.drop 6)

/-- The conversion of a decoded value to the `XMLParameter` it is. -/
def Value.toXMLParameter : Value → Except GoError XMLParameter
  | .vParameter vs m n t => .ok (.Parameter ⟨vs, m, n, t⟩)
  | .vParameterSet vs m n t => .ok (.ParameterSet ⟨vs, m, n, t⟩)
  | _ => .error (.LibError "not a parameter".toList)

/-- Go `UnmarshalParameterASCII` with its result as an `XMLParameter`. -/
def unmarshalXMLParameter (lib : GoLib) (data : List Char) : Except GoError XMLParameter :=
  (UnmarshalParameterASCII lib data).bind Value.toXMLParameter

/-- Go `unmarshalParameterSliceASCII`. -/
def unmarshalParameterSliceASCII (lib : GoLib) (fields : List (List Char)) :
    Except GoError (List XMLParameter) :=
  if fields.length < 1 then
    .error (.UnmarshalError (some (joinWith "|".toList fields)) "invalid message content".toList)
  else
    match strconv.Atoi (fields.getD 0 []) with
    | .error _ =>
      .error (.UnmarshalError (some (joinWith "|".toList fields))
        "invalid number of parameters".toList)
    | .ok paramCount =>
      if paramCount ≠ (fields.length : Int) - 1 then
        .error (.UnmarshalError (some (joinWith "|".toList fields))
          "invalid number of parameters".toList)
      else (fields.drop 1).mapM (unmarshalXMLParameter lib)

/-- Go `newArguments`. -/
def newArguments (params : List XMLParameter) : Option (List XMLParameter) :=
  if params.length = 0 then none else some params

/-- The count and the names at the end of a `GetConfigMessage` (`what = "parameters"`,
from field 0 of the content) and of a `GetConfigListResponse` (`what = "configurations"`,
from field 2). -/
def unmarshalNames (what : List Char) (fields : List (List Char)) :
    Except GoError (List (List Char)) :=
  match strconv.Atoi (fields.getD 0 []) with
  | .error _ =>
    .error (.UnmarshalError (some (fields.getD 0 [])) ("invalid number of ".toList ++ what))
  | .ok count =>
    if count ≠ (fields.length : Int) - 1 then
      .error (.UnmarshalError (some (fields.getD 0 [])) ("invalid number of ".toList ++ what))
    else .ok ((fields.drop 1).map unescape)

/-- The number of fields after the type tag that the decoder of a message type asks
`unmarshalASCIIHeader` for. -/
def minFields : gems.MessageType → Nat
  | .PingMessageType | .GetConfigListMessageType => 0
  | .ConnectMessageType | .DisconnectMessageType | .GetConfigMessageType
  | .SetConfigMessageType | .LoadConfigMessageType | .SaveConfigMessageType => 1
  | .UnknownResponseType | .ConnectResponseType | .PingResponseType
  | .DirectiveMessageType => 2
  | .GetConfigResponseType | .AsyncStatusMessageType | .SetConfigResponseType
  | .LoadConfigResponseType | .SaveConfigResponseType | .GetConfigListResponseType => 3
  | .DirectiveResponseType => 4
  | _ => 0

/-- The part of a message decoder after `unmarshalASCIIHeader`, for the message struct that
`newMessage(typ)` makes: `c` holds the fields after the type tag. -/
def unmarshalBody (lib : GoLib) (typ : gems.MessageType) (h : MessageHeader)
    (c : List (List Char)) : Except GoError Message :=
  match typ with
  | .UnknownResponseType => .ok (.UnknownResponse h ⟨c.getD 0 [], c.getD 1 []⟩)
  | .ConnectMessageType => .ok (.ConnectMessage h (c.getD 0 []))
  | .ConnectResponseType => .ok (.ConnectResponse h ⟨c.getD 0 [], c.getD 1 []⟩)
  | .DisconnectMessageType => .ok (.DisconnectMessage h (c.getD 0 []))
  | .PingMessageType => .ok (.PingMessage h)
  | .PingResponseType => .ok (.PingResponse h ⟨c.getD 0 [], c.getD 1 []⟩)
  | .GetConfigMessageType =>
    if c.getD 0 [] = [] then .ok (.GetConfigMessage h [])
    else (unmarshalNames "parameters".toList c).map (fun ps => .GetConfigMessage h ps)
  | .GetConfigResponseType =>
    (unmarshalParameterSliceASCII lib (c.drop 2)).map
      (fun ps => .GetConfigResponse h ⟨c.getD 0 [], c.getD 1 []⟩ ps)
  | .AsyncStatusMessageType =>
    (unmarshalParameterSliceASCII lib (c.drop 2)).map
      (fun ps => .AsyncStatusMessage h ⟨c.getD 0 [], c.getD 1 []⟩ ps)
  | .SetConfigMessageType =>
    (unmarshalParameterSliceASCII lib c).map (fun ps => .SetConfigMessage h ps)
  | .SetConfigResponseType =>
    (strconv.Atoi (c.getD 2 [])).map
      (fun n => .SetConfigResponse h ⟨c.getD 0 [], c.getD 1 []⟩ n)
  | .GetConfigListMessageType => .ok (.GetConfigListMessage h)
  | .GetConfigListResponseType =>
    (unmarshalNames "configurations".toList (c.drop 2)).map
      (fun cs => .GetConfigListResponse h ⟨c.getD 0 [], c.getD 1 []⟩ cs)
  | .LoadConfigMessageType => .ok (.LoadConfigMessage h (c.getD 0 []))
  | .LoadConfigResponseType =>
    (strconv.Atoi (c.getD 2 [])).map
      (fun n => .LoadConfigResponse h ⟨c.getD 0 [], c.getD 1 []⟩ n)
  | .SaveConfigMessageType => .ok (.SaveConfigMessage h (c.getD 0 []))
  | .SaveConfigResponseType =>
    (strconv.Atoi (c.getD 2 [])).map
      (fun n => .SaveConfigResponse h ⟨c.getD 0 [], c.getD 1 []⟩ n)
  | .DirectiveMessageType =>
    (unmarshalParameterSliceASCII lib (c.drop 1)).map
      (fun ps => .DirectiveMessage h (unescape (c.getD 0 [])) (newArguments ps))
  | .DirectiveResponseType =>
    (unmarshalParameterSliceASCII lib (c.drop 3)).map
      (fun ps => .DirectiveResponse h ⟨c.getD 0 [], c.getD 1 []⟩ (unescape (c.getD 2 []))
        (newArguments ps))
  | _ => .error (.Errorf ("unexpected type ".toList ++ typ.String))

/-- Go `GemsV14.ReceiveASCIIMessage(data, typ)`, that is `receiveMessage` with
`ascii.Unmarshal`: `newMessage(typ)` followed by the `UnmarshalASCII` of that message
struct. -/
def receiveMessage (lib : GoLib) (data : List Char) (typ : gems.MessageType) :
    Except GoError Message :=
  if typ = .UndefinedMessageType ∨ typ = .MessageSequenceType then
    .error (.Errorf ("unexpected type ".toList ++ typ.String))
  else
    match unmarshalASCIIHeader data typ (minFields typ) with
    | .error err => .error err
    | .ok (h, c) => unmarshalBody lib typ h c

/-! ## The message builder (package `gemsV14`, file `message_builder.go`) -/

/-- The struct `MessageBuilder`. -/
structure MessageBuilder where
  typ : gems.MessageType
  header : MessageHeader
  result : gems.Result
  connType : List Char
  reason : List Char
  configName : List Char
  configList : List (List Char)
  paramCount : Int
  directiveName : List Char
  params : List XMLParameter
  desiredParams : List (List Char)

/-- Go `NewMessageBuilder`: all fields have their zero value. -/
def NewMessageBuilder : MessageBuilder :=
  ⟨.UndefinedMessageType, ⟨[], gems.Time.zero, [], ⟨0, false⟩⟩, ⟨[], []⟩, [], [], [], [], 0, [],
    [], []⟩

/-- Go `MessageBuilder.Timestamp`: on a parse error the zero time is stored. -/
def MessageBuilder.Timestamp (mb : MessageBuilder) (ts : List Char) : MessageBuilder :=
  match gems.TimeFromString ts with
  | .error _ => { mb with header := { mb.header with timestamp := gems.Time.zero } }
  | .ok t => { mb with header := { mb.header with timestamp := t } }

/-- Go `MessageBuilder.ASCIIParameters`: the texts that decode are appended, the others
are skipped. -/
def MessageBuilder.ASCIIParameters (lib : GoLib) (mb : MessageBuilder)
    (params : List (List Char)) : MessageBuilder :=
  { mb with params := mb.params ++ params.filterMap (fun s =>
      match unmarshalXMLParameter lib s with
      | .error _ => none
      | .ok param => some param) }

/-- Go `MessageBuilder.Build`; `now` is the result of `time.Now()`, which replaces a zero
timestamp. -/
def MessageBuilder.Build (now : gems.Time) (mb : MessageBuilder) :
    Except GoError Message :=
  let header : MessageHeader :=
    if mb.header.timestamp.IsZero then { mb.header with timestamp := now } else mb.header
  match mb.typ with
  | .UnknownResponseType => .ok (.UnknownResponse header mb.result)
  | .ConnectMessageType => .ok (.ConnectMessage header mb.connType)
  | .ConnectResponseType => .ok (.ConnectResponse header mb.result)
  | .DisconnectMessageType => .ok (.DisconnectMessage header mb.reason)
  | .PingMessageType => .ok (.PingMessage header)
  | .PingResponseType => .ok (.PingResponse header mb.result)
  | .GetConfigMessageType => .ok (.GetConfigMessage header mb.desiredParams)
  | .GetConfigResponseType => .ok (.GetConfigResponse header mb.result mb.params)
  | .SetConfigMessageType => .ok (.SetConfigMessage header mb.params)
  | .SetConfigResponseType => .ok (.SetConfigResponse header mb.result mb.paramCount)
  | .GetConfigListMessageType => .ok (.GetConfigListMessage header)
  | .GetConfigListResponseType => .ok (.GetConfigListResponse header mb.result mb.configList)
  | .LoadConfigMessageType => .ok (.LoadConfigMessage header mb.configName)
  | .LoadConfigResponseType => .ok (.LoadConfigResponse header mb.result mb.paramCount)
  | .SaveConfigMessageType => .ok (.SaveConfigMessage header mb.configName)
  | .SaveConfigResponseType => .ok (.SaveConfigResponse header mb.result mb.paramCount)
  | .DirectiveMessageType =>
    .ok (.DirectiveMessage header mb.directiveName (newArguments mb.params))
  | .DirectiveResponseType =>
    .ok (.DirectiveResponse header mb.result mb.directiveName (newArguments mb.params))
  | .AsyncStatusMessageType => .ok (.AsyncStatusMessage header mb.result mb.params)
  | _ => .error (.Errorf ("build not implemented for '".toList ++ mb.typ.String ++ "'".toList))

end gemsV14

/-! ## Receiving a frame (package `gems`, file `messages.go`) -/

namespace gems

/-- The fields of the struct `GenericMessage` that the ASCII decoder fills. -/
structure GenericMessage where
  Flavor : List Char
  Version : List Char
  Length : Int
  TransactionID : NullInt64
  Token : List Char
  Timestamp : Time
  Target : List Char
  Local : List Char
  Fields : List (List Char)

/-- Go `GenericMessage.UnmarshalASCII` on the zero value. -/
def GenericMessage.UnmarshalASCII (data : List Char) : Except GoError GenericMessage :=
  if !startsWith data "|".toList then
    .error (.UnmarshalError (some data) "message missing standard header".toList)
  else
    let data1 := trimPrefix data "|".toList
    if !endsWith data1 "|END".toList then
      .error (.UnmarshalError (some data1) "message missing standard trailer".toList)
    else
      let data2 := trimSuffix data1 "|END".toList
      let splitData := splitOn "|".toList data2
      if splitData.length < 7 then
        .error (.UnmarshalError (some data2) "message missing required fields".toList)
      else
        match strconv.ParseInt (splitData.getD 2 []) 64 with
        | .error _ =>
          .error (.UnmarshalError (some (splitData.getD 2 [])) "invalid message length".toList)
        | .ok msgLen =>
          match NullInt64.UnmarshalASCII (splitData.getD 3 []) with
          | (_, some err) => .error err
          | (tid, none) =>
            if splitData.getD 0 [] = "GEMS".toList then
              if splitData.length < 8 then
                .error (.UnmarshalError (some data2) "message missing required fields".toList)
              else
                match Time.UnmarshalASCII (splitData.getD 5 []) with
                | (_, some err) => .error err
                | (ts, none) =>
                  .ok ⟨splitData.getD 0 [], splitData.getD 1 [], msgLen, tid,
                    splitData.getD 4 [], ts, splitData.getD 6 [], splitData.getD 7 [],
                    splitData.drop 8⟩
            else
              .ok ⟨splitData.getD 0 [], splitData.getD 1 [], msgLen, tid,
                splitData.getD 4 [], Time.zero, splitData.getD 5 [], splitData.getD 6 [],
                splitData.drop 6⟩

/-- Go `GenericMessage.Type` after ASCII decoding, where `XMLName.Space` is empty. -/
def GenericMessage.Type (m : GenericMessage) : MessageType :=
  MessageTypeFromASCII m.Local

end gems

/-- Go `gems.ReceiveASCIIMessage(data, v)` with `v = GemsV14{}`. -/
def ReceiveASCIIMessage (lib : GoLib) (data : List Char) : Except GoError gemsV14.Message :=
  match gems.GenericMessage.UnmarshalASCII data with
  | .error err => .error err
  | .ok m => gemsV14.receiveMessage lib data m.Type


/-- A library instance for the examples: every float is printed as `0` and nothing parses as
a float or as a `utime`. -/
def sampleLib : GoLib :=
  ⟨fun _ => ['0'], fun _ => .error (.LibError []), fun _ => .error (.LibError [])⟩


/-! ## Example values -/

/-- The header of the ping message of the test suite: target `System/Device1`, timestamp
`1410819035.28`, transaction id 1, no token. -/
def examplePingHeader : gemsV14.MessageHeader :=
  ⟨"System/Device1".toList, ⟨1410819035, 280000000⟩, [], ⟨1, true⟩⟩

/-- The frame of the ping message of the test suite. -/
def examplePingFrame : List Char :=
  "|GEMS|14|0000000067|1||1410819035.280000000|System/Device1|PING|END".toList

/-- The frame with a wrong length field of the test suite. -/
def exampleTamperedFrame : List Char :=
  ("|GEMS|14|0000000001|0|token|1410819035.260000000|Target|UKN-R|MALFORMED_MESSAGE|"
    ++ "Not a GEMS message|END").toList

/-- A frame of twenty bytes whose length field has two digits. -/
def exampleShortLengthFrame : List Char := "|GEMS|14|20|||0||END".toList

/-- The name made of the two bytes of `é` in UTF-8. -/
def exampleNonASCIIName : List Char := [Char.ofNat 195, Char.ofNat 169]

/-- The parameter `BitRates:int[2]=200,2000` of the test suite. -/
def exampleBitRates : gemsV14.Parameter :=
  ⟨[.vInt 200 false, .vInt 2000 false], ⟨2, true⟩, "BitRates".toList, .UndefinedType⟩

/-- The group of channel `i` of the test suite: its name, its number and two bit rates. -/
def exampleChannel (i : Nat) (r1 r2 : Int) : gemsV14.ParameterSet :=
  ⟨[.vParameter [.vString ("Channel".toList ++ strconv.FormatUint i) false] ⟨0, false⟩
      "ChannelName".toList .UndefinedType,
    .vParameter [.vInt i false] ⟨0, false⟩ "ChannelID".toList .UndefinedType,
    .vParameter [.vInt r1 false, .vInt r2 false] ⟨2, true⟩ "BitRates".toList .UndefinedType],
    ⟨0, false⟩, [], .UndefinedType⟩

/-- The three groups of `ParameterSetList` of the test suite. -/
def exampleGroups : List gemsV14.ParameterSet :=
  [exampleChannel 0 200 2000, exampleChannel 1 400 4000, exampleChannel 2 600 6000]

/-- The set `ParameterSetList` of the test suite. -/
def exampleParameterSetList : gemsV14.ParameterSet :=
  ⟨exampleGroups.map gemsV14.ParameterSet.toValue, ⟨3, true⟩, "ParameterSetList".toList,
    .UndefinedType⟩

/-! ## Reference functions of the proofs -/

/-- The decimal digits of `n`, most significant first, by recursion on `n / 10`. -/
def digitsRef (n : Nat) : List Char :=
  if n < 10 then [strconv.digitChar n] else digitsRef (n / 10) ++ [strconv.digitChar (n % 10)]
decreasing_by omega

/-- The value of a string of decimal digits read from the left, starting from `acc`. -/
def decVal (s : List Char) (acc : Nat) : Nat :=
  s.foldl (fun a c => a * 10 + (c.toNat - 48)) acc

/-- A buffer writer only appends: its result on `b` is `b` followed by its result on the
empty buffer. -/
def Appends (f : List Char → List Char × Option GoError) : Prop :=
  ∀ b, f b = (b ++ (f []).1, (f []).2)

/-- The text that `MarshalASCII` writes for a value into an empty buffer. -/
def encoded (lib : GoLib) (v : gemsV14.Value) : List Char :=
  (gemsV14.Value.MarshalASCII lib v []).1

/-- The separators of the ASCII encoding do not occur in the text. -/
def sepFree (s : List Char) : Prop :=
  ∀ c ∈ s, c ≠ ',' ∧ c ≠ ';' ∧ c ≠ '|'

/-- The instants whose `time` text reads back: the seconds fit 64 bits, and the
nanoseconds are zero or have nine digits (the text has no leading zeros in the
nanoseconds, and the decoder pads them on the right). -/
def timeReadsBack (t : gems.Time) : Prop :=
  -9223372036854775808 ≤ t.sec ∧ t.sec ≤ 9223372036854775807
    ∧ (t.nsec = 0 ∨ (100000000 ≤ t.nsec ∧ t.nsec < 1000000000))

/-- The scalar values that the ASCII decoder gives back from their own text: an empty
marker with zero payload; a non-empty ASCII string; a boolean; an integer in the range of
its type; a hex value with bytes below 256 and a bit length in 64 bits that is not zero and
not negative without data; a time as in `timeReadsBack`; and a double or a `utime` that the
library functions of `lib` read back from a text without separators. -/
def ScalarReadsBack (lib : GoLib) : gemsV14.Value → Prop
  | .vString d e => (e = true ∧ d = []) ∨ (e = false ∧ d ≠ [] ∧ ascii.Valid d = true)
  | .vBoolean d e => e = false ∨ d = false
  | .vByte d e => (e = true ∧ d = 0) ∨ (e = false ∧ -128 ≤ d ∧ d ≤ 127)
  | .vUbyte d e => (e = true ∧ d = 0) ∨ (e = false ∧ 0 ≤ d ∧ d ≤ 255)
  | .vShort d e => (e = true ∧ d = 0) ∨ (e = false ∧ -32768 ≤ d ∧ d ≤ 32767)
  | .vUshort d e => (e = true ∧ d = 0) ∨ (e = false ∧ 0 ≤ d ∧ d ≤ 65535)
  | .vInt d e => (e = true ∧ d = 0) ∨ (e = false ∧ -2147483648 ≤ d ∧ d ≤ 2147483647)
  | .vUint d e => (e = true ∧ d = 0) ∨ (e = false ∧ 0 ≤ d ∧ d ≤ 4294967295)
  | .vLong d e => (e = true ∧ d = 0)
      ∨ (e = false ∧ -9223372036854775808 ≤ d ∧ d ≤ 9223372036854775807)
  | .vUlong d e => (e = true ∧ d = 0) ∨ (e = false ∧ 0 ≤ d ∧ d ≤ 18446744073709551615)
  | .vDouble d e => (e = true ∧ d = ⟨0⟩)
      ∨ (e = false ∧ lib.ParseFloat (lib.FormatFloat d) = .ok d ∧ lib.FormatFloat d ≠ []
          ∧ sepFree (lib.FormatFloat d))
  | .vHexValue d bl e => (e = true ∧ d = [] ∧ bl = 0)
      ∨ (e = false ∧ bl ≠ 0 ∧ ¬ (d = [] ∧ bl < 0) ∧ (∀ c ∈ d, c.toNat < 256)
          ∧ -9223372036854775808 ≤ bl ∧ bl ≤ 9223372036854775807)
  | .vTime t e => (e = true ∧ t = gems.Time.zero) ∨ (e = false ∧ timeReadsBack t)
  | .vUtime t e => (e = true ∧ t = gems.Time.zero)
      ∨ (e = false ∧ gems.TimeFromUtime lib t.FormatUtime = .ok t ∧ sepFree t.FormatUtime)
  | _ => False

section ReadBackDefinitions
open strconv gemsV14

/-- A multiplicity as the decoder produces it: absent with the zero payload, or present
with a value in the range of 32 bits. -/
def multiplicityReadsBack (m : gems.NullInt32) : Prop :=
  (m.Valid = false ∧ m.Int32 = 0)
    ∨ (m.Valid = true ∧ -2147483648 ≤ m.Int32 ∧ m.Int32 ≤ 2147483647)

/-- The parameters that the ASCII decoder gives back from their own text: no type
attribute, an ASCII name without `=`, a multiplicity as in `multiplicityReadsBack` that is
absent when there are no values, and values of one scalar type that read back. -/
def ParameterReadsBack (lib : GoLib) : Value → Prop
  | .vParameter vs m n t =>
    t = .UndefinedType ∧ ascii.Valid n = true ∧ '=' ∉ n ∧ multiplicityReadsBack m
      ∧ (vs = [] → m.Valid = false) ∧ (∀ v ∈ vs, ScalarReadsBack lib v)
      ∧ (∀ v ∈ vs, ∀ w ∈ vs, v.Type = w.Type)
  | _ => False

/-- The type part of a parameter header: the ASCII name of the datatype, followed by the
multiplicity in brackets when it is present. -/
def typeText (T : gems.Datatype) (m : gems.NullInt32) : List Char :=
  T.ASCIIName ++ (if m.Valid then '[' :: (FormatInt m.Int32 ++ [']']) else [])

/-- The text of a parameter or set with name `n`, type part of `T` and `m`, and the
values text `values`. -/
def headedText (n : List Char) (T : gems.Datatype) (m : gems.NullInt32)
    (values : List Char) : List Char :=
  escape n ++ ':' :: (typeText T m ++ '=' :: values)

/-- The text of a Parameter: the escaped name alone without values, otherwise the header
and the encoded values joined by `,`. -/
def parameterText (lib : GoLib) : List Value → gems.NullInt32 → List Char → List Char
  | [], _, n => escape n
  | v :: r, m, n => headedText n v.Type m (joinWith ",".toList ((v :: r).map (encoded lib)))

/-- The byte `c1` is nowhere in the string directly followed by the byte `c2`. -/
def noPair (c1 c2 : Char) : List Char → Prop
  | a :: b :: r => ¬ (a = c1 ∧ b = c2) ∧ noPair c1 c2 (b :: r)
  | _ => True

/-- A child set as the decoder produces it for one group of a set with multiplicity: no
name, no multiplicity, no type attribute, and at least one parameter, each reading back. -/
def GroupReadsBack (lib : GoLib) : Value → Prop
  | .vParameterSet ps m n t =>
    t = .UndefinedType ∧ n = [] ∧ m = ⟨0, false⟩ ∧ ps ≠ [] ∧ ∀ p ∈ ps, ParameterReadsBack lib p
  | _ => False

/-- The sets that the ASCII decoder gives back from their own text: no type attribute, an
ASCII name without `=`, and either no multiplicity and parameters as values, or a
multiplicity in 32 bits and groups as in `GroupReadsBack` as values. -/
def SetReadsBack (lib : GoLib) : Value → Prop
  | .vParameterSet vs m n t =>
    t = .UndefinedType ∧ ascii.Valid n = true ∧ '=' ∉ n ∧ multiplicityReadsBack m
      ∧ ((m.Valid = false ∧ ∀ p ∈ vs, ParameterReadsBack lib p)
        ∨ (m.Valid = true ∧ ∀ g ∈ vs, GroupReadsBack lib g))
  | _ => False

/-- The values of a set, and no values for any other value. -/
def groupValues : Value → List Value
  | .vParameterSet ps _ _ _ => ps
  | _ => []

/-- The text of one group: its encoded parameters, each followed by `;`. -/
def groupText (lib : GoLib) (g : Value) : List Char :=
  ((groupValues g).map (fun p => encoded lib p ++ [';'])).flatten

/-- The text of a ParameterSet: the header and, with a multiplicity, the group texts
joined by `,`, otherwise the encoded parameters each followed by `;`. -/
def setText (lib : GoLib) (vs : List Value) (m : gems.NullInt32) (n : List Char) : List Char :=
  headedText n .ParameterSetType m
    (if m.Valid then joinWith ",".toList (vs.map (groupText lib))
      else (vs.map (fun p => encoded lib p ++ [';'])).flatten)

/-- The text of one group without the `;` after its last parameter. -/
def groupBody (lib : GoLib) (g : Value) : List Char :=
  joinWith ";".toList ((groupValues g).map (encoded lib))

/-- The parameters and sets of `ParameterReadsBack` and `SetReadsBack`. -/
def ReadsBack (lib : GoLib) : XMLParameter → Prop
  | .Parameter p => ParameterReadsBack lib p.toValue
  | .ParameterSet ps => SetReadsBack lib ps.toValue

/-- The parameter of `Name("a=b").Int(1)`. -/
def exampleEqualsName : Parameter :=
  ⟨[.vInt 1 false], ⟨0, false⟩, "a=b".toList, .UndefinedType⟩

/-- The header fields that the frame carries: target and token without `|`, a timestamp
as in `timeReadsBack`, and a transaction id that is absent with zero payload or lies in 64
bits. -/
def headerReadsBack (h : MessageHeader) : Prop :=
  '|' ∉ h.target ∧ '|' ∉ h.token ∧ timeReadsBack h.timestamp
    ∧ ((h.transactionID.Valid = false ∧ h.transactionID.Int64 = 0)
      ∨ (h.transactionID.Valid = true ∧ -9223372036854775808 ≤ h.transactionID.Int64
          ∧ h.transactionID.Int64 ≤ 9223372036854775807))

/-- The fields of a frame after `|GEMS|14|`, without the trailer: length, transaction id,
token, timestamp, target, type tag and the fields of the body. -/
def frameFields (h : MessageHeader) (L : Nat) (tag : List Char) (body : List (List Char)) :
    List (List Char) :=
  FormatPad10 L :: h.transactionID.String :: h.token :: h.timestamp.String :: h.target
    :: tag :: body

/-- The length that `marshalASCIIMessage` writes for a header, a type tag and body
fields. -/
def frameLength (h : MessageHeader) (tag : List Char) (body : List (List Char)) : Nat :=
  20 + (joinWith "|".toList (h.transactionID.String :: h.token :: h.timestamp.String
    :: h.target :: tag :: body) ++ "|END".toList).length

/-- The frame of a header, a type tag and body fields. -/
def frameText (h : MessageHeader) (tag : List Char) (body : List (List Char)) : List Char :=
  "|GEMS|14|".toList
    ++ (joinWith "|".toList (frameFields h (frameLength h tag body) tag body) ++ "|END".toList)

/-- The content that a message encoder hands to `marshalASCIIMessage`: every field
followed by `|`. -/
def contentText (fields : List (List Char)) : List Char :=
  (fields.map (fun f => f ++ ['|'])).flatten

/-- The count and the texts of the parameters of a message body. -/
def paramFields (lib : GoLib) (ps : List XMLParameter) : List (List Char) :=
  FormatInt ps.length :: ps.map (fun p => encoded lib p.toValue)

/-- The fields after the name of a directive: `0` without arguments, otherwise the count
and the texts of the arguments. -/
def argumentFields (lib : GoLib) : Option (List XMLParameter) → List (List Char)
  | none => ["0".toList]
  | some ps => paramFields lib ps

/-- The fields that follow the type tag in the frame of a message. -/
def bodyFields (lib : GoLib) : Message → List (List Char)
  | .UnknownResponse _ r => [r.Code, r.Description]
  | .ConnectMessage _ c => [c]
  | .ConnectResponse _ r => [r.Code, r.Description]
  | .DisconnectMessage _ d => [d]
  | .PingMessage _ => []
  | .PingResponse _ r => [r.Code, r.Description]
  | .GetConfigMessage _ ps => if ps.length = 0 then [[]] else FormatInt ps.length :: ps
  | .GetConfigResponse _ r ps => r.Code :: r.Description :: paramFields lib ps
  | .AsyncStatusMessage _ r ps => r.Code :: r.Description :: paramFields lib ps
  | .SetConfigMessage _ ps => paramFields lib ps
  | .SetConfigResponse _ r n => [r.Code, r.Description, FormatInt n]
  | .GetConfigListMessage _ => []
  | .GetConfigListResponse _ r cs =>
    r.Code :: r.Description :: FormatInt cs.length :: cs.map escape
  | .LoadConfigMessage _ c => [c]
  | .LoadConfigResponse _ r n => [r.Code, r.Description, FormatInt n]
  | .SaveConfigMessage _ c => [c]
  | .SaveConfigResponse _ r n => [r.Code, r.Description, FormatInt n]
  | .DirectiveMessage _ d args => d :: argumentFields lib args
  | .DirectiveResponse _ r d args => r.Code :: r.Description :: d :: argumentFields lib args

/-- A result whose code and description hold no `|`. -/
def resultReadsBack (r : gems.Result) : Prop :=
  '|' ∉ r.Code ∧ '|' ∉ r.Description

/-- A name that is written as it is and unescaped by the decoder: code points up to 127,
no `|`, and no escape sequence. -/
def nameReadsBack (n : List Char) : Prop :=
  ascii.Valid n = true ∧ '|' ∉ n ∧ unescape n = n

/-- A number in the range of 64 bits. -/
def inInt64 (n : Int) : Prop :=
  -9223372036854775808 ≤ n ∧ n ≤ 9223372036854775807

/-- Arguments of a directive as `newArguments` makes them: `nil`, or a non-empty list of
parameters that read back. -/
def argumentsReadBack (lib : GoLib) : Option (List XMLParameter) → Prop
  | none => True
  | some ps => ps ≠ [] ∧ ∀ p ∈ ps, ReadsBack lib p

/-- The body fields that the frame carries, for each of the nineteen message structs. -/
def bodyReadsBack (lib : GoLib) : Message → Prop
  | .UnknownResponse _ r => resultReadsBack r
  | .ConnectMessage _ c => '|' ∉ c
  | .ConnectResponse _ r => resultReadsBack r
  | .DisconnectMessage _ d => '|' ∉ d
  | .PingMessage _ => True
  | .PingResponse _ r => resultReadsBack r
  | .GetConfigMessage _ ps => ∀ n ∈ ps, nameReadsBack n
  | .GetConfigResponse _ r ps => resultReadsBack r ∧ ∀ p ∈ ps, ReadsBack lib p
  | .AsyncStatusMessage _ r ps => resultReadsBack r ∧ ∀ p ∈ ps, ReadsBack lib p
  | .SetConfigMessage _ ps => ps ≠ [] ∧ ∀ p ∈ ps, ReadsBack lib p
  | .SetConfigResponse _ r n => resultReadsBack r ∧ inInt64 n
  | .GetConfigListMessage _ => True
  | .GetConfigListResponse _ r cs => resultReadsBack r ∧ ∀ n ∈ cs, ascii.Valid n = true
  | .LoadConfigMessage _ c => '|' ∉ c
  | .LoadConfigResponse _ r n => resultReadsBack r ∧ inInt64 n
  | .SaveConfigMessage _ c => '|' ∉ c
  | .SaveConfigResponse _ r n => resultReadsBack r ∧ inInt64 n
  | .DirectiveMessage _ d args => nameReadsBack d ∧ argumentsReadBack lib args
  | .DirectiveResponse _ r d args =>
    resultReadsBack r ∧ nameReadsBack d ∧ argumentsReadBack lib args

/-- The messages whose content the frame carries: header as in `headerReadsBack`, body as
in `Message.bodyReadsBack`. -/
def MessageReadsBack (lib : GoLib) (m : Message) : Prop :=
  headerReadsBack m.header ∧ bodyReadsBack lib m

/-- The builder after `Type(PingMessageType)`, `Target("System/Device1")`,
`Timestamp("1410819035.28")`, `TransactionID(1)` and `Token("a|b")`. -/
def examplePipeTokenBuilder : MessageBuilder :=
  { NewMessageBuilder with
    typ := .PingMessageType
    header := ⟨"System/Device1".toList, ⟨1410819035, 280000000⟩, "a|b".toList, ⟨1, true⟩⟩ }

/-- The ping message with the token `a|b`. -/
def examplePipeTokenMessage : Message :=
  .PingMessage ⟨"System/Device1".toList, ⟨1410819035, 280000000⟩, "a|b".toList, ⟨1, true⟩⟩

/-- The message `SET` of the example header with the parameter `BitRates`. -/
def exampleSetConfigMessage : Message :=
  .SetConfigMessage examplePingHeader [.Parameter exampleBitRates]

/-- The frame of `exampleSetConfigMessage`. -/
def exampleSetConfigFrame : List Char :=
  "|GEMS|14|0000000093|1||1410819035.280000000|System/Device1|SET|1|BitRates:int[2]=200,2000|END".toList

/-- Go `MessageHeader.TransactionMatch`. -/
def gemsV14.MessageHeader.TransactionMatch (h : MessageHeader) (id : gems.NullInt64) : Bool :=
  if !id.Valid then true
  else if !h.transactionID.Valid then false
  else h.transactionID.Int64 == id.Int64

/-- The constant `ResultCodeSuccess`. -/
def gems.ResultCodeSuccess : List Char := "SUCCESS".toList

/-- The constant `ResultCodeInvalidState`. -/
def gems.ResultCodeInvalidState : List Char := "INVALID_STATE".toList

/-- The constant `ResultCodeAccessDenied`. -/
def gems.ResultCodeAccessDenied : List Char := "ACCESS_DENIED".toList

/-- The variable `defaultToken` of `server.go`. -/
def gems.defaultToken : List Char := "TUlUUkUgQ2FsZGVyYShUTSkgZm9yIE9U".toList

/-- The Go idiom `msg, _ := mb.Build(); resp, _ := msg.(Response)`: the built message, or
`nil` (`none`) when `Build` fails. -/
def gems.builtResponse (now : gems.Time) (mb : MessageBuilder) : Option Message :=
  match mb.Build now with
  | .ok m => some m
  | .error _ => none

/-- Go `connectionHandler(r, v, authToken)` with `v = GemsV14{}`: the response and the
error.  `now` is the result of `time.Now()` in `Build`. -/
def gems.connectionHandler (now : gems.Time) (r : Message) (authToken : List Char) :
    Option Message × Option GoError :=
  let mb0 : MessageBuilder := { NewMessageBuilder with typ := .ConnectResponseType }
  let mb : MessageBuilder :=
    if r.header.transactionID.Valid then
      { mb0 with header := { mb0.header with
          transactionID := gems.NewNullInt64 r.header.transactionID.Int64 } }
    else mb0
  if r.Type = .ConnectMessageType then
    if authToken.length > 0 ∧ r.header.token ≠ authToken then
      (gems.builtResponse now { mb with
          result := ⟨gems.ResultCodeAccessDenied, "Authentication failed.".toList⟩ },
        some (.Errorf "invalid access token".toList))
    else
      (gems.builtResponse now { mb with
          header := { mb.header with token := gems.defaultToken }
          result := { mb.result with Code := gems.ResultCodeSuccess } }, none)
  else
    (gems.builtResponse now { mb with
        typ := .UnknownResponseType
        result := ⟨gems.ResultCodeInvalidState, "Not connected".toList⟩ },
      some (.Errorf "invalid message type".toList))

/-- The state of an `asciiServer` after one request of a connection and what the loop of
`handlerWrapper` did with it: the keys of the map `conns`, the bytes written to the
connection (if any), and whether the loop was left. -/
structure gems.ServerStep where
  conns : List (List Char)
  written : Option (List Char)
  stop : Bool

/-- Go `ascii.Marshal(resp)` followed by `conn.Write(out)` in `handlerWrapper`: a `nil`
response marshals to no bytes, a marshal error writes nothing. -/
def gems.writeResponse (lib : GoLib) (conns : List (List Char)) (resp : Option Message) :
    gems.ServerStep :=
  match resp with
  | none => ⟨conns, some [], false⟩
  | some m =>
    match marshalMessage lib m with
    | .error _ => ⟨conns, none, false⟩
    | .ok out => ⟨conns, some out, false⟩

/-- One round of the loop of Go `asciiServer.handlerWrapper` for a request `req` that
`ReceiveASCIIMessage` has decoded, from the peer `remoteAddr`: a disconnect message
removes the peer and leaves the loop without an answer; a connected peer is served by
the message handler; any other peer by `connectionHandler`, which adds the peer to
`conns` only when it returns no error.  The `break` after a failed connection attempt
leaves the `switch`, so the response is still written. -/
def gems.serverStep (lib : GoLib) (handler : Message → Option Message × Option GoError)
    (authToken : List Char) (now : gems.Time) (conns : List (List Char))
    (remoteAddr : List Char) (req : Message) : gems.ServerStep :=
  if req.Type = .DisconnectMessageType then
    ⟨conns.filter (fun a => a ≠ remoteAddr), none, true⟩
  else if remoteAddr ∈ conns then
    match handler req with
    | (_, some _) => ⟨conns, none, false⟩
    | (resp, none) => gems.writeResponse lib conns resp
  else
    match gems.connectionHandler now req authToken with
    | (resp, some _) => gems.writeResponse lib conns resp
    | (resp, none) => gems.writeResponse lib (remoteAddr :: conns) resp

/-- The error of `SafeWrite` for a reserved word. -/
def isReservedError (e : GoError) : Prop :=
  ∃ val, e = .MarshalError ("use of reserved word '".toList ++ val ++ "'".toList)

/-- A buffer writer never returns the reserved-word error. -/
def NoReserved (f : List Char → List Char × Option GoError) : Prop :=
  ∀ b e, (f b).2 = some e → ¬ isReservedError e

/-- Year and day of the year of an instant in UTC, as `Time.FormatUtime` computes them. -/
def utcYearDay (t : gems.Time) : Int × Nat :=
  gems.yearDay (t.sec / 86400 + 719162)

/-- The parameter `ChannelName:string=Channel0` of the test suite. -/
def exampleChannelName : Parameter :=
  ⟨[.vString "Channel0".toList false], ⟨0, false⟩, "ChannelName".toList, .UndefinedType⟩

/-- The parameter `ChannelID:int=0` of the test suite. -/
def exampleChannelID : Parameter :=
  ⟨[.vInt 0 false], ⟨0, false⟩, "ChannelID".toList, .UndefinedType⟩

/-- The parameter `Name("|GEMS").String("MyString")` of the test suite. -/
def exampleReservedName : Parameter :=
  ⟨[.vString "MyString".toList false], ⟨0, false⟩, "|GEMS".toList, .UndefinedType⟩

/-- The parameter `Name("StringValue").String(s)` of the test suite, with the two bytes
of `é` for the non-ASCII string `s`. -/
def exampleNonASCIIValue : Parameter :=
  ⟨[.vString exampleNonASCIIName false], ⟨0, false⟩, "StringValue".toList, .UndefinedType⟩

/-- A disconnect message with the example header. -/
def exampleDisconnect : Message :=
  .DisconnectMessage examplePingHeader "NORMAL_TERMINATION".toList

/-- The answer of `connectionHandler` to a message that is no connection request: an
`UnknownResponse` with the transaction id of the request, the time of `Build` as its
timestamp, no target and no token, the code `INVALID_STATE` and the description
`Not connected`. -/
def rejectionResponse (now : gems.Time) (req : Message) : Message :=
  .UnknownResponse
    ⟨[], now, [],
      if req.header.transactionID.Valid then gems.NewNullInt64 req.header.transactionID.Int64
      else ⟨0, false⟩⟩
    ⟨gems.ResultCodeInvalidState, "Not connected".toList⟩

/-- The instant `2009-273T09:14:50.020000000Z` of the test suite. -/
def exampleUtime : gems.Time := ⟨1254302090, 20000000⟩

/-- The sentinel error `io.EOF` of the Go library. -/
def ioEOF : GoError := .LibError "EOF".toList

/-- Go `ascii.SplitMessages(data, atEOF)`: the number of bytes to advance, the token
(`none` for `nil`) and the error. -/
def ascii.SplitMessages (data : List Char) (atEOF : Bool) :
    Nat × Option (List Char) × Option GoError :=
  let delimiter := "|END".toList
  match indexOf delimiter data with
  | some i =>
    let endIdx := i + delimiter.length
    (endIdx, some (data.take endIdx), none)
  | none =>
    if atEOF ∧ data.length > 0 then
      (0, none, some (.Errorf "received partial GEMS-ASCII message".toList))
    else if atEOF then (0, none, some ioEOF)
    else (0, none, none)

/-- The text `sep` stands in `data` at index `i`. -/
def occursAt (sep data : List Char) (i : Nat) : Prop :=
  sep <+: data.drop i

/-- The tags that the specification lists for the nineteen message variants. -/
def messageTags : List (gems.MessageType × List Char) :=
  [(.SetConfigMessageType, "SET".toList), (.SetConfigResponseType, "SET-R".toList),
   (.GetConfigMessageType, "GET".toList), (.GetConfigResponseType, "GET-R".toList),
   (.GetConfigListMessageType, "GETL".toList), (.GetConfigListResponseType, "GETL-R".toList),
   (.LoadConfigMessageType, "LOAD".toList), (.LoadConfigResponseType, "LOAD-R".toList),
   (.SaveConfigMessageType, "SAVE".toList), (.SaveConfigResponseType, "SAVE-R".toList),
   (.DirectiveMessageType, "DIR".toList), (.DirectiveResponseType, "DIR-R".toList),
   (.PingMessageType, "PING".toList), (.PingResponseType, "PING-R".toList),
   (.ConnectMessageType, "CON".toList), (.ConnectResponseType, "CON-R".toList),
   (.DisconnectMessageType, "DISC".toList), (.AsyncStatusMessageType, "ASYNC".toList),
   (.UnknownResponseType, "UKN-R".toList)]

/-- The frame without trailer of the test suite. -/
def exampleMissingTrailerFrame : List Char :=
  ("|GEMS|14|0000000099|0|token|1410819035.260000000|Target|UKN-R|MALFORMED_MESSAGE|"
    ++ "Not a GEMS message|").toList

/-- The `UKN-R` frame of the test suite that lacks the description field. -/
def exampleIncompleteFrame : List Char :=
  "|GEMS|14|0000000083|0|token|1410819035.260000000|Target|UKN-R|MALFORMED_MESSAGE|END".toList

/-- The header of the `UKN-R` frames of the test suite. -/
def exampleTokenHeader : MessageHeader :=
  ⟨"Target".toList, ⟨1410819035, 260000000⟩, "token".toList, ⟨0, true⟩⟩

/-- The frame of `exampleDisconnect`, with the tag `DISC`. -/
def exampleDisconnectFrame : List Char :=
  ("|GEMS|14|0000000086|1||1410819035.280000000|System/Device1|DISC|NORMAL_TERMINATION"
    ++ "|END").toList

/-- The frame of `exampleDisconnect` with the tag `DIS` and the length field adjusted. -/
def exampleDisFrame : List Char :=
  ("|GEMS|14|0000000085|1||1410819035.280000000|System/Device1|DIS|NORMAL_TERMINATION"
    ++ "|END").toList

/-- A frame of an `UnknownResponse` with the given tag, which has five bytes. -/
def exampleUnknownFrame (tag : List Char) : List Char :=
  "|GEMS|14|0000000102|0|token|1410819035.260000000|Target|".toList ++ tag
    ++ "|MALFORMED_MESSAGE|Not a GEMS message|END".toList

/-- The state of an `xmlServer` after one request and what the handler of
`xmlHandlerWrapper` did with it: the keys of the map `conns`, the bytes written as the
body of the answer (if any), and whether the handler panicked, which the deferred function
turns into the status 500. -/
structure gems.XMLServerStep where
  conns : List (List Char)
  written : Option (List Char)
  panicked : Bool

/-- Go `xml.Marshal(resp)` followed by `w.Write(out)` in `xmlHandlerWrapper`; an error of
`xml.Marshal` is raised as a panic.  `xmlMarshal` stands for `xml.Marshal` on a response
(`none` for `nil`). -/
def gems.xmlWriteResponse (xmlMarshal : Option Message → Except GoError (List Char))
    (conns : List (List Char)) (resp : Option Message) : gems.XMLServerStep :=
  match xmlMarshal resp with
  | .error _ => ⟨conns, none, true⟩
  | .ok out => ⟨conns, some out, false⟩

/-- The handler function of Go `xmlServer.xmlHandlerWrapper` for a request `req` that
`messageFromRequest` has decoded, from the peer `remoteAddr`: as in `handlerWrapper` of
the ASCII server, with a panic where that one logs an error. -/
def gems.xmlServerStep (xmlMarshal : Option Message → Except GoError (List Char))
    (handler : Message → Option Message × Option GoError)
    (authToken : List Char) (now : gems.Time) (conns : List (List Char))
    (remoteAddr : List Char) (req : Message) : gems.XMLServerStep :=
  if req.Type = .DisconnectMessageType then
    ⟨conns.filter (fun a => a ≠ remoteAddr), none, false⟩
  else if remoteAddr ∈ conns then
    match handler req with
    | (_, some _) => ⟨conns, none, true⟩
    | (resp, none) => gems.xmlWriteResponse xmlMarshal conns resp
  else
    match gems.connectionHandler now req authToken with
    | (resp, some _) => gems.xmlWriteResponse xmlMarshal conns resp
    | (resp, none) => gems.xmlWriteResponse xmlMarshal (remoteAddr :: conns) resp

/-- The transaction id that `connectionHandler` gives its response: the id of the request
when that is present, and none otherwise. -/
def responseID (req : Message) : gems.NullInt64 :=
  if req.header.transactionID.Valid then gems.NewNullInt64 req.header.transactionID.Int64
  else ⟨0, false⟩

/-- The response of `connectionHandler` to a connect message with a wrong token, built at
the time `now`. -/
def deniedResponse (now : gems.Time) (req : Message) : Message :=
  .ConnectResponse ⟨[], now, [], responseID req⟩
    ⟨gems.ResultCodeAccessDenied, "Authentication failed.".toList⟩

/-- The response of `connectionHandler` to a connect message that it accepts, built at the
time `now`. -/
def acceptedResponse (now : gems.Time) (req : Message) : Message :=
  .ConnectResponse ⟨[], now, gems.defaultToken, responseID req⟩ ⟨gems.ResultCodeSuccess, []⟩

/-- A connect message of the client `Device1` with the token `secret`. -/
def exampleConnect : Message :=
  .ConnectMessage ⟨"System/Device1".toList, ⟨1410819035, 280000000⟩, "secret".toList, ⟨7, true⟩⟩
    "CONTROL_ONLY".toList

/-- A stand-in for `xml.Marshal` in the examples: every response is written as `<r/>`. -/
def sampleXMLMarshal (_ : Option Message) : Except GoError (List Char) := .ok "<r/>".toList

/-- Go `strings.ToLower` on ASCII text (bytes above 127 are left as they are). -/
def toLower (s : List Char) : List Char :=
  s.map (fun c => if 'A' ≤ c ∧ c ≤ 'Z' then Char.ofNat (c.toNat + 32) else c)

/-- Go `Result.String`. -/
def gems.Result.String (r : gems.Result) : List Char :=
  if r.Description = [] then r.Code else r.Code ++ ", ".toList ++ r.Description

/-- The type assertion `msg.(Response)` together with the method `Result()`: the result
of the message structs that have that method, `none` for the others. -/
def gems.asResponse : Message → Option gems.Result
  | .UnknownResponse _ r => some r
  | .ConnectResponse _ r => some r
  | .PingResponse _ r => some r
  | .GetConfigResponse _ r _ => some r
  | .AsyncStatusMessage _ r _ => some r
  | .SetConfigResponse _ r _ => some r
  | .GetConfigListResponse _ r _ => some r
  | .LoadConfigResponse _ r _ => some r
  | .SaveConfigResponse _ r _ => some r
  | .DirectiveResponse _ r _ _ => some r
  | _ => none

/-- The interface `platformSpecificModel` of a client: the results `(Response, error)` of
its methods `Connect`, `ConnectTLS` and `Send` (`none` for `nil`). -/
structure gems.platformSpecificModel where
  Connect : List Char → Message → Option Message × Option GoError
  ConnectTLS : List Char → Message → Bool → Option Message × Option GoError
  Send : Message → Option Message × Option GoError

/-- The connection state of the struct `Client`: `token`, `target` and `transactionID`
(an `int64`). -/
structure gems.Client where
  token : List Char
  target : List Char
  transactionID : Int
deriving DecidableEq, Repr

/-- Go `NewClient(version, psm, f)`: the state of the new client, or the error for an
unknown PSM. -/
def gems.NewClient (psm : List Char) : Except GoError gems.Client :=
  if toLower psm = "xml".toList ∨ toLower psm = "ascii".toList then .ok ⟨[], [], 0⟩
  else .error (.Errorf ("unknown PSM '".toList ++ psm ++ "'".toList))

/-- The builder `NewMessageBuilder().Type(typ).TransactionID(c.transactionID)
.Token(c.token).Target(c.target)` with which every request of a client starts. -/
def gems.Client.request (c : gems.Client) (typ : gems.MessageType) : MessageBuilder :=
  { NewMessageBuilder with
    typ := typ
    header := { NewMessageBuilder.header with
      transactionID := gems.NewNullInt64 c.transactionID
      token := c.token
      target := c.target } }

/-- Go `Client.connect`: the client after the call and the returned error; `none` when
the call panics, which it does on `resp.Token()` if the model returns neither a response
nor an error.  The increment of the `int64` wraps. -/
def gems.Client.connect (now : gems.Time) (model : gems.platformSpecificModel)
    (c : gems.Client) (tls : Bool) (addr typ token target : List Char) (insecure : Bool) :
    Option (gems.Client × Option GoError) :=
  let c1 : gems.Client := { c with token := token, target := target }
  match ({ c1.request .ConnectMessageType with connType := typ } : MessageBuilder).Build now with
  | .error err => some (c1, some err)
  | .ok req =>
    match (if tls then model.ConnectTLS addr req insecure else model.Connect addr req) with
    | (_, some err) => some (c1, some err)
    | (some resp, none) =>
      some ({ c1 with token := resp.header.token
                      transactionID := gems.wrapInt 64 (c1.transactionID + 1) }, none)
    | (none, none) => none

/-- Go `Client.Send`: the client after the call and the result of the model. -/
def gems.Client.Send (model : gems.platformSpecificModel) (c : gems.Client) (m : Message) :
    gems.Client × (Option Message × Option GoError) :=
  ({ c with transactionID := gems.wrapInt 64 (c.transactionID + 1) }, model.Send m)

/-- The end of every request method of a client: `msg, err := mb.Build()`, then the error
or `c.Send(msg)`. -/
def gems.Client.sendBuilt (now : gems.Time) (model : gems.platformSpecificModel)
    (c : gems.Client) (mb : MessageBuilder) :
    gems.Client × (Option Message × Option GoError) :=
  match mb.Build now with
  | .error err => (c, (none, some err))
  | .ok msg => c.Send model msg

/-- The calls of the exported methods of a client that touch its connection state. -/
inductive gems.ClientOp where
  | Connect (addr typ token target : List Char)
  | ConnectTLS (addr typ token target : List Char) (insecure : Bool)
  | Disconnect (reason : List Char)
  | Send (m : Message)
  | GetConfig (names : List (List Char))
  | SetConfig (params : Option (List (List Char)))
  | SaveConfig (name : List Char)
  | LoadConfig (name : List Char)
  | GetConfigList
  | Ping
  | Directive (dir : List Char) (params : Option (List (List Char)))

/-- Whether the call is `Connect` or `ConnectTLS`. -/
def gems.ClientOp.isConnect : gems.ClientOp → Bool
  | .Connect _ _ _ _ => true
  | .ConnectTLS _ _ _ _ _ => true
  | _ => false

/-- The optional call `mb.ASCIIParameters(params...)` of `SetConfig` and `Directive`,
made when `params` is not `nil`. -/
def gems.withParameters (lib : GoLib) (mb : MessageBuilder)
    (params : Option (List (List Char))) : MessageBuilder :=
  match params with
  | none => mb
  | some ps => mb.ASCIIParameters lib ps

/-- One call of an exported method of a client, at the time `now` and with the behaviour
`model` of the transport during the call: the client after the call, `none` when the call
panics. -/
def gems.Client.step (lib : GoLib) (now : gems.Time) (model : gems.platformSpecificModel)
    (c : gems.Client) : gems.ClientOp → Option gems.Client
  | .Connect addr typ token target =>
    (c.connect now model false addr typ token target false).map Prod.fst
  | .ConnectTLS addr typ token target insecure =>
    (c.connect now model true addr typ token target insecure).map Prod.fst
  | .Disconnect reason =>
    some (c.sendBuilt now model { c.request .DisconnectMessageType with reason := reason }).1
  | .Send m => some (c.Send model m).1
  | .GetConfig names =>
    some (c.sendBuilt now model
      { c.request .GetConfigMessageType with desiredParams := names }).1
  | .SetConfig params =>
    some (c.sendBuilt now model
      (gems.withParameters lib (c.request .SetConfigMessageType) params)).1
  | .SaveConfig name =>
    some (c.sendBuilt now model { c.request .SaveConfigMessageType with configName := name }).1
  | .LoadConfig name =>
    some (c.sendBuilt now model { c.request .LoadConfigMessageType with configName := name }).1
  | .GetConfigList => some (c.sendBuilt now model (c.request .GetConfigListMessageType)).1
  | .Ping => some (c.sendBuilt now model (c.request .PingMessageType)).1
  | .Directive dir params =>
    some (c.sendBuilt now model
      (gems.withParameters lib
        { c.request .DirectiveMessageType with directiveName := dir } params)).1

/-- A call of a client method together with the time and the behaviour of the transport
during the call. -/
structure gems.ClientCall where
  now : gems.Time
  model : gems.platformSpecificModel
  op : gems.ClientOp

/-- A sequence of calls on a client, from the left; `none` when one of them panics. -/
def gems.Client.run (lib : GoLib) : gems.Client → List gems.ClientCall → Option gems.Client
  | c, [] => some c
  | c, call :: rest =>
    match c.step lib call.now call.model call.op with
    | none => none
    | some c1 => gems.Client.run lib c1 rest

/-- What the `select` of `asciiClient.Receive` takes from the channels before the timer
fires: a frame from `dataCh` or an error from `errCh`. -/
inductive gems.NetEvent where
  | data (frame : List Char)
  | err (e : GoError)

/-- Go `asciiClient.Receive(id, v)` on the events that arrive before the timeout, in the
order in which the `select` takes them; when they are used up the timer fires. -/
def gems.asciiClient.Receive (lib : GoLib) (id : gems.NullInt64) :
    List gems.NetEvent → Option Message × Option GoError
  | [] => (none, some (.Errorf "timeout waiting for response".toList))
  | .err e :: _ => (none, some e)
  | .data frame :: rest =>
    match ReceiveASCIIMessage lib frame with
    | .error _ => gems.asciiClient.Receive lib id rest
    | .ok msg =>
      match gems.asResponse msg with
      | none => gems.asciiClient.Receive lib id rest
      | some result =>
        if !msg.header.TransactionMatch id then gems.asciiClient.Receive lib id rest
        else if result.Code ≠ gems.ResultCodeSuccess then
          (some msg, some (.Errorf ("gems response: ".toList ++ result.String)))
        else (some msg, none)

/-- Go `asciiClient.Send(m, v)`; `events` is what arrives on the connection after the
request has been written. -/
def gems.asciiClient.Send (lib : GoLib) (events : List gems.NetEvent) (m : Message) :
    Option Message × Option GoError :=
  match marshalMessage lib m with
  | .error err => (none, some err)
  | .ok _ => gems.asciiClient.Receive lib m.header.transactionID events

/-- Go `asciiClient.Connect` and `asciiClient.ConnectTLS`: `dial` is the error of
`d.Dial` (`none` when the dialling succeeds). -/
def gems.asciiClient.Connect (lib : GoLib) (dial : Option GoError)
    (events : List gems.NetEvent) (req : Message) : Option Message × Option GoError :=
  match dial with
  | some err => (none, some err)
  | none => gems.asciiClient.Send lib events req

/-- The ASCII client as a `platformSpecificModel`, for a call during which dialling gives
`dial` and the connection delivers `events`. -/
def gems.asciiModel (lib : GoLib) (dial : Option GoError) (events : List gems.NetEvent) :
    gems.platformSpecificModel :=
  ⟨fun _ req => gems.asciiClient.Connect lib dial events req,
   fun _ req _ => gems.asciiClient.Connect lib dial events req,
   fun m => gems.asciiClient.Send lib events m⟩

/-- The parts of a Go `http.Response` that `xmlClient.Receive` reads: `StatusCode`,
`Status`, and the result of `io.ReadAll(r.Body)`. -/
structure gems.HTTPResponse where
  StatusCode : Nat
  Status : List Char
  Body : Except GoError (List Char)

/-- Go `xmlClient.Receive(r, v)`; `recvXML` stands for `ReceiveXMLMessage`, the XML decoder
of messages, with its result `(Message, error)`. -/
def gems.xmlClient.Receive (recvXML : List Char → Option Message × Option GoError)
    (r : gems.HTTPResponse) : Option Message × Option GoError :=
  if r.StatusCode ≠ 200 then (none, some (.Errorf ("send failed: ".toList ++ r.Status)))
  else
    match r.Body with
    | .error err => (none, some err)
    | .ok body =>
      match recvXML body with
      | (msg, err) =>
        if err ≠ none ∧ err ≠ some ioEOF then (none, err)
        else
          match msg with
          | none => (none, some (.Errorf "did not receive a response type message".toList))
          | some m =>
            match gems.asResponse m with
            | none => (none, some (.Errorf "did not receive a response type message".toList))
            | some _ => (some m, none)

/-- Go `xmlClient.Send(m, v)`: `xmlMarshal` stands for `xml.Marshal` on a message and
`post` for `http.NewRequest` followed by `x.c.Do`, from the payload to the HTTP response
or the error. -/
def gems.xmlClient.Send (xmlMarshal : Message → Except GoError (List Char))
    (post : List Char → Except GoError gems.HTTPResponse)
    (recvXML : List Char → Option Message × Option GoError) (m : Message) :
    Option Message × Option GoError :=
  match xmlMarshal m with
  | .error err => (none, some err)
  | .ok payload =>
    match post payload with
    | .error err => (none, some err)
    | .ok resp => gems.xmlClient.Receive recvXML resp

/-- The XML client as a `platformSpecificModel`: `Connect` and `ConnectTLS` set the address
and the HTTP client and then call `Send`. -/
def gems.xmlModel (xmlMarshal : Message → Except GoError (List Char))
    (post : List Char → Except GoError gems.HTTPResponse)
    (recvXML : List Char → Option Message × Option GoError) : gems.platformSpecificModel :=
  ⟨fun _ req => gems.xmlClient.Send xmlMarshal post recvXML req,
   fun _ req _ => gems.xmlClient.Send xmlMarshal post recvXML req,
   fun m => gems.xmlClient.Send xmlMarshal post recvXML m⟩

/-- The connect message that `Client.connect` builds at the time `now`. -/
def connectRequest (now : gems.Time) (c : gems.Client) (typ token target : List Char) :
    Message :=
  .ConnectMessage ⟨target, now, token, gems.NewNullInt64 c.transactionID⟩ typ

/-- A call of `Ping` at the time 5.0 on an ASCII client to which nothing is delivered, so
that the receiver runs into its timeout. -/
def examplePingCall : gems.ClientCall :=
  ⟨⟨5, 0⟩, gems.asciiModel sampleLib none [], .Ping⟩

/-- The frame in which the server of this package denies the connect request with the
transaction id 0 at the time 5.0. -/
def exampleDeniedFrame : List Char :=
  "|GEMS|14|0000000074|0||5.0||CON-R|ACCESS_DENIED|Authentication failed.|END".toList

/-- The response that `exampleDeniedFrame` encodes, with the token `T` added. -/
def exampleDenied : Message :=
  .ConnectResponse ⟨[], ⟨5, 0⟩, "T".toList, ⟨0, true⟩⟩
    ⟨gems.ResultCodeAccessDenied, "Authentication failed.".toList⟩

/-- A stand-in for the XML transport in the examples: the request is posted as `<q/>`,
the peer answers with the status 200 and the body `<r/>`, and that body decodes to
`exampleDenied`. -/
def sampleXMLModel : gems.platformSpecificModel :=
  gems.xmlModel (fun _ => .ok "<q/>".toList)
    (fun _ => .ok ⟨200, "200 OK".toList, .ok "<r/>".toList⟩)
    (fun _ => (some exampleDenied, none))

/-- The form of the strings that `escape` produces: none of the delimiters `|`, `,` and `;`
occurs, and every `&` is immediately followed by one of `a`, `b`, `c`, `d`. -/
def escapedForm (s : List Char) : Prop :=
  (∀ c ∈ s, c ≠ '|' ∧ c ≠ ',' ∧ c ≠ ';')
    ∧ ∀ i : Nat, s[i]? = some '&' →
        s[i + 1]? = some 'a' ∨ s[i + 1]? = some 'b' ∨ s[i + 1]? = some 'c' ∨ s[i + 1]? = some 'd'

/-- The index, among the fields after the type tag, of the count field that starts the
parameters of a message: the argument `content`, `content[1:]`, `content[2:]` or
`content[3:]` that the decoder of the type passes to `unmarshalParameterSliceASCII`. -/
def parameterStart : gems.MessageType → Nat
  | .GetConfigResponseType | .AsyncStatusMessageType => 2
  | .DirectiveMessageType => 1
  | .DirectiveResponseType => 3
  | _ => 0

/-- The parameters that a message holds: the field `Parameters`, or the parameters of the
fields `Arguments` and `ReturnValues` (none when the field is `nil`). -/
def messageParameters : Message → List XMLParameter
  | .GetConfigResponse _ _ ps => ps
  | .AsyncStatusMessage _ _ ps => ps
  | .SetConfigMessage _ ps => ps
  | .DirectiveMessage _ _ args => args.getD []
  | .DirectiveResponse _ _ _ args => args.getD []
  | _ => []

/-- The frame of the test suite for a `GetConfigMessage` without desired parameters. -/
def exampleGetAllFrame : List Char :=
  "|GEMS|14|0000000067|1||1410819035.280000000|System/Device1|GET||END".toList

/-- The frame of `exampleGetAllFrame` with the explicit count `0`. -/
def exampleGetZeroFrame : List Char :=
  "|GEMS|14|0000000068|1||1410819035.280000000|System/Device1|GET|0|END".toList

/-- A `SetConfigMessage` frame whose count field says 2 while one parameter follows. -/
def exampleWrongCountFrame : List Char :=
  "|GEMS|14|0000000076|1||1410819035.280000000|System/Device1|SET|2|A:int=1|END".toList

/-- The Int parameter with the name `n`, the multiplicity `m` and the values `vs`. -/
def intParameter (n : List Char) (m : gems.NullInt32) (vs : List Int) : Value :=
  .vParameter (vs.map (fun v => .vInt v false)) m n .UndefinedType

/-- The calls of the value setters of the builder for the scalar datatypes, without
values. -/
def emptySetters : List Setter :=
  [.String [], .Boolean [], .Byte [], .Ubyte [], .Short [], .Ushort [], .Int [], .Uint [],
   .Long [], .Ulong [], .Double [], .HexValue [], .Time [], .Utime []]

/-- The empty marker that a value setter called without values appends. -/
def emptyMarker : Setter → Value
  | .String _ => .vString [] true
  | .Boolean _ => .vBoolean false true
  | .Byte _ => .vByte 0 true
  | .Ubyte _ => .vUbyte 0 true
  | .Short _ => .vShort 0 true
  | .Ushort _ => .vUshort 0 true
  | .Int _ => .vInt 0 true
  | .Uint _ => .vUint 0 true
  | .Long _ => .vLong 0 true
  | .Ulong _ => .vUlong 0 true
  | .Double _ => .vDouble ⟨0⟩ true
  | .HexValue _ => .vHexValue [] 0 true
  | .Time _ => .vTime gems.Time.zero true
  | .Utime _ => .vUtime gems.Time.zero true
  | _ => .vParameter [] ⟨0, false⟩ [] .UndefinedType

/-- The constant `bufio.MaxScanTokenSize`, the size that the buffer of a `bufio.Scanner`
made by `bufio.NewScanner` does not exceed. -/
def maxScanTokenSize : Nat := 65536

/-- The error `bufio.ErrTooLong`. -/
def errTooLong : GoError := .LibError "bufio.Scanner: token too long".toList

/-- The loop `for scanner.Scan()` of `asciiServer.handlerWrapper` and `asciiClient.Listen`,
with `scanner := bufio.NewScanner(conn)` and `scanner.Split(ascii.SplitMessages)`, on a
connection that delivers the bytes `data` and is then closed: the tokens of
`scanner.Bytes()` in order, and `scanner.Err()` after the loop.  The split function sees
what the buffer holds of the rest of the stream, at most `maxScanTokenSize` bytes, with
`atEOF` when that is all of it; a token it returns is delivered and passed over; when it
returns no token from a full buffer the scanner stops with `bufio.ErrTooLong`; `io.EOF`
from the split function ends the loop without error.  `fuel` bounds the number of
tokens. -/
def scanTokens : Nat → List Char → List (List Char) × Option GoError
  | 0, _ => ([], some (.LibError "out of fuel".toList))
  | fuel + 1, data =>
    match ascii.SplitMessages (data.take maxScanTokenSize)
      (decide (data.length ≤ maxScanTokenSize)) with
    | (advance, some token, _) =>
      let r := scanTokens fuel (data.drop advance)
      (token :: r.1, r.2)
    | (_, none, some err) => ([], if err = ioEOF then none else some err)
    | (_, none, none) => ([], some errTooLong)

/-- A `LoadConfigMessage` for the configuration `ENDURANCE`. -/
def exampleLoadConfig : Message :=
  .LoadConfigMessage examplePingHeader "ENDURANCE".toList

/-- A `LoadConfigMessage` whose configuration name is the letter `A` 65536 times. -/
def exampleLongConfig : Message :=
  .LoadConfigMessage examplePingHeader (List.replicate 65536 'A')

/-- The frame of `exampleLongConfig`, of 65604 bytes. -/
def exampleLongFrame : List Char :=
  "|GEMS|14|0000065604|1||1410819035.280000000|System/Device1|LOAD|".toList
    ++ List.replicate 65536 'A' ++ "|END".toList

/-- The struct `xml.Name` of the Go library. -/
structure xml.Name where
  Space : List Char
  Local : List Char
deriving DecidableEq, Repr

/-- The struct `xml.Attr` of the Go library. -/
structure xml.Attr where
  Name : Name
  Value : List Char
deriving DecidableEq, Repr

/-- The tokens of the Go library that the encoders of this package write and its decoders
read: `xml.StartElement`, `xml.EndElement` and `xml.CharData`. -/
inductive xml.Token where
  | StartElement (Name : Name) (Attr : List Attr)
  | EndElement (Name : Name)
  | CharData (data : List Char)
deriving DecidableEq, Repr

/-- Go `e.EncodeElement(s, start)` for a string `s`: the start tag, the text and the end
tag. -/
def xml.stringElement (name : Name) (attr : List Attr) (s : List Char) : List Token :=
  [.StartElement name attr, .CharData s, .EndElement name]

/-- The text that the decoder of the library reads where the encoder wrote the text `s`, for
ASCII text: a control character other than tab, line feed and carriage return is written as
the replacement character U+FFFD (three bytes in UTF-8), every other byte is read back as it
was (bytes above 127 are not interpreted here). -/
def xml.readText (s : List Char) : List Char :=
  (s.map (fun c => if c.toNat < 32 ∧ c ≠ '\t' ∧ c ≠ '\n' ∧ c ≠ '\r'
    then [Char.ofNat 239, Char.ofNat 191, Char.ofNat 189] else [c])).flatten

/-- The attributes that `Decoder.Token` returns for a start tag written with `EncodeToken` for
the name `n` and the attributes `attr`: a name with a namespace gives the attribute `xmlns`
before the others, and an attribute without a local name is not written. -/
def xml.readAttrs (n : Name) (attr : List Attr) : List Attr :=
  (if n.Space ≠ [] then [⟨⟨[], "xmlns".toList⟩, readText n.Space⟩] else [])
    ++ (attr.filter (fun a => a.Name.Local ≠ [])).map (fun a => ⟨a.Name, readText a.Value⟩)

/-- The tokens that `Decoder.Token` returns for one token written with `EncodeToken`: a
start tag with the attributes of `readAttrs`, an end tag as it is, and no token for an empty
text. -/
def xml.readToken : Token → List Token
  | .StartElement n attr => [.StartElement n (readAttrs n attr)]
  | .EndElement n => [.EndElement n]
  | .CharData s => if s = [] then [] else [.CharData (readText s)]

/-- The tokens that a decoder reads from the document that an encoder wrote. -/
def xml.read (ts : List Token) : List Token :=
  (ts.map readToken).flatten

/-- The tokens of the element whose start tag has just been read, through its end tag, and
the tokens after it; `depth` counts the start tags that are still open inside it. -/
def xml.elementEnd : Nat → List Token → Option (List Token × List Token)
  | _, [] => none
  | depth, .StartElement n a :: r =>
    (elementEnd (depth + 1) r).map (fun p => (.StartElement n a :: p.1, p.2))
  | 0, .EndElement n :: r => some ([.EndElement n], r)
  | depth + 1, .EndElement n :: r =>
    (elementEnd depth r).map (fun p => (.EndElement n :: p.1, p.2))
  | depth, .CharData s :: r => (elementEnd depth r).map (fun p => (.CharData s :: p.1, p.2))

/-- Go `d.DecodeElement(&content, &start)` for a string `content`: the character data up to
the end tag of the element, with child elements skipped as `Decoder.Skip` does (`depth`
counts the open start tags of a skipped child); the text and the tokens that are left. -/
def xml.decodeString : Nat → List Char → List Token → Except GoError (List Char × List Token)
  | _, _, [] => .error (.LibError "XML syntax error: unexpected EOF".toList)
  | depth, acc, .StartElement _ _ :: r => decodeString (depth + 1) acc r
  | 0, acc, .EndElement _ :: r => .ok (acc, r)
  | depth + 1, acc, .EndElement _ :: r => decodeString depth acc r
  | 0, acc, .CharData s :: r => decodeString 0 (acc ++ s) r
  | depth + 1, acc, .CharData _ :: r => decodeString (depth + 1) acc r

/-- Go `Decoder.unmarshalInterface` after `DecodeElement(v, &start)` for a value with the
method `UnmarshalXML`, here `unmarshal`: the method reads from the tokens of the element
only, and it is an error `err` when it returns without having read the end tag; the value
and the tokens after the element. -/
def xml.decodeElement {α : Type} (unmarshal : List Token → Except GoError (α × List Token))
    (err : GoError) (rest : List Token) : Except GoError (α × List Token) :=
  match elementEnd 0 rest with
  | some (body, after) =>
    match unmarshal body with
    | .error e => .error e
    | .ok (v, left) => if left ≠ [] then .error err else .ok (v, after)
  | none =>
    match unmarshal rest with
    | .error e => .error e
    | .ok _ => .error err

/-- The constant `Namespace`. -/
def gems.Namespace : List Char := "http://www.omg.org/spec/gems/20110323/basetypes".toList

/-- Go `Datatype.String`: the XML name of a datatype. -/
def gems.Datatype.String : Datatype → List Char
  | .StringType => "string".toList
  | .BooleanType => "boolean".toList
  | .ByteType => "byte".toList
  | .UbyteType => "ubyte".toList
  | .HexValueType => "hex_value".toList
  | .DoubleType => "double".toList
  | .LongType => "long".toList
  | .UlongType => "ulong".toList
  | .IntType => "int".toList
  | .UintType => "uint".toList
  | .ShortType => "short".toList
  | .UshortType => "ushort".toList
  | .TimeType => "time".toList
  | .UtimeType => "utime".toList
  | .ParameterType => "Parameter".toList
  | .ParameterSetType => "ParameterSet".toList
  | .UndefinedType => "undefined".toList

/-- Go `Datatype.XMLName`. -/
def gems.Datatype.XMLName (t : Datatype) : xml.Name := ⟨Namespace, t.String⟩

/-- Go `DatatypeFromXML`. -/
def gems.DatatypeFromXML (t : List Char) : Datatype :=
  if t = "string".toList then .StringType
  else if t = "boolean".toList then .BooleanType
  else if t = "byte".toList then .ByteType
  else if t = "ubyte".toList then .UbyteType
  else if t = "hex_value".toList then .HexValueType
  else if t = "double".toList then .DoubleType
  else if t = "long".toList then .LongType
  else if t = "ulong".toList then .UlongType
  else if t = "int".toList then .IntType
  else if t = "uint".toList then .UintType
  else if t = "short".toList then .ShortType
  else if t = "ushort".toList then .UshortType
  else if t = "time".toList then .TimeType
  else if t = "utime".toList then .UtimeType
  else if t = "Parameter".toList then .ParameterType
  else if t = "ParameterSet".toList then .ParameterSetType
  else .UndefinedType

/-- Go `NullInt32.String`. -/
def gems.NullInt32.String (i : NullInt32) : List Char :=
  if !i.Valid then [] else strconv.FormatInt i.Int32

/-- Go `NullInt32.MarshalXMLAttr`. -/
def gems.NullInt32.MarshalXMLAttr (i : NullInt32) (name : xml.Name) : xml.Attr :=
  if !i.Valid then ⟨⟨[], []⟩, []⟩ else ⟨name, i.String⟩

/-- Go `NullInt32.UnmarshalXMLAttr`: the new value; the error is always `nil`. -/
def gems.NullInt32.UnmarshalXMLAttr (attr : xml.Attr) : NullInt32 :=
  match strconv.ParseInt attr.Value 32 with
  | .error _ => ⟨0, false⟩
  | .ok i64 => ⟨i64, true⟩

/-- The attributes that `Parameter.MarshalXML` and `ParameterSet.MarshalXML` append to the
start element: `name` when the name is not empty, `type` when the type attribute is not
`UndefinedType`, and `multiplicity` when the multiplicity is valid. -/
def gemsV14.parameterAttrs (n : List Char) (t : gems.Datatype) (m : gems.NullInt32) :
    List xml.Attr :=
  (if n ≠ [] then [⟨⟨[], "name".toList⟩, n⟩] else [])
    ++ (if t ≠ .UndefinedType then [⟨⟨[], "type".toList⟩, t.XMLName.Local⟩] else [])
    ++ (if m.Valid then [m.MarshalXMLAttr ⟨[], "multiplicity".toList⟩] else [])

/-- The three assignments of `ParameterSet.MarshalXML` to a child set `cs`:
`cs.name = ""`, `cs.typeAttr = gems.UndefinedType` and `cs.Multiplicity.Valid = false`. -/
def gemsV14.clearAttributes : Value → Value
  | .vParameterSet vs m _ _ => .vParameterSet vs ⟨m.Int32, false⟩ [] .UndefinedType
  | v => v

/-- The methods `MarshalXML` of the value structs, of `Parameter` and of `ParameterSet`,
called with a start element without attributes: the tokens written to the encoder, and the
value after the call (the values are held through pointers, and `ParameterSet.MarshalXML`
assigns to the fields of its child sets).  `values` is the loop of `Parameter.MarshalXML`
and `children` the loop of `ParameterSet.MarshalXML`, where a child set is encoded after
the assignments of `clearAttributes`. -/
def gemsV14.Value.MarshalXML (lib : GoLib) : Value → List xml.Token × Value
  | .vParameter vs m n t =>
    let r := values lib vs
    (.StartElement gems.Datatype.ParameterType.XMLName (parameterAttrs n t m) :: r.1
      ++ [.EndElement gems.Datatype.ParameterType.XMLName], .vParameter r.2 m n t)
  | .vParameterSet vs m n t =>
    let r := children lib vs
    (.StartElement gems.Datatype.ParameterSetType.XMLName (parameterAttrs n t m) :: r.1
      ++ [.EndElement gems.Datatype.ParameterSetType.XMLName], .vParameterSet r.2 m n t)
  | .vHexValue d bl e =>
    (xml.stringElement gems.Datatype.HexValueType.XMLName
      [⟨⟨[], "bit_length".toList⟩, strconv.FormatInt bl⟩] (HexValue.String d bl e),
      .vHexValue d bl e)
  | v => (xml.stringElement v.Type.XMLName [] (v.String lib), v)
where
  /-- The loop of `Parameter.MarshalXML` over the values. -/
  values (lib : GoLib) : List Value → List xml.Token × List Value
  | [] => ([], [])
  | v :: r =>
    let c := gemsV14.Value.MarshalXML lib v
    let rest := values lib r
    (c.1 ++ rest.1, c.2 :: rest.2)
  /-- The loop of `ParameterSet.MarshalXML` over the values. -/
  children (lib : GoLib) : List Value → List xml.Token × List Value
  | [] => ([], [])
  | .vParameterSet cvs cm _ _ :: r =>
    let c := children lib cvs
    let rest := children lib r
    (.StartElement gems.Datatype.ParameterSetType.XMLName
        (parameterAttrs [] .UndefinedType ⟨cm.Int32, false⟩) :: c.1
      ++ .EndElement gems.Datatype.ParameterSetType.XMLName :: rest.1,
      .vParameterSet c.2 ⟨cm.Int32, false⟩ [] .UndefinedType :: rest.2)
  | v :: r =>
    let c := gemsV14.Value.MarshalXML lib v
    let rest := children lib r
    (c.1 ++ rest.1, c.2 :: rest.2)

/-- Go `ParameterSet.MarshalXML`: the tokens written and the set after the call. -/
def gemsV14.ParameterSet.MarshalXML (lib : GoLib) (ps : ParameterSet) :
    List xml.Token × Value :=
  Value.MarshalXML lib ps.toValue

/-- Go `Parameter.MarshalXML`: the tokens written and the parameter after the call. -/
def gemsV14.Parameter.MarshalXML (lib : GoLib) (p : Parameter) : List xml.Token × Value :=
  Value.MarshalXML lib p.toValue

/-- The loop over the attributes of `HexValue.UnmarshalXML`: the bit length, starting from
`bl`. -/
def gemsV14.hexBitLength : List xml.Attr → Int → Except GoError Int
  | [], bl => .ok bl
  | a :: r, bl =>
    if a.Name.Local = "bit_length".toList then
      match strconv.Atoi a.Value with
      | .error e => .error e
      | .ok n => hexBitLength r n
    else hexBitLength r bl

/-- The methods `UnmarshalXML` of the scalar value structs, each on the fresh value of
`newValue(typ)`, reading from `tokens` after the start tag with the attributes `attr`: the
value and the tokens that are left.  `HexValue.UnmarshalXML` returns before reading when the
bit length is zero. -/
def gemsV14.unmarshalXMLScalar (lib : GoLib) (typ : gems.Datatype) (attr : List xml.Attr)
    (tokens : List xml.Token) : Except GoError (Value × List xml.Token) :=
  match typ with
  | .HexValueType =>
    match hexBitLength attr 0 with
    | .error e => .error e
    | .ok bl =>
      if bl = 0 then .ok (.vHexValue [] 0 true, tokens)
      else
        match xml.decodeString 0 [] tokens with
        | .error e => .error e
        | .ok (content, rest) =>
          if content = [] then .ok (.vHexValue [] bl true, rest)
          else (hex.DecodeString content).map (fun d => (.vHexValue d bl false, rest))
  | _ =>
    match xml.decodeString 0 [] tokens with
    | .error e => .error e
    | .ok (content, rest) =>
      match typ with
      | .StringType =>
        if content = [] then .ok (.vString [] true, rest) else .ok (.vString content false, rest)
      | .BooleanType =>
        if content = [] then .ok (.vBoolean false true, rest)
        else (strconv.ParseBool content).map (fun d => (.vBoolean d false, rest))
      | .ByteType =>
        if content = [] then .ok (.vByte 0 true, rest)
        else (strconv.ParseInt content 8).map (fun d => (.vByte d false, rest))
      | .UbyteType =>
        if content = [] then .ok (.vUbyte 0 true, rest)
        else (strconv.ParseUint content 8).map (fun d => (.vUbyte d false, rest))
      | .ShortType =>
        if content = [] then .ok (.vShort 0 true, rest)
        else (strconv.ParseInt content 16).map (fun d => (.vShort d false, rest))
      | .UshortType =>
        if content = [] then .ok (.vUshort 0 true, rest)
        else (strconv.ParseUint content 16).map (fun d => (.vUshort d false, rest))
      | .IntType =>
        if content = [] then .ok (.vInt 0 true, rest)
        else (strconv.ParseInt content 32).map (fun d => (.vInt d false, rest))
      | .UintType =>
        if content = [] then .ok (.vUint 0 true, rest)
        else (strconv.ParseUint content 32).map (fun d => (.vUint d false, rest))
      | .LongType =>
        if content = [] then .ok (.vLong 0 true, rest)
        else (strconv.ParseInt content 64).map (fun d => (.vLong d false, rest))
      | .UlongType =>
        if content = [] then .ok (.vUlong 0 true, rest)
        else (strconv.ParseUint content 64).map (fun d => (.vUlong d false, rest))
      | .DoubleType =>
        if content = [] then .ok (.vDouble ⟨0⟩ true, rest)
        else (lib.ParseFloat content).map (fun d => (.vDouble d false, rest))
      | .TimeType =>
        if content = [] then .ok (.vTime gems.Time.zero true, rest)
        else (gems.TimeFromString content).map (fun d => (.vTime d false, rest))
      | .UtimeType =>
        if content = [] then .ok (.vUtime gems.Time.zero true, rest)
        else (gems.TimeFromUtime lib content).map (fun d => (.vUtime d false, rest))
      | _ => .error (.Errorf "unexpected type 'undefined'".toList)

/-- The loop over the attributes of `Parameter.UnmarshalXML` and `ParameterSet.UnmarshalXML`:
the name, the type attribute and the multiplicity after the loop. -/
def gemsV14.parameterAttrLoop :
    List xml.Attr → List Char × gems.Datatype × gems.NullInt32 →
      List Char × gems.Datatype × gems.NullInt32
  | [], s => s
  | a :: r, (n, t, m) =>
    if a.Name.Local = "name".toList then parameterAttrLoop r (a.Value, t, m)
    else if a.Name.Local = "type".toList then
      parameterAttrLoop r (n, gems.DatatypeFromXML a.Value, m)
    else if a.Name.Local = "multiplicity".toList then
      parameterAttrLoop r (n, t, gems.NullInt32.UnmarshalXMLAttr a)
    else parameterAttrLoop r (n, t, m)

/-- The name of the Go struct behind a datatype, as `receiverType` prints it in the error of
`Decoder.unmarshalInterface`. -/
def gemsV14.structName : gems.Datatype → List Char
  | .StringType => "String".toList
  | .BooleanType => "Boolean".toList
  | .ByteType => "Byte".toList
  | .UbyteType => "Ubyte".toList
  | .HexValueType => "HexValue".toList
  | .DoubleType => "Double".toList
  | .LongType => "Long".toList
  | .UlongType => "Ulong".toList
  | .IntType => "Int".toList
  | .UintType => "Uint".toList
  | .ShortType => "Short".toList
  | .UshortType => "Ushort".toList
  | .TimeType => "Time".toList
  | .UtimeType => "Utime".toList
  | .ParameterType => "Parameter".toList
  | .ParameterSetType => "ParameterSet".toList
  | .UndefinedType => [] 

/-- The error of `Decoder.unmarshalInterface` when `UnmarshalXML` returns before the end tag
of its element has been read. -/
def gemsV14.notConsumed (typ : gems.Datatype) (name : xml.Name) : GoError :=
  .Errorf ("xml: (*gemsV14.".toList ++ structName typ
    ++ ").UnmarshalXML did not consume entire <".toList ++ name.Local ++ "> element".toList)

mutual
/-- Go `Parameter.UnmarshalXML` (for `typ = ParameterType`), `ParameterSet.UnmarshalXML`
(for `typ = ParameterSetType`) and the `UnmarshalXML` of the scalar value structs, each on
the fresh value of `newValue(typ)`, called with the start element of name `name` and
attributes `attr` and reading from `tokens`: the value and the tokens that are left.
`fuel` bounds the number of loop rounds and nested calls; the number of tokens plus one is
always enough. -/
def gemsV14.unmarshalXMLFuel (lib : GoLib) :
    Nat → gems.Datatype → xml.Name → List xml.Attr → List xml.Token →
      Except GoError (Value × List xml.Token)
  | 0, _, _, _, _ => .error (.LibError "out of fuel".toList)
  | fuel + 1, .ParameterType, name, attr, tokens =>
    match gemsV14.tokenLoop lib fuel name [] tokens with
    | .error e => .error e
    | .ok (vals, rest) =>
      let s := parameterAttrLoop attr ([], .UndefinedType, ⟨0, false⟩)
      .ok (.vParameter vals s.2.2 s.1 s.2.1, rest)
  | fuel + 1, .ParameterSetType, name, attr, tokens =>
    match gemsV14.tokenLoop lib fuel name [] tokens with
    | .error e => .error e
    | .ok (vals, rest) =>
      let s := parameterAttrLoop attr ([], .UndefinedType, ⟨0, false⟩)
      .ok (.vParameterSet vals s.2.2 s.1 s.2.1, rest)
  | _ + 1, typ, _, attr, tokens => unmarshalXMLScalar lib typ attr tokens
/-- The loop `tokenLoop` of `Parameter.UnmarshalXML` and `ParameterSet.UnmarshalXML` for the
start element of name `start`: the values read (after `vals`) and the tokens that are left
after the end tag of `start`.  A start tag of an unknown datatype is passed over (its
content is read by the next rounds). -/
def gemsV14.tokenLoop (lib : GoLib) :
    Nat → xml.Name → List Value → List xml.Token →
      Except GoError (List Value × List xml.Token)
  | 0, _, _, _ => .error (.LibError "out of fuel".toList)
  | _ + 1, _, _, [] => .error ioEOF
  | fuel + 1, start, vals, .StartElement n a :: rest =>
    if gems.DatatypeFromXML n.Local = .UndefinedType then
      gemsV14.tokenLoop lib fuel start vals rest
    else
      match xml.decodeElement
        (gemsV14.unmarshalXMLFuel lib fuel (gems.DatatypeFromXML n.Local) n a)
        (notConsumed (gems.DatatypeFromXML n.Local) n) rest with
      | .error e => .error e
      | .ok (v, after) => gemsV14.tokenLoop lib fuel start (vals ++ [v]) after
  | fuel + 1, start, vals, .EndElement n :: rest =>
    if n = start then .ok (vals, rest) else gemsV14.tokenLoop lib fuel start vals rest
  | fuel + 1, start, vals, .CharData _ :: rest => gemsV14.tokenLoop lib fuel start vals rest
end

/-- Go `xml.Unmarshal(data, dest)` for a fresh `dest` of the struct of `typ`, on the tokens
of `data`: the tokens before the first start tag are passed over, and the element is decoded
with the method `UnmarshalXML` of `dest`. -/
def gemsV14.xmlUnmarshal (lib : GoLib) (typ : gems.Datatype) :
    List xml.Token → Except GoError Value
  | [] => .error ioEOF
  | .StartElement n a :: rest =>
    (xml.decodeElement (unmarshalXMLFuel lib (rest.length + 1) typ n a) (notConsumed typ n)
      rest).map (fun p => p.1)
  | _ :: rest => xmlUnmarshal lib typ rest

/-- Go `xml.Marshal(v)` followed by `xml.Unmarshal` into a fresh value of the same struct:
the decoder reads the document that the encoder wrote. -/
def gemsV14.xmlRoundTrip (lib : GoLib) (v : Value) : Except GoError Value :=
  xmlUnmarshal lib v.Type (xml.read (v.MarshalXML lib).1)

/-- The attributes of the start tag that the `MarshalXML` of a scalar value writes:
`bit_length` for a hex value, none for the others. -/
def gemsV14.scalarAttrs : Value → List xml.Attr
  | .vHexValue _ bl _ => [⟨⟨[], "bit_length".toList⟩, strconv.FormatInt bl⟩]
  | _ => []

/-- No `ParameterSet` occurs in the value. -/
def gemsV14.Value.noSets : Value → Bool
  | .vParameter vs _ _ _ => all vs
  | .vParameterSet _ _ _ _ => false
  | _ => true
where
  /-- No `ParameterSet` occurs in the values. -/
  all : List Value → Bool
  | [] => true
  | v :: r => gemsV14.Value.noSets v && all r

/-- The values in which a `ParameterSet` occurs only as a value of a `ParameterSet`: no
`Parameter` holds a set, directly or inside a nested `Parameter`.  Every value that
`ParameterBuilder.Build` returns is of this kind, because it returns a `Parameter` only for
values of a scalar type. -/
def gemsV14.Value.setsInSets : Value → Bool
  | .vParameter vs _ _ _ => gemsV14.Value.noSets.all vs
  | .vParameterSet vs _ _ _ => all vs
  | _ => true
where
  /-- Every value of the list is of the kind of `setsInSets`. -/
  all : List Value → Bool
  | [] => true
  | v :: r => gemsV14.Value.setsInSets v && all r

/-- The set `channelConfig<i>` of the test suite, built with
`Name("Channel<i>").Parameters(channelName, channelId, channelBitRate)`. -/
def exampleChannelConfig (i : Nat) (rate : Int) : ParameterSet :=
  ⟨[.vParameter [.vString ("Channel".toList ++ strconv.FormatUint i) false] ⟨0, false⟩
      "ChannelName".toList .UndefinedType,
    .vParameter [.vInt i false] ⟨0, false⟩ "ChannelID".toList .UndefinedType,
    .vParameter [.vInt rate false] ⟨0, false⟩ "BitRate".toList .UndefinedType],
    ⟨0, false⟩, "Channel".toList ++ strconv.FormatUint i, .UndefinedType⟩

/-- The set `channelConfigList` of the test suite, built with
`Name("ChannelConfigList").Parameters(channelConfig0, channelConfig1, channelConfig2)`. -/
def exampleChannelConfigList : ParameterSet :=
  ⟨[(exampleChannelConfig 0 200000).toValue, (exampleChannelConfig 1 400000).toValue,
    (exampleChannelConfig 2 600000).toValue], ⟨3, true⟩, "ChannelConfigList".toList,
    .UndefinedType⟩

/-- The names, type attributes and multiplicities of the values of a parameter or set that
are themselves parameters or sets. -/
def gemsV14.childAttributes : Value → List (List Char × gems.Datatype × gems.NullInt32)
  | .vParameter vs _ _ _ => vs.filterMap attrs
  | .vParameterSet vs _ _ _ => vs.filterMap attrs
  | _ => []
where
  /-- The name, type attribute and multiplicity of one parameter or set. -/
  attrs : Value → Option (List Char × gems.Datatype × gems.NullInt32)
  | .vParameter _ m n t => some (n, t, m)
  | .vParameterSet _ m n t => some (n, t, m)
  | _ => none

/-- The texts that the decoder of the XML library reads back as the encoder got them:
ASCII bytes that are not control characters other than tab, line feed and carriage
return. -/
def xmlPlain (s : List Char) : Prop :=
  ∀ c ∈ s, c.toNat ≤ 127 ∧ (32 ≤ c.toNat ∨ c = '\t' ∨ c = '\n' ∨ c = '\r')

/-- The scalar values that the XML decoder gives back from their own element: an empty
marker with zero payload; a string with a text that is not empty and reads back; a boolean;
an integer in the range of its type; a hex value with data, bytes below 256 and a bit length
in 64 bits that is not zero; a time as in `timeReadsBack`; and a double or a `utime` that the
library functions of `lib` read back from a text that reads back. -/
def XMLScalarReadsBack (lib : GoLib) : Value → Prop
  | .vString d e => (e = true ∧ d = []) ∨ (e = false ∧ d ≠ [] ∧ xmlPlain d)
  | .vDouble d e => (e = true ∧ d = ⟨0⟩)
      ∨ (e = false ∧ lib.ParseFloat (lib.FormatFloat d) = .ok d ∧ lib.FormatFloat d ≠ []
          ∧ xmlPlain (lib.FormatFloat d))
  | .vHexValue d bl e => e = false ∧ d ≠ [] ∧ bl ≠ 0 ∧ (∀ c ∈ d, c.toNat < 256)
      ∧ -9223372036854775808 ≤ bl ∧ bl ≤ 9223372036854775807
  | .vUtime t e => (e = true ∧ t = gems.Time.zero)
      ∨ (e = false ∧ gems.TimeFromUtime lib t.FormatUtime = .ok t)
  | .vParameter _ _ _ _ => False
  | .vParameterSet _ _ _ _ => False
  | v => ScalarReadsBack lib v

/-- A value that is not a set, or a set as `ParameterSet.MarshalXML` leaves its child sets:
no name, no type attribute and no multiplicity. -/
def clearedSet : Value → Prop
  | .vParameterSet _ m n t => n = [] ∧ t = .UndefinedType ∧ m.Valid = false
  | _ => True

/-- The parameters and sets that the XML decoder gives back from their own element: a name
that reads back, a multiplicity as in `multiplicityReadsBack`, scalar values as in
`XMLScalarReadsBack`, and, in a set, child sets as in `clearedSet`. -/
def XMLReadsBack (lib : GoLib) : Value → Prop
  | .vParameter vs m n _ => xmlPlain n ∧ multiplicityReadsBack m ∧ all lib vs
  | .vParameterSet vs m n _ => xmlPlain n ∧ multiplicityReadsBack m ∧ children lib vs
  | .vString d e => XMLScalarReadsBack lib (.vString d e)
  | .vBoolean d e => XMLScalarReadsBack lib (.vBoolean d e)
  | .vByte d e => XMLScalarReadsBack lib (.vByte d e)
  | .vUbyte d e => XMLScalarReadsBack lib (.vUbyte d e)
  | .vShort d e => XMLScalarReadsBack lib (.vShort d e)
  | .vUshort d e => XMLScalarReadsBack lib (.vUshort d e)
  | .vInt d e => XMLScalarReadsBack lib (.vInt d e)
  | .vUint d e => XMLScalarReadsBack lib (.vUint d e)
  | .vLong d e => XMLScalarReadsBack lib (.vLong d e)
  | .vUlong d e => XMLScalarReadsBack lib (.vUlong d e)
  | .vDouble d e => XMLScalarReadsBack lib (.vDouble d e)
  | .vHexValue d bl e => XMLScalarReadsBack lib (.vHexValue d bl e)
  | .vTime d e => XMLScalarReadsBack lib (.vTime d e)
  | .vUtime d e => XMLScalarReadsBack lib (.vUtime d e)
where
  /-- The values of a `Parameter` read back. -/
  all (lib : GoLib) : List Value → Prop
  | [] => True
  | v :: r => XMLReadsBack lib v ∧ all lib r
  /-- The values of a `ParameterSet` read back. -/
  children (lib : GoLib) : List Value → Prop
  | [] => True
  | v :: r => clearedSet v ∧ XMLReadsBack lib v ∧ children lib r

/-- A sequence of tokens in which every start tag has its end tag: finding the end of an
enclosing element passes over it. -/
def xmlBalanced (X : List xml.Token) : Prop :=
  ∀ depth rest, xml.elementEnd depth (X ++ rest)
    = (xml.elementEnd depth rest).map (fun p => (X ++ p.1, p.2))

/-- The loop `tokenLoop` reads the values `vs` back from the tokens `T` of their elements:
the tokens are balanced, and with enough fuel the loop, started on `T` followed by the end
tag of its element, returns the values read before, then `vs`, and the tokens after that end
tag. -/
def loopReadsBack (lib : GoLib) (vs : List Value) (T : List xml.Token) : Prop :=
  xmlBalanced T ∧ ∀ fuel start acc rest, T.length + 1 ≤ fuel →
    tokenLoop lib fuel start acc (T ++ .EndElement start :: rest) = .ok (acc ++ vs, rest)

/-- The attribute `xmlns` that the decoder reads on every start tag of this package. -/
def xmlnsAttr : xml.Attr := ⟨⟨[], "xmlns".toList⟩, xml.readText gems.Namespace⟩

/-- The parameter of `Name("Note").String("")`. -/
def exampleEmptyText : Parameter :=
  ⟨[.vString [] false], ⟨0, false⟩, "Note".toList, .UndefinedType⟩

/-- The parameter of `Name("Mask").HexValue()`. -/
def exampleEmptyHex : Parameter :=
  ⟨[.vHexValue [] 0 true], ⟨0, false⟩, "Mask".toList, .UndefinedType⟩

/-- The parameter of `Name("Start").Time("1.05")`. -/
def exampleShortNanos : Parameter :=
  ⟨[.vTime ⟨1, 50000000⟩ false], ⟨0, false⟩, "Start".toList, .UndefinedType⟩

/-- The parameter of `Name("Bell").String("\a")`, whose text is the control character 7. -/
def exampleControlText : Parameter :=
  ⟨[.vString [Char.ofNat 7] false], ⟨0, false⟩, "Bell".toList, .UndefinedType⟩

/-- A set with the multiplicity 1 whose one child set holds the Parameter `Holder`, and
`Holder` holds the set `Deep` with the multiplicity 2 as its value. -/
def exampleSetInParameter : ParameterSet :=
  ⟨[.vParameterSet
      [.vParameter [.vParameterSet [] ⟨2, true⟩ "Deep".toList .UndefinedType] ⟨0, false⟩
        "Holder".toList .UndefinedType]
      ⟨0, false⟩ [] .UndefinedType],
    ⟨1, true⟩, "Outer".toList, .UndefinedType⟩

end ReadBackDefinitions

/-- Every byte of the string is a decimal digit. -/
def allDigits (s : List Char) : Prop :=
  ∀ c ∈ s, 48 ≤ c.toNat ∧ c.toNat ≤ 57

/-! ## Theorems -/

/-! ### Decimal numbers -/

section NumberLemmas
open strconv

theorem digitChar_toNat (d : Nat) (h : d < 10) : (digitChar d).toNat = 48 + d := by
  unfold digitChar
  have : d = 0 ∨ d = 1 ∨ d = 2 ∨ d = 3 ∨ d = 4 ∨ d = 5 ∨ d = 6 ∨ d = 7 ∨ d = 8 ∨ d = 9 := by omega
  rcases this with h | h | h | h | h | h | h | h | h | h <;> subst h <;> rfl

theorem formatUintAux_eq (fuel : Nat) : ∀ (n : Nat) (acc : List Char), n < fuel →
    formatUintAux fuel n acc = digitsRef n ++ acc := by
  induction fuel with
  | zero => intro n acc h; omega
  | succ f ih =>
    intro n acc h
    rw [formatUintAux, digitsRef]
    split_ifs with h10
    · rfl
    · rw [ih (n / 10) _ (by omega)]
      simp

theorem FormatUint_eq (n : Nat) : FormatUint n = digitsRef n := by
  rw [FormatUint, formatUintAux_eq (n + 1) n [] (by omega)]
  simp

theorem digitsRef_ne_nil (n : Nat) : digitsRef n ≠ [] := by
  rw [digitsRef]; split_ifs <;> simp

theorem digitsRef_allDigits (n : Nat) : allDigits (digitsRef n) := by
  induction n using Nat.strong_induction_on with
  | _ n ih =>
    rw [digitsRef]
    split_ifs with h
    · intro c hc
      simp at hc; subst hc
      rw [digitChar_toNat n h]; omega
    · intro c hc
      simp at hc
      rcases hc with hc | hc
      · exact ih (n / 10) (by omega) c hc
      · subst hc; rw [digitChar_toNat _ (Nat.mod_lt _ (by norm_num))]; omega

theorem decVal_append_singleton (s : List Char) (c : Char) (acc : Nat) :
    decVal (s ++ [c]) acc = decVal s acc * 10 + (c.toNat - 48) := by
  simp [decVal, List.foldl_append]

theorem decVal_digitsRef (n : Nat) : decVal (digitsRef n) 0 = n := by
  induction n using Nat.strong_induction_on with
  | _ n ih =>
    rw [digitsRef]
    split_ifs with h
    · simp [decVal, digitChar_toNat n h]
    · rw [decVal_append_singleton, ih (n / 10) (by omega),
        digitChar_toNat _ (Nat.mod_lt _ (by norm_num))]
      omega

theorem digitsRef_length_le (k : Nat) : ∀ n, n < 10 ^ (k + 1) → (digitsRef n).length ≤ k + 1 := by
  induction k with
  | zero =>
    intro n h
    rw [digitsRef]; simp at h; simp [h]
  | succ k ih =>
    intro n h
    rw [digitsRef]
    split_ifs with h10
    · simp
    · have : n / 10 < 10 ^ (k + 1) := by
        rw [Nat.div_lt_iff_lt_mul (by norm_num)]
        calc n < 10 ^ (k + 1 + 1) := h
          _ = 10 ^ (k + 1) * 10 := by ring
      have := ih (n / 10) this
      simp; omega

theorem decVal_mono (s : List Char) : ∀ acc, acc ≤ decVal s acc := by
  induction s with
  | nil => intro acc; simp [decVal]
  | cons c s ih =>
    intro acc
    have := ih (acc * 10 + (c.toNat - 48))
    simp only [decVal, List.foldl_cons] at this ⊢
    omega

theorem parseUintLoop_digits (maxVal : Nat) (hmax : maxVal < 2 ^ 64) (s : List Char) :
    ∀ acc, allDigits s → decVal s acc ≤ maxVal →
      parseUintLoop maxVal s acc = .ok (decVal s acc) := by
  induction s with
  | nil => intro acc _ _; simp [parseUintLoop, decVal]
  | cons c s ih =>
    intro acc hd hle
    have hc := hd c (by simp)
    have hmono := decVal_mono s (acc * 10 + (c.toNat - 48))
    have hcons : decVal (c :: s) acc = decVal s (acc * 10 + (c.toNat - 48)) := by
      simp [decVal]
    rw [hcons] at hle
    rw [parseUintLoop, if_pos hc, hcons]
    have h1 : ¬ acc ≥ (2 ^ 64 - 1) / 10 + 1 := by
      norm_num at hmax ⊢; omega
    rw [if_neg h1]
    have h2 : ¬ (acc * 10 + (c.toNat - 48) ≥ 2 ^ 64 ∨ acc * 10 + (c.toNat - 48) > maxVal) := by
      norm_num at hmax ⊢; omega
    simp only []
    rw [if_neg h2]
    exact ih _ (fun d hd' => hd d (by simp [hd'])) hle

theorem decVal_zeros (k : Nat) (s : List Char) :
    decVal (List.replicate k '0' ++ s) 0 = decVal s 0 := by
  induction k with
  | zero => simp
  | succ k ih =>
    simp only [List.replicate_succ, List.cons_append]
    have : decVal ('0' :: (List.replicate k '0' ++ s)) 0 = decVal (List.replicate k '0' ++ s) 0 := by
      simp [decVal]
    rw [this, ih]

end NumberLemmas

/-! ### Splitting and joining -/

section SplitLemmas

theorem startsWith_iff (s p : List Char) : startsWith s p = true ↔ p <+: s := by
  induction p generalizing s with
  | nil => simp [startsWith]
  | cons d p ih =>
    cases s with
    | nil => simp [startsWith]
    | cons c s =>
      simp only [startsWith, Bool.and_eq_true, beq_iff_eq, ih, List.cons_prefix_cons]
      constructor
      · rintro ⟨h1, h2⟩; exact ⟨h1.symm, h2⟩
      · rintro ⟨h1, h2⟩; exact ⟨h1.symm, h2⟩

theorem endsWith_iff (s p : List Char) : endsWith s p = true ↔ p <:+ s := by
  rw [endsWith, startsWith_iff, List.reverse_prefix]

theorem splitOn_nil (c : Char) : splitOn [c] [] = [[]] := rfl

theorem splitOn_cons (c d : Char) (s : List Char) :
    splitOn [c] (d :: s) = if d = c then [] :: splitOn [c] s else consField d (splitOn [c] s) := by
  simp only [splitOn, splitOnAux, startsWith, Bool.and_true, beq_iff_eq, List.length_singleton,
    Nat.sub_self]

theorem splitOn_ne_nil (c : Char) (s : List Char) : splitOn [c] s ≠ [] := by
  induction s with
  | nil => simp [splitOn_nil]
  | cons d s ih =>
    rw [splitOn_cons]
    split_ifs
    · simp
    · cases h : splitOn [c] s with
      | nil => exact absurd h ih
      | cons f r => simp [consField]

theorem joinWith_cons_ne_nil (sep f : List Char) (r : List (List Char)) (h : r ≠ []) :
    joinWith sep (f :: r) = f ++ sep ++ joinWith sep r := by
  cases r with
  | nil => exact absurd rfl h
  | cons g r => rfl

theorem joinWith_consField (c : Char) (d : Char) (fs : List (List Char)) (h : fs ≠ []) :
    joinWith [c] (consField d fs) = d :: joinWith [c] fs := by
  cases fs with
  | nil => exact absurd rfl h
  | cons f r =>
    cases r with
    | nil => rfl
    | cons g r => rfl

theorem joinWith_splitOn (c : Char) (s : List Char) : joinWith [c] (splitOn [c] s) = s := by
  induction s with
  | nil => rfl
  | cons d s ih =>
    rw [splitOn_cons]
    split_ifs with h
    · rw [joinWith_cons_ne_nil _ _ _ (splitOn_ne_nil c s), ih, h]; rfl
    · rw [joinWith_consField _ _ _ (splitOn_ne_nil c s), ih]

theorem splitOn_free (c : Char) (f : List Char) (h : c ∉ f) : splitOn [c] f = [f] := by
  induction f with
  | nil => rfl
  | cons d f ih =>
    simp only [List.mem_cons, not_or] at h
    rw [splitOn_cons, if_neg (fun e => h.1 e.symm), ih h.2]; rfl

theorem splitOn_append (c : Char) (a r : List Char) :
    splitOn [c] (a ++ c :: r) = splitOn [c] a ++ splitOn [c] r := by
  induction a with
  | nil => simp [splitOn_cons, splitOn_nil]
  | cons d a ih =>
    simp only [List.cons_append, splitOn_cons, ih]
    split_ifs
    · rfl
    · cases h : splitOn [c] a with
      | nil => exact absurd h (splitOn_ne_nil c a)
      | cons f t => rfl

theorem splitOn_joinWith (c : Char) (fs : List (List Char)) (hne : fs ≠ [])
    (h : ∀ f ∈ fs, c ∉ f) : splitOn [c] (joinWith [c] fs) = fs := by
  induction fs with
  | nil => exact absurd rfl hne
  | cons f r ih =>
    cases r with
    | nil => simpa [joinWith] using splitOn_free c f (h f (by simp))
    | cons g r =>
      rw [joinWith_cons_ne_nil _ _ _ (by simp), List.append_assoc]
      show splitOn [c] (f ++ c :: joinWith [c] (g :: r)) = _
      rw [splitOn_append, splitOn_free c f (h f (by simp)),
        ih (by simp) (fun x hx => h x (List.mem_cons_of_mem _ hx))]
      rfl

theorem joinWith_append_singleton (sep : List Char) (fs : List (List Char)) (f : List Char)
    (h : fs ≠ []) : joinWith sep (fs ++ [f]) = joinWith sep fs ++ sep ++ f := by
  induction fs with
  | nil => exact absurd rfl h
  | cons g r ih =>
    cases r with
    | nil => rfl
    | cons g2 r =>
      have := ih (by simp)
      have e1 : joinWith sep (g :: ((g2 :: r) ++ [f]))
          = g ++ sep ++ joinWith sep ((g2 :: r) ++ [f]) := joinWith_cons_ne_nil _ _ _ (by simp)
      have e2 : joinWith sep (g :: g2 :: r) = g ++ sep ++ joinWith sep (g2 :: r) := rfl
      show joinWith sep (g :: ((g2 :: r) ++ [f])) = _
      rw [e1, e2, this]
      simp [List.append_assoc]

/-- A text whose split has at least two fields ends with the separator and the last
field. -/
theorem suffix_of_split_last (c : Char) (s f : List Char) (h2 : 2 ≤ (splitOn [c] s).length)
    (hl : (splitOn [c] s).getLast? = some f) : (c :: f) <:+ s := by
  have hj := joinWith_splitOn c s
  rcases List.eq_nil_or_concat (splitOn [c] s) with h | ⟨init, l, h⟩
  · exact absurd h (splitOn_ne_nil c s)
  · rw [h] at hl h2 hj
    rw [List.concat_eq_append] at hl h2 hj
    simp at hl
    subst hl
    have hinit : init ≠ [] := by
      intro e; subst e; simp at h2
    rw [joinWith_append_singleton _ _ _ hinit] at hj
    exact ⟨joinWith [c] init, by rw [← hj]; simp⟩


theorem splitOn_length_le (c : Char) (s : List Char) : (splitOn [c] s).length ≤ s.length + 1 := by
  induction s with
  | nil => simp [splitOn_nil]
  | cons d s ih =>
    rw [splitOn_cons]
    split_ifs
    · simp; omega
    · cases h : splitOn [c] s with
      | nil => simp [consField]
      | cons f r => rw [h] at ih; simp [consField] at ih ⊢; omega

theorem take_of_startsWith (s p : List Char) (h : startsWith s p = true) :
    s.take p.length = p := by
  rw [startsWith_iff] at h
  obtain ⟨t, rfl⟩ := h
  simp

end SplitLemmas


/-! ### Frames -/

section FrameLemmas
open strconv gemsV14

theorem FormatPad10_length (n : Nat) (h : n < 10 ^ 10) : (FormatPad10 n).length = 10 := by
  have := digitsRef_length_le 9 n h
  simp [FormatPad10, FormatUint_eq]
  omega

theorem FormatPad10_length_ge (n : Nat) : 10 ≤ (FormatPad10 n).length := by
  simp [FormatPad10]
  omega

theorem FormatPad10_allDigits (n : Nat) : allDigits (FormatPad10 n) := by
  intro c hc
  simp only [FormatPad10, FormatUint_eq, List.mem_append, List.mem_replicate] at hc
  rcases hc with ⟨_, hc⟩ | hc
  · subst hc; decide
  · exact digitsRef_allDigits n c hc

theorem parseUintCore_FormatPad10 (n : Nat) (h : n < 2 ^ 64) :
    parseUintCore (FormatPad10 n) 64 = .ok n := by
  have hne : FormatPad10 n ≠ [] := by
    simp [FormatPad10, FormatUint_eq, digitsRef_ne_nil]
  have hv : decVal (FormatPad10 n) 0 = n := by
    rw [FormatPad10, decVal_zeros, FormatUint_eq, decVal_digitsRef]
  have := parseUintLoop_digits (2 ^ 64 - 1) (by norm_num) (FormatPad10 n) 0
    (FormatPad10_allDigits n) (by rw [hv]; omega)
  rw [parseUintCore, if_neg hne, this, hv]

theorem ParseUint_FormatPad10 (n : Nat) (h : n < 2 ^ 64) :
    ParseUint (FormatPad10 n) 64 = .ok n := by
  rw [ParseUint, parseUintCore_FormatPad10 n h]

/-- Every message encoder either hands its content to `marshalASCIIMessage` or fails
without writing. -/
theorem Message.MarshalASCII_cases (lib : GoLib) (m : Message) (b : List Char) :
    (∃ content, m.MarshalASCII lib b = marshalASCIIMessage b m.header content)
      ∨ (∃ e, m.MarshalASCII lib b = (b, some e)) := by
  cases m with
  | GetConfigMessage h ps =>
    simp only [Message.MarshalASCII, Message.header]
    split_ifs
    · exact Or.inl ⟨_, rfl⟩
    · exact Or.inl ⟨_, rfl⟩
  | SetConfigMessage h ps =>
    simp only [Message.MarshalASCII, Message.header]
    split_ifs
    · exact Or.inr ⟨_, rfl⟩
    · exact Or.inl ⟨_, rfl⟩
  | DirectiveMessage h d args =>
    cases args <;> exact Or.inl ⟨_, rfl⟩
  | DirectiveResponse h r d args =>
    cases args <;> exact Or.inl ⟨_, rfl⟩
  | _ => exact Or.inl ⟨_, rfl⟩

/-- Every frame that a message encoder produces has the layout of `marshalASCIIMessage`. -/
theorem marshalMessage_layout (lib : GoLib) (m : Message) (S : List Char)
    (h : marshalMessage lib m = .ok S) :
    ∃ msg : List Char, S = "|GEMS|14|".toList ++ FormatPad10 (20 + msg.length) ++ '|' :: msg := by
  unfold marshalMessage at h
  rcases Message.MarshalASCII_cases lib m [] with ⟨content, hc⟩ | ⟨e, hc⟩
  · rw [hc] at h
    simp only [marshalASCIIMessage] at h
    injection h with h
    exact ⟨_, by rw [← h]; rfl⟩
  · rw [hc] at h
    simp at h

theorem take_drop_frame (p a r : List Char) (hp : p.length = 9) (ha : a.length = 10) :
    ((p ++ a ++ r).drop 9).take 10 = a := by
  rw [List.append_assoc, ← hp, List.drop_left, ← ha, List.take_left]


theorem FormatUint_ne_nil (n : Nat) : FormatUint n ≠ [] := by
  rw [FormatUint_eq]; exact digitsRef_ne_nil n

theorem FormatUint_allDigits (n : Nat) : allDigits (FormatUint n) := by
  rw [FormatUint_eq]; exact digitsRef_allDigits n

theorem parseUintCore_FormatUint (n bits : Nat) (hb : bits ≤ 64) (h : n < 2 ^ bits) :
    parseUintCore (FormatUint n) bits = .ok n := by
  have hpow : 2 ^ bits ≤ 2 ^ 64 := Nat.pow_le_pow_right (by norm_num) hb
  have hv : decVal (FormatUint n) 0 = n := by rw [FormatUint_eq, decVal_digitsRef]
  have := parseUintLoop_digits (2 ^ bits - 1) (by omega) (FormatUint n) 0
    (FormatUint_allDigits n) (by rw [hv]; omega)
  rw [parseUintCore, if_neg (FormatUint_ne_nil n), this, hv]

theorem head_digit_of_allDigits (s : List Char) (hs : allDigits s) (c : Char)
    (hc : ¬ (48 ≤ c.toNat ∧ c.toNat ≤ 57)) : s.head? ≠ some c := by
  cases s with
  | nil => simp
  | cons d t =>
    simp only [List.head?_cons, ne_eq, Option.some.injEq]
    intro e; subst e
    exact hc (hs d (by simp))

theorem parseIntCore_neg (fn : List Char) (n bits : Nat) (hb : bits ≤ 64)
    (h : n ≤ 2 ^ (bits - 1)) (hlt : n < 2 ^ bits) :
    parseIntCore fn ('-' :: FormatUint n) bits = .ok (-(n : Int)) := by
  unfold parseIntCore
  rw [if_neg (by simp)]
  simp only [List.head?_cons, List.tail_cons, or_true, if_true, decide_True]
  rw [parseUintCore_FormatUint _ bits hb hlt]
  simp only [Bool.not_true, Bool.false_eq_true, false_and, if_false, true_and]
  rw [if_neg (by omega)]

theorem parseIntCore_pos (fn : List Char) (n bits : Nat) (hb : bits ≤ 64)
    (h : n < 2 ^ (bits - 1)) (hlt : n < 2 ^ bits) :
    parseIntCore fn (FormatUint n) bits = .ok (n : Int) := by
  have hd := FormatUint_allDigits n
  have h1 : (FormatUint n).head? ≠ some '-' := head_digit_of_allDigits _ hd '-' (by decide)
  have h2 : (FormatUint n).head? ≠ some '+' := head_digit_of_allDigits _ hd '+' (by decide)
  unfold parseIntCore
  rw [if_neg (FormatUint_ne_nil _)]
  simp only [h1, h2, or_self, if_false, decide_False]
  rw [parseUintCore_FormatUint _ bits hb hlt]
  simp only [Bool.not_false, true_and, Bool.false_eq_true, false_and, if_false]
  rw [if_neg (by omega)]

theorem parseIntCore_FormatInt (fn : List Char) (i : Int) (bits : Nat) (hb1 : 1 ≤ bits)
    (hb : bits ≤ 64) (hlo : -(2 ^ (bits - 1) : Int) ≤ i) (hhi : i < (2 ^ (bits - 1) : Int)) :
    parseIntCore fn (FormatInt i) bits = .ok i := by
  have hpow : (2 : Nat) ^ (bits - 1) < 2 ^ bits :=
    Nat.pow_lt_pow_right (by norm_num) (by omega)
  have hcast : (2 : Int) ^ (bits - 1) = ((2 ^ (bits - 1) : Nat) : Int) := by push_cast; rfl
  rw [hcast] at hlo hhi
  have hn : i < 0 → i.natAbs ≤ 2 ^ (bits - 1) := by
    intro hneg
    generalize (2 : Nat) ^ (bits - 1) = P at hlo hhi
    omega
  have hp : ¬ i < 0 → i.natAbs < 2 ^ (bits - 1) := by
    intro hneg
    generalize (2 : Nat) ^ (bits - 1) = P at hlo hhi
    omega
  unfold FormatInt
  by_cases hneg : i < 0
  · rw [if_pos hneg, parseIntCore_neg fn _ bits hb (hn hneg) (lt_of_le_of_lt (hn hneg) hpow)]
    congr 1; omega
  · rw [if_neg hneg, parseIntCore_pos fn _ bits hb (hp hneg) (lt_trans (hp hneg) hpow)]
    congr 1; omega

theorem ParseUint_FormatInt (i : Int) (bits : Nat) (hb : bits ≤ 64) (hlo : 0 ≤ i)
    (hhi : i < (2 ^ bits : Int)) :
    ParseUint (FormatInt i) bits = .ok i.natAbs := by
  have hcast : (2 : Int) ^ bits = ((2 ^ bits : Nat) : Int) := by push_cast; rfl
  rw [hcast] at hhi
  have hlt : i.natAbs < 2 ^ bits := by
    generalize (2 : Nat) ^ bits = Q at hhi
    omega
  unfold ParseUint FormatInt
  rw [if_neg (by omega), parseUintCore_FormatUint _ bits hb hlt]

theorem FormatInt_chars (i : Int) : ∀ c ∈ FormatInt i, c = '-' ∨ (48 ≤ c.toNat ∧ c.toNat ≤ 57) := by
  intro c hc
  unfold FormatInt at hc
  split_ifs at hc
  · simp only [List.mem_cons] at hc
    rcases hc with hc | hc
    · exact Or.inl hc
    · exact Or.inr (FormatUint_allDigits _ c hc)
  · exact Or.inr (FormatUint_allDigits _ c hc)

theorem FormatInt_ne_nil (i : Int) : FormatInt i ≠ [] := by
  unfold FormatInt
  split_ifs
  · simp
  · exact FormatUint_ne_nil _

theorem ParseBool_FormatBool (b : Bool) : ParseBool (FormatBool b) = .ok b := by
  cases b <;> rfl

end FrameLemmas




/-! ### Encoders only append -/

section MarshalLemmas
open strconv gemsV14

theorem slice_nil (lib : GoLib) (b : List Char) :
    Value.MarshalASCII.slice lib [] b = (b, none) := by
  simp only [Value.MarshalASCII.slice]

theorem slice_cons_set (lib : GoLib) (vs : List Value) (m : gems.NullInt32) (n : List Char)
    (t : gems.Datatype) (r : List Value) (b : List Char) :
    Value.MarshalASCII.slice lib (.vParameterSet vs m n t :: r) b =
    andThen (Value.MarshalASCII.slice lib vs b) (fun b1 =>
      if r.length > 0 then Value.MarshalASCII.slice lib r (b1 ++ [','])
      else Value.MarshalASCII.slice lib r b1) := by
  simp [Value.MarshalASCII.slice, Value.Type]

theorem slice_cons_param (lib : GoLib) (vs : List Value) (m : gems.NullInt32) (n : List Char)
    (t : gems.Datatype) (r : List Value) (b : List Char) :
    Value.MarshalASCII.slice lib (.vParameter vs m n t :: r) b =
    andThen (Value.MarshalASCII lib (.vParameter vs m n t) b) (fun b1 =>
      Value.MarshalASCII.slice lib r (b1 ++ [';'])) := by
  simp [Value.MarshalASCII.slice, Value.Type]

theorem slice_cons_scalar (lib : GoLib) (v : Value) (r : List Value) (b : List Char)
    (h1 : v.Type ≠ .ParameterType) (h2 : v.Type ≠ .ParameterSetType) :
    Value.MarshalASCII.slice lib (v :: r) b =
    andThen (Value.MarshalASCII lib v b) (fun b1 =>
      if r.length > 0 then Value.MarshalASCII.slice lib r (b1 ++ [','])
      else Value.MarshalASCII.slice lib r b1) := by
  cases v <;> first
    | exact absurd rfl h1
    | exact absurd rfl h2
    | simp [Value.MarshalASCII.slice, Value.Type]

theorem SafeWrite_append (b val : List Char) :
    ascii.SafeWrite b val = (b ++ (ascii.SafeWrite [] val).1, (ascii.SafeWrite [] val).2) := by
  unfold ascii.SafeWrite
  split_ifs <;> simp

theorem Appends.andThen {f : List Char → List Char × Option GoError}
    {k : List Char → List Char → List Char × Option GoError}
    (hf : Appends f) (hk : ∀ b b1, k b (b ++ b1) = (b ++ (k [] b1).1, (k [] b1).2)) :
    Appends (fun b => gemsV14.andThen (f b) (k b)) := by
  intro b
  show gemsV14.andThen (f b) (k b) = (b ++ (gemsV14.andThen (f []) (k [])).1,
    (gemsV14.andThen (f []) (k [])).2)
  rw [hf b]
  rcases f [] with ⟨w, _ | err⟩
  · simp only [gemsV14.andThen]
    have := hk b w
    simpa using this
  · simp [gemsV14.andThen]

theorem Appends.shift {f : List Char → List Char × Option GoError} (hf : Appends f)
    (b y : List Char) : f (b ++ y) = (b ++ (f y).1, (f y).2) := by
  rw [hf (b ++ y), hf y]; simp

theorem slice_appends_scalar_step (lib : GoLib) (v : Value) (r : List Value)
    (h1 : v.Type ≠ .ParameterType) (h2 : v.Type ≠ .ParameterSetType)
    (hv : Appends (Value.MarshalASCII lib v)) (hr : Appends (Value.MarshalASCII.slice lib r)) :
    Appends (Value.MarshalASCII.slice lib (v :: r)) := by
  have : Value.MarshalASCII.slice lib (v :: r) = fun b =>
      gemsV14.andThen (Value.MarshalASCII lib v b) ((fun _ b1 =>
    if r.length > 0 then Value.MarshalASCII.slice lib r (b1 ++ [','])
    else Value.MarshalASCII.slice lib r b1) b) := by
    funext b; exact slice_cons_scalar lib v r b h1 h2
  rw [this]
  apply Appends.andThen hv
  intro b b1
  split_ifs <;> simp [List.append_assoc, hr.shift]

mutual
theorem MarshalASCII_appends (lib : GoLib) : ∀ (v : Value), Appends (Value.MarshalASCII lib v)
  | .vString d e => by
    intro b
    simp only [Value.MarshalASCII]
    split_ifs
    · simp
    · exact SafeWrite_append b _
  | .vBoolean d e => by intro b; simp only [Value.MarshalASCII]; split_ifs <;> simp
  | .vByte d e => by intro b; simp only [Value.MarshalASCII]; split_ifs <;> simp
  | .vUbyte d e => by intro b; simp only [Value.MarshalASCII]; split_ifs <;> simp
  | .vShort d e => by intro b; simp only [Value.MarshalASCII]; split_ifs <;> simp
  | .vUshort d e => by intro b; simp only [Value.MarshalASCII]; split_ifs <;> simp
  | .vInt d e => by intro b; simp only [Value.MarshalASCII]; split_ifs <;> simp
  | .vUint d e => by intro b; simp only [Value.MarshalASCII]; split_ifs <;> simp
  | .vLong d e => by intro b; simp only [Value.MarshalASCII]; split_ifs <;> simp
  | .vUlong d e => by intro b; simp only [Value.MarshalASCII]; split_ifs <;> simp
  | .vDouble d e => by intro b; simp only [Value.MarshalASCII]; split_ifs <;> simp
  | .vHexValue d bl e => by intro b; simp only [Value.MarshalASCII]; split_ifs <;> simp
  | .vTime d e => by intro b; simp only [Value.MarshalASCII]; split_ifs <;> simp
  | .vUtime d e => by intro b; simp only [Value.MarshalASCII]; split_ifs <;> simp
  | .vParameter vs m n t => by
    have hs := slice_appends lib vs
    have : Value.MarshalASCII lib (.vParameter vs m n t) = fun b =>
        gemsV14.andThen (ascii.SafeWrite b (escape n)) ((fun _ b1 =>
      if ValueType vs = .UndefinedType then
        if vs.length = 0 then (b1, none)
        else (b1, some (.MarshalError "cannot marshal a Parameter of undefined type".toList))
      else
        Value.MarshalASCII.slice lib vs (b1 ++ ':' :: (ValueType vs).ASCIIName ++
          (if !m.Valid then ['='] else '[' :: strconv.FormatInt m.Int32 ++ "]=".toList))) b) := by
      funext b; simp only [Value.MarshalASCII]
    rw [this]
    apply Appends.andThen (fun b => SafeWrite_append b _)
    intro b b1
    split_ifs
    · simp
    · simp
    · exact hs.shift b _ |>.symm ▸ by simp [List.append_assoc, hs.shift]
    · exact hs.shift b _ |>.symm ▸ by simp [List.append_assoc, hs.shift]
  | .vParameterSet vs m n t => by
    have hs := slice_appends lib vs
    have : Value.MarshalASCII lib (.vParameterSet vs m n t) = fun b =>
        gemsV14.andThen (ascii.SafeWrite b (escape n)) ((fun _ b1 =>
        Value.MarshalASCII.slice lib vs (b1 ++ ':' :: gems.Datatype.ParameterSetType.ASCIIName ++
          (if !m.Valid then ['='] else '[' :: strconv.FormatInt m.Int32 ++ "]=".toList))) b) := by
      funext b; simp only [Value.MarshalASCII]
    rw [this]
    apply Appends.andThen (fun b => SafeWrite_append b _)
    intro b b1
    simp [List.append_assoc, hs.shift]
theorem slice_appends (lib : GoLib) : ∀ (vs : List Value), Appends (Value.MarshalASCII.slice lib vs)
  | [] => by intro b; simp [slice_nil]
  | .vParameterSet vs m n t :: r => by
    have hr := slice_appends lib r
    have hv := slice_appends lib vs
    have : Value.MarshalASCII.slice lib (.vParameterSet vs m n t :: r) = fun b =>
        gemsV14.andThen (Value.MarshalASCII.slice lib vs b) ((fun _ b1 =>
      if r.length > 0 then Value.MarshalASCII.slice lib r (b1 ++ [','])
      else Value.MarshalASCII.slice lib r b1) b) := by
      funext b; exact slice_cons_set ..
    rw [this]
    apply Appends.andThen hv
    intro b b1
    split_ifs <;> simp [List.append_assoc, hr.shift]
  | .vParameter vs m n t :: r => by
    have hr := slice_appends lib r
    have hv := MarshalASCII_appends lib (.vParameter vs m n t)
    have : Value.MarshalASCII.slice lib (.vParameter vs m n t :: r) = fun b =>
        gemsV14.andThen (Value.MarshalASCII lib (.vParameter vs m n t) b) ((fun _ b1 =>
      Value.MarshalASCII.slice lib r (b1 ++ [';'])) b) := by
      funext b; exact slice_cons_param ..
    rw [this]
    apply Appends.andThen hv
    intro b b1
    simp [List.append_assoc, hr.shift]
  | .vString d e :: r =>
    slice_appends_scalar_step lib _ r (by simp [Value.Type]) (by simp [Value.Type])
      (MarshalASCII_appends lib (.vString d e)) (slice_appends lib r)
  | .vBoolean d e :: r =>
    slice_appends_scalar_step lib _ r (by simp [Value.Type]) (by simp [Value.Type])
      (MarshalASCII_appends lib (.vBoolean d e)) (slice_appends lib r)
  | .vByte d e :: r =>
    slice_appends_scalar_step lib _ r (by simp [Value.Type]) (by simp [Value.Type])
      (MarshalASCII_appends lib (.vByte d e)) (slice_appends lib r)
  | .vUbyte d e :: r =>
    slice_appends_scalar_step lib _ r (by simp [Value.Type]) (by simp [Value.Type])
      (MarshalASCII_appends lib (.vUbyte d e)) (slice_appends lib r)
  | .vShort d e :: r =>
    slice_appends_scalar_step lib _ r (by simp [Value.Type]) (by simp [Value.Type])
      (MarshalASCII_appends lib (.vShort d e)) (slice_appends lib r)
  | .vUshort d e :: r =>
    slice_appends_scalar_step lib _ r (by simp [Value.Type]) (by simp [Value.Type])
      (MarshalASCII_appends lib (.vUshort d e)) (slice_appends lib r)
  | .vInt d e :: r =>
    slice_appends_scalar_step lib _ r (by simp [Value.Type]) (by simp [Value.Type])
      (MarshalASCII_appends lib (.vInt d e)) (slice_appends lib r)
  | .vUint d e :: r =>
    slice_appends_scalar_step lib _ r (by simp [Value.Type]) (by simp [Value.Type])
      (MarshalASCII_appends lib (.vUint d e)) (slice_appends lib r)
  | .vLong d e :: r =>
    slice_appends_scalar_step lib _ r (by simp [Value.Type]) (by simp [Value.Type])
      (MarshalASCII_appends lib (.vLong d e)) (slice_appends lib r)
  | .vUlong d e :: r =>
    slice_appends_scalar_step lib _ r (by simp [Value.Type]) (by simp [Value.Type])
      (MarshalASCII_appends lib (.vUlong d e)) (slice_appends lib r)
  | .vDouble d e :: r =>
    slice_appends_scalar_step lib _ r (by simp [Value.Type]) (by simp [Value.Type])
      (MarshalASCII_appends lib (.vDouble d e)) (slice_appends lib r)
  | .vTime d e :: r =>
    slice_appends_scalar_step lib _ r (by simp [Value.Type]) (by simp [Value.Type])
      (MarshalASCII_appends lib (.vTime d e)) (slice_appends lib r)
  | .vUtime d e :: r =>
    slice_appends_scalar_step lib _ r (by simp [Value.Type]) (by simp [Value.Type])
      (MarshalASCII_appends lib (.vUtime d e)) (slice_appends lib r)
  | .vHexValue d bl e :: r =>
    slice_appends_scalar_step lib _ r (by simp [Value.Type]) (by simp [Value.Type])
      (MarshalASCII_appends lib (.vHexValue d bl e)) (slice_appends lib r)
end


theorem escapeByte_no_pipe (c : Char) : '|' ∉ escapeByte c := by
  unfold escapeByte
  split_ifs with h1 h2 h3 h4 <;> simp
  · exact fun h => h2 h.symm

theorem escape_no_pipe (s : List Char) : '|' ∉ escape s := by
  induction s with
  | nil => simp [escape]
  | cons c s ih =>
    simp only [escape, List.mem_append, not_or]
    exact ⟨escapeByte_no_pipe c, ih⟩

theorem Valid_iff (s : List Char) : ascii.Valid s = true ↔ ∀ c ∈ s, c.toNat ≤ 127 := by
  simp [ascii.Valid, List.all_eq_true]

theorem Valid_escape (s : List Char) (h : ascii.Valid s = true) : ascii.Valid (escape s) = true := by
  rw [Valid_iff] at h ⊢
  induction s with
  | nil => simp [escape]
  | cons c s ih =>
    intro d hd
    simp only [escape, List.mem_append] at hd
    rcases hd with hd | hd
    · have hc := h c (by simp)
      unfold escapeByte at hd
      split_ifs at hd <;> simp at hd
      all_goals first
        | (rcases hd with hd | hd <;> subst hd <;> decide)
        | (subst hd; exact hc)
    · exact ih (fun x hx => h x (by simp [hx])) d hd

theorem SafeWrite_escape (b n : List Char) (h : ascii.Valid n = true) :
    ascii.SafeWrite b (escape n) = (b ++ escape n, none) := by
  have hp := escape_no_pipe n
  unfold ascii.SafeWrite
  rw [if_neg, if_neg]
  · simp [Valid_escape n h]
  · rintro (h1 | h1) <;> rw [h1] at hp <;> simp at hp

theorem Value.Type_ne_undefined (v : Value) : v.Type ≠ .UndefinedType := by
  cases v <;> simp [Value.Type]

theorem valueTypeLoop_const (T : gems.Datatype) (vs : List Value)
    (h : ∀ v ∈ vs, v.Type = T) : valueTypeLoop vs T = T := by
  induction vs with
  | nil => rfl
  | cons v r ih =>
    have hv := h v (by simp)
    have hT : T ≠ .UndefinedType := hv ▸ Value.Type_ne_undefined v
    simp only [valueTypeLoop, if_neg hT, hv, ne_eq, not_true_eq_false, if_false]
    exact ih (fun x hx => h x (by simp [hx]))

theorem ValueType_of_same (T : gems.Datatype) (vs : List Value) (hne : vs ≠ [])
    (h : ∀ v ∈ vs, v.Type = T) : ValueType vs = T := by
  cases vs with
  | nil => exact absurd rfl hne
  | cons v r =>
    have hv := h v (by simp)
    simp only [ValueType, valueTypeLoop, if_true, hv, ne_eq, not_true_eq_false, if_false]
    exact valueTypeLoop_const T r (fun x hx => h x (by simp [hx]))

theorem MarshalASCII_ok (lib : GoLib) (v : Value) (b : List Char)
    (h : (Value.MarshalASCII lib v []).2 = none) :
    Value.MarshalASCII lib v b = (b ++ (Value.MarshalASCII lib v []).1, none) := by
  rw [MarshalASCII_appends lib v b, h]

theorem slice_scalars (lib : GoLib) (vs : List Value) :
    ∀ b, (∀ v ∈ vs, v.Type ≠ .ParameterType ∧ v.Type ≠ .ParameterSetType
        ∧ (Value.MarshalASCII lib v []).2 = none) →
      Value.MarshalASCII.slice lib vs b
        = (b ++ joinWith ",".toList (vs.map (fun v => (Value.MarshalASCII lib v []).1)), none) := by
  induction vs with
  | nil => intro b _; simp [slice_nil, joinWith]
  | cons v r ih =>
    intro b h
    obtain ⟨h1, h2, h3⟩ := h v (by simp)
    have hr : ∀ w ∈ r, w.Type ≠ .ParameterType ∧ w.Type ≠ .ParameterSetType
        ∧ (Value.MarshalASCII lib w []).2 = none := fun w hw => h w (by simp [hw])
    rw [slice_cons_scalar lib v r b h1 h2, MarshalASCII_ok lib v b h3]
    simp only [gemsV14.andThen]
    cases r with
    | nil => simp [slice_nil, joinWith]
    | cons w t =>
      rw [if_pos (by simp), ih _ hr]
      simp [joinWith, List.append_assoc]

theorem slice_params (lib : GoLib) (vs : List Value) :
    ∀ b, (∀ v ∈ vs, v.Type = .ParameterType ∧ (Value.MarshalASCII lib v []).2 = none) →
      Value.MarshalASCII.slice lib vs b
        = (b ++ (vs.map (fun v => (Value.MarshalASCII lib v []).1 ++ [';'])).flatten, none) := by
  induction vs with
  | nil => intro b _; simp [slice_nil]
  | cons v r ih =>
    intro b h
    obtain ⟨h1, h3⟩ := h v (by simp)
    have hr : ∀ w ∈ r, w.Type = .ParameterType ∧ (Value.MarshalASCII lib w []).2 = none :=
      fun w hw => h w (by simp [hw])
    cases v <;> simp [Value.Type] at h1
    rw [slice_cons_param, MarshalASCII_ok lib _ b h3]
    simp only [gemsV14.andThen]
    rw [ih _ hr]
    simp [List.append_assoc]

theorem slice_sets (lib : GoLib) (groups : List ParameterSet) :
    ∀ b, (∀ g ∈ groups, ∀ v ∈ g.Values,
        v.Type = .ParameterType ∧ (Value.MarshalASCII lib v []).2 = none) →
      Value.MarshalASCII.slice lib (groups.map ParameterSet.toValue) b
        = (b ++ joinWith ",".toList (groups.map (fun g =>
            (g.Values.map (fun v => (Value.MarshalASCII lib v []).1 ++ [';'])).flatten)), none) := by
  induction groups with
  | nil => intro b _; simp [slice_nil, joinWith]
  | cons g r ih =>
    intro b h
    have hg := h g (by simp)
    have hr : ∀ g ∈ r, ∀ v ∈ g.Values,
        v.Type = .ParameterType ∧ (Value.MarshalASCII lib v []).2 = none :=
      fun w hw => h w (by simp [hw])
    simp only [List.map_cons, ParameterSet.toValue]
    rw [slice_cons_set, slice_params lib g.Values b hg]
    simp only [gemsV14.andThen]
    cases r with
    | nil => simp [slice_nil, joinWith]
    | cons w t =>
      rw [if_pos (by simp)]
      rw [ih _ hr]
      simp [joinWith, List.append_assoc]

end MarshalLemmas


/-! ### The parameter builder -/

section BuilderLemmas
open strconv gemsV14

theorem buildTypeLoop_spec (vs : List Value) : ∀ (typ T : gems.Datatype),
    buildTypeLoop vs typ = some T →
      (typ ≠ .UndefinedType → typ = T) ∧ ∀ v ∈ vs, v.Type = T := by
  induction vs with
  | nil =>
    intro typ T h
    simp [buildTypeLoop] at h
    simp [h]
  | cons v r ih =>
    intro typ T h
    simp only [buildTypeLoop] at h
    by_cases hu : typ = .UndefinedType
    · rw [if_pos hu] at h
      simp only [ne_eq, not_true_eq_false, if_false] at h
      obtain ⟨h1, h2⟩ := ih _ _ h
      have hv := h1 (Value.Type_ne_undefined v)
      refine ⟨fun hn => absurd hu hn, ?_⟩
      intro w hw
      simp only [List.mem_cons] at hw
      rcases hw with rfl | hw
      · exact hv
      · exact h2 w hw
    · rw [if_neg hu] at h
      by_cases hne : typ ≠ v.Type
      · rw [if_pos hne] at h; exact absurd h (by simp)
      · rw [if_neg hne] at h
        push_neg at hne
        obtain ⟨h1, h2⟩ := ih _ _ h
        have ht := h1 hu
        refine ⟨fun _ => ht, ?_⟩
        intro w hw
        simp only [List.mem_cons] at hw
        rcases hw with rfl | hw
        · rw [← hne, ht]
        · exact h2 w hw

theorem containsWhitespace_false (name : List Char) (h : containsWhitespace name = false) :
    ∀ c ∈ name, c ≠ ' ' ∧ c ≠ '\t' ∧ c ≠ '\n' ∧ c ≠ '\r' ∧ c ≠ Char.ofNat 11
      ∧ c ≠ Char.ofNat 12 := by
  intro c hc
  simp only [containsWhitespace, List.any_eq_false] at h
  have := h c hc
  simpa [not_or] using this

theorem Parameter_Validate_none (lib : GoLib) (p : Parameter) (h : p.Validate lib = none) :
    containsWhitespace p.name = false
    ∧ (p.Multiplicity.Valid = false → p.Values.length ≤ 1)
    ∧ (p.Multiplicity.Valid = true → 0 ≤ p.Multiplicity.Int32 →
        (p.Values.length : Int) ≤ p.Multiplicity.Int32)
    ∧ (∀ v ∈ p.Values, ascii.Valid (v.String lib) = true) := by
  unfold Parameter.Validate at h
  split_ifs at h with h1 h2 h3 h4
  all_goals
    refine ⟨by simpa using h1, ?_, ?_, ?_⟩
    · intro hm; simp [hm] at h2; exact h2
    · intro hm h0; simp only [hm, true_and, not_and, not_not] at h3
      by_contra hc
      have := h3 (by omega)
      omega
    · intro v hv
      simp only [List.any_eq_true, not_exists, not_and] at h4
      simpa using h4 v hv

theorem ParameterSet_Validate_none (lib : GoLib) (p : ParameterSet) (h : p.Validate lib = none) :
    containsWhitespace p.name = false
    ∧ (p.Multiplicity.Valid = false → p.Values.length ≤ 1)
    ∧ (p.Multiplicity.Valid = true → 0 ≤ p.Multiplicity.Int32 →
        (p.Values.length : Int) ≤ p.Multiplicity.Int32)
    ∧ (∀ v ∈ p.Values, ascii.Valid (v.String lib) = true) := by
  unfold ParameterSet.Validate at h
  split_ifs at h with h1 h2 h3 h4
  all_goals
    refine ⟨by simpa using h1, ?_, ?_, ?_⟩
    · intro hm; simp [hm] at h2; exact h2
    · intro hm h0; simp only [hm, true_and, not_and, not_not] at h3
      by_contra hc
      have := h3 (by omega)
      omega
    · intro v hv
      simp only [List.any_eq_true, not_exists, not_and] at h4
      simpa using h4 v hv

theorem Build_checks (lib : GoLib) (pb : ParameterBuilder) (P : XMLParameter)
    (h : pb.Build lib = (P, none)) :
    containsWhitespace P.Name = false
    ∧ (P.Multiplicity.Valid = false → P.Values.length ≤ 1)
    ∧ (P.Multiplicity.Valid = true → 0 ≤ P.Multiplicity.Int32 →
        (P.Values.length : Int) ≤ P.Multiplicity.Int32)
    ∧ (∀ v ∈ P.Values, ∀ w ∈ P.Values, v.Type = w.Type)
    ∧ (∀ v ∈ P.Values, ascii.Valid (v.String lib) = true) := by
  unfold ParameterBuilder.Build at h
  split at h
  · simp at h
  all_goals
    rename_i hb
    have hty := (buildTypeLoop_spec _ _ _ hb).2
    simp only [Prod.mk.injEq] at h
    obtain ⟨rfl, hval⟩ := h
    first
      | (obtain ⟨a1, a2, a3, a4⟩ := Parameter_Validate_none lib _ hval
         exact ⟨a1, a2, a3, fun v hv w hw => (hty v hv).trans (hty w hw).symm, a4⟩)
      | (obtain ⟨a1, a2, a3, a4⟩ := ParameterSet_Validate_none lib _ hval
         exact ⟨a1, a2, a3, fun v hv w hw => (hty v hv).trans (hty w hw).symm, a4⟩)

end BuilderLemmas

/-! ### Parameters read back -/

section ReadBackLemmas
open strconv gemsV14

theorem unescape_escape_id (s : List Char) : unescape (escape s) = s := by
  induction s with
  | nil => rfl
  | cons c s ih =>
    simp only [escape, escapeByte]
    split_ifs with h1 h2 h3 h4
    · subst h1; simp [unescape, ih]
    · subst h2; simp [unescape, ih]
    · subst h3; simp [unescape, ih]
    · subst h4; simp [unescape, ih]
    · cases hs : escape s with
      | nil =>
        rw [hs] at ih
        simp [unescape, ← ih]
      | cons d t =>
        rw [hs] at ih
        simp only [List.singleton_append, unescape]
        simp [h1, ih]

theorem escape_sepFree (s : List Char) : sepFree (escape s) := by
  induction s with
  | nil => intro c hc; simp [escape] at hc
  | cons d s ih =>
    intro c hc
    simp only [escape, List.mem_append] at hc
    rcases hc with hc | hc
    · unfold escapeByte at hc
      split_ifs at hc with h1 h2 h3 h4 <;> simp at hc
      · rcases hc with rfl | rfl <;> decide
      · rcases hc with rfl | rfl <;> decide
      · rcases hc with rfl | rfl <;> decide
      · rcases hc with rfl | rfl <;> decide
      · subst hc; exact ⟨h3, h4, h2⟩
    · exact ih c hc

theorem escape_keeps_free (x : Char) (hx1 : x ≠ '&') (hx2 : x ≠ 'a') (hx3 : x ≠ 'b')
    (hx4 : x ≠ 'c') (hx5 : x ≠ 'd') (s : List Char) (h : x ∉ s) : x ∉ escape s := by
  induction s with
  | nil => simp [escape]
  | cons d s ih =>
    simp only [List.mem_cons, not_or] at h
    simp only [escape, List.mem_append, not_or]
    refine ⟨?_, ih h.2⟩
    unfold escapeByte
    split_ifs <;> simp [hx1, hx2, hx3, hx4, hx5, h.1]

theorem escape_eq_nil (s : List Char) (h : escape s = []) : s = [] := by
  cases s with
  | nil => rfl
  | cons c s =>
    simp only [escape, escapeByte] at h
    split_ifs at h <;> simp at h

theorem indexOf_first (c : Char) (a r : List Char) (h : c ∉ a) :
    indexOf [c] (a ++ c :: r) = some a.length := by
  induction a with
  | nil => simp [indexOf, startsWith]
  | cons d a ih =>
    simp only [List.mem_cons, not_or] at h
    have hd : ¬ (d = c) := fun e => h.1 e.symm
    simp [indexOf, startsWith, hd, ih h.2]

theorem indexOf_none (c : Char) (a : List Char) (h : c ∉ a) : indexOf [c] a = none := by
  induction a with
  | nil => simp [indexOf]
  | cons d a ih =>
    simp only [List.mem_cons, not_or] at h
    have hd : ¬ (d = c) := fun e => h.1 e.symm
    simp [indexOf, startsWith, hd, ih h.2]

theorem cut_first (c : Char) (a r : List Char) (h : c ∉ a) :
    cut [c] (a ++ c :: r) = (a, r, true) := by
  simp [cut, indexOf_first c a r h]

theorem cut_none (c : Char) (a : List Char) (h : c ∉ a) : cut [c] a = (a, [], false) := by
  simp [cut, indexOf_none c a h]

theorem lastIndexByte_none (c : Char) (a : List Char) (h : c ∉ a) : lastIndexByte c a = none := by
  induction a with
  | nil => simp [lastIndexByte]
  | cons d a ih =>
    simp only [List.mem_cons, not_or] at h
    have hd : ¬ (d = c) := fun e => h.1 e.symm
    simp [lastIndexByte, hd, ih h.2]

theorem lastIndexByte_last (c : Char) (a r : List Char) (h : c ∉ r) :
    lastIndexByte c (a ++ c :: r) = some a.length := by
  induction a with
  | nil => simp [lastIndexByte, lastIndexByte_none c r h]
  | cons d a ih => simp [lastIndexByte, ih]

theorem upperDigit_cases (n : Nat) (h : n < 16) :
    hex.fromHexChar (hex.upperDigit n) = some n ∧ hex.upperDigit n ≠ 'X'
      ∧ hex.upperDigit n ≠ '/' ∧ hex.upperDigit n ≠ ',' ∧ hex.upperDigit n ≠ ';'
      ∧ hex.upperDigit n ≠ '|'
      ∧ ¬ (97 ≤ (hex.upperDigit n).toNat ∧ (hex.upperDigit n).toNat ≤ 122) := by
  have : n = 0 ∨ n = 1 ∨ n = 2 ∨ n = 3 ∨ n = 4 ∨ n = 5 ∨ n = 6 ∨ n = 7 ∨ n = 8 ∨ n = 9
      ∨ n = 10 ∨ n = 11 ∨ n = 12 ∨ n = 13 ∨ n = 14 ∨ n = 15 := by omega
  rcases this with h | h | h | h | h | h | h | h | h | h | h | h | h | h | h | h <;>
    subst h <;> decide

theorem EncodeUpper_chars (d : List Char) (hd : ∀ c ∈ d, c.toNat < 256) :
    ∀ c ∈ hex.EncodeUpper d, ∃ n, n < 16 ∧ c = hex.upperDigit n := by
  induction d with
  | nil => intro c hc; simp [hex.EncodeUpper] at hc
  | cons b r ih =>
    intro c hc
    have hb := hd b (by simp)
    simp only [hex.EncodeUpper, List.mem_cons] at hc
    rcases hc with hc | hc | hc
    · exact ⟨b.toNat / 16, by omega, hc⟩
    · exact ⟨b.toNat % 16, by omega, hc⟩
    · exact ih (fun c hc => hd c (by simp [hc])) c hc

theorem toUpper_EncodeUpper (d : List Char) (hd : ∀ c ∈ d, c.toNat < 256) :
    toUpper (hex.EncodeUpper d) = hex.EncodeUpper d := by
  unfold toUpper
  conv_rhs => rw [← List.map_id (hex.EncodeUpper d)]
  apply List.map_congr_left
  intro c hc
  obtain ⟨n, hn, rfl⟩ := EncodeUpper_chars d hd c hc
  rw [if_neg (upperDigit_cases n hn).2.2.2.2.2.2]
  rfl

theorem trimPrefix_EncodeUpper (d : List Char) (hd : ∀ c ∈ d, c.toNat < 256) :
    trimPrefix (hex.EncodeUpper d) "0X".toList = hex.EncodeUpper d := by
  unfold trimPrefix
  rw [if_neg]
  cases d with
  | nil => simp [hex.EncodeUpper, startsWith]
  | cons b r =>
    have hb := hd b (by simp)
    have := (upperDigit_cases (b.toNat % 16) (by omega)).2.1
    simp [hex.EncodeUpper, startsWith, this]

theorem DecodeString_EncodeUpper (d : List Char) (hd : ∀ c ∈ d, c.toNat < 256) :
    hex.DecodeString (hex.EncodeUpper d) = .ok d := by
  induction d with
  | nil => rfl
  | cons b r ih =>
    have hb := hd b (by simp)
    have h1 := (upperDigit_cases (b.toNat / 16) (by omega)).1
    have h2 := (upperDigit_cases (b.toNat % 16) (by omega)).1
    simp only [hex.EncodeUpper, hex.DecodeString, h1, h2,
      ih (fun c hc => hd c (by simp [hc]))]
    have : b.toNat / 16 * 16 + b.toNat % 16 = b.toNat := by omega
    rw [this]
    simp [Char.ofNat_toNat]

theorem EncodeUpper_length (d : List Char) : (hex.EncodeUpper d).length = 2 * d.length := by
  induction d with
  | nil => rfl
  | cons b r ih => simp [hex.EncodeUpper, ih]; omega

theorem digitsRef_length_ge (k : Nat) : ∀ n, 10 ^ k ≤ n → k + 1 ≤ (digitsRef n).length := by
  induction k with
  | zero =>
    intro n _
    have := digitsRef_ne_nil n
    cases h : digitsRef n with
    | nil => exact absurd h this
    | cons a b => simp
  | succ k ih =>
    intro n h
    rw [digitsRef]
    have h10 : ¬ n < 10 := by
      have : 10 ^ (k + 1) ≥ 10 := by
        calc 10 ^ (k + 1) = 10 ^ k * 10 := by ring
          _ ≥ 1 * 10 := Nat.mul_le_mul_right 10 (Nat.one_le_pow _ _ (by norm_num))
      omega
    rw [if_neg h10]
    have : 10 ^ k ≤ n / 10 := by
      rw [Nat.le_div_iff_mul_le (by norm_num)]
      calc 10 ^ k * 10 = 10 ^ (k + 1) := by ring
        _ ≤ n := h
    have := ih (n / 10) this
    simp; omega

theorem FormatInt_free (x : Char) (hx : x ≠ '-') (hd : ¬ (48 ≤ x.toNat ∧ x.toNat ≤ 57))
    (i : Int) : x ∉ FormatInt i := by
  intro h
  rcases FormatInt_chars i x h with h1 | h1
  · exact hx h1
  · exact hd h1

theorem FormatInt_sepFree (i : Int) : sepFree (FormatInt i) := by
  intro c hc
  refine ⟨?_, ?_, ?_⟩ <;> intro e <;> subst e <;>
    exact FormatInt_free _ (by decide) (by decide) i hc

theorem ParseInt_FormatInt (i : Int) (bits : Nat) (hb1 : 1 ≤ bits)
    (hb : bits ≤ 64) (hlo : -(2 ^ (bits - 1) : Int) ≤ i) (hhi : i < (2 ^ (bits - 1) : Int)) :
    ParseInt (FormatInt i) bits = .ok i :=
  parseIntCore_FormatInt _ i bits hb1 hb hlo hhi

theorem FormatInt_length_ge (n : Nat) (h : 100000000 ≤ n) : 9 ≤ (FormatInt (n : Int)).length := by
  unfold FormatInt
  rw [if_neg (by omega)]
  simp only [Int.natAbs_ofNat]
  rw [FormatUint_eq]
  exact digitsRef_length_ge 8 n (by norm_num; exact h)

theorem TimeFromString_String (t : gems.Time) (h : timeReadsBack t) :
    gems.TimeFromString t.String = .ok t := by
  obtain ⟨hlo, hhi, hn⟩ := h
  have hcut : cut ".".toList t.String = (FormatInt t.sec, FormatInt t.nsec, true) :=
    cut_first '.' _ _ (FormatInt_free _ (by decide) (by decide) _)
  have hsec : ParseInt (FormatInt t.sec) 64 = .ok t.sec :=
    ParseInt_FormatInt _ 64 (by norm_num) (by norm_num) (by norm_num; exact hlo)
      (by norm_num; omega)
  unfold gems.TimeFromString
  rw [hcut]
  simp only []
  rcases hn with h0 | ⟨h1, h2⟩
  · have e : FormatInt (t.nsec : Int) = ['0'] := by rw [h0]; rfl
    rw [e]
    have : ParseInt (if ['0'].length < 9 then ['0'] ++ List.replicate (9 - ['0'].length) '0'
        else ['0']) 64 = .ok 0 := by rfl
    simp only [if_true]
    rw [this, hsec]
    simp only [gems.timeUnix]
    rw [if_neg (by omega)]
    cases t with
    | mk s n => simp at h0; simp [h0]
  · have hl := FormatInt_length_ge t.nsec h1
    rw [if_neg (show ¬ (FormatInt (t.nsec : Int)).length < 9 by omega)]
    have hns : ParseInt (FormatInt (t.nsec : Int)) 64 = .ok (t.nsec : Int) :=
      ParseInt_FormatInt _ 64 (by norm_num) (by norm_num) (by norm_num; omega)
        (by norm_num; omega)
    simp only [if_true]
    rw [hns, hsec]
    simp only [gems.timeUnix]
    rw [if_neg (by omega)]
    cases t with
    | mk s n => simp

theorem Time_String_sepFree (t : gems.Time) : sepFree t.String := by
  intro c hc
  simp only [gems.Time.String, List.mem_append, List.mem_cons] at hc
  rcases hc with hc | hc | hc
  · exact FormatInt_sepFree _ c hc
  · subst hc; decide
  · exact FormatInt_sepFree _ c hc

theorem Time_String_ne_nil (t : gems.Time) : t.String ≠ [] := by
  simp [gems.Time.String]

theorem length_ne_zero_of_ne_nil {s : List Char} (h : s ≠ []) : ¬ (s.length = 0) := by
  cases s with
  | nil => exact absurd rfl h
  | cons a b => simp

theorem signed_round_trip (d : Int) (bits : Nat) (mk : Int → Value) {z : Value} (hb1 : 1 ≤ bits)
    (hb : bits ≤ 64) (hlo : -(2 ^ (bits - 1) : Int) ≤ d) (hhi : d < (2 ^ (bits - 1) : Int)) :
    (if (FormatInt d).length = 0 then Except.ok z
      else (ParseInt (FormatInt d) bits).map mk) = .ok (mk d) := by
  rw [if_neg (length_ne_zero_of_ne_nil (FormatInt_ne_nil d)),
    ParseInt_FormatInt d bits hb1 hb hlo hhi]
  rfl

theorem unsigned_round_trip (d : Int) (bits : Nat) (mk : Int → Value) {z : Value}
    (hb : bits ≤ 64) (hlo : 0 ≤ d) (hhi : d < (2 ^ bits : Int)) :
    (if (FormatInt d).length = 0 then Except.ok z
      else Except.map mk (do let a ← ParseUint (FormatInt d) bits; pure (a : Int))) = .ok (mk d) := by
  rw [if_neg (length_ne_zero_of_ne_nil (FormatInt_ne_nil d)),
    ParseUint_FormatInt d bits hb hlo hhi]
  have : ((d.natAbs : Nat) : Int) = d := by omega
  show Except.ok (mk (d.natAbs : Int)) = _
  rw [this]

theorem hex_round_trip (lib : GoLib) (d : List Char) (bl : Int) (hbl : bl ≠ 0) (hd : ¬ (d = [] ∧ bl < 0))
    (hbytes : ∀ c ∈ d, c.toNat < 256) (hlo : -9223372036854775808 ≤ bl)
    (hhi : bl ≤ 9223372036854775807) :
    HexValue.String d bl false = hex.EncodeUpper d ∧
    unmarshalScalar lib .HexValueType (hex.EncodeUpper d ++ '/' :: FormatInt bl)
      = .ok (.vHexValue d bl false) := by
  have hstr : HexValue.String d bl false = hex.EncodeUpper d := by
    unfold HexValue.String
    simp only [Bool.false_eq_true, false_or]
    rw [if_neg]
    intro h
    apply hd
    cases d with
    | nil => simp at h; constructor; rfl; omega
    | cons a r => simp at h; split_ifs at h <;> omega
  refine ⟨hstr, ?_⟩
  have hslash : '/' ∉ hex.EncodeUpper d := by
    intro h
    obtain ⟨n, hn, e⟩ := EncodeUpper_chars d hbytes _ h
    exact (upperDigit_cases n hn).2.2.1 e.symm
  have hcut : cut "/".toList (hex.EncodeUpper d ++ '/' :: FormatInt bl)
      = (hex.EncodeUpper d, FormatInt bl, true) := cut_first '/' _ _ hslash
  have hat : Atoi (FormatInt bl) = .ok bl :=
    parseIntCore_FormatInt _ bl 64 (by norm_num) (by norm_num) (by norm_num; exact hlo)
      (by norm_num; omega)
  have hne : ¬ ((hex.EncodeUpper d ++ '/' :: FormatInt bl).length = 0
      ∨ hex.EncodeUpper d ++ '/' :: FormatInt bl = "0/0".toList) := by
    rintro (h | h)
    · simp at h
    · have hl := EncodeUpper_length d
      cases hE : hex.EncodeUpper d with
      | nil =>
        rw [hE] at h; simp at h
      | cons a r =>
        rw [hE] at h hl
        cases r with
        | nil => simp at hl; omega
        | cons a2 r2 =>
          simp at h
          have h2 := h.2
          rw [h2.1] at hE
          exact hslash (by rw [hE]; simp)
  unfold unmarshalScalar
  simp only []
  rw [if_neg hne, hcut]
  simp only [Bool.not_true, Bool.false_eq_true, if_false]
  rw [hat]
  simp only []
  rw [toUpper_EncodeUpper d hbytes, trimPrefix_EncodeUpper d hbytes,
    DecodeString_EncodeUpper d hbytes]
  rfl

theorem EncodeUpper_sepFree (d : List Char) (hbytes : ∀ c ∈ d, c.toNat < 256) :
    sepFree (hex.EncodeUpper d) := by
  intro c hc
  obtain ⟨n, hn, rfl⟩ := EncodeUpper_chars d hbytes c hc
  have := upperDigit_cases n hn
  exact ⟨this.2.2.2.1, this.2.2.2.2.1, this.2.2.2.2.2.1⟩

theorem sepFree_append {a b : List Char} (ha : sepFree a) (hb : sepFree b) :
    sepFree (a ++ b) := by
  intro c hc
  rcases List.mem_append.1 hc with h | h
  · exact ha c h
  · exact hb c h

theorem sepFree_cons {c : Char} {b : List Char} (hc : c ≠ ',' ∧ c ≠ ';' ∧ c ≠ '|')
    (hb : sepFree b) : sepFree (c :: b) := by
  intro x hx
  rcases List.mem_cons.1 hx with h | h
  · subst h; exact hc
  · exact hb x h

theorem sepFree_nil : sepFree [] := by
  intro c hc; simp at hc

theorem scalar_round_trip (lib : GoLib) (v : Value) (h : ScalarReadsBack lib v) :
    Value.MarshalASCII lib v [] = (encoded lib v, none)
      ∧ unmarshalScalar lib v.Type (encoded lib v) = .ok v
      ∧ sepFree (encoded lib v) := by
  cases v with
  | vString d e =>
    rcases h with ⟨rfl, rfl⟩ | ⟨rfl, hd, hv⟩
    · refine ⟨rfl, rfl, sepFree_nil⟩
    · have hw := SafeWrite_escape [] d hv
      have he : encoded lib (.vString d false) = escape d := by
        simp [encoded, Value.MarshalASCII, hw]
      rw [he]
      refine ⟨by simp [Value.MarshalASCII, hw], ?_, escape_sepFree d⟩
      have hne : escape d ≠ [] := fun h0 => hd (escape_eq_nil d h0)
      simp only [Value.Type, unmarshalScalar]
      rw [if_neg (length_ne_zero_of_ne_nil hne), unescape_escape_id]
  | vBoolean d e =>
    cases e with
    | true =>
      rcases h with h | rfl
      · simp at h
      · exact ⟨rfl, rfl, sepFree_nil⟩
    | false =>
      have he : encoded lib (.vBoolean d false) = FormatBool d := by
        simp [encoded, Value.MarshalASCII]
      rw [he]
      cases d <;> refine ⟨rfl, rfl, ?_⟩ <;> unfold sepFree <;> decide
  | vByte d e =>
    rcases h with ⟨rfl, rfl⟩ | ⟨rfl, h1, h2⟩
    · exact ⟨rfl, rfl, sepFree_nil⟩
    · have he : encoded lib (.vByte d false) = FormatInt d := by
        simp [encoded, Value.MarshalASCII]
      rw [he]
      refine ⟨by simp [Value.MarshalASCII], ?_, FormatInt_sepFree d⟩
      simp only [Value.Type, unmarshalScalar]
      exact signed_round_trip d 8 (fun x => .vByte x false) (by norm_num) (by norm_num)
        (by norm_num; exact h1) (by norm_num; omega)
  | vUbyte d e =>
    rcases h with ⟨rfl, rfl⟩ | ⟨rfl, h1, h2⟩
    · exact ⟨rfl, rfl, sepFree_nil⟩
    · have he : encoded lib (.vUbyte d false) = FormatInt d := by
        simp [encoded, Value.MarshalASCII]
      rw [he]
      refine ⟨by simp [Value.MarshalASCII], ?_, FormatInt_sepFree d⟩
      simp only [Value.Type, unmarshalScalar]
      exact unsigned_round_trip d 8 (fun x => .vUbyte x false) (by norm_num)
        h1 (by norm_num; omega)
  | vShort d e =>
    rcases h with ⟨rfl, rfl⟩ | ⟨rfl, h1, h2⟩
    · exact ⟨rfl, rfl, sepFree_nil⟩
    · have he : encoded lib (.vShort d false) = FormatInt d := by
        simp [encoded, Value.MarshalASCII]
      rw [he]
      refine ⟨by simp [Value.MarshalASCII], ?_, FormatInt_sepFree d⟩
      simp only [Value.Type, unmarshalScalar]
      exact signed_round_trip d 16 (fun x => .vShort x false) (by norm_num) (by norm_num)
        (by norm_num; exact h1) (by norm_num; omega)
  | vUshort d e =>
    rcases h with ⟨rfl, rfl⟩ | ⟨rfl, h1, h2⟩
    · exact ⟨rfl, rfl, sepFree_nil⟩
    · have he : encoded lib (.vUshort d false) = FormatInt d := by
        simp [encoded, Value.MarshalASCII]
      rw [he]
      refine ⟨by simp [Value.MarshalASCII], ?_, FormatInt_sepFree d⟩
      simp only [Value.Type, unmarshalScalar]
      exact unsigned_round_trip d 16 (fun x => .vUshort x false) (by norm_num)
        h1 (by norm_num; omega)
  | vInt d e =>
    rcases h with ⟨rfl, rfl⟩ | ⟨rfl, h1, h2⟩
    · exact ⟨rfl, rfl, sepFree_nil⟩
    · have he : encoded lib (.vInt d false) = FormatInt d := by
        simp [encoded, Value.MarshalASCII]
      rw [he]
      refine ⟨by simp [Value.MarshalASCII], ?_, FormatInt_sepFree d⟩
      simp only [Value.Type, unmarshalScalar]
      exact signed_round_trip d 32 (fun x => .vInt x false) (by norm_num) (by norm_num)
        (by norm_num; exact h1) (by norm_num; omega)
  | vUint d e =>
    rcases h with ⟨rfl, rfl⟩ | ⟨rfl, h1, h2⟩
    · exact ⟨rfl, rfl, sepFree_nil⟩
    · have he : encoded lib (.vUint d false) = FormatInt d := by
        simp [encoded, Value.MarshalASCII]
      rw [he]
      refine ⟨by simp [Value.MarshalASCII], ?_, FormatInt_sepFree d⟩
      simp only [Value.Type, unmarshalScalar]
      exact unsigned_round_trip d 32 (fun x => .vUint x false) (by norm_num)
        h1 (by norm_num; omega)
  | vLong d e =>
    rcases h with ⟨rfl, rfl⟩ | ⟨rfl, h1, h2⟩
    · exact ⟨rfl, rfl, sepFree_nil⟩
    · have he : encoded lib (.vLong d false) = FormatInt d := by
        simp [encoded, Value.MarshalASCII]
      rw [he]
      refine ⟨by simp [Value.MarshalASCII], ?_, FormatInt_sepFree d⟩
      simp only [Value.Type, unmarshalScalar]
      exact signed_round_trip d 64 (fun x => .vLong x false) (by norm_num) (by norm_num)
        (by norm_num; exact h1) (by norm_num; omega)
  | vUlong d e =>
    rcases h with ⟨rfl, rfl⟩ | ⟨rfl, h1, h2⟩
    · exact ⟨rfl, rfl, sepFree_nil⟩
    · have he : encoded lib (.vUlong d false) = FormatInt d := by
        simp [encoded, Value.MarshalASCII]
      rw [he]
      refine ⟨by simp [Value.MarshalASCII], ?_, FormatInt_sepFree d⟩
      simp only [Value.Type, unmarshalScalar]
      exact unsigned_round_trip d 64 (fun x => .vUlong x false) (by norm_num)
        h1 (by norm_num; omega)
  | vDouble d e =>
    rcases h with ⟨rfl, rfl⟩ | ⟨rfl, h1, h2, h3⟩
    · exact ⟨rfl, rfl, sepFree_nil⟩
    · have he : encoded lib (.vDouble d false) = lib.FormatFloat d := by
        simp [encoded, Value.MarshalASCII]
      rw [he]
      refine ⟨by simp [Value.MarshalASCII], ?_, h3⟩
      simp only [Value.Type, unmarshalScalar]
      rw [if_neg (length_ne_zero_of_ne_nil h2), h1]
      rfl
  | vHexValue d bl e =>
    rcases h with ⟨rfl, rfl, rfl⟩ | ⟨rfl, h1, h2, h3, h4, h5⟩
    · exact ⟨rfl, rfl, sepFree_nil⟩
    · obtain ⟨hs, hr⟩ := hex_round_trip lib d bl h1 h2 h3 h4 h5
      have he : encoded lib (.vHexValue d bl false) = hex.EncodeUpper d ++ '/' :: FormatInt bl := by
        simp [encoded, Value.MarshalASCII, h1, hs]
      rw [he]
      refine ⟨by simp [Value.MarshalASCII, h1, hs], hr, ?_⟩
      exact sepFree_append (EncodeUpper_sepFree d h3)
        (sepFree_cons (by decide) (FormatInt_sepFree bl))
  | vTime t e =>
    rcases h with ⟨rfl, rfl⟩ | ⟨rfl, h1⟩
    · exact ⟨rfl, rfl, sepFree_nil⟩
    · have he : encoded lib (.vTime t false) = t.String := by
        simp [encoded, Value.MarshalASCII, gems.Time.FormatTime]
      rw [he]
      refine ⟨by simp [Value.MarshalASCII, gems.Time.FormatTime], ?_, Time_String_sepFree t⟩
      simp only [Value.Type, unmarshalScalar]
      rw [if_neg (length_ne_zero_of_ne_nil (Time_String_ne_nil t)), TimeFromString_String t h1]
      rfl
  | vUtime t e =>
    rcases h with ⟨rfl, rfl⟩ | ⟨rfl, h1, h2⟩
    · exact ⟨rfl, rfl, sepFree_nil⟩
    · have he : encoded lib (.vUtime t false) = t.FormatUtime := by
        simp [encoded, Value.MarshalASCII]
      rw [he]
      refine ⟨by simp [Value.MarshalASCII], ?_, h2⟩
      have hne : t.FormatUtime ≠ [] := by
        intro h0
        rw [h0] at h1
        simp [gems.TimeFromUtime, cut, indexOf] at h1
      simp only [Value.Type, unmarshalScalar]
      rw [if_neg (length_ne_zero_of_ne_nil hne), h1]
      rfl
  | vParameter vs m n t => exact absurd h (by simp [ScalarReadsBack])
  | vParameterSet vs m n t => exact absurd h (by simp [ScalarReadsBack])

theorem ASCIIName_scalar (T : gems.Datatype) (h1 : T ≠ .UndefinedType)
    (h2 : T ≠ .ParameterType) :
    gems.DatatypeFromASCII T.ASCIIName = T ∧ '=' ∉ T.ASCIIName ∧ ':' ∉ T.ASCIIName
      ∧ '[' ∉ T.ASCIIName ∧ '(' ∉ T.ASCIIName := by
  cases T <;> first | exact absurd rfl h1 | exact absurd rfl h2 | decide

theorem wrapInt_32 (i : Int) (h1 : -2147483648 ≤ i) (h2 : i ≤ 2147483647) :
    gems.wrapInt 32 i = i := by
  unfold gems.wrapInt
  norm_num
  omega

theorem parseTypeString_plain (s : List Char) (h : '[' ∉ s) :
    parseTypeString s = .ok (s, ⟨0, false⟩) := by
  unfold parseTypeString
  rw [show "[".toList = ['['] from rfl, indexOf_none '[' s h]

theorem parseTypeString_mult (s : List Char) (h : '[' ∉ s) (i : Int)
    (h1 : -2147483648 ≤ i) (h2 : i ≤ 2147483647) :
    parseTypeString (s ++ '[' :: (FormatInt i ++ [']'])) = .ok (s, ⟨i, true⟩) := by
  unfold parseTypeString
  have hne := FormatInt_ne_nil i
  have hl : 1 ≤ (FormatInt i).length := by
    cases hF : FormatInt i with
    | nil => exact absurd hF hne
    | cons a b => simp
  rw [show "[".toList = ['['] from rfl, indexOf_first '[' s _ h]
  simp only []
  have e1 : s ++ '[' :: (FormatInt i ++ [']']) = (s ++ '[' :: FormatInt i) ++ [']'] := by simp
  have hlast : (s ++ '[' :: (FormatInt i ++ [']'])).getLast? = some ']' := by
    rw [e1, List.getLast?_concat]
  rw [if_neg]
  · have hb : List.drop (s.length + 1)
        (List.take ((s ++ '[' :: (FormatInt i ++ [']'])).length - 1)
          (s ++ '[' :: (FormatInt i ++ [']'])))
        = FormatInt i := by
      rw [e1]
      rw [show ((s ++ '[' :: FormatInt i) ++ [']']).length - 1 = (s ++ '[' :: FormatInt i).length by simp]
      rw [List.take_left]
      rw [show s ++ '[' :: FormatInt i = (s ++ ['[']) ++ FormatInt i by simp]
      rw [show s.length + 1 = (s ++ ['[']).length by simp]
      rw [List.drop_left]
    rw [hb, ParseInt_FormatInt i 32 (by norm_num) (by norm_num) (by norm_num; exact h1)
      (by norm_num; omega)]
    simp only [gems.NewNullInt32, wrapInt_32 i h1 h2]
    simp
  · rw [hlast]
    simp
    omega

theorem typeText_free (c : Char) (T : gems.Datatype) (m : gems.NullInt32)
    (h1 : c ≠ '-') (h2 : ¬ (48 ≤ c.toNat ∧ c.toNat ≤ 57)) (h3 : c ≠ '[') (h4 : c ≠ ']')
    (hT : c ∉ T.ASCIIName) : c ∉ typeText T m := by
  unfold typeText
  cases m.Valid
  · simpa using hT
  · simp only [if_true, List.mem_append, List.mem_cons, not_or]
    exact ⟨hT, h3, FormatInt_free c h1 h2 _, by simp [h4]⟩

theorem parseTypeString_typeText (T : gems.Datatype) (m : gems.NullInt32)
    (hT : '[' ∉ T.ASCIIName) (hm : multiplicityReadsBack m) :
    parseTypeString (typeText T m) = .ok (T.ASCIIName, m) := by
  unfold typeText
  rcases hm with ⟨hv, h0⟩ | ⟨hv, h1, h2⟩
  · rw [hv]
    simp only [Bool.false_eq_true, if_false, List.append_nil]
    rw [parseTypeString_plain _ hT]
    cases m; simp at hv h0; simp [hv, h0]
  · rw [hv]
    simp only [if_true]
    rw [parseTypeString_mult _ hT _ h1 h2]
    cases m; simp at hv; simp [hv]

theorem headedText_cut (n : List Char) (T : gems.Datatype) (m : gems.NullInt32)
    (values : List Char) (hn : '=' ∉ n) (hT : '=' ∉ T.ASCIIName) :
    cut "=".toList (headedText n T m values) = (escape n ++ ':' :: typeText T m, values, true) := by
  have h : '=' ∉ escape n ++ ':' :: typeText T m := by
    simp only [List.mem_append, List.mem_cons, not_or]
    exact ⟨escape_keeps_free '=' (by decide) (by decide) (by decide) (by decide) (by decide) n hn,
      by decide, typeText_free '=' T m (by decide) (by decide) (by decide) (by decide) hT⟩
  have := cut_first '=' _ values h
  rw [show "=".toList = ['='] from rfl, ← this]
  simp [headedText]

theorem header_lastIndex (n : List Char) (T : gems.Datatype) (m : gems.NullInt32)
    (hT : ':' ∉ T.ASCIIName) :
    lastIndexByte ':' (escape n ++ ':' :: typeText T m) = some (escape n).length :=
  lastIndexByte_last ':' _ _
    (typeText_free ':' T m (by decide) (by decide) (by decide) (by decide) hT)

theorem mapM_ok {α β : Type} (f : α → Except GoError β) (g : β → α) (ys : List β)
    (h : ∀ y ∈ ys, f (g y) = .ok y) : (ys.map g).mapM f = .ok ys := by
  induction ys with
  | nil => rfl
  | cons y r ih =>
    rw [List.map_cons, List.mapM_cons, h y (by simp), ih (fun z hz => h z (by simp [hz]))]
    rfl

theorem scalar_type (lib : GoLib) (v : Value) (h : ScalarReadsBack lib v) :
    v.Type ≠ .UndefinedType ∧ v.Type ≠ .ParameterType ∧ v.Type ≠ .ParameterSetType := by
  cases v with
  | vParameter vs m n t => exact absurd h (by simp [ScalarReadsBack])
  | vParameterSet vs m n t => exact absurd h (by simp [ScalarReadsBack])
  | _ => simp [Value.Type]

theorem unmarshalFuel_scalar (lib : GoLib) (fuel : Nat) (T : gems.Datatype)
    (h1 : T ≠ .ParameterType) (h2 : T ≠ .ParameterSetType) (data : List Char) :
    unmarshalFuel lib (fuel + 1) T data = unmarshalScalar lib T data := by
  cases T <;> first | exact absurd rfl h1 | exact absurd rfl h2 | rfl

theorem parameter_encoded (lib : GoLib) (vs : List Value) (m : gems.NullInt32) (n : List Char)
    (t : gems.Datatype) (h : ParameterReadsBack lib (.vParameter vs m n t)) :
    Value.MarshalASCII lib (.vParameter vs m n t) [] = (parameterText lib vs m n, none) := by
  obtain ⟨_, hn, _, _, _, hs, hsame⟩ := h
  cases vs with
  | nil =>
    simp [Value.MarshalASCII, SafeWrite_escape _ _ hn, gemsV14.andThen, ValueType,
      valueTypeLoop, parameterText]
  | cons v r =>
    have hVT := ValueType_of_same v.Type (v :: r) (by simp) (fun w hw => hsame w hw v (by simp))
    have hTu := Value.Type_ne_undefined v
    simp only [Value.MarshalASCII, SafeWrite_escape _ _ hn, gemsV14.andThen, hVT, if_neg hTu]
    rw [slice_scalars lib (v :: r) _ (fun w hw =>
      ⟨(scalar_type lib w (hs w hw)).2.1, (scalar_type lib w (hs w hw)).2.2,
        by rw [(scalar_round_trip lib w (hs w hw)).1]⟩)]
    simp only [parameterText, headedText, typeText]
    cases m.Valid <;> simp [List.append_assoc] <;> rfl

theorem encoded_parameter (lib : GoLib) (vs : List Value) (m : gems.NullInt32) (n : List Char)
    (t : gems.Datatype) (h : ParameterReadsBack lib (.vParameter vs m n t)) :
    encoded lib (.vParameter vs m n t) = parameterText lib vs m n := by
  rw [encoded, parameter_encoded lib vs m n t h]

theorem take_drop_header (a r : List Char) (c : Char) :
    (a ++ c :: r).take a.length = a ∧ (a ++ c :: r).drop (a.length + 1) = r := by
  constructor
  · rw [List.take_left]
  · rw [show a ++ c :: r = (a ++ [c]) ++ r by simp, show a.length + 1 = (a ++ [c]).length by simp,
      List.drop_left]

theorem parameter_decode (lib : GoLib) (fuel : Nat) (vs : List Value) (m : gems.NullInt32)
    (n : List Char) (t : gems.Datatype) (h : ParameterReadsBack lib (.vParameter vs m n t)) :
    unmarshalFuel lib (fuel + 2) .ParameterType (parameterText lib vs m n)
      = .ok (.vParameter vs m n t) := by
  obtain ⟨ht, hn, heq, hm, hempty, hs, hsame⟩ := h
  subst ht
  cases vs with
  | nil =>
    have hcut : cut "=".toList (escape n) = (escape n, [], false) :=
      cut_none '=' _ (escape_keeps_free '=' (by decide) (by decide) (by decide) (by decide)
        (by decide) n heq)
    have hm0 : m = ⟨0, false⟩ := by
      have hv := hempty rfl
      rcases hm with ⟨_, h0⟩ | ⟨h1, _⟩
      · cases m; simp at hv h0; simp [hv, h0]
      · rw [hv] at h1; exact absurd h1 (by decide)
    simp only [parameterText, unmarshalFuel, hcut, unescape_escape_id, hm0]
    rfl
  | cons v r =>
    have hT := scalar_type lib v (hs v (by simp))
    have hA := ASCIIName_scalar v.Type hT.1 hT.2.1
    obtain ⟨htake, hdrop⟩ := take_drop_header (escape n) (typeText v.Type m) ':'
    have hsplit : splitOn ",".toList (joinWith ",".toList ((v :: r).map (encoded lib)))
        = (v :: r).map (encoded lib) :=
      splitOn_joinWith ',' _ (by simp) (by
        intro f hf
        obtain ⟨w, hw, rfl⟩ := List.mem_map.1 hf
        intro hc
        exact ((scalar_round_trip lib w (hs w hw)).2.2 _ hc).1 rfl)
    have hmap : ((v :: r).map (encoded lib)).mapM (unmarshalFuel lib (fuel + 1) v.Type)
        = .ok (v :: r) :=
      mapM_ok _ _ _ (by
        intro w hw
        rw [unmarshalFuel_scalar lib fuel v.Type hT.2.1 hT.2.2, ← hsame w hw v (by simp)]
        exact (scalar_round_trip lib w (hs w hw)).2.1)
    simp only [parameterText, unmarshalFuel, headedText_cut n v.Type m _ heq hA.2.1,
      header_lastIndex n v.Type m hA.2.2.1, htake, hdrop,
      parseTypeString_typeText v.Type m hA.2.2.2.1 hm, hA.1, hsplit, hmap, unescape_escape_id]
    simp [hT.1]
    rfl

theorem noPair_of_free (c1 c2 : Char) (f : List Char) (h : c1 ∉ f) : noPair c1 c2 f := by
  induction f with
  | nil => trivial
  | cons a r ih =>
    simp only [List.mem_cons, not_or] at h
    cases r with
    | nil => trivial
    | cons b r2 =>
      exact ⟨fun hh => h.1 hh.1.symm, ih h.2⟩

theorem noPair_append (c1 c2 : Char) (f g : List Char) (hf : c1 ∉ f)
    (hg : noPair c1 c2 g) (hh : g.head? ≠ some c2) : noPair c1 c2 (f ++ c1 :: g) := by
  induction f with
  | nil =>
    cases g with
    | nil => trivial
    | cons b r => exact ⟨fun h => hh (by simp [h.2]), hg⟩
  | cons a r ih =>
    simp only [List.mem_cons, not_or] at hf
    have := ih hf.2
    cases r with
    | nil => exact ⟨fun h => hf.1 h.1.symm, this⟩
    | cons b r2 => exact ⟨fun h => hf.1 h.1.symm, this⟩

theorem noPair_joinWith (c1 c2 : Char) (hne : c1 ≠ c2) (fs : List (List Char))
    (h : ∀ f ∈ fs, c1 ∉ f ∧ f.head? ≠ some c2) : noPair c1 c2 (joinWith [c1] fs) := by
  induction fs with
  | nil => trivial
  | cons f r ih =>
    cases r with
    | nil => exact noPair_of_free c1 c2 f (h f (by simp)).1
    | cons g r2 =>
      have hr := ih (fun x hx => h x (by simp [hx]))
      have hhead : (joinWith [c1] (g :: r2)).head? ≠ some c2 := by
        have hg := (h g (by simp)).2
        cases r2 with
        | nil => simpa [joinWith] using hg
        | cons g2 r3 =>
          cases g with
          | nil => simp [joinWith, hne]
          | cons x y => simpa [joinWith] using hg
      have := noPair_append c1 c2 f _ (h f (by simp)).1 hr hhead
      simpa [joinWith] using this

theorem splitOn_pair (c1 c2 : Char) (hne : c1 ≠ c2) (f rest : List Char)
    (hf : noPair c1 c2 f) :
    splitOn [c1, c2] (f ++ c1 :: c2 :: rest) = f :: splitOn [c1, c2] rest := by
  induction f with
  | nil => simp [splitOn, splitOnAux, startsWith]
  | cons a r ih =>
    have hstart : startsWith (a :: (r ++ c1 :: c2 :: rest)) [c1, c2] = false := by
      cases r with
      | nil => simp [startsWith, hne]
      | cons b r2 =>
        have := hf.1
        simp only [startsWith, List.cons_append]
        by_cases h1 : a = c1
        · have h2 : ¬ b = c2 := fun h2 => this ⟨h1, h2⟩
          simp [h2]
        · simp [h1]
    have hr : noPair c1 c2 r := by
      cases r with
      | nil => trivial
      | cons b r2 => exact hf.2
    have := ih hr
    simp only [splitOn] at this ⊢
    rw [List.cons_append, splitOnAux, if_neg (by simp [hstart]), this]
    rfl

theorem splitOn_pair_free (c1 c2 : Char) (f : List Char) (hf : noPair c1 c2 f) :
    splitOn [c1, c2] f = [f] := by
  induction f with
  | nil => rfl
  | cons a r ih =>
    have hstart : startsWith (a :: r) [c1, c2] = false := by
      cases r with
      | nil => simp [startsWith]
      | cons b r2 =>
        have := hf.1
        simp only [startsWith]
        by_cases h1 : a = c1
        · have h2 : ¬ b = c2 := fun h2 => this ⟨h1, h2⟩
          simp [h2]
        · simp [h1]
    have hr : noPair c1 c2 r := by
      cases r with
      | nil => trivial
      | cons b r2 => exact hf.2
    have := ih hr
    simp only [splitOn] at this ⊢
    rw [splitOnAux, if_neg (by simp [hstart]), this]
    rfl

theorem splitOn_joinWith_pair (c1 c2 : Char) (hne : c1 ≠ c2) (fs : List (List Char))
    (hfs : fs ≠ []) (h : ∀ f ∈ fs, noPair c1 c2 f) :
    splitOn [c1, c2] (joinWith [c1, c2] fs) = fs := by
  induction fs with
  | nil => exact absurd rfl hfs
  | cons f r ih =>
    cases r with
    | nil => simpa [joinWith] using splitOn_pair_free c1 c2 f (h f (by simp))
    | cons g r2 =>
      have e : joinWith [c1, c2] (f :: g :: r2) = f ++ c1 :: c2 :: joinWith [c1, c2] (g :: r2) := by
        simp [joinWith]
      rw [e, splitOn_pair c1 c2 hne f _ (h f (by simp)),
        ih (by simp) (fun x hx => h x (by simp [hx]))]

theorem trimSuffix_append (s p : List Char) : trimSuffix (s ++ p) p = s := by
  unfold trimSuffix
  rw [if_pos ((endsWith_iff _ _).2 (List.suffix_append s p))]
  simp

theorem flatten_terminated (c : Char) (fs : List (List Char)) (h : fs ≠ []) :
    (fs.map (fun f => f ++ [c])).flatten = joinWith [c] fs ++ [c] := by
  induction fs with
  | nil => exact absurd rfl h
  | cons f r ih =>
    cases r with
    | nil => simp [joinWith]
    | cons g r2 =>
      rw [List.map_cons, List.flatten_cons, ih (by simp)]
      simp [joinWith]

theorem joinWith_terminated (c1 c2 : Char) (fs : List (List Char)) (h : fs ≠ []) :
    joinWith [c2] (fs.map (fun f => f ++ [c1])) = joinWith [c1, c2] fs ++ [c1] := by
  induction fs with
  | nil => exact absurd rfl h
  | cons f r ih =>
    cases r with
    | nil => simp [joinWith]
    | cons g r2 =>
      have := ih (by simp)
      simp only [List.map_cons] at this ⊢
      simp only [joinWith]
      rw [this]
      simp

theorem ParameterReadsBack_cases (lib : GoLib) (p : Value) (h : ParameterReadsBack lib p) :
    ∃ vs m n t, p = .vParameter vs m n t := by
  cases p with
  | vParameter vs m n t => exact ⟨vs, m, n, t, rfl⟩
  | _ => exact absurd h (by simp [ParameterReadsBack])

theorem parameter_ok (lib : GoLib) (p : Value) (h : ParameterReadsBack lib p) :
    p.Type = .ParameterType ∧ (Value.MarshalASCII lib p []).2 = none := by
  obtain ⟨vs, m, n, t, rfl⟩ := ParameterReadsBack_cases lib p h
  exact ⟨rfl, by rw [parameter_encoded lib vs m n t h]⟩

theorem ASCIIName_free (T : gems.Datatype) : ';' ∉ T.ASCIIName ∧ '|' ∉ T.ASCIIName := by
  cases T <;> decide

theorem parameterText_free (lib : GoLib) (vs : List Value) (m : gems.NullInt32) (n : List Char)
    (hs : ∀ v ∈ vs, ScalarReadsBack lib v) :
    ';' ∉ parameterText lib vs m n ∧ '|' ∉ parameterText lib vs m n
      ∧ (parameterText lib vs m n).head? ≠ some ',' := by
  have hesc := escape_sepFree n
  have hjoin : ∀ (ws : List Value), (∀ v ∈ ws, ScalarReadsBack lib v) →
      ';' ∉ joinWith ",".toList (ws.map (encoded lib))
        ∧ '|' ∉ joinWith ",".toList (ws.map (encoded lib)) := by
    intro ws
    induction ws with
    | nil => intro _; simp [joinWith]
    | cons w r ih =>
      intro hw
      have h1 := (scalar_round_trip lib w (hw w (by simp))).2.2
      have h2 := ih (fun x hx => hw x (by simp [hx]))
      cases r with
      | nil =>
        simp only [List.map_cons, List.map_nil, joinWith]
        exact ⟨fun hc => (h1 _ hc).2.1 rfl, fun hc => (h1 _ hc).2.2 rfl⟩
      | cons w2 r2 =>
        simp only [List.map_cons, joinWith, List.mem_append, not_or] at h2 ⊢
        exact ⟨⟨⟨fun hc => (h1 _ hc).2.1 rfl, by decide⟩, h2.1⟩,
          ⟨⟨fun hc => (h1 _ hc).2.2 rfl, by decide⟩, h2.2⟩⟩
  have hhead : ∀ (rest : List Char), (escape n ++ ':' :: rest).head? ≠ some ',' := by
    intro rest
    cases he : escape n with
    | nil => simp
    | cons a b =>
      have := (hesc a (by rw [he]; simp)).1
      simpa using this
  cases vs with
  | nil =>
    refine ⟨fun hc => (hesc _ hc).2.1 rfl, fun hc => (hesc _ hc).2.2 rfl, ?_⟩
    have := hhead []
    simp only [parameterText]
    cases he : escape n with
    | nil => simp
    | cons a b => rw [he] at this; simpa using this
  | cons v r =>
    have hsemi := ASCIIName_free v.Type
    have hj := hjoin (v :: r) hs
    simp only [parameterText, headedText, List.mem_append, List.mem_cons, not_or]
    refine ⟨⟨fun hc => (hesc _ hc).2.1 rfl, by decide,
        typeText_free ';' _ m (by decide) (by decide) (by decide) (by decide) hsemi.1,
        by decide, hj.1⟩,
      ⟨fun hc => (hesc _ hc).2.2 rfl, by decide,
        typeText_free '|' _ m (by decide) (by decide) (by decide) (by decide) hsemi.2,
        by decide, hj.2⟩, hhead _⟩

theorem GroupReadsBack_cases (lib : GoLib) (g : Value) (h : GroupReadsBack lib g) :
    ∃ ps, g = .vParameterSet ps ⟨0, false⟩ [] .UndefinedType ∧ ps ≠ []
      ∧ ∀ p ∈ ps, ParameterReadsBack lib p := by
  cases g with
  | vParameterSet ps m n t =>
    obtain ⟨rfl, rfl, rfl, hne, hp⟩ := h
    exact ⟨ps, rfl, hne, hp⟩
  | _ => exact absurd h (by simp [GroupReadsBack])

theorem slice_groups (lib : GoLib) (vs : List Value) :
    ∀ b, (∀ g ∈ vs, GroupReadsBack lib g) →
      Value.MarshalASCII.slice lib vs b
        = (b ++ joinWith ",".toList (vs.map (groupText lib)), none) := by
  induction vs with
  | nil => intro b _; simp [slice_nil, joinWith]
  | cons g r ih =>
    intro b h
    obtain ⟨ps, rfl, _, hp⟩ := GroupReadsBack_cases lib g (h _ (by simp))
    have hr : ∀ g ∈ r, GroupReadsBack lib g := fun w hw => h w (by simp [hw])
    rw [slice_cons_set, slice_params lib ps b (fun p hp1 => parameter_ok lib p (hp p hp1))]
    simp only [gemsV14.andThen]
    cases r with
    | nil => simp [slice_nil, joinWith, groupText, groupValues, encoded]
    | cons w t =>
      rw [if_pos (by simp), ih _ hr]
      simp [joinWith, List.append_assoc, groupText, groupValues, encoded]

theorem set_encoded (lib : GoLib) (vs : List Value) (m : gems.NullInt32) (n : List Char)
    (t : gems.Datatype) (h : SetReadsBack lib (.vParameterSet vs m n t)) :
    Value.MarshalASCII lib (.vParameterSet vs m n t) [] = (setText lib vs m n, none) := by
  obtain ⟨_, hn, _, _, hv⟩ := h
  simp only [Value.MarshalASCII, SafeWrite_escape _ _ hn, gemsV14.andThen]
  rcases hv with ⟨hm, hp⟩ | ⟨hm, hg⟩
  · rw [slice_params lib vs _ (fun p hp1 => parameter_ok lib p (hp p hp1))]
    simp [setText, headedText, typeText, hm, encoded]
  · rw [slice_groups lib vs _ hg]
    simp [setText, headedText, typeText, hm]

theorem parameter_decode_encoded (lib : GoLib) (fuel : Nat) (p : Value)
    (h : ParameterReadsBack lib p) :
    unmarshalFuel lib (fuel + 2) .ParameterType (encoded lib p) = .ok p := by
  obtain ⟨vs, m, n, t, rfl⟩ := ParameterReadsBack_cases lib p h
  rw [encoded_parameter lib vs m n t h]
  exact parameter_decode lib fuel vs m n t h

theorem encoded_free (lib : GoLib) (p : Value) (h : ParameterReadsBack lib p) :
    ';' ∉ encoded lib p ∧ '|' ∉ encoded lib p ∧ (encoded lib p).head? ≠ some ',' := by
  obtain ⟨vs, m, n, t, rfl⟩ := ParameterReadsBack_cases lib p h
  rw [encoded_parameter lib vs m n t h]
  exact parameterText_free lib vs m n h.2.2.2.2.2.1

theorem parameters_decode (lib : GoLib) (fuel : Nat) (ps : List Value) (hne : ps ≠ [])
    (hp : ∀ p ∈ ps, ParameterReadsBack lib p) :
    (splitOn ";".toList (joinWith ";".toList (ps.map (encoded lib)))).mapM
      (unmarshalFuel lib (fuel + 2) .ParameterType) = .ok ps := by
  have hsplit : splitOn ";".toList (joinWith ";".toList (ps.map (encoded lib)))
      = ps.map (encoded lib) :=
    splitOn_joinWith ';' _ (by simpa using hne) (by
      intro f hf
      obtain ⟨w, hw, rfl⟩ := List.mem_map.1 hf
      exact (encoded_free lib w (hp w hw)).1)
  rw [hsplit]
  exact mapM_ok _ _ _ (fun p hp1 => parameter_decode_encoded lib fuel p (hp p hp1))

theorem groupText_eq (lib : GoLib) (g : Value) (h : GroupReadsBack lib g) :
    groupText lib g = groupBody lib g ++ [';'] := by
  obtain ⟨ps, rfl, hne, _⟩ := GroupReadsBack_cases lib g h
  simp only [groupText, groupBody, groupValues]
  have := flatten_terminated ';' (ps.map (encoded lib)) (by simpa using hne)
  rw [List.map_map] at this
  exact this

theorem groupBody_noPair (lib : GoLib) (g : Value) (h : GroupReadsBack lib g) :
    noPair ';' ',' (groupBody lib g) := by
  obtain ⟨ps, rfl, _, hp⟩ := GroupReadsBack_cases lib g h
  exact noPair_joinWith ';' ',' (by decide) _ (by
    intro f hf
    obtain ⟨w, hw, rfl⟩ := List.mem_map.1 hf
    exact ⟨(encoded_free lib w (hp w hw)).1, (encoded_free lib w (hp w hw)).2.2⟩)

theorem group_decode (lib : GoLib) (fuel : Nat) (g : Value) (h : GroupReadsBack lib g) :
    ((splitOn ";".toList (groupBody lib g)).mapM
      (unmarshalFuel lib (fuel + 2) .ParameterType)).map
      (fun vs => Value.vParameterSet vs ⟨0, false⟩ [] .UndefinedType) = .ok g := by
  obtain ⟨ps, rfl, hne, hp⟩ := GroupReadsBack_cases lib g h
  simp only [groupBody, groupValues]
  rw [parameters_decode lib fuel ps hne hp]
  rfl

theorem set_header (m : gems.NullInt32) (n values : List Char) (heq : '=' ∉ n)
    (hm : multiplicityReadsBack m) :
    cut "=".toList (headedText n .ParameterSetType m values)
        = (escape n ++ ':' :: typeText .ParameterSetType m, values, true)
      ∧ lastIndexByte ':' (escape n ++ ':' :: typeText .ParameterSetType m)
        = some (escape n).length
      ∧ parseTypeString (typeText .ParameterSetType m) = .ok ("set_type".toList, m) :=
  ⟨headedText_cut n _ m values heq (by decide), header_lastIndex n _ m (by decide),
    parseTypeString_typeText _ m (by decide) hm⟩

theorem set_decode (lib : GoLib) (fuel : Nat) (vs : List Value) (m : gems.NullInt32)
    (n : List Char) (t : gems.Datatype) (h : SetReadsBack lib (.vParameterSet vs m n t)) :
    unmarshalFuel lib (fuel + 3) .ParameterSetType (setText lib vs m n)
      = .ok (.vParameterSet vs m n t) := by
  obtain ⟨ht, hn, heq, hm, hv⟩ := h
  subst ht
  obtain ⟨htake, hdrop⟩ := take_drop_header (escape n) (typeText .ParameterSetType m) ':'
  have hD : gems.DatatypeFromASCII "set_type".toList = .ParameterSetType := by decide
  rcases hv with ⟨hmv, hp⟩ | ⟨hmv, hg⟩
  · obtain ⟨h1, h2, h3⟩ := set_header m n
      ((vs.map (fun p => encoded lib p ++ [';'])).flatten) heq hm
    rw [unmarshalFuel]
    simp only [setText, hmv, Bool.false_eq_true, if_false, h1, h2, htake, hdrop,
      h3, hD, unescape_escape_id]
    cases vs with
    | nil => simp
    | cons p r =>
      have hfl := flatten_terminated ';' ((p :: r).map (encoded lib)) (by simp)
      rw [List.map_map] at hfl
      have hfl2 : ((p :: r).map (fun p => encoded lib p ++ [';'])).flatten
          = joinWith ";".toList ((p :: r).map (encoded lib)) ++ ";".toList := hfl
      rw [hfl2, trimSuffix_append, parameters_decode lib (fuel) (p :: r) (by simp) hp]
      simp
      rfl
  · obtain ⟨h1, h2, h3⟩ := set_header m n (joinWith ",".toList (vs.map (groupText lib))) heq hm
    rw [unmarshalFuel]
    simp only [setText, hmv, if_true, h1, h2, htake, hdrop,
      h3, hD, unescape_escape_id]
    cases vs with
    | nil => simp [joinWith]
    | cons g r =>
      have hmapeq : (g :: r).map (groupText lib)
          = ((g :: r).map (groupBody lib)).map (fun f => f ++ [';']) := by
        rw [List.map_map]
        apply List.map_congr_left
        intro x hx
        exact groupText_eq lib x (hg x hx)
      have hj := joinWith_terminated ';' ',' ((g :: r).map (groupBody lib)) (by simp)
      have hj2 : joinWith ",".toList ((g :: r).map (groupText lib))
          = joinWith ";,".toList ((g :: r).map (groupBody lib)) ++ ";".toList := by
        rw [hmapeq]; exact hj
      have hsplit : splitOn ";,".toList (joinWith ";,".toList ((g :: r).map (groupBody lib)))
          = (g :: r).map (groupBody lib) :=
        splitOn_joinWith_pair ';' ',' (by decide) _ (by simp) (by
          intro f hf
          obtain ⟨w, hw, rfl⟩ := List.mem_map.1 hf
          exact groupBody_noPair lib w (hg w hw))
      rw [hj2, trimSuffix_append, hsplit,
        mapM_ok _ (groupBody lib) (g :: r) (fun x hx => group_decode lib fuel x (hg x hx))]
      simp
      rfl

theorem indexAny_none (chars a : List Char) (h : ∀ c ∈ a, c ∉ chars) :
    indexAny chars a = none := by
  induction a with
  | nil => rfl
  | cons d a ih =>
    have hd : d ∉ chars := h d (by simp)
    simp [indexAny, hd, ih (fun c hc => h c (by simp [hc]))]

theorem indexAny_first (chars a r : List Char) (c : Char) (h : ∀ x ∈ a, x ∉ chars)
    (hc : c ∈ chars) : indexAny chars (a ++ c :: r) = some a.length := by
  induction a with
  | nil =>
    simp [indexAny, hc]
  | cons d a ih =>
    have hd : d ∉ chars := h d (by simp)
    simp [indexAny, hd, ih (fun x hx => h x (by simp [hx]))]

theorem getType_headedText (n : List Char) (T : gems.Datatype) (m : gems.NullInt32)
    (values : List Char) (hn : '=' ∉ n) (h1 : '=' ∉ T.ASCIIName) (h2 : ':' ∉ T.ASCIIName)
    (h3 : '[' ∉ T.ASCIIName) (h4 : '(' ∉ T.ASCIIName) :
    getASCIIParameterType (headedText n T m values) = gems.DatatypeFromASCII T.ASCIIName := by
  obtain ⟨_, hdrop⟩ := take_drop_header (escape n) (typeText T m) ':'
  have hfree : ∀ x ∈ T.ASCIIName, x ∉ "[(".toList := by
    intro x hx hm
    simp at hm
    rcases hm with rfl | rfl
    · exact h3 hx
    · exact h4 hx
  unfold getASCIIParameterType
  rw [headedText_cut n T m values hn h1]
  simp only [Bool.not_true, Bool.false_eq_true, if_false, header_lastIndex n T m h2, hdrop]
  unfold typeText
  cases hv : m.Valid
  · simp only [Bool.false_eq_true, if_false, List.append_nil]
    rw [indexAny_none _ _ hfree]
  · simp only [if_true]
    rw [indexAny_first _ _ _ '[' hfree (by decide)]
    simp

theorem headedText_length (n : List Char) (T : gems.Datatype) (m : gems.NullInt32)
    (values : List Char) : 2 ≤ (headedText n T m values).length := by
  simp [headedText]
  omega

theorem set_headedText_length (n : List Char) (m : gems.NullInt32)
    (values : List Char) : 3 ≤ (headedText n .ParameterSetType m values).length := by
  simp [headedText, typeText, gems.Datatype.ASCIIName]
  omega

theorem getType_escape (n : List Char) (hn : '=' ∉ n) :
    getASCIIParameterType (escape n) = .UndefinedType := by
  unfold getASCIIParameterType
  rw [show "=".toList = ['='] from rfl, cut_none '=' _ (escape_keeps_free '=' (by decide)
    (by decide) (by decide) (by decide) (by decide) n hn)]
  rfl

theorem parameter_decode_nil (lib : GoLib) (fuel : Nat) (m : gems.NullInt32) (n : List Char)
    (t : gems.Datatype) (h : ParameterReadsBack lib (.vParameter [] m n t)) :
    unmarshalFuel lib (fuel + 1) .ParameterType (escape n) = .ok (.vParameter [] m n t) := by
  obtain ⟨ht, hn, heq, hm, hempty, hs, hsame⟩ := h
  subst ht
  have hcut : cut "=".toList (escape n) = (escape n, [], false) :=
    cut_none '=' _ (escape_keeps_free '=' (by decide) (by decide) (by decide) (by decide)
      (by decide) n heq)
  have hm0 : m = ⟨0, false⟩ := by
    have hv := hempty rfl
    rcases hm with ⟨_, h0⟩ | ⟨h1, _⟩
    · cases m; simp at hv h0; simp [hv, h0]
    · rw [hv] at h1; exact absurd h1 (by decide)
  rw [unmarshalFuel]
  simp only [hcut, unescape_escape_id, hm0]
  rfl

theorem parameter_top (lib : GoLib) (vs : List Value) (m : gems.NullInt32) (n : List Char)
    (t : gems.Datatype) (h : ParameterReadsBack lib (.vParameter vs m n t)) :
    UnmarshalParameterASCII lib (parameterText lib vs m n) = .ok (.vParameter vs m n t) := by
  have hn := h.2.2.1
  have hs := h.2.2.2.2.2.1
  unfold UnmarshalParameterASCII
  cases vs with
  | nil =>
    simp only [parameterText, getType_escape n hn]
    rw [if_neg (by decide)]
    exact parameter_decode_nil lib _ m n t h
  | cons v r =>
    have hT := scalar_type lib v (hs v (by simp))
    have hA := ASCIIName_scalar v.Type hT.1 hT.2.1
    have hl := headedText_length n v.Type m (joinWith ",".toList ((v :: r).map (encoded lib)))
    have hg := getType_headedText n v.Type m (joinWith ",".toList ((v :: r).map (encoded lib)))
      hn hA.2.1 hA.2.2.1 hA.2.2.2.1 hA.2.2.2.2
    have hdec := parameter_decode lib
      ((headedText n v.Type m (joinWith ",".toList ((v :: r).map (encoded lib)))).length - 1)
      (v :: r) m n t h
    simp only [parameterText] at hdec ⊢
    rw [hg, hA.1, if_neg hT.2.2]
    rw [show (headedText n v.Type m (joinWith ",".toList ((v :: r).map (encoded lib)))).length + 1
      = (headedText n v.Type m (joinWith ",".toList ((v :: r).map (encoded lib)))).length - 1 + 2
      by omega]
    exact hdec

theorem set_top (lib : GoLib) (vs : List Value) (m : gems.NullInt32) (n : List Char)
    (t : gems.Datatype) (h : SetReadsBack lib (.vParameterSet vs m n t)) :
    UnmarshalParameterASCII lib (setText lib vs m n) = .ok (.vParameterSet vs m n t) := by
  have hn := h.2.2.1
  unfold UnmarshalParameterASCII
  have hdec := fun f => set_decode lib f vs m n t h
  simp only [setText] at hdec ⊢
  generalize (if m.Valid = true then joinWith ",".toList (vs.map (groupText lib))
      else (vs.map (fun p => encoded lib p ++ [';'])).flatten) = values at hdec ⊢
  have hl := set_headedText_length n m values
  rw [getType_headedText n .ParameterSetType m values hn (by decide) (by decide) (by decide)
    (by decide), if_pos (by decide)]
  rw [show (headedText n .ParameterSetType m values).length + 1
      = (headedText n .ParameterSetType m values).length - 2 + 3 by omega]
  exact hdec _

theorem exampleChannel_reads_back (i : Nat) (r1 r2 : Int) (hi : i ≤ 9)
    (h1 : 0 ≤ r1 ∧ r1 ≤ 10000) (h2 : 0 ≤ r2 ∧ r2 ≤ 10000) :
    GroupReadsBack sampleLib (exampleChannel i r1 r2).toValue := by
  refine ⟨rfl, rfl, rfl, by simp [exampleChannel], ?_⟩
  intro p hp
  simp only [exampleChannel, List.mem_cons, List.mem_singleton, List.not_mem_nil, or_false] at hp
  rcases hp with rfl | rfl | rfl
  · refine ⟨rfl, by decide, by decide, Or.inl ⟨rfl, rfl⟩, by simp, ?_, ?_⟩
    · intro v hv
      simp only [List.mem_singleton] at hv
      subst hv
      refine Or.inr ⟨rfl, by simp, ?_⟩
      rw [Valid_iff]
      intro c hc
      simp only [List.mem_append] at hc
      rcases hc with hc | hc
      · revert c; decide
      · have := FormatUint_allDigits i c hc
        omega
    · intro v hv w hw
      simp only [List.mem_singleton] at hv hw
      subst hv; subst hw; rfl
  · refine ⟨rfl, by decide, by decide, Or.inl ⟨rfl, rfl⟩, by simp, ?_, ?_⟩
    · intro v hv
      simp only [List.mem_singleton] at hv
      subst hv
      exact Or.inr ⟨rfl, by omega, by omega⟩
    · intro v hv w hw
      simp only [List.mem_singleton] at hv hw
      subst hv; subst hw; rfl
  · refine ⟨rfl, by decide, by decide, Or.inr ⟨rfl, by decide, by decide⟩, by simp, ?_, ?_⟩
    · intro v hv
      simp only [List.mem_cons, List.mem_singleton, List.not_mem_nil, or_false] at hv
      rcases hv with rfl | rfl
      · exact Or.inr ⟨rfl, by omega, by omega⟩
      · exact Or.inr ⟨rfl, by omega, by omega⟩
    · intro v hv w hw
      simp only [List.mem_cons, List.mem_singleton, List.not_mem_nil, or_false] at hv hw
      rcases hv with rfl | rfl <;> rcases hw with rfl | rfl <;> rfl

theorem contentText_cons (f : List Char) (r : List (List Char)) :
    contentText (f :: r) = f ++ '|' :: contentText r := by
  simp [contentText]

theorem contentText_append (a b : List (List Char)) :
    contentText (a ++ b) = contentText a ++ contentText b := by
  simp [contentText]

theorem contentText_eq (fields : List (List Char)) (h : fields ≠ []) :
    contentText fields = joinWith "|".toList fields ++ "|".toList := by
  induction fields with
  | nil => exact absurd rfl h
  | cons f r ih =>
    cases r with
    | nil => simp [contentText, joinWith]
    | cons g r2 =>
      rw [contentText_cons, ih (by simp)]
      simp [joinWith]

theorem marshal_frame (h : MessageHeader) (tag : List Char) (body : List (List Char)) :
    marshalASCIIMessage [] h (contentText (tag :: body)) = (frameText h tag body, none) := by
  have hc := contentText_eq (tag :: body) (by simp)
  simp only [marshalASCIIMessage, frameText, frameFields, frameLength, hc, asciiVersion]
  simp [joinWith, List.append_assoc]

theorem parseIntCore_digits (fn s : List Char) (n : Nat) (hs : allDigits s) (hne : s ≠ [])
    (hp : parseUintCore s 64 = .ok n) (hn : n < 2 ^ 63) : parseIntCore fn s 64 = .ok (n : Int) := by
  have h1 := head_digit_of_allDigits s hs '+' (by decide)
  have h2 := head_digit_of_allDigits s hs '-' (by decide)
  unfold parseIntCore
  rw [if_neg hne]
  simp only [h1, h2, or_self, if_false, hp, decide_False, Bool.not_false, Bool.false_eq_true,
    false_and, true_and, ge_iff_le]
  rw [if_neg (by norm_num; omega)]

theorem ParseInt_FormatPad10 (n : Nat) (h : n < 2 ^ 63) :
    ParseInt (FormatPad10 n) 64 = .ok (n : Int) :=
  parseIntCore_digits _ _ n (FormatPad10_allDigits n)
    (by
      intro h0
      have := FormatPad10_length_ge n
      rw [h0] at this
      simp at this)
    (parseUintCore_FormatPad10 n (by
      calc n < 2 ^ 63 := h
        _ ≤ 2 ^ 64 := by norm_num)) h

theorem allDigits_free (s : List Char) (hs : allDigits s) (c : Char)
    (hc : ¬ (48 ≤ c.toNat ∧ c.toNat ≤ 57)) : c ∉ s :=
  fun h => hc (hs c h)

theorem NullInt64_String_free (t : gems.NullInt64) : '|' ∉ t.String := by
  unfold gems.NullInt64.String
  split_ifs
  · simp
  · exact FormatInt_free '|' (by decide) (by decide) _

theorem frameFields_free (h : MessageHeader) (L : Nat) (tag : List Char)
    (body : List (List Char)) (hh : headerReadsBack h) (htag : '|' ∉ tag)
    (hbody : ∀ f ∈ body, '|' ∉ f) : ∀ f ∈ frameFields h L tag body, '|' ∉ f := by
  intro f hf
  simp only [frameFields, List.mem_cons] at hf
  rcases hf with rfl | rfl | rfl | rfl | rfl | rfl | hf
  · exact allDigits_free _ (FormatPad10_allDigits L) '|' (by decide)
  · exact NullInt64_String_free _
  · exact hh.2.1
  · exact fun hc => (Time_String_sepFree _ _ hc).2.2 rfl
  · exact hh.1
  · exact htag
  · exact hbody f hf

theorem NullInt64_round_trip (t : gems.NullInt64)
    (h : (t.Valid = false ∧ t.Int64 = 0)
      ∨ (t.Valid = true ∧ -9223372036854775808 ≤ t.Int64 ∧ t.Int64 ≤ 9223372036854775807)) :
    gems.NullInt64.UnmarshalASCII t.String = (t, none) := by
  cases t with
  | mk i v =>
    rcases h with ⟨hv, h0⟩ | ⟨hv, h1, h2⟩
    · simp only at hv h0
      subst hv; subst h0
      rfl
    · simp only at hv h1 h2
      subst hv
      simp only [gems.NullInt64.String, gems.NullInt64.UnmarshalASCII, Bool.not_true,
        Bool.false_eq_true, if_false]
      rw [if_neg (length_ne_zero_of_ne_nil (FormatInt_ne_nil i)),
        ParseInt_FormatInt i 64 (by norm_num) (by norm_num) (by norm_num; exact h1)
          (by norm_num; omega)]

theorem Time_round_trip (t : gems.Time) (h : timeReadsBack t) :
    gems.Time.UnmarshalASCII t.String = (t, none) := by
  simp only [gems.Time.UnmarshalASCII, TimeFromString_String t h]

theorem frameText_length (h : MessageHeader) (tag : List Char) (body : List (List Char))
    (hl : frameLength h tag body < 10 ^ 10) :
    (frameText h tag body).length = frameLength h tag body := by
  have hp := FormatPad10_length (frameLength h tag body) hl
  have hj : joinWith "|".toList (frameFields h (frameLength h tag body) tag body)
      = FormatPad10 (frameLength h tag body) ++ "|".toList
        ++ joinWith "|".toList (h.transactionID.String :: h.token :: h.timestamp.String
          :: h.target :: tag :: body) := by
    simp [frameFields, joinWith]
  rw [frameText, hj]
  simp only [List.length_append, hp]
  simp [frameLength]
  omega

theorem frameText_drop (h : MessageHeader) (tag : List Char) (body : List (List Char)) :
    (frameText h tag body).drop 9
      = joinWith "|".toList (frameFields h (frameLength h tag body) tag body) ++ "|END".toList := by
  rw [frameText, show (9 : Nat) = ("|GEMS|14|".toList).length from rfl, List.drop_left]

theorem frameFields_ne_nil (h : MessageHeader) (L : Nat) (tag : List Char)
    (body : List (List Char)) : frameFields h L tag body ≠ [] := by
  simp [frameFields]

theorem frame_split_trailer (h : MessageHeader) (tag : List Char) (body : List (List Char))
    (hh : headerReadsBack h) (htag : '|' ∉ tag) (hbody : ∀ f ∈ body, '|' ∉ f) :
    splitOn "|".toList ((frameText h tag body).drop 9)
      = frameFields h (frameLength h tag body) tag body ++ ["END".toList] := by
  rw [frameText_drop]
  have := joinWith_append_singleton "|".toList (frameFields h (frameLength h tag body) tag body)
    "END".toList (frameFields_ne_nil _ _ _ _)
  rw [show joinWith "|".toList (frameFields h (frameLength h tag body) tag body) ++ "|END".toList
    = joinWith "|".toList (frameFields h (frameLength h tag body) tag body) ++ "|".toList
      ++ "END".toList by simp, ← this]
  apply splitOn_joinWith '|' _ (by simp)
  intro f hf
  rcases List.mem_append.1 hf with hf | hf
  · exact frameFields_free h _ tag body hh htag hbody f hf
  · simp only [List.mem_singleton] at hf
    subst hf
    decide

theorem frame_split (h : MessageHeader) (tag : List Char) (body : List (List Char))
    (hh : headerReadsBack h) (htag : '|' ∉ tag) (hbody : ∀ f ∈ body, '|' ∉ f) :
    splitOn "|".toList (trimSuffix ((frameText h tag body).drop 9) "|END".toList)
      = frameFields h (frameLength h tag body) tag body := by
  rw [frameText_drop, trimSuffix_append]
  exact splitOn_joinWith '|' _ (frameFields_ne_nil _ _ _ _)
    (frameFields_free h _ tag body hh htag hbody)

theorem frameText_prefix (h : MessageHeader) (tag : List Char) (body : List (List Char)) :
    ∃ rest, frameText h tag body = '|' :: 'G' :: 'E' :: 'M' :: 'S' :: '|' :: '1' :: '4' :: '|' :: rest :=
  ⟨_, rfl⟩

theorem header_decode (h : MessageHeader) (tag : List Char) (body : List (List Char))
    (hh : headerReadsBack h) (htag : '|' ∉ tag) (hbody : ∀ f ∈ body, '|' ∉ f)
    (hl : frameLength h tag body < 10 ^ 10) :
    MessageHeader.UnmarshalASCII (frameText h tag body) = .ok h := by
  obtain ⟨rest, hpre⟩ := frameText_prefix h tag body
  have hlen := frameText_length h tag body hl
  have hsplit := frame_split_trailer h tag body hh htag hbody
  have hpad : ParseInt (FormatPad10 (frameLength h tag body)) 64
      = .ok ((frameLength h tag body : Nat) : Int) :=
    ParseInt_FormatPad10 _ (by
      calc frameLength h tag body < 10 ^ 10 := hl
        _ ≤ 2 ^ 63 := by norm_num)
  unfold MessageHeader.UnmarshalASCII
  rw [if_neg (by rw [hpre]; simp), if_neg (by rw [hpre]; simp [List.take]),
    if_neg (by rw [hpre]; simp [List.take, asciiVersion])]
  simp only [hsplit]
  rw [if_neg (by simp [frameFields]), if_neg (by simp)]
  simp only [frameFields, List.cons_append, List.getD_cons_zero, List.getD_cons_succ, hpad, hlen]
  rw [if_neg (by simp)]
  simp only [NullInt64_round_trip h.transactionID hh.2.2.2, Time_round_trip h.timestamp hh.2.2.1]

theorem unmarshalASCIIHeader_frame (h : MessageHeader) (typ : gems.MessageType)
    (body : List (List Char)) (k : Nat)
    (hh : headerReadsBack h) (htag : '|' ∉ typ.ASCII) (hbody : ∀ f ∈ body, '|' ∉ f)
    (hl : frameLength h typ.ASCII body < 10 ^ 10) (hk : k ≤ body.length) :
    unmarshalASCIIHeader (frameText h typ.ASCII body) typ k = .ok (h, body) := by
  unfold unmarshalASCIIHeader
  rw [header_decode h typ.ASCII body hh htag hbody hl]
  simp only [frame_split h typ.ASCII body hh htag hbody]
  rw [if_neg (by simp [frameFields]; omega), if_neg (by simp [frameFields])]
  simp [frameFields]

theorem generic_decode (h : MessageHeader) (tag : List Char) (body : List (List Char))
    (hh : headerReadsBack h) (htag : '|' ∉ tag) (hbody : ∀ f ∈ body, '|' ∉ f)
    (hl : frameLength h tag body < 10 ^ 10) :
    ∃ g, gems.GenericMessage.UnmarshalASCII (frameText h tag body) = .ok g
      ∧ g.Type = gems.MessageTypeFromASCII tag := by
  have hpad : ParseInt (FormatPad10 (frameLength h tag body)) 64
      = .ok ((frameLength h tag body : Nat) : Int) :=
    ParseInt_FormatPad10 _ (by
      calc frameLength h tag body < 10 ^ 10 := hl
        _ ≤ 2 ^ 63 := by norm_num)
  have hF : frameText h tag body = "|".toList ++ (joinWith "|".toList
      ("GEMS".toList :: "14".toList :: frameFields h (frameLength h tag body) tag body)
      ++ "|END".toList) := by
    have : frameFields h (frameLength h tag body) tag body ≠ [] := frameFields_ne_nil _ _ _ _
    rw [frameText]
    generalize frameFields h (frameLength h tag body) tag body = X at this ⊢
    cases X with
    | nil => exact absurd rfl this
    | cons a r => simp [joinWith]
  have hsplit : splitOn "|".toList (joinWith "|".toList
      ("GEMS".toList :: "14".toList :: frameFields h (frameLength h tag body) tag body))
      = "GEMS".toList :: "14".toList :: frameFields h (frameLength h tag body) tag body := by
    apply splitOn_joinWith '|' _ (by simp)
    intro f hf
    simp only [List.mem_cons] at hf
    rcases hf with rfl | rfl | hf
    · decide
    · decide
    · exact frameFields_free h _ tag body hh htag hbody f hf
  unfold gems.GenericMessage.UnmarshalASCII
  have hstart : startsWith (frameText h tag body) "|".toList = true := by
    rw [hF]; rfl
  have htrim : trimPrefix (frameText h tag body) "|".toList = joinWith "|".toList
      ("GEMS".toList :: "14".toList :: frameFields h (frameLength h tag body) tag body)
      ++ "|END".toList := by
    rw [trimPrefix, hstart, if_pos rfl, hF]
    rfl
  rw [hstart]
  simp only [Bool.not_true, Bool.false_eq_true, if_false, htrim]
  rw [(endsWith_iff _ _).2 (List.suffix_append _ _)]
  simp only [Bool.not_true, Bool.false_eq_true, if_false, trimSuffix_append, hsplit]
  rw [if_neg (by simp [frameFields])]
  simp only [frameFields, List.getD_cons_zero, List.getD_cons_succ, hpad,
    NullInt64_round_trip h.transactionID hh.2.2.2, if_true,
    Time_round_trip h.timestamp hh.2.2.1]
  rw [if_neg (by simp)]
  exact ⟨_, rfl, rfl⟩

theorem xmlParameter_encoded (lib : GoLib) (P : XMLParameter) (h : ReadsBack lib P) :
    Value.MarshalASCII lib P.toValue [] = (encoded lib P.toValue, none) := by
  cases P with
  | Parameter p =>
    have h1 : ParameterReadsBack lib (.vParameter p.Values p.Multiplicity p.name p.typeAttr) := h
    have he := parameter_encoded lib _ _ _ _ h1
    simp only [XMLParameter.toValue, Parameter.toValue, encoded, he]
  | ParameterSet ps =>
    have h1 : SetReadsBack lib (.vParameterSet ps.Values ps.Multiplicity ps.name ps.typeAttr) := h
    have he := set_encoded lib _ _ _ _ h1
    simp only [XMLParameter.toValue, ParameterSet.toValue, encoded, he]

theorem xmlParameter_decode (lib : GoLib) (P : XMLParameter) (h : ReadsBack lib P) :
    unmarshalXMLParameter lib (encoded lib P.toValue) = .ok P := by
  unfold unmarshalXMLParameter
  cases P with
  | Parameter p =>
    have h1 : ParameterReadsBack lib (.vParameter p.Values p.Multiplicity p.name p.typeAttr) := h
    have he := parameter_encoded lib _ _ _ _ h1
    simp only [XMLParameter.toValue, Parameter.toValue, encoded, he,
      parameter_top lib _ _ _ _ h1]
    rfl
  | ParameterSet ps =>
    have h1 : SetReadsBack lib (.vParameterSet ps.Values ps.Multiplicity ps.name ps.typeAttr) := h
    have he := set_encoded lib _ _ _ _ h1
    simp only [XMLParameter.toValue, ParameterSet.toValue, encoded, he, set_top lib _ _ _ _ h1]
    rfl

theorem writeParameters_eq (lib : GoLib) (ps : List XMLParameter) :
    ∀ content, (∀ p ∈ ps, ReadsBack lib p) →
      writeParameters lib ps content
        = content ++ contentText (ps.map (fun p => encoded lib p.toValue)) := by
  induction ps with
  | nil => intro content _; simp [writeParameters, contentText]
  | cons p r ih =>
    intro content h
    have hp := xmlParameter_encoded lib p (h p (by simp))
    have hm : (p.MarshalASCII lib content).1 = content ++ encoded lib p.toValue := by
      rw [XMLParameter.MarshalASCII, MarshalASCII_ok lib _ content (by rw [hp])]
      rfl
    rw [writeParameters, hm, ih _ (fun q hq => h q (by simp [hq])), List.map_cons,
      contentText_cons]
    simp

theorem SafeWrite_name (content n : List Char) (hv : ascii.Valid n = true) (hp : '|' ∉ n) :
    ascii.SafeWrite content n = (content ++ n, none) := by
  unfold ascii.SafeWrite
  rw [if_neg, if_neg]
  · simp [hv]
  · rintro (h1 | h1) <;> rw [h1] at hp <;> simp at hp

theorem writeNames_raw (ps : List (List Char)) :
    ∀ content, (∀ n ∈ ps, nameReadsBack n) →
      writeNames false ps content = content ++ contentText ps := by
  induction ps with
  | nil => intro content _; simp [writeNames, contentText]
  | cons p r ih =>
    intro content h
    have hp := h p (by simp)
    rw [writeNames]
    simp only [Bool.false_eq_true, if_false, SafeWrite_name content p hp.1 hp.2.1]
    rw [ih _ (fun q hq => h q (by simp [hq])), contentText_cons]
    simp

theorem writeNames_escaped (cs : List (List Char)) :
    ∀ content, (∀ n ∈ cs, ascii.Valid n = true) →
      writeNames true cs content = content ++ contentText (cs.map escape) := by
  induction cs with
  | nil => intro content _; simp [writeNames, contentText]
  | cons p r ih =>
    intro content h
    rw [writeNames]
    simp only [if_true, SafeWrite_escape content p (h p (by simp))]
    rw [ih _ (fun q hq => h q (by simp [hq])), List.map_cons, contentText_cons]
    simp

theorem responseStart_eq (typ : gems.MessageType) (r : gems.Result) :
    responseStart typ r = contentText [typ.ASCII, r.Code, r.Description] := by
  simp [responseStart, contentText]

theorem message_marshal (lib : GoLib) (m : Message) (h : bodyReadsBack lib m) :
    m.MarshalASCII lib []
      = marshalASCIIMessage [] m.header (contentText (m.Type.ASCII :: bodyFields lib m)) := by
  cases m with
  | UnknownResponse hd r => simp [Message.MarshalASCII, responseStart_eq, bodyFields, Message.header]
  | ConnectMessage hd c => simp [Message.MarshalASCII, bodyFields, Message.header, contentText]
  | ConnectResponse hd r => simp [Message.MarshalASCII, responseStart_eq, bodyFields, Message.header]
  | DisconnectMessage hd d => simp [Message.MarshalASCII, bodyFields, Message.header, contentText]
  | PingMessage hd => simp [Message.MarshalASCII, bodyFields, Message.header, contentText]
  | PingResponse hd r => simp [Message.MarshalASCII, responseStart_eq, bodyFields, Message.header]
  | GetConfigMessage hd ps =>
    simp only [Message.MarshalASCII, bodyFields, Message.header]
    by_cases h0 : ps.length = 0
    · rw [if_pos h0, if_pos h0]
      simp [contentText]
    · rw [if_neg h0, if_neg h0, writeNames_raw ps _ h]
      simp [contentText]
  | GetConfigResponse hd r ps =>
    simp only [Message.MarshalASCII, bodyFields, Message.header, paramFields]
    rw [writeParameters_eq lib ps _ h.2, responseStart_eq]
    simp [contentText]
  | AsyncStatusMessage hd r ps =>
    simp only [Message.MarshalASCII, bodyFields, Message.header, paramFields]
    rw [writeParameters_eq lib ps _ h.2, responseStart_eq]
    simp [contentText]
  | SetConfigMessage hd ps =>
    simp only [Message.MarshalASCII, bodyFields, Message.header, paramFields]
    have h0 : ¬ ps.length = 0 := (by intro h1; exact h.1 (List.length_eq_zero.1 h1))
    rw [if_neg h0, writeParameters_eq lib ps _ h.2]
    simp [contentText]
  | SetConfigResponse hd r n =>
    simp [Message.MarshalASCII, responseStart_eq, bodyFields, Message.header, contentText]
  | GetConfigListMessage hd => simp [Message.MarshalASCII, bodyFields, Message.header, contentText]
  | GetConfigListResponse hd r cs =>
    simp only [Message.MarshalASCII, bodyFields, Message.header]
    rw [writeNames_escaped cs _ h.2, responseStart_eq]
    simp [contentText]
  | LoadConfigMessage hd c => simp [Message.MarshalASCII, bodyFields, Message.header, contentText]
  | LoadConfigResponse hd r n =>
    simp [Message.MarshalASCII, responseStart_eq, bodyFields, Message.header, contentText]
  | SaveConfigMessage hd c => simp [Message.MarshalASCII, bodyFields, Message.header, contentText]
  | SaveConfigResponse hd r n =>
    simp [Message.MarshalASCII, responseStart_eq, bodyFields, Message.header, contentText]
  | DirectiveMessage hd d args =>
    cases args with
    | none =>
      simp [Message.MarshalASCII, bodyFields, Message.header, SafeWrite_name _ d h.1.1 h.1.2.1,
        argumentFields, contentText]
    | some ps =>
      simp only [Message.MarshalASCII, bodyFields, Message.header,
        SafeWrite_name _ d h.1.1 h.1.2.1, Arguments.MarshalASCII, argumentFields, paramFields]
      rw [writeParameters_eq lib ps _ h.2.2]
      simp [contentText]
  | DirectiveResponse hd r d args =>
    cases args with
    | none =>
      simp [Message.MarshalASCII, bodyFields, Message.header,
        SafeWrite_name _ d h.2.1.1 h.2.1.2.1, argumentFields, contentText, responseStart_eq]
    | some ps =>
      simp only [Message.MarshalASCII, bodyFields, Message.header,
        SafeWrite_name _ d h.2.1.1 h.2.1.2.1, Arguments.MarshalASCII, argumentFields,
        paramFields]
      rw [writeParameters_eq lib ps _ h.2.2.2, responseStart_eq]
      simp [contentText]

theorem flatten_terminated_free (c : Char) (fs : List (List Char)) (h : ∀ f ∈ fs, c ∉ f)
    (hc : c ≠ ';') : c ∉ (fs.map (fun f => f ++ [';'])).flatten := by
  intro hm
  simp only [List.mem_flatten, List.mem_map] at hm
  obtain ⟨l, ⟨f, hf, rfl⟩, hl⟩ := hm
  rcases List.mem_append.1 hl with h1 | h1
  · exact h f hf h1
  · simp at h1; exact hc h1

theorem joinWith_free (c s : Char) (fs : List (List Char)) (h : ∀ f ∈ fs, c ∉ f)
    (hc : c ≠ s) : c ∉ joinWith [s] fs := by
  induction fs with
  | nil => simp [joinWith]
  | cons f r ih =>
    cases r with
    | nil => simpa [joinWith] using h f (by simp)
    | cons g r2 =>
      have := ih (fun x hx => h x (by simp [hx]))
      simp only [joinWith, List.mem_append, not_or]
      exact ⟨⟨h f (by simp), by simp [hc]⟩, this⟩

theorem headedText_free (n : List Char) (T : gems.Datatype) (m : gems.NullInt32)
    (values : List Char) (hv : '|' ∉ values) : '|' ∉ headedText n T m values := by
  simp only [headedText, List.mem_append, List.mem_cons, not_or]
  exact ⟨fun hc => (escape_sepFree n _ hc).2.2 rfl, by decide,
    typeText_free '|' T m (by decide) (by decide) (by decide) (by decide) (ASCIIName_free T).2,
    by decide, hv⟩

theorem groupText_free (lib : GoLib) (g : Value) (h : GroupReadsBack lib g) :
    '|' ∉ groupText lib g := by
  obtain ⟨ps, rfl, _, hp⟩ := GroupReadsBack_cases lib g h
  simp only [groupText, groupValues]
  have := flatten_terminated_free '|' (ps.map (encoded lib)) (by
    intro f hf
    obtain ⟨w, hw, rfl⟩ := List.mem_map.1 hf
    exact (encoded_free lib w (hp w hw)).2.1) (by decide)
  rw [List.map_map] at this
  exact this

theorem xmlParameter_free (lib : GoLib) (P : XMLParameter) (h : ReadsBack lib P) :
    '|' ∉ encoded lib P.toValue := by
  cases P with
  | Parameter p =>
    have h1 : ParameterReadsBack lib p.toValue := h
    exact (encoded_free lib _ h1).2.1
  | ParameterSet ps =>
    have h1 : SetReadsBack lib (.vParameterSet ps.Values ps.Multiplicity ps.name ps.typeAttr) := h
    have he := set_encoded lib _ _ _ _ h1
    simp only [XMLParameter.toValue, ParameterSet.toValue, encoded, he, setText]
    apply headedText_free
    obtain ⟨_, _, _, _, hv⟩ := h1
    rcases hv with ⟨hm, hp⟩ | ⟨hm, hg⟩
    · rw [hm]
      simp only [Bool.false_eq_true, if_false]
      have := flatten_terminated_free '|' (ps.Values.map (encoded lib)) (by
        intro f hf
        obtain ⟨w, hw, rfl⟩ := List.mem_map.1 hf
        exact (encoded_free lib w (hp w hw)).2.1) (by decide)
      rw [List.map_map] at this
      exact this
    · rw [hm]
      simp only [if_true]
      exact joinWith_free '|' ',' _ (by
        intro f hf
        obtain ⟨w, hw, rfl⟩ := List.mem_map.1 hf
        exact groupText_free lib w (hg w hw)) (by decide)

theorem paramFields_free (lib : GoLib) (ps : List XMLParameter)
    (h : ∀ p ∈ ps, ReadsBack lib p) : ∀ f ∈ paramFields lib ps, '|' ∉ f := by
  intro f hf
  simp only [paramFields, List.mem_cons, List.mem_map] at hf
  rcases hf with rfl | ⟨p, hp, rfl⟩
  · exact FormatInt_free '|' (by decide) (by decide) _
  · exact xmlParameter_free lib p (h p hp)

theorem argumentFields_free (lib : GoLib) (args : Option (List XMLParameter))
    (h : argumentsReadBack lib args) : ∀ f ∈ argumentFields lib args, '|' ∉ f := by
  cases args with
  | none =>
    intro f hf
    simp only [argumentFields, List.mem_singleton] at hf
    subst hf; decide
  | some ps => exact paramFields_free lib ps h.2

theorem bodyFields_free (lib : GoLib) (m : Message) (h : bodyReadsBack lib m) :
    ∀ f ∈ bodyFields lib m, '|' ∉ f := by
  have hint : ∀ n : Int, '|' ∉ FormatInt n := fun n =>
    FormatInt_free '|' (by decide) (by decide) n
  intro f hf
  cases m with
  | UnknownResponse hd r =>
    simp only [bodyFields, List.mem_cons, List.mem_singleton, List.not_mem_nil, or_false] at hf
    rcases hf with rfl | rfl
    · exact h.1
    · exact h.2
  | ConnectMessage hd c =>
    simp only [bodyFields, List.mem_singleton] at hf
    subst hf; exact h
  | ConnectResponse hd r =>
    simp only [bodyFields, List.mem_cons, List.mem_singleton, List.not_mem_nil, or_false] at hf
    rcases hf with rfl | rfl
    · exact h.1
    · exact h.2
  | DisconnectMessage hd d =>
    simp only [bodyFields, List.mem_singleton] at hf
    subst hf; exact h
  | PingMessage hd => simp [bodyFields] at hf
  | PingResponse hd r =>
    simp only [bodyFields, List.mem_cons, List.mem_singleton, List.not_mem_nil, or_false] at hf
    rcases hf with rfl | rfl
    · exact h.1
    · exact h.2
  | GetConfigMessage hd ps =>
    simp only [bodyFields] at hf
    split_ifs at hf
    · simp only [List.mem_singleton] at hf
      subst hf; simp
    · simp only [List.mem_cons] at hf
      rcases hf with rfl | hf
      · exact hint _
      · exact (h f hf).2.1
  | GetConfigResponse hd r ps =>
    simp only [bodyFields, List.mem_cons] at hf
    rcases hf with rfl | rfl | hf
    · exact h.1.1
    · exact h.1.2
    · exact paramFields_free lib ps h.2 f (by simpa [paramFields] using hf)
  | AsyncStatusMessage hd r ps =>
    simp only [bodyFields, List.mem_cons] at hf
    rcases hf with rfl | rfl | hf
    · exact h.1.1
    · exact h.1.2
    · exact paramFields_free lib ps h.2 f (by simpa [paramFields] using hf)
  | SetConfigMessage hd ps => exact paramFields_free lib ps h.2 f hf
  | SetConfigResponse hd r n =>
    simp only [bodyFields, List.mem_cons, List.mem_singleton, List.not_mem_nil, or_false] at hf
    rcases hf with rfl | rfl | rfl
    · exact h.1.1
    · exact h.1.2
    · exact hint _
  | GetConfigListMessage hd => simp [bodyFields] at hf
  | GetConfigListResponse hd r cs =>
    simp only [bodyFields, List.mem_cons, List.mem_map] at hf
    rcases hf with rfl | rfl | rfl | ⟨n, _, rfl⟩
    · exact h.1.1
    · exact h.1.2
    · exact hint _
    · exact escape_no_pipe n
  | LoadConfigMessage hd c =>
    simp only [bodyFields, List.mem_singleton] at hf
    subst hf; exact h
  | LoadConfigResponse hd r n =>
    simp only [bodyFields, List.mem_cons, List.mem_singleton, List.not_mem_nil, or_false] at hf
    rcases hf with rfl | rfl | rfl
    · exact h.1.1
    · exact h.1.2
    · exact hint _
  | SaveConfigMessage hd c =>
    simp only [bodyFields, List.mem_singleton] at hf
    subst hf; exact h
  | SaveConfigResponse hd r n =>
    simp only [bodyFields, List.mem_cons, List.mem_singleton, List.not_mem_nil, or_false] at hf
    rcases hf with rfl | rfl | rfl
    · exact h.1.1
    · exact h.1.2
    · exact hint _
  | DirectiveMessage hd d args =>
    simp only [bodyFields, List.mem_cons] at hf
    rcases hf with rfl | hf
    · exact h.1.2.1
    · exact argumentFields_free lib args h.2 f hf
  | DirectiveResponse hd r d args =>
    simp only [bodyFields, List.mem_cons] at hf
    rcases hf with rfl | rfl | rfl | hf
    · exact h.1.1
    · exact h.1.2
    · exact h.2.1.2.1
    · exact argumentFields_free lib args h.2.2 f hf

theorem argumentFields_length (lib : GoLib) (args : Option (List XMLParameter)) :
    1 ≤ (argumentFields lib args).length := by
  cases args <;> simp [argumentFields, paramFields]

theorem minFields_le (lib : GoLib) (m : Message) :
    minFields m.Type ≤ (bodyFields lib m).length := by
  cases m with
  | GetConfigMessage hd ps =>
    simp only [bodyFields, Message.Type, minFields]
    split_ifs <;> simp
  | DirectiveMessage hd d args =>
    have := argumentFields_length lib args
    simp only [bodyFields, Message.Type, minFields, List.length_cons]
    omega
  | DirectiveResponse hd r d args =>
    have := argumentFields_length lib args
    simp only [bodyFields, Message.Type, minFields, List.length_cons]
    omega
  | _ => simp [bodyFields, Message.Type, minFields, paramFields]

theorem tag_facts (m : Message) :
    gems.MessageTypeFromASCII m.Type.ASCII = m.Type ∧ '|' ∉ m.Type.ASCII
      ∧ m.Type ≠ .UndefinedMessageType ∧ m.Type ≠ .MessageSequenceType := by
  cases m <;> simp only [Message.Type] <;> decide

theorem Atoi_FormatInt (n : Int) (h : inInt64 n) : Atoi (FormatInt n) = .ok n :=
  parseIntCore_FormatInt _ n 64 (by norm_num) (by norm_num) (by norm_num; exact h.1)
    (by norm_num; have := h.2; omega)

theorem Atoi_length (k : Nat) (h : k < 2 ^ 63) : Atoi (FormatInt (k : Int)) = .ok (k : Int) :=
  Atoi_FormatInt _ ⟨by omega, by norm_num at h; omega⟩

theorem paramSlice_decode (lib : GoLib) (ps : List XMLParameter) (hlen : ps.length < 2 ^ 63)
    (h : ∀ p ∈ ps, ReadsBack lib p) :
    unmarshalParameterSliceASCII lib (paramFields lib ps) = .ok ps := by
  unfold unmarshalParameterSliceASCII
  rw [if_neg (by simp [paramFields])]
  simp only [paramFields, List.getD_cons_zero, Atoi_length ps.length hlen]
  rw [if_neg (by simp)]
  simp only [List.drop_succ_cons, List.drop_zero]
  exact mapM_ok _ (fun p => encoded lib p.toValue) ps
    (fun p hp => xmlParameter_decode lib p (h p hp))

theorem arguments_decode (lib : GoLib) (args : Option (List XMLParameter))
    (hlen : (argumentFields lib args).length < 2 ^ 63) (h : argumentsReadBack lib args) :
    (unmarshalParameterSliceASCII lib (argumentFields lib args)).map newArguments
      = .ok args := by
  cases args with
  | none => rfl
  | some ps =>
    have hl : ps.length < 2 ^ 63 := by
      simp only [argumentFields, paramFields, List.length_cons, List.length_map] at hlen
      omega
    simp only [argumentFields]
    rw [paramSlice_decode lib ps hl h.2]
    have : ¬ ps.length = 0 := fun h0 => h.1 (List.length_eq_zero.1 h0)
    simp [Except.map, newArguments, this]

theorem names_decode (what : List Char) (names : List (List Char))
    (hlen : names.length < 2 ^ 63) :
    unmarshalNames what (FormatInt names.length :: names) = .ok (names.map unescape) := by
  unfold unmarshalNames
  simp only [List.getD_cons_zero, Atoi_length names.length hlen]
  rw [if_neg (by simp)]
  simp

theorem map_unescape_raw (ps : List (List Char)) (h : ∀ n ∈ ps, nameReadsBack n) :
    ps.map unescape = ps := by
  conv_rhs => rw [← List.map_id ps]
  exact List.map_congr_left (fun n hn => (h n hn).2.2)

theorem map_unescape_escaped (cs : List (List Char)) : (cs.map escape).map unescape = cs := by
  rw [List.map_map]
  conv_rhs => rw [← List.map_id cs]
  exact List.map_congr_left (fun n _ => unescape_escape_id n)

theorem body_decode (lib : GoLib) (m : Message) (h : bodyReadsBack lib m)
    (hlen : (bodyFields lib m).length < 2 ^ 63) :
    unmarshalBody lib m.Type m.header (bodyFields lib m) = .ok m := by
  cases m with
  | UnknownResponse hd r => rfl
  | ConnectMessage hd c => rfl
  | ConnectResponse hd r => rfl
  | DisconnectMessage hd d => rfl
  | PingMessage hd => rfl
  | PingResponse hd r => rfl
  | GetConfigMessage hd ps =>
    simp only [Message.Type, Message.header, bodyFields, unmarshalBody]
    by_cases h0 : ps.length = 0
    · rw [if_pos h0]
      simp only [List.getD_cons_zero, if_true]
      rw [List.length_eq_zero.1 h0]
    · rw [if_neg h0]
      simp only [List.getD_cons_zero]
      rw [if_neg (FormatInt_ne_nil _)]
      have hl : ps.length < 2 ^ 63 := by
        simp only [bodyFields, if_neg h0, List.length_cons] at hlen
        omega
      rw [names_decode _ ps hl, map_unescape_raw ps h]
      rfl
  | GetConfigResponse hd r ps =>
    have hl : ps.length < 2 ^ 63 := by
      simp only [bodyFields, paramFields, List.length_cons, List.length_map] at hlen
      omega
    simp only [Message.Type, Message.header, bodyFields, unmarshalBody, List.drop_succ_cons,
      List.drop_zero, paramSlice_decode lib ps hl h.2]
    rfl
  | AsyncStatusMessage hd r ps =>
    have hl : ps.length < 2 ^ 63 := by
      simp only [bodyFields, paramFields, List.length_cons, List.length_map] at hlen
      omega
    simp only [Message.Type, Message.header, bodyFields, unmarshalBody, List.drop_succ_cons,
      List.drop_zero, paramSlice_decode lib ps hl h.2]
    rfl
  | SetConfigMessage hd ps =>
    have hl : ps.length < 2 ^ 63 := by
      simp only [bodyFields, paramFields, List.length_cons, List.length_map] at hlen
      omega
    simp only [Message.Type, Message.header, bodyFields, unmarshalBody,
      paramSlice_decode lib ps hl h.2]
    rfl
  | SetConfigResponse hd r n =>
    simp only [Message.Type, Message.header, bodyFields, unmarshalBody, List.getD_cons_zero,
      List.getD_cons_succ, Atoi_FormatInt n h.2]
    rfl
  | GetConfigListMessage hd => rfl
  | GetConfigListResponse hd r cs =>
    have hl : (cs.map escape).length < 2 ^ 63 := by
      simp only [bodyFields, List.length_cons, List.length_map] at hlen
      simp only [List.length_map]
      omega
    have := names_decode "configurations".toList (cs.map escape) hl
    rw [List.length_map, map_unescape_escaped] at this
    simp only [Message.Type, Message.header, bodyFields, unmarshalBody, List.drop_succ_cons,
      List.drop_zero, this]
    rfl
  | LoadConfigMessage hd c => rfl
  | LoadConfigResponse hd r n =>
    simp only [Message.Type, Message.header, bodyFields, unmarshalBody, List.getD_cons_zero,
      List.getD_cons_succ, Atoi_FormatInt n h.2]
    rfl
  | SaveConfigMessage hd c => rfl
  | SaveConfigResponse hd r n =>
    simp only [Message.Type, Message.header, bodyFields, unmarshalBody, List.getD_cons_zero,
      List.getD_cons_succ, Atoi_FormatInt n h.2]
    rfl
  | DirectiveMessage hd d args =>
    have hl : (argumentFields lib args).length < 2 ^ 63 := by
      simp only [bodyFields, List.length_cons] at hlen
      omega
    have := arguments_decode lib args hl h.2
    simp only [Message.Type, Message.header, bodyFields, unmarshalBody, List.drop_succ_cons,
      List.drop_zero, List.getD_cons_zero, h.1.2.2]
    cases hx : unmarshalParameterSliceASCII lib (argumentFields lib args) with
    | error e => rw [hx] at this; exact absurd this (by simp [Except.map])
    | ok ps =>
      rw [hx] at this
      simp only [Except.map] at this ⊢
      injection this with this
      rw [this]
  | DirectiveResponse hd r d args =>
    have hl : (argumentFields lib args).length < 2 ^ 63 := by
      simp only [bodyFields, List.length_cons] at hlen
      omega
    have := arguments_decode lib args hl h.2.2
    simp only [Message.Type, Message.header, bodyFields, unmarshalBody, List.drop_succ_cons,
      List.drop_zero, List.getD_cons_zero, List.getD_cons_succ, h.2.1.2.2]
    cases hx : unmarshalParameterSliceASCII lib (argumentFields lib args) with
    | error e => rw [hx] at this; exact absurd this (by simp [Except.map])
    | ok ps =>
      rw [hx] at this
      simp only [Except.map] at this ⊢
      injection this with this
      rw [this]

theorem joinWith_length_ge (c : Char) (fs : List (List Char)) :
    fs.length ≤ (joinWith [c] fs).length + 1 := by
  induction fs with
  | nil => simp
  | cons f r ih =>
    cases r with
    | nil => simp [joinWith]
    | cons g r2 =>
      simp only [joinWith, List.length_append, List.length_cons] at ih ⊢
      omega

theorem frameLength_le (h : MessageHeader) (tag : List Char) (body : List (List Char)) :
    frameLength h tag body ≤ (frameText h tag body).length
      ∧ body.length ≤ frameLength h tag body := by
  have hp := FormatPad10_length_ge (frameLength h tag body)
  have hj : joinWith "|".toList (frameFields h (frameLength h tag body) tag body)
      = FormatPad10 (frameLength h tag body) ++ "|".toList
        ++ joinWith "|".toList (h.transactionID.String :: h.token :: h.timestamp.String
          :: h.target :: tag :: body) := by
    simp [frameFields, joinWith]
  have hg := joinWith_length_ge '|' (h.transactionID.String :: h.token
    :: h.timestamp.String :: h.target :: tag :: body)
  constructor
  · rw [frameText, hj]
    simp only [List.length_append]
    generalize (FormatPad10 (frameLength h tag body)).length = P at hp ⊢
    simp [frameLength]
    omega
  · simp only [List.length_cons] at hg
    simp [frameLength]
    omega

theorem exampleBitRates_reads_back : ReadsBack sampleLib (.Parameter exampleBitRates) := by
  refine ⟨rfl, by decide, by decide, Or.inr ⟨rfl, by decide, by decide⟩, by simp [exampleBitRates],
    ?_, ?_⟩
  · intro v hv
    simp only [exampleBitRates, List.mem_cons, List.mem_singleton, List.not_mem_nil,
      or_false] at hv
    rcases hv with rfl | rfl
    · exact Or.inr ⟨rfl, by decide, by decide⟩
    · exact Or.inr ⟨rfl, by decide, by decide⟩
  · intro v hv w hw
    simp only [exampleBitRates, List.mem_cons, List.mem_singleton, List.not_mem_nil,
      or_false] at hv hw
    rcases hv with rfl | rfl <;> rcases hw with rfl | rfl <;> rfl

theorem connectionHandler_default (now : gems.Time) (req : Message) (authToken : List Char)
    (hc : req.Type ≠ .ConnectMessageType) :
    gems.connectionHandler now req authToken
      = (some (rejectionResponse now req), some (.Errorf "invalid message type".toList)) := by
  have hz : gems.Time.zero.IsZero = true := by decide
  unfold gems.connectionHandler
  simp only [if_neg hc]
  cases hv : req.header.transactionID.Valid <;>
    simp [gems.builtResponse, MessageBuilder.Build, NewMessageBuilder, rejectionResponse, hv, hz]

theorem marshal_unknown_response (lib : GoLib) (h : MessageHeader) (r : gems.Result) :
    ∃ frame, marshalMessage lib (.UnknownResponse h r) = .ok frame := by
  simp [marshalMessage, Message.MarshalASCII, marshalASCIIMessage]

theorem filter_ne_of_not_mem (conns : List (List Char)) (a : List Char) (h : a ∉ conns) :
    conns.filter (fun x => x ≠ a) = conns := by
  rw [List.filter_eq_self]
  intro x hx
  simp only [ne_eq, decide_not, Bool.not_eq_eq_eq_not, Bool.not_true, decide_eq_false_iff_not]
  exact fun e => h (e ▸ hx)

theorem noReserved_andThen {f : List Char → List Char × Option GoError}
    {k : List Char → List Char → List Char × Option GoError}
    (hf : NoReserved f) (hk : ∀ b, NoReserved (k b)) :
    NoReserved (fun b => gemsV14.andThen (f b) (k b)) := by
  intro b e h
  have hfb := hf b
  simp only at h
  rcases hx : f b with ⟨w, _ | err⟩
  · rw [hx] at h
    exact hk b w e h
  · rw [hx] at h hfb
    simp only [gemsV14.andThen, Option.some.injEq] at h
    exact hfb e (by rw [← h])

theorem not_reserved_non_ascii (val : List Char) :
    ¬ isReservedError (.MarshalError
      ("unable to encode non-ASCII characters in '".toList ++ val ++ "'".toList)) := by
  rintro ⟨w, hw⟩
  simp at hw

theorem not_reserved_undefined :
    ¬ isReservedError (.MarshalError "cannot marshal a Parameter of undefined type".toList) := by
  rintro ⟨w, hw⟩
  simp at hw

theorem SafeWrite_escape_noReserved (s : List Char) :
    NoReserved (fun b => ascii.SafeWrite b (escape s)) := by
  intro b e h
  have hp := escape_no_pipe s
  have hres : ¬ (escape s = "|GEMS".toList ∨ escape s = "|END|".toList) := by
    rintro (h1 | h1) <;> rw [h1] at hp <;> simp at hp
  simp only [ascii.SafeWrite, if_neg hres] at h
  by_cases hv : (!ascii.Valid (escape s)) = true
  · rw [if_pos hv] at h
    simp only [Option.some.injEq] at h
    rw [← h]
    exact not_reserved_non_ascii _
  · rw [if_neg hv] at h
    simp at h

theorem noReserved_of_none (f : List Char → List Char × Option GoError)
    (h : ∀ b, (f b).2 = none) : NoReserved f := by
  intro b e he
  rw [h b] at he
  simp at he

theorem slice_noReserved_scalar_step (lib : GoLib) (v : Value) (r : List Value)
    (h1 : v.Type ≠ .ParameterType) (h2 : v.Type ≠ .ParameterSetType)
    (hv : NoReserved (Value.MarshalASCII lib v)) (hr : NoReserved (Value.MarshalASCII.slice lib r)) :
    NoReserved (Value.MarshalASCII.slice lib (v :: r)) := by
  have : Value.MarshalASCII.slice lib (v :: r) = fun b =>
      gemsV14.andThen (Value.MarshalASCII lib v b) ((fun _ b1 =>
    if r.length > 0 then Value.MarshalASCII.slice lib r (b1 ++ [','])
    else Value.MarshalASCII.slice lib r b1) b) := by
    funext b; exact slice_cons_scalar lib v r b h1 h2
  rw [this]
  apply noReserved_andThen hv
  intro b b1 e he
  split_ifs at he
  · exact hr _ e he
  · exact hr _ e he

mutual
theorem MarshalASCII_noReserved (lib : GoLib) : ∀ (v : Value), NoReserved (Value.MarshalASCII lib v)
  | .vString d e => by
    cases e
    · exact fun b => by simpa [Value.MarshalASCII] using SafeWrite_escape_noReserved d b
    · exact noReserved_of_none _ (fun b => by simp [Value.MarshalASCII])
  | .vBoolean d e =>
    noReserved_of_none _ (fun b => by simp only [Value.MarshalASCII]; split_ifs <;> rfl)
  | .vByte d e =>
    noReserved_of_none _ (fun b => by simp only [Value.MarshalASCII]; split_ifs <;> rfl)
  | .vUbyte d e =>
    noReserved_of_none _ (fun b => by simp only [Value.MarshalASCII]; split_ifs <;> rfl)
  | .vShort d e =>
    noReserved_of_none _ (fun b => by simp only [Value.MarshalASCII]; split_ifs <;> rfl)
  | .vUshort d e =>
    noReserved_of_none _ (fun b => by simp only [Value.MarshalASCII]; split_ifs <;> rfl)
  | .vInt d e =>
    noReserved_of_none _ (fun b => by simp only [Value.MarshalASCII]; split_ifs <;> rfl)
  | .vUint d e =>
    noReserved_of_none _ (fun b => by simp only [Value.MarshalASCII]; split_ifs <;> rfl)
  | .vLong d e =>
    noReserved_of_none _ (fun b => by simp only [Value.MarshalASCII]; split_ifs <;> rfl)
  | .vUlong d e =>
    noReserved_of_none _ (fun b => by simp only [Value.MarshalASCII]; split_ifs <;> rfl)
  | .vDouble d e =>
    noReserved_of_none _ (fun b => by simp only [Value.MarshalASCII]; split_ifs <;> rfl)
  | .vHexValue d bl e =>
    noReserved_of_none _ (fun b => by simp only [Value.MarshalASCII]; split_ifs <;> rfl)
  | .vTime d e =>
    noReserved_of_none _ (fun b => by simp only [Value.MarshalASCII]; split_ifs <;> rfl)
  | .vUtime d e =>
    noReserved_of_none _ (fun b => by simp only [Value.MarshalASCII]; split_ifs <;> rfl)
  | .vParameter vs m n t => by
    have hs := slice_noReserved lib vs
    have : Value.MarshalASCII lib (.vParameter vs m n t) = fun b =>
        gemsV14.andThen (ascii.SafeWrite b (escape n)) ((fun _ b1 =>
      if ValueType vs = .UndefinedType then
        if vs.length = 0 then (b1, none)
        else (b1, some (.MarshalError "cannot marshal a Parameter of undefined type".toList))
      else
        Value.MarshalASCII.slice lib vs (b1 ++ ':' :: (ValueType vs).ASCIIName ++
          (if !m.Valid then ['='] else '[' :: strconv.FormatInt m.Int32 ++ "]=".toList))) b) := by
      funext b; simp only [Value.MarshalASCII]
    rw [this]
    apply noReserved_andThen (SafeWrite_escape_noReserved n)
    intro b b1 e he
    by_cases hu : ValueType vs = .UndefinedType
    · simp only [if_pos hu] at he
      by_cases hl : vs.length = 0
      · rw [if_pos hl] at he
        simp at he
      · rw [if_neg hl] at he
        simp only [Option.some.injEq] at he
        rw [← he]
        exact not_reserved_undefined
    · simp only [if_neg hu] at he
      exact hs _ e he
  | .vParameterSet vs m n t => by
    have hs := slice_noReserved lib vs
    have : Value.MarshalASCII lib (.vParameterSet vs m n t) = fun b =>
        gemsV14.andThen (ascii.SafeWrite b (escape n)) ((fun _ b1 =>
        Value.MarshalASCII.slice lib vs (b1 ++ ':' :: gems.Datatype.ParameterSetType.ASCIIName ++
          (if !m.Valid then ['='] else '[' :: strconv.FormatInt m.Int32 ++ "]=".toList))) b) := by
      funext b; simp only [Value.MarshalASCII]
    rw [this]
    apply noReserved_andThen (SafeWrite_escape_noReserved n)
    intro b b1 e he
    exact hs _ e he
theorem slice_noReserved (lib : GoLib) : ∀ (vs : List Value), NoReserved (Value.MarshalASCII.slice lib vs)
  | [] => noReserved_of_none _ (fun b => by simp [slice_nil])
  | .vParameterSet vs m n t :: r => by
    have hr := slice_noReserved lib r
    have hv := slice_noReserved lib vs
    have : Value.MarshalASCII.slice lib (.vParameterSet vs m n t :: r) = fun b =>
        gemsV14.andThen (Value.MarshalASCII.slice lib vs b) ((fun _ b1 =>
      if r.length > 0 then Value.MarshalASCII.slice lib r (b1 ++ [','])
      else Value.MarshalASCII.slice lib r b1) b) := by
      funext b; exact slice_cons_set ..
    rw [this]
    apply noReserved_andThen hv
    intro b b1 e he
    split_ifs at he
    · exact hr _ e he
    · exact hr _ e he
  | .vParameter vs m n t :: r => by
    have hr := slice_noReserved lib r
    have hv := MarshalASCII_noReserved lib (.vParameter vs m n t)
    have : Value.MarshalASCII.slice lib (.vParameter vs m n t :: r) = fun b =>
        gemsV14.andThen (Value.MarshalASCII lib (.vParameter vs m n t) b) ((fun _ b1 =>
      Value.MarshalASCII.slice lib r (b1 ++ [';'])) b) := by
      funext b; exact slice_cons_param ..
    rw [this]
    apply noReserved_andThen hv
    intro b b1 e he
    exact hr _ e he
  | .vString d e :: r =>
    slice_noReserved_scalar_step lib _ r (by simp [Value.Type]) (by simp [Value.Type])
      (MarshalASCII_noReserved lib (.vString d e)) (slice_noReserved lib r)
  | .vBoolean d e :: r =>
    slice_noReserved_scalar_step lib _ r (by simp [Value.Type]) (by simp [Value.Type])
      (MarshalASCII_noReserved lib (.vBoolean d e)) (slice_noReserved lib r)
  | .vByte d e :: r =>
    slice_noReserved_scalar_step lib _ r (by simp [Value.Type]) (by simp [Value.Type])
      (MarshalASCII_noReserved lib (.vByte d e)) (slice_noReserved lib r)
  | .vUbyte d e :: r =>
    slice_noReserved_scalar_step lib _ r (by simp [Value.Type]) (by simp [Value.Type])
      (MarshalASCII_noReserved lib (.vUbyte d e)) (slice_noReserved lib r)
  | .vShort d e :: r =>
    slice_noReserved_scalar_step lib _ r (by simp [Value.Type]) (by simp [Value.Type])
      (MarshalASCII_noReserved lib (.vShort d e)) (slice_noReserved lib r)
  | .vUshort d e :: r =>
    slice_noReserved_scalar_step lib _ r (by simp [Value.Type]) (by simp [Value.Type])
      (MarshalASCII_noReserved lib (.vUshort d e)) (slice_noReserved lib r)
  | .vInt d e :: r =>
    slice_noReserved_scalar_step lib _ r (by simp [Value.Type]) (by simp [Value.Type])
      (MarshalASCII_noReserved lib (.vInt d e)) (slice_noReserved lib r)
  | .vUint d e :: r =>
    slice_noReserved_scalar_step lib _ r (by simp [Value.Type]) (by simp [Value.Type])
      (MarshalASCII_noReserved lib (.vUint d e)) (slice_noReserved lib r)
  | .vLong d e :: r =>
    slice_noReserved_scalar_step lib _ r (by simp [Value.Type]) (by simp [Value.Type])
      (MarshalASCII_noReserved lib (.vLong d e)) (slice_noReserved lib r)
  | .vUlong d e :: r =>
    slice_noReserved_scalar_step lib _ r (by simp [Value.Type]) (by simp [Value.Type])
      (MarshalASCII_noReserved lib (.vUlong d e)) (slice_noReserved lib r)
  | .vDouble d e :: r =>
    slice_noReserved_scalar_step lib _ r (by simp [Value.Type]) (by simp [Value.Type])
      (MarshalASCII_noReserved lib (.vDouble d e)) (slice_noReserved lib r)
  | .vHexValue d bl e :: r =>
    slice_noReserved_scalar_step lib _ r (by simp [Value.Type]) (by simp [Value.Type])
      (MarshalASCII_noReserved lib (.vHexValue d bl e)) (slice_noReserved lib r)
  | .vTime d e :: r =>
    slice_noReserved_scalar_step lib _ r (by simp [Value.Type]) (by simp [Value.Type])
      (MarshalASCII_noReserved lib (.vTime d e)) (slice_noReserved lib r)
  | .vUtime d e :: r =>
    slice_noReserved_scalar_step lib _ r (by simp [Value.Type]) (by simp [Value.Type])
      (MarshalASCII_noReserved lib (.vUtime d e)) (slice_noReserved lib r)
end

theorem valueTypeLoop_spec (vs : List Value) : ∀ typ : gems.Datatype,
    valueTypeLoop vs typ ≠ .UndefinedType →
      (typ ≠ .UndefinedType → valueTypeLoop vs typ = typ)
        ∧ ∀ v ∈ vs, v.Type = valueTypeLoop vs typ := by
  induction vs with
  | nil => intro typ _; exact ⟨fun _ => rfl, fun v hv => by simp at hv⟩
  | cons v r ih =>
    intro typ h
    simp only [valueTypeLoop] at h ⊢
    by_cases hu : typ = .UndefinedType
    · simp only [hu, if_true, ne_eq, not_true_eq_false, if_false] at h ⊢
      obtain ⟨h1, h2⟩ := ih v.Type h
      have h3 := h1 (Value.Type_ne_undefined v)
      refine ⟨fun hc => absurd hc (by simp), ?_⟩
      intro w hw
      rcases List.mem_cons.1 hw with rfl | hw
      · exact h3.symm
      · exact h2 w hw
    · simp only [if_neg hu] at h ⊢
      by_cases ht : typ ≠ v.Type
      · rw [if_pos ht] at h; exact absurd rfl h
      · rw [if_neg ht] at h ⊢
        obtain ⟨h1, h2⟩ := ih typ h
        have h3 := h1 hu
        refine ⟨fun _ => h3, ?_⟩
        intro w hw
        rcases List.mem_cons.1 hw with rfl | hw
        · rw [h3]; exact (not_not.1 ht).symm
        · exact h2 w hw

theorem ValueType_spec (vs : List Value) (h : ValueType vs ≠ .UndefinedType) :
    ∀ v ∈ vs, v.Type = ValueType vs :=
  (valueTypeLoop_spec vs .UndefinedType h).2

theorem Parameter_Validate_types (lib : GoLib) (p : Parameter) (h : p.Validate lib = none) :
    p.Values = [] ∨ (ValueType p.Values ≠ .UndefinedType ∧ ValueType p.Values ≠ .ParameterType
      ∧ ValueType p.Values ≠ .ParameterSetType) := by
  unfold Parameter.Validate at h
  split_ifs at h with h1 h2 h3 h4 h5 h6 h7
  · exact Or.inl (List.length_eq_zero.1 h5)
  · exact Or.inr ⟨h6, fun e => h7 (Or.inl e), fun e => h7 (Or.inr e)⟩

theorem Valid_append (a b : List Char) :
    ascii.Valid (a ++ b) = true ↔ ascii.Valid a = true ∧ ascii.Valid b = true := by
  simp [ascii.Valid, List.all_append]

theorem Valid_cons (c : Char) (b : List Char) :
    ascii.Valid (c :: b) = true ↔ c.toNat ≤ 127 ∧ ascii.Valid b = true := by
  simp [ascii.Valid]

theorem Valid_nil : ascii.Valid [] = true := rfl

theorem Valid_FormatInt (i : Int) : ascii.Valid (FormatInt i) = true := by
  rw [Valid_iff]
  intro c hc
  rcases FormatInt_chars i c hc with rfl | h
  · decide
  · omega

theorem Valid_ASCIIName (T : gems.Datatype) : ascii.Valid T.ASCIIName = true := by
  cases T <;> rfl

theorem Valid_joinWith (c : Char) (hc : c.toNat ≤ 127) (fs : List (List Char))
    (h : ∀ f ∈ fs, ascii.Valid f = true) : ascii.Valid (joinWith [c] fs) = true := by
  induction fs with
  | nil => rfl
  | cons f r ih =>
    cases r with
    | nil => simpa [joinWith] using h f (by simp)
    | cons g r2 =>
      have := ih (fun x hx => h x (by simp [hx]))
      simp only [joinWith]
      rw [Valid_append, Valid_append]
      exact ⟨⟨h f (by simp), by rw [Valid_cons]; exact ⟨hc, rfl⟩⟩, this⟩

theorem scalar_text_valid (lib : GoLib) (v : Value) (h1 : v.Type ≠ .ParameterType)
    (h2 : v.Type ≠ .ParameterSetType) (hv : ascii.Valid (v.String lib) = true) :
    (Value.MarshalASCII lib v []).2 = none
      ∧ ascii.Valid (Value.MarshalASCII lib v []).1 = true := by
  cases v with
  | vParameter vs m n t => exact absurd rfl h1
  | vParameterSet vs m n t => exact absurd rfl h2
  | vString d e =>
    cases e
    · have hd : ascii.Valid d = true := hv
      simp [Value.MarshalASCII, SafeWrite_escape [] d hd, Valid_escape d hd]
    · simp [Value.MarshalASCII, Valid_nil]
  | vHexValue d bl e =>
    cases e
    · simp only [Value.String] at hv
      simp only [Value.MarshalASCII, Bool.false_eq_true, if_false]
      split_ifs
      · exact ⟨rfl, rfl⟩
      · refine ⟨rfl, ?_⟩
        simp only [List.nil_append]
        rw [Valid_append, Valid_cons]
        exact ⟨hv, by decide, Valid_FormatInt bl⟩
    · simp [Value.MarshalASCII, Valid_nil]
  | _ =>
    rename_i d e
    cases e
    · simp only [Value.String, Bool.false_eq_true, if_false] at hv
      simp [Value.MarshalASCII, hv]
    · simp [Value.MarshalASCII, Valid_nil]

theorem parameter_text_valid (lib : GoLib) (p : Parameter) (h : p.Validate lib = none) :
    ascii.Valid (Value.String lib p.toValue) = true := by
  obtain ⟨_, _, _, hvals⟩ := Parameter_Validate_none lib p h
  have htypes := Parameter_Validate_types lib p h
  have hno : ¬ (escape p.name = "|GEMS".toList ∨ escape p.name = "|END|".toList) := by
    have hp := escape_no_pipe p.name
    rintro (h1 | h1) <;> rw [h1] at hp <;> simp at hp
  simp only [Parameter.toValue, Value.String, Value.MarshalASCII]
  by_cases hn : ascii.Valid (escape p.name) = true
  · have hw : ascii.SafeWrite [] (escape p.name) = (escape p.name, none) := by
      unfold ascii.SafeWrite
      rw [if_neg hno]
      simp [hn]
    rw [hw]
    simp only [gemsV14.andThen]
    rcases htypes with hnil | ⟨ht1, ht2, ht3⟩
    · rw [hnil]
      simp [ValueType, valueTypeLoop, hn]
    · rw [if_neg ht1]
      have hsame := ValueType_spec p.Values ht1
      rw [slice_scalars lib p.Values _ (fun v hv =>
        ⟨by rw [hsame v hv]; exact ht2, by rw [hsame v hv]; exact ht3,
          (scalar_text_valid lib v (by rw [hsame v hv]; exact ht2)
            (by rw [hsame v hv]; exact ht3) (hvals v hv)).1⟩)]
      simp only [Valid_append, Valid_cons]
      refine ⟨⟨⟨hn, by decide, Valid_ASCIIName _⟩, ?_⟩, ?_⟩
      · cases p.Multiplicity.Valid
        · rfl
        · simp only [Bool.not_true, Bool.false_eq_true, if_false, Valid_cons, Valid_append]
          exact ⟨⟨by decide, Valid_FormatInt _⟩, rfl⟩
      · apply Valid_joinWith ',' (by decide)
        intro f hf
        obtain ⟨v, hv, rfl⟩ := List.mem_map.1 hf
        exact (scalar_text_valid lib v (by rw [hsame v hv]; exact ht2)
          (by rw [hsame v hv]; exact ht3) (hvals v hv)).2
  · have hw : ascii.SafeWrite [] (escape p.name) = ([], some (.MarshalError
        ("unable to encode non-ASCII characters in '".toList ++ escape p.name ++ "'".toList))) := by
      unfold ascii.SafeWrite
      rw [if_neg hno]
      simp [hn]
    rw [hw]
    rfl

theorem allDigits_append {a b : List Char} (ha : allDigits a) (hb : allDigits b) :
    allDigits (a ++ b) := by
  intro c hc
  rcases List.mem_append.1 hc with h | h
  · exact ha c h
  · exact hb c h

theorem allDigits_zeros (k : Nat) : allDigits (List.replicate k '0') := by
  intro c hc
  rw [List.mem_replicate] at hc
  rw [hc.2]
  decide

theorem appendInt_nonneg (x : Int) (k : Nat) (h0 : 0 ≤ x) (h : x.natAbs < 10 ^ (k + 1)) :
    (gems.appendInt x (k + 1)).length = k + 1 ∧ allDigits (gems.appendInt x (k + 1))
      ∧ decVal (gems.appendInt x (k + 1)) 0 = x.natAbs := by
  have hl := digitsRef_length_le k x.natAbs h
  have hneg : ¬ x < 0 := by omega
  simp only [gems.appendInt, if_neg hneg, List.nil_append, FormatUint_eq]
  refine ⟨?_, allDigits_append (allDigits_zeros _) (digitsRef_allDigits _), ?_⟩
  · simp only [List.length_append, List.length_replicate]
    omega
  · rw [decVal_zeros, decVal_digitsRef]

theorem yearDay_day_le (d1 : Int) : 1 ≤ (gems.yearDay d1).2 ∧ (gems.yearDay d1).2 ≤ 366 := by
  simp only [gems.yearDay]
  omega

theorem yday_three_digits (y : Nat) (h1 : 100 ≤ y) (h2 : y ≤ 366) :
    List.replicate (3 - (FormatUint y).length) ' ' ++ FormatUint y = FormatUint y
      ∧ (FormatUint y).length = 3 := by
  have hle := digitsRef_length_le 2 y (by norm_num; omega)
  have hge := digitsRef_length_ge 2 y (by norm_num; omega)
  rw [FormatUint_eq]
  have : (digitsRef y).length = 3 := by omega
  rw [this]
  simp

theorem slice_prefix (lib : GoLib) (vs : List Value) (b y : List Char) :
    b <+: (Value.MarshalASCII.slice lib vs (b ++ y)).1 := by
  rw [(slice_appends lib vs).shift b y]
  exact List.prefix_append _ _

theorem buildTypeLoop_same (T : gems.Datatype) (hT : T ≠ .UndefinedType) (vs : List Value)
    (h : ∀ v ∈ vs, v.Type = T) : buildTypeLoop vs T = some T := by
  induction vs with
  | nil => rfl
  | cons v r ih =>
    have hv := h v (by simp)
    simp only [buildTypeLoop, if_neg hT, hv, ne_eq, not_true_eq_false, if_false]
    exact ih (fun x hx => h x (by simp [hx]))

theorem buildTypeLoop_parameters (ps : List Parameter) (hne : ps ≠ []) :
    buildTypeLoop (ps.map Parameter.toValue) .UndefinedType = some .ParameterType := by
  cases ps with
  | nil => exact absurd rfl hne
  | cons p r =>
    simp only [List.map_cons, buildTypeLoop, if_true, Parameter.toValue, Value.Type, ne_eq,
      not_true_eq_false, if_false]
    apply buildTypeLoop_same _ (by decide)
    intro v hv
    obtain ⟨q, _, rfl⟩ := List.mem_map.1 hv
    rfl

theorem build_parameters_eq (lib : GoLib) (name : List Char) (ps : List Parameter)
    (hne : ps ≠ []) :
    buildWith lib [.Name name, .Parameters (ps.map .Parameter)]
      = (.ParameterSet ⟨ps.map Parameter.toValue, ⟨0, false⟩, name, .UndefinedType⟩,
          ParameterSet.Validate lib ⟨ps.map Parameter.toValue, ⟨0, false⟩, name, .UndefinedType⟩) := by
  have hl : ¬ ((ps.map XMLParameter.Parameter).map XMLParameter.toValue).length = 0 := by
    simp only [List.length_map]
    exact fun h => hne (List.length_eq_zero.1 h)
  have hm : (ps.map XMLParameter.Parameter).map XMLParameter.toValue
      = ps.map Parameter.toValue := by
    rw [List.map_map]; rfl
  have hpb : [Setter.Name name, Setter.Parameters (ps.map .Parameter)].foldl
      (ParameterBuilder.apply lib) NewParameterBuilder
      = ⟨name, ⟨0, false⟩, ps.map Parameter.toValue⟩ := by
    simp only [List.foldl, ParameterBuilder.apply, ParameterBuilder.setValues,
      NewParameterBuilder]
    rw [if_neg hl, hm]
  rw [buildWith, hpb]
  simp only [ParameterBuilder.Build, buildTypeLoop_parameters ps hne]
  rfl

theorem occursAt_nil (sep : List Char) (hsep : sep ≠ []) (i : Nat) : ¬ occursAt sep [] i := by
  intro h
  simp only [occursAt, List.drop_nil, List.prefix_nil] at h
  exact hsep h

theorem indexOf_spec (sep : List Char) (hsep : sep ≠ []) (s : List Char) :
    (∀ i, indexOf sep s = some i → occursAt sep s i ∧ ∀ j < i, ¬ occursAt sep s j)
      ∧ (indexOf sep s = none → ∀ i, ¬ occursAt sep s i) := by
  induction s with
  | nil =>
    refine ⟨fun i h => ?_, fun _ i => occursAt_nil sep hsep i⟩
    simp [indexOf] at h
  | cons c s ih =>
    by_cases hs : startsWith (c :: s) sep = true
    · have h0 : indexOf sep (c :: s) = some 0 := by simp [indexOf, hs]
      rw [h0]
      refine ⟨fun i h => ?_, fun h => by simp at h⟩
      injection h with h
      subst h
      exact ⟨(startsWith_iff _ _).1 hs, fun j hj => absurd hj (Nat.not_lt_zero j)⟩
    · have h0 : indexOf sep (c :: s) = (indexOf sep s).map (· + 1) := by simp [indexOf, hs]
      have hno : ¬ occursAt sep (c :: s) 0 := fun h => hs ((startsWith_iff _ _).2 h)
      rw [h0]
      cases hi : indexOf sep s with
      | none =>
        refine ⟨fun i h => by simp at h, fun _ i => ?_⟩
        cases i with
        | zero => exact hno
        | succ k => exact ih.2 hi k
      | some k =>
        refine ⟨fun i h => ?_, fun h => by simp at h⟩
        simp only [Option.map_some', Option.some.injEq] at h
        subst h
        obtain ⟨h1, h2⟩ := ih.1 k hi
        refine ⟨h1, fun j hj => ?_⟩
        cases j with
        | zero => exact hno
        | succ m => exact h2 m (by omega)

theorem indexOf_first_occurrence (sep : List Char) (hsep : sep ≠ []) (s : List Char) (i : Nat)
    (h1 : occursAt sep s i) (h2 : ∀ j < i, ¬ occursAt sep s j) : indexOf sep s = some i := by
  cases hi : indexOf sep s with
  | none => exact absurd h1 ((indexOf_spec sep hsep s).2 hi i)
  | some k =>
    obtain ⟨k1, k2⟩ := (indexOf_spec sep hsep s).1 k hi
    rcases Nat.lt_trichotomy k i with h | h | h
    · exact absurd k1 (h2 k h)
    · rw [h]
    · exact absurd h1 (k2 i h)

theorem indexOf_no_occurrence (sep : List Char) (hsep : sep ≠ []) (s : List Char)
    (h : ∀ i, ¬ occursAt sep s i) : indexOf sep s = none := by
  cases hi : indexOf sep s with
  | none => rfl
  | some k => exact absurd ((indexOf_spec sep hsep s).1 k hi).1 (h k)

/-- The frame without trailer of the test suite does not reach a variant decoder when it is
passed to `ReceiveASCIIMessage`: `GenericMessage.UnmarshalASCII` rejects it first, with its
own error text. -/
theorem receive_missing_trailer :
    ReceiveASCIIMessage sampleLib exampleMissingTrailerFrame
      = .error (.UnmarshalError (some (exampleMissingTrailerFrame.drop 1))
          "message missing standard trailer".toList) := by
  rfl

theorem connectionHandler_denied (now : gems.Time) (req : Message) (authToken : List Char)
    (hc : req.Type = .ConnectMessageType) (ha : authToken ≠ [])
    (ht : req.header.token ≠ authToken) :
    gems.connectionHandler now req authToken
      = (some (deniedResponse now req), some (.Errorf "invalid access token".toList)) := by
  have hz : gems.Time.zero.IsZero = true := by decide
  have hl : authToken.length > 0 := List.length_pos.2 ha
  unfold gems.connectionHandler
  simp only [if_pos hc]
  rw [if_pos ⟨hl, ht⟩]
  cases hv : req.header.transactionID.Valid <;>
    simp [gems.builtResponse, MessageBuilder.Build, NewMessageBuilder, deniedResponse,
      responseID, hv, hz]

theorem connectionHandler_accepted (now : gems.Time) (req : Message) (authToken : List Char)
    (hc : req.Type = .ConnectMessageType)
    (ht : authToken = [] ∨ req.header.token = authToken) :
    gems.connectionHandler now req authToken = (some (acceptedResponse now req), none) := by
  have hz : gems.Time.zero.IsZero = true := by decide
  have hn : ¬ (authToken.length > 0 ∧ req.header.token ≠ authToken) := by
    rintro ⟨h1, h2⟩
    rcases ht with h | h
    · rw [h] at h1
      exact absurd h1 (by simp)
    · exact h2 h
  unfold gems.connectionHandler
  simp only [if_pos hc]
  rw [if_neg hn]
  cases hv : req.header.transactionID.Valid <;>
    simp [gems.builtResponse, MessageBuilder.Build, NewMessageBuilder, acceptedResponse,
      responseID, hv, hz]

theorem marshal_connect_response (lib : GoLib) (h : MessageHeader) (r : gems.Result) :
    ∃ frame, marshalMessage lib (.ConnectResponse h r) = .ok frame := by
  simp [marshalMessage, Message.MarshalASCII, marshalASCIIMessage]

theorem connect_not_disconnect (req : Message) (hc : req.Type = .ConnectMessageType) :
    req.Type ≠ .DisconnectMessageType := by
  rw [hc]
  decide

theorem wrapInt_succ (n : Int) (h0 : 0 ≤ n) (h1 : n + 1 < 2 ^ 63) :
    gems.wrapInt 64 (n + 1) = n + 1 := by
  unfold gems.wrapInt
  norm_num at h1 ⊢
  omega

theorem Build_ok_of_type (now : gems.Time) (mb : MessageBuilder)
    (h : mb.typ ≠ .UndefinedMessageType ∧ mb.typ ≠ .MessageSequenceType) :
    ∃ m, mb.Build now = .ok m := by
  obtain ⟨h1, h2⟩ := h
  unfold MessageBuilder.Build
  cases ht : mb.typ <;> first
    | exact absurd ht h1
    | exact absurd ht h2
    | exact ⟨_, rfl⟩

theorem withParameters_typ (lib : GoLib) (mb : MessageBuilder)
    (params : Option (List (List Char))) : (gems.withParameters lib mb params).typ = mb.typ := by
  cases params <;> rfl

theorem sendBuilt_id (now : gems.Time) (model : gems.platformSpecificModel) (c : gems.Client)
    (mb : MessageBuilder)
    (h : mb.typ ≠ .UndefinedMessageType ∧ mb.typ ≠ .MessageSequenceType) :
    (c.sendBuilt now model mb).1.transactionID = gems.wrapInt 64 (c.transactionID + 1) := by
  obtain ⟨m, hm⟩ := Build_ok_of_type now mb h
  simp [gems.Client.sendBuilt, hm, gems.Client.Send]

theorem connect_id (now : gems.Time) (model : gems.platformSpecificModel) (c : gems.Client)
    (tls : Bool) (addr typ token target : List Char) (insecure : Bool) (c1 : gems.Client)
    (e : Option GoError)
    (h : c.connect now model tls addr typ token target insecure = some (c1, e)) :
    (e = none → c1.transactionID = gems.wrapInt 64 (c.transactionID + 1))
      ∧ (e ≠ none → c1.transactionID = c.transactionID) := by
  unfold gems.Client.connect at h
  dsimp only at h
  split at h
  · injection h with h
    injection h with h1 h2
    subst h1 h2
    simp
  · split at h
    · injection h with h
      injection h with h1 h2
      subst h1 h2
      simp
    · injection h with h
      injection h with h1 h2
      subst h1 h2
      simp
    · exact absurd h (by simp)

theorem step_id (lib : GoLib) (now : gems.Time) (model : gems.platformSpecificModel)
    (c c1 : gems.Client) (op : gems.ClientOp) (h : c.step lib now model op = some c1) :
    (c1.transactionID = c.transactionID ∧ op.isConnect = true)
      ∨ c1.transactionID = gems.wrapInt 64 (c.transactionID + 1) := by
  cases op with
  | Connect addr typ token target =>
    simp only [gems.Client.step, Option.map_eq_some'] at h
    obtain ⟨⟨c2, e⟩, h, rfl⟩ := h
    have := connect_id now model c false addr typ token target false c2 e h
    cases e with
    | none => exact Or.inr (this.1 rfl)
    | some err => exact Or.inl ⟨this.2 (by simp), rfl⟩
  | ConnectTLS addr typ token target insecure =>
    simp only [gems.Client.step, Option.map_eq_some'] at h
    obtain ⟨⟨c2, e⟩, h, rfl⟩ := h
    have := connect_id now model c true addr typ token target insecure c2 e h
    cases e with
    | none => exact Or.inr (this.1 rfl)
    | some err => exact Or.inl ⟨this.2 (by simp), rfl⟩
  | Send m =>
    simp only [gems.Client.step, Option.some.injEq] at h
    subst h
    exact Or.inr rfl
  | Disconnect reason =>
    simp only [gems.Client.step, Option.some.injEq] at h
    subst h
    exact Or.inr (sendBuilt_id now model c _ ⟨by simp [gems.Client.request],
      by simp [gems.Client.request]⟩)
  | GetConfig names =>
    simp only [gems.Client.step, Option.some.injEq] at h
    subst h
    exact Or.inr (sendBuilt_id now model c _ ⟨by simp [gems.Client.request],
      by simp [gems.Client.request]⟩)
  | SetConfig params =>
    simp only [gems.Client.step, Option.some.injEq] at h
    subst h
    exact Or.inr (sendBuilt_id now model c _ ⟨by simp [withParameters_typ, gems.Client.request],
      by simp [withParameters_typ, gems.Client.request]⟩)
  | SaveConfig name =>
    simp only [gems.Client.step, Option.some.injEq] at h
    subst h
    exact Or.inr (sendBuilt_id now model c _ ⟨by simp [gems.Client.request],
      by simp [gems.Client.request]⟩)
  | LoadConfig name =>
    simp only [gems.Client.step, Option.some.injEq] at h
    subst h
    exact Or.inr (sendBuilt_id now model c _ ⟨by simp [gems.Client.request],
      by simp [gems.Client.request]⟩)
  | GetConfigList =>
    simp only [gems.Client.step, Option.some.injEq] at h
    subst h
    exact Or.inr (sendBuilt_id now model c _ ⟨by simp [gems.Client.request],
      by simp [gems.Client.request]⟩)
  | Ping =>
    simp only [gems.Client.step, Option.some.injEq] at h
    subst h
    exact Or.inr (sendBuilt_id now model c _ ⟨by simp [gems.Client.request],
      by simp [gems.Client.request]⟩)
  | Directive dir params =>
    simp only [gems.Client.step, Option.some.injEq] at h
    subst h
    exact Or.inr (sendBuilt_id now model c _ ⟨by simp [withParameters_typ, gems.Client.request],
      by simp [withParameters_typ, gems.Client.request]⟩)

theorem run_id (lib : GoLib) (calls : List gems.ClientCall) :
    ∀ c0 c : gems.Client, gems.Client.run lib c0 calls = some c → 0 ≤ c0.transactionID →
      c0.transactionID + calls.length < 2 ^ 63 →
      c0.transactionID ≤ c.transactionID ∧ c.transactionID ≤ c0.transactionID + calls.length := by
  induction calls with
  | nil =>
    intro c0 c h _ _
    simp only [gems.Client.run, Option.some.injEq] at h
    subst h
    simp
  | cons call rest ih =>
    intro c0 c h h0 hb
    simp only [gems.Client.run] at h
    cases hs : c0.step lib call.now call.model call.op with
    | none => rw [hs] at h; exact absurd h (by simp)
    | some c1 =>
      rw [hs] at h
      dsimp only at h
      simp only [List.length_cons, Nat.cast_add, Nat.cast_one] at hb ⊢
      have hw := wrapInt_succ c0.transactionID h0 (by omega)
      have h1 : c0.transactionID ≤ c1.transactionID
          ∧ c1.transactionID ≤ c0.transactionID + 1 := by
        rcases step_id lib call.now call.model c0 c1 call.op hs with ⟨e, _⟩ | e
        · omega
        · rw [hw] at e; omega
      have := ih c1 c h (by omega) (by omega)
      omega

theorem wrapInt_succ_int64 (n : Int) (h0 : -2 ^ 63 ≤ n) (h1 : n + 1 < 2 ^ 63) :
    gems.wrapInt 64 (n + 1) = n + 1 := by
  unfold gems.wrapInt
  norm_num at h0 h1 ⊢
  omega

theorem connect_build (now : gems.Time) (c : gems.Client) (typ token target : List Char) :
    ({ ({ c with token := token, target := target } : gems.Client).request .ConnectMessageType
        with connType := typ } : MessageBuilder).Build now
      = .ok (connectRequest now c typ token target) := by
  have hz : gems.Time.zero.IsZero = true := by decide
  simp [MessageBuilder.Build, gems.Client.request, NewMessageBuilder, connectRequest, hz]

theorem marshal_connect_message (lib : GoLib) (h : MessageHeader) (t : List Char) :
    ∃ frame, marshalMessage lib (.ConnectMessage h t) = .ok frame := by
  simp [marshalMessage, Message.MarshalASCII, marshalASCIIMessage]

theorem ascii_connect_checks_code (lib : GoLib) (now : gems.Time) (c : gems.Client) (tls : Bool)
    (addr typ token target : List Char) (insecure : Bool) (frame : List Char)
    (rest : List gems.NetEvent) (h : MessageHeader) (r : gems.Result)
    (hrecv : ReceiveASCIIMessage lib frame = .ok (.ConnectResponse h r))
    (hmatch : h.TransactionMatch (gems.NewNullInt64 c.transactionID) = true) :
    (r.Code ≠ gems.ResultCodeSuccess →
        c.connect now (gems.asciiModel lib none (.data frame :: rest)) tls addr typ token target
            insecure
          = some (⟨token, target, c.transactionID⟩,
              some (.Errorf ("gems response: ".toList ++ r.String))))
    ∧ (r.Code = gems.ResultCodeSuccess →
        c.connect now (gems.asciiModel lib none (.data frame :: rest)) tls addr typ token target
            insecure
          = some (⟨h.token, target, gems.wrapInt 64 (c.transactionID + 1)⟩, none)) := by
  obtain ⟨out, hout⟩ := marshal_connect_message lib
    ⟨target, now, token, gems.NewNullInt64 c.transactionID⟩ typ
  have hsend : gems.asciiClient.Send lib (.data frame :: rest)
      (connectRequest now c typ token target)
      = if r.Code ≠ gems.ResultCodeSuccess then
          (some (.ConnectResponse h r), some (.Errorf ("gems response: ".toList ++ r.String)))
        else (some (.ConnectResponse h r), none) := by
    unfold gems.asciiClient.Send
    rw [show marshalMessage lib (connectRequest now c typ token target) = .ok out from hout]
    simp only [gems.asciiClient.Receive, hrecv, gems.asResponse, Message.header, connectRequest,
      hmatch, Bool.not_true, Bool.false_eq_true, if_false]
  have hmodel : (if tls then
        (gems.asciiModel lib none (.data frame :: rest)).ConnectTLS addr
          (connectRequest now c typ token target) insecure
      else (gems.asciiModel lib none (.data frame :: rest)).Connect addr
          (connectRequest now c typ token target))
      = gems.asciiClient.Send lib (.data frame :: rest)
          (connectRequest now c typ token target) := by
    cases tls <;> rfl
  constructor
  · intro hcode
    unfold gems.Client.connect
    simp only [connect_build now c typ token target, hmodel, hsend, if_pos hcode]
  · intro hcode
    unfold gems.Client.connect
    simp only [connect_build now c typ token target, hmodel, hsend, hcode, ne_eq,
      not_true_eq_false, if_false, Message.header]

theorem escapedForm_tail (c : Char) (s : List Char) (h : escapedForm (c :: s)) :
    escapedForm s := by
  refine ⟨fun x hx => h.1 x (List.mem_cons_of_mem _ hx), fun i hi => ?_⟩
  have := h.2 (i + 1) (by simpa using hi)
  simpa using this

theorem escapedForm_tail2 (c d : Char) (s : List Char) (h : escapedForm (c :: d :: s)) :
    escapedForm s := by
  refine ⟨fun x hx => h.1 x (List.mem_cons_of_mem _ (List.mem_cons_of_mem _ hx)),
    fun i hi => ?_⟩
  have := h.2 (i + 2) (by simpa using hi)
  simpa using this

theorem escapedForm_plain (c : Char) (s : List Char)
    (hc : c ≠ '&' ∧ c ≠ '|' ∧ c ≠ ',' ∧ c ≠ ';') (h : escapedForm s) :
    escapedForm (c :: s) := by
  refine ⟨fun x hx => ?_, fun i hi => ?_⟩
  · rcases List.mem_cons.1 hx with rfl | hx
    · exact ⟨hc.2.1, hc.2.2.1, hc.2.2.2⟩
    · exact h.1 x hx
  · cases i with
    | zero =>
      simp only [List.getElem?_cons_zero, Option.some.injEq] at hi
      exact absurd hi hc.1
    | succ k =>
      have := h.2 k (by simpa using hi)
      simpa using this

theorem escapedForm_pair (d : Char) (s : List Char)
    (hd : d = 'a' ∨ d = 'b' ∨ d = 'c' ∨ d = 'd') (h : escapedForm s) :
    escapedForm ('&' :: d :: s) := by
  have hd1 : d ≠ '&' ∧ d ≠ '|' ∧ d ≠ ',' ∧ d ≠ ';' := by
    rcases hd with rfl | rfl | rfl | rfl <;> decide
  have h1 := escapedForm_plain d s hd1 h
  refine ⟨fun x hx => ?_, fun i hi => ?_⟩
  · rcases List.mem_cons.1 hx with rfl | hx
    · decide
    · exact h1.1 x hx
  · cases i with
    | zero =>
      rcases hd with rfl | rfl | rfl | rfl <;> simp
    | succ k =>
      have := h1.2 k (by simpa using hi)
      simpa using this

theorem escape_form (s : List Char) : escapedForm (escape s) := by
  induction s with
  | nil => exact ⟨fun c hc => by simp [escape] at hc, fun i hi => by simp [escape] at hi⟩
  | cons c s ih =>
    simp only [escape, escapeByte]
    split_ifs with h1 h2 h3 h4
    · exact escapedForm_pair 'a' _ (Or.inl rfl) ih
    · exact escapedForm_pair 'b' _ (Or.inr (Or.inl rfl)) ih
    · exact escapedForm_pair 'c' _ (Or.inr (Or.inr (Or.inl rfl))) ih
    · exact escapedForm_pair 'd' _ (Or.inr (Or.inr (Or.inr rfl))) ih
    · exact escapedForm_plain c _ ⟨h1, h2, h3, h4⟩ ih

theorem escape_unescape_form : ∀ (n : Nat) (s : List Char), s.length ≤ n → escapedForm s →
    escape (unescape s) = s := by
  intro n
  induction n with
  | zero =>
    intro s hl _
    have : s = [] := List.length_eq_zero.1 (by omega)
    subst this
    rfl
  | succ n ih =>
    intro s hl h
    match s, hl, h with
    | [], _, _ => rfl
    | [c], _, h =>
      have hc := h.1 c (by simp)
      have ha : c ≠ '&' := by
        intro e
        subst e
        have := h.2 0 (by simp)
        simp at this
      simp [unescape, escape, escapeByte, ha, hc.1, hc.2.1, hc.2.2]
    | c :: d :: r, hl, h =>
      simp only [List.length_cons] at hl
      by_cases ha : c = '&'
      · subst ha
        have hd := h.2 0 (by simp)
        simp only [zero_add, List.getElem?_cons_succ, List.getElem?_cons_zero,
          Option.some.injEq] at hd
        have hr := ih r (by omega) (escapedForm_tail2 _ _ _ h)
        rcases hd with rfl | rfl | rfl | rfl <;>
          simp [unescape, escape, escapeByte, hr]
      · have hc := h.1 c (by simp)
        have hr := ih (d :: r) (by simp only [List.length_cons]; omega)
          (escapedForm_tail c _ h)
        simp [unescape, escape, escapeByte, ha, hc.1, hc.2.1, hc.2.2, hr]

theorem mapM_forall2 {α β : Type} (f : α → Except GoError β) :
    ∀ (l : List α) (ys : List β), l.mapM f = .ok ys →
      List.Forall₂ (fun x y => f x = .ok y) l ys := by
  intro l
  induction l with
  | nil =>
    intro ys h
    simp only [List.mapM_nil] at h
    cases h
    exact List.Forall₂.nil
  | cons x r ih =>
    intro ys h
    rw [List.mapM_cons] at h
    cases hx : f x with
    | error e => rw [hx] at h; cases h
    | ok y =>
      rw [hx] at h
      cases hr : r.mapM f with
      | error e => rw [hr] at h; cases h
      | ok zs =>
        rw [hr] at h
        cases h
        exact List.Forall₂.cons hx (ih zs hr)

theorem unmarshalASCIIHeader_fields (F : List Char) (typ : gems.MessageType) (k : Nat)
    (h : MessageHeader) (c : List (List Char))
    (hh : unmarshalASCIIHeader F typ k = .ok (h, c)) : k ≤ c.length := by
  unfold unmarshalASCIIHeader at hh
  cases hd : MessageHeader.UnmarshalASCII F with
  | error e => rw [hd] at hh; cases hh
  | ok h1 =>
    rw [hd] at hh
    dsimp only at hh
    split_ifs at hh with h1 h2
    injection hh with hh
    injection hh with _ hc
    rw [← hc, List.length_drop]
    omega

theorem slice_count (lib : GoLib) (fields : List (List Char)) (hl : 1 ≤ fields.length) :
    (∀ e, Atoi (fields.getD 0 []) = .error e →
        unmarshalParameterSliceASCII lib fields
          = .error (.UnmarshalError (some (joinWith "|".toList fields))
              "invalid number of parameters".toList))
    ∧ (∀ n, Atoi (fields.getD 0 []) = .ok n → n ≠ (fields.length : Int) - 1 →
        unmarshalParameterSliceASCII lib fields
          = .error (.UnmarshalError (some (joinWith "|".toList fields))
              "invalid number of parameters".toList))
    ∧ (Atoi (fields.getD 0 []) = .ok ((fields.length : Int) - 1) →
        unmarshalParameterSliceASCII lib fields
          = (fields.drop 1).mapM (unmarshalXMLParameter lib)) := by
  have hl1 : ¬ fields.length < 1 := by omega
  refine ⟨fun e he => ?_, fun n hn hne => ?_, fun hn => ?_⟩
  · unfold unmarshalParameterSliceASCII
    rw [if_neg hl1, he]
  · unfold unmarshalParameterSliceASCII
    rw [if_neg hl1, hn]
    dsimp only
    rw [if_pos hne]
  · unfold unmarshalParameterSliceASCII
    rw [if_neg hl1, hn]
    dsimp only
    rw [if_neg (by simp)]

theorem body_of_slice (lib : GoLib) (typ : gems.MessageType) (h : MessageHeader)
    (c : List (List Char))
    (htyp : typ ∈ [gems.MessageType.SetConfigMessageType, .GetConfigResponseType,
      .AsyncStatusMessageType, .DirectiveMessageType, .DirectiveResponseType]) :
    ∃ mk : List XMLParameter → Message,
      unmarshalBody lib typ h c
          = (unmarshalParameterSliceASCII lib (c.drop (parameterStart typ))).map mk
        ∧ ∀ ps, messageParameters (mk ps) = ps ∧ (mk ps).Type = typ ∧ (mk ps).header = h := by
  have hargs : ∀ ps : List XMLParameter, (newArguments ps).getD [] = ps := by
    intro ps
    unfold newArguments
    split_ifs with h0
    · simp [List.length_eq_zero.1 h0]
    · rfl
  simp only [List.mem_cons, List.mem_singleton, List.not_mem_nil, or_false] at htyp
  rcases htyp with rfl | rfl | rfl | rfl | rfl
  · exact ⟨fun ps => .SetConfigMessage h ps, by simp [unmarshalBody, parameterStart],
      fun ps => ⟨rfl, rfl, rfl⟩⟩
  · exact ⟨fun ps => .GetConfigResponse h ⟨c.getD 0 [], c.getD 1 []⟩ ps,
      by simp [unmarshalBody, parameterStart], fun ps => ⟨rfl, rfl, rfl⟩⟩
  · exact ⟨fun ps => .AsyncStatusMessage h ⟨c.getD 0 [], c.getD 1 []⟩ ps,
      by simp [unmarshalBody, parameterStart], fun ps => ⟨rfl, rfl, rfl⟩⟩
  · exact ⟨fun ps => .DirectiveMessage h (unescape (c.getD 0 [])) (newArguments ps),
      by simp [unmarshalBody, parameterStart],
      fun ps => ⟨by simp [messageParameters, hargs], rfl, rfl⟩⟩
  · exact ⟨fun ps => .DirectiveResponse h ⟨c.getD 0 [], c.getD 1 []⟩ (unescape (c.getD 2 []))
        (newArguments ps),
      by simp [unmarshalBody, parameterStart],
      fun ps => ⟨by simp [messageParameters, hargs], rfl, rfl⟩⟩

theorem slice_types (typ : gems.MessageType)
    (htyp : typ ∈ [gems.MessageType.SetConfigMessageType, .GetConfigResponseType,
      .AsyncStatusMessageType, .DirectiveMessageType, .DirectiveResponseType]) :
    typ ≠ .UndefinedMessageType ∧ typ ≠ .MessageSequenceType
      ∧ parameterStart typ + 1 = minFields typ := by
  simp only [List.mem_cons, List.mem_singleton, List.not_mem_nil, or_false] at htyp
  rcases htyp with rfl | rfl | rfl | rfl | rfl <;> decide

theorem intParameter_reads_back (lib : GoLib) (n : List Char) (vs : List Int)
    (m : gems.NullInt32) (hn : ∀ c ∈ n, c.toNat ≤ 127) (heq : '=' ∉ n) (hvs : vs ≠ [])
    (hrange : ∀ v ∈ vs, -2147483648 ≤ v ∧ v ≤ 2147483647)
    (hm : m = ⟨0, false⟩ ∨ (m.Valid = true ∧ -2147483648 ≤ m.Int32 ∧ m.Int32 ≤ 2147483647)) :
    ParameterReadsBack lib (intParameter n m vs) := by
  refine ⟨rfl, (Valid_iff n).2 hn, heq, ?_, ?_, ?_, ?_⟩
  · rcases hm with rfl | h
    · exact Or.inl ⟨rfl, rfl⟩
    · exact Or.inr h
  · intro h0
    exact absurd (List.map_eq_nil_iff.1 h0) hvs
  · intro v hv
    obtain ⟨d, hd, rfl⟩ := List.mem_map.1 hv
    exact Or.inr ⟨rfl, hrange d hd⟩
  · intro v hv w hw
    obtain ⟨d, _, rfl⟩ := List.mem_map.1 hv
    obtain ⟨e, _, rfl⟩ := List.mem_map.1 hw
    rfl

theorem marker_facts (lib : GoLib) (s : Setter) (hs : s ∈ emptySetters) :
    (∀ pb : ParameterBuilder, (pb.apply lib s).values = pb.values ++ [emptyMarker s]
        ∧ (pb.apply lib s).name = pb.name ∧ (pb.apply lib s).multiplicity = pb.multiplicity)
    ∧ (emptyMarker s).Type ≠ .ParameterType ∧ (emptyMarker s).Type ≠ .ParameterSetType
    ∧ (emptyMarker s).Type ≠ .UndefinedType
    ∧ Value.MarshalASCII lib (emptyMarker s) = fun b => (b, none) := by
  simp only [emptySetters, List.mem_cons, List.mem_singleton, List.not_mem_nil, or_false] at hs
  rcases hs with rfl | rfl | rfl | rfl | rfl | rfl | rfl | rfl | rfl | rfl | rfl | rfl | rfl | rfl <;>
    exact ⟨fun pb => ⟨rfl, rfl, rfl⟩, by decide, by decide, by decide,
      by funext b; simp [emptyMarker, Value.MarshalASCII]⟩

theorem writeParameters_pipe (lib : GoLib) (ps : List XMLParameter) :
    ∀ c : List Char, ∃ y, writeParameters lib ps (c ++ ['|']) = y ++ ['|'] := by
  induction ps with
  | nil => exact fun c => ⟨c, rfl⟩
  | cons p r ih =>
    intro c
    simp only [writeParameters]
    exact ih _

theorem writeNames_pipe (escaped : Bool) (ns : List (List Char)) :
    ∀ c : List Char, ∃ y, writeNames escaped ns (c ++ ['|']) = y ++ ['|'] := by
  induction ns with
  | nil => exact fun c => ⟨c, rfl⟩
  | cons n r ih =>
    intro c
    simp only [writeNames]
    exact ih _

theorem content_pipe (lib : GoLib) (m : Message) (b : List Char) :
    (∃ content, m.MarshalASCII lib b = marshalASCIIMessage b m.header (content ++ ['|']))
      ∨ (∃ e, m.MarshalASCII lib b = (b, some e)) := by
  cases m with
  | UnknownResponse h r => exact Or.inl ⟨_, rfl⟩
  | ConnectMessage h c => exact Or.inl ⟨_, rfl⟩
  | ConnectResponse h r => exact Or.inl ⟨_, rfl⟩
  | DisconnectMessage h d => exact Or.inl ⟨_, rfl⟩
  | PingMessage h => exact Or.inl ⟨_, rfl⟩
  | PingResponse h r => exact Or.inl ⟨_, rfl⟩
  | GetConfigMessage h ps =>
    simp only [Message.MarshalASCII, Message.header]
    split_ifs
    · exact Or.inl ⟨(Message.GetConfigMessage h ps).Type.ASCII ++ ['|'], by simp⟩
    · obtain ⟨y, hy⟩ := writeNames_pipe false ps
        ((Message.GetConfigMessage h ps).Type.ASCII ++ '|' :: strconv.FormatInt ps.length)
      exact Or.inl ⟨y, by rw [← hy]⟩
  | GetConfigResponse h r ps =>
    simp only [Message.MarshalASCII, Message.header]
    obtain ⟨y, hy⟩ := writeParameters_pipe lib ps
      (responseStart (Message.GetConfigResponse h r ps).Type r ++ strconv.FormatInt ps.length)
    exact Or.inl ⟨y, by rw [← hy]⟩
  | AsyncStatusMessage h r ps =>
    simp only [Message.MarshalASCII, Message.header]
    obtain ⟨y, hy⟩ := writeParameters_pipe lib ps
      (responseStart (Message.AsyncStatusMessage h r ps).Type r ++ strconv.FormatInt ps.length)
    exact Or.inl ⟨y, by rw [← hy]⟩
  | SetConfigMessage h ps =>
    simp only [Message.MarshalASCII, Message.header]
    split_ifs
    · exact Or.inr ⟨_, rfl⟩
    · obtain ⟨y, hy⟩ := writeParameters_pipe lib ps
        ((Message.SetConfigMessage h ps).Type.ASCII ++ '|' :: strconv.FormatInt ps.length)
      exact Or.inl ⟨y, by rw [← hy]⟩
  | SetConfigResponse h r n => exact Or.inl ⟨_, rfl⟩
  | GetConfigListMessage h => exact Or.inl ⟨_, rfl⟩
  | GetConfigListResponse h r cs =>
    simp only [Message.MarshalASCII, Message.header]
    obtain ⟨y, hy⟩ := writeNames_pipe true cs
      (responseStart (Message.GetConfigListResponse h r cs).Type r
        ++ strconv.FormatInt cs.length)
    exact Or.inl ⟨y, by rw [← hy]⟩
  | LoadConfigMessage h c => exact Or.inl ⟨_, rfl⟩
  | LoadConfigResponse h r n => exact Or.inl ⟨_, rfl⟩
  | SaveConfigMessage h c => exact Or.inl ⟨_, rfl⟩
  | SaveConfigResponse h r n => exact Or.inl ⟨_, rfl⟩
  | DirectiveMessage h d args =>
    simp only [Message.MarshalASCII, Message.header]
    cases args with
    | none =>
      exact Or.inl ⟨(ascii.SafeWrite ((Message.DirectiveMessage h d none).Type.ASCII ++ ['|'])
        d).1 ++ ['|'] ++ ['0'], by simp⟩
    | some ps =>
      simp only [Arguments.MarshalASCII]
      obtain ⟨y, hy⟩ := writeParameters_pipe lib ps
        ((ascii.SafeWrite ((Message.DirectiveMessage h d (some ps)).Type.ASCII ++ ['|']) d).1
          ++ ['|'] ++ strconv.FormatInt ps.length)
      exact Or.inl ⟨y, by rw [← hy]⟩
  | DirectiveResponse h r d args =>
    simp only [Message.MarshalASCII, Message.header]
    cases args with
    | none =>
      exact Or.inl ⟨(ascii.SafeWrite (responseStart
        (Message.DirectiveResponse h r d none).Type r) d).1 ++ ['|'] ++ ['0'], by simp⟩
    | some ps =>
      simp only [Arguments.MarshalASCII]
      obtain ⟨y, hy⟩ := writeParameters_pipe lib ps
        ((ascii.SafeWrite (responseStart (Message.DirectiveResponse h r d (some ps)).Type r)
          d).1 ++ ['|'] ++ strconv.FormatInt ps.length)
      exact Or.inl ⟨y, by rw [← hy]⟩

theorem frame_trailer (lib : GoLib) (m : Message) (F : List Char)
    (h : marshalMessage lib m = .ok F) : "|END".toList <:+ F := by
  unfold marshalMessage at h
  rcases content_pipe lib m [] with ⟨content, hc⟩ | ⟨e, hc⟩
  · rw [hc] at h
    simp only [marshalASCIIMessage] at h
    injection h with h
    rw [← h]
    generalize FormatPad10 _ = pad
    exact ⟨[] ++ "|GEMS|".toList ++ asciiVersion ++ '|' :: pad ++ '|' ::
      (m.header.transactionID.String ++ '|' :: m.header.token ++ '|' ::
        m.header.timestamp.String ++ '|' :: m.header.target ++ '|' :: content),
      by simp [List.append_assoc]⟩
  · rw [hc] at h
    simp at h

theorem occursAt_length (sep data : List Char) (j : Nat) (h : occursAt sep data j) :
    j + sep.length ≤ data.length ∨ sep = [] := by
  unfold occursAt at h
  have := h.length_le
  rw [List.length_drop] at this
  by_cases hs : sep = []
  · exact Or.inr hs
  · have : 0 < sep.length := List.length_pos.2 hs
    left
    omega

theorem occursAt_of_suffix (sep data : List Char) (h : sep <:+ data) :
    occursAt sep data (data.length - sep.length) := by
  obtain ⟨pre, rfl⟩ := h
  unfold occursAt
  simp

theorem occursAt_append (sep a b : List Char) (j : Nat) (hj : j + sep.length ≤ a.length)
    (h : occursAt sep (a ++ b) j) : occursAt sep a j := by
  unfold occursAt at h ⊢
  rw [List.drop_append_of_le_length (by omega)] at h
  obtain ⟨t, ht⟩ := h
  have hl : sep.length ≤ (a.drop j).length := by
    rw [List.length_drop]
    omega
  have := List.append_eq_append_iff.1 ht
  rcases this with ⟨a1, h1, _⟩ | ⟨c1, h1, _⟩
  · exact ⟨a1, h1.symm⟩
  · have hlen := congrArg List.length h1
    simp only [List.length_append] at hlen
    have hc0 : c1 = [] := List.length_eq_zero.1 (by omega)
    subst hc0
    simp only [List.append_nil] at h1
    rw [h1]

theorem occursAt_append_left (sep a b : List Char) (j : Nat) (h : occursAt sep a j)
    (hj : j ≤ a.length) : occursAt sep (a ++ b) j := by
  unfold occursAt at h ⊢
  rw [List.drop_append_of_le_length hj]
  exact h.trans (List.prefix_append _ _)

theorem split_first_frame (F rest : List Char) (atEOF : Bool) (hend : "|END".toList <:+ F)
    (honly : ∀ j, occursAt "|END".toList F j → j + 4 = F.length) :
    ascii.SplitMessages (F ++ rest) atEOF = (F.length, some F, none) := by
  have hl : 4 ≤ F.length := by
    have := hend.length_le
    simpa using this
  have h1 : occursAt "|END".toList (F ++ rest) (F.length - 4) :=
    occursAt_append_left _ _ _ _ (by simpa using occursAt_of_suffix _ _ hend) (by omega)
  have h2 : ∀ j < F.length - 4, ¬ occursAt "|END".toList (F ++ rest) j := by
    intro j hj hocc
    have := honly j (occursAt_append _ F rest j (by simp; omega) hocc)
    omega
  have hi := indexOf_first_occurrence "|END".toList (by decide) (F ++ rest) (F.length - 4) h1 h2
  simp only [ascii.SplitMessages, hi]
  have e : F.length - 4 + "|END".toList.length = F.length := by
    simp
    omega
  rw [e, List.take_left]

theorem only_at_end (sep F : List Char) (hs : sep ≠ []) (i : Nat)
    (hi : indexOf sep F = some i) (hl : i + sep.length = F.length) :
    ∀ j, occursAt sep F j → j + sep.length = F.length := by
  intro j hj
  obtain ⟨_, hmin⟩ := (indexOf_spec sep hs F).1 i hi
  rcases occursAt_length sep F j hj with h | h
  · by_contra hne
    have : j < i := by omega
    exact hmin j this hj
  · exact absurd h hs

theorem value_induction {P : Value → Prop} {Q : List Value → Prop}
    (scalar : ∀ v : Value, v.Type ≠ .ParameterType → v.Type ≠ .ParameterSetType → P v)
    (param : ∀ vs m n t, Q vs → P (.vParameter vs m n t))
    (set : ∀ vs m n t, Q vs → P (.vParameterSet vs m n t))
    (nil : Q []) (cons : ∀ v r, P v → Q r → Q (v :: r)) : (∀ v, P v) ∧ ∀ vs, Q vs :=
  ⟨fun v => @Value.rec P Q
    (fun _ _ => scalar _ (by simp [Value.Type]) (by simp [Value.Type]))
    (fun _ _ => scalar _ (by simp [Value.Type]) (by simp [Value.Type]))
    (fun _ _ => scalar _ (by simp [Value.Type]) (by simp [Value.Type]))
    (fun _ _ => scalar _ (by simp [Value.Type]) (by simp [Value.Type]))
    (fun _ _ => scalar _ (by simp [Value.Type]) (by simp [Value.Type]))
    (fun _ _ => scalar _ (by simp [Value.Type]) (by simp [Value.Type]))
    (fun _ _ => scalar _ (by simp [Value.Type]) (by simp [Value.Type]))
    (fun _ _ => scalar _ (by simp [Value.Type]) (by simp [Value.Type]))
    (fun _ _ => scalar _ (by simp [Value.Type]) (by simp [Value.Type]))
    (fun _ _ => scalar _ (by simp [Value.Type]) (by simp [Value.Type]))
    (fun _ _ => scalar _ (by simp [Value.Type]) (by simp [Value.Type]))
    (fun _ _ _ => scalar _ (by simp [Value.Type]) (by simp [Value.Type]))
    (fun _ _ => scalar _ (by simp [Value.Type]) (by simp [Value.Type]))
    (fun _ _ => scalar _ (by simp [Value.Type]) (by simp [Value.Type]))
    param set nil cons v,
   fun vs => @Value.rec_1 P Q
    (fun _ _ => scalar _ (by simp [Value.Type]) (by simp [Value.Type]))
    (fun _ _ => scalar _ (by simp [Value.Type]) (by simp [Value.Type]))
    (fun _ _ => scalar _ (by simp [Value.Type]) (by simp [Value.Type]))
    (fun _ _ => scalar _ (by simp [Value.Type]) (by simp [Value.Type]))
    (fun _ _ => scalar _ (by simp [Value.Type]) (by simp [Value.Type]))
    (fun _ _ => scalar _ (by simp [Value.Type]) (by simp [Value.Type]))
    (fun _ _ => scalar _ (by simp [Value.Type]) (by simp [Value.Type]))
    (fun _ _ => scalar _ (by simp [Value.Type]) (by simp [Value.Type]))
    (fun _ _ => scalar _ (by simp [Value.Type]) (by simp [Value.Type]))
    (fun _ _ => scalar _ (by simp [Value.Type]) (by simp [Value.Type]))
    (fun _ _ => scalar _ (by simp [Value.Type]) (by simp [Value.Type]))
    (fun _ _ _ => scalar _ (by simp [Value.Type]) (by simp [Value.Type]))
    (fun _ _ => scalar _ (by simp [Value.Type]) (by simp [Value.Type]))
    (fun _ _ => scalar _ (by simp [Value.Type]) (by simp [Value.Type]))
    param set nil cons vs⟩

theorem MarshalXML_scalar (lib : GoLib) (v : Value) (h1 : v.Type ≠ .ParameterType)
    (h2 : v.Type ≠ .ParameterSetType) :
    v.MarshalXML lib = (xml.stringElement v.Type.XMLName (scalarAttrs v) (v.String lib), v) := by
  cases v <;> first
    | exact absurd rfl h1
    | exact absurd rfl h2
    | rfl

theorem MarshalXML_param (lib : GoLib) (vs : List Value) (m : gems.NullInt32) (n : List Char)
    (t : gems.Datatype) :
    Value.MarshalXML lib (.vParameter vs m n t)
      = (.StartElement gems.Datatype.ParameterType.XMLName (parameterAttrs n t m)
          :: (Value.MarshalXML.values lib vs).1
          ++ [.EndElement gems.Datatype.ParameterType.XMLName],
        .vParameter (Value.MarshalXML.values lib vs).2 m n t) := by
  simp only [Value.MarshalXML]

theorem MarshalXML_set (lib : GoLib) (vs : List Value) (m : gems.NullInt32) (n : List Char)
    (t : gems.Datatype) :
    Value.MarshalXML lib (.vParameterSet vs m n t)
      = (.StartElement gems.Datatype.ParameterSetType.XMLName (parameterAttrs n t m)
          :: (Value.MarshalXML.children lib vs).1
          ++ [.EndElement gems.Datatype.ParameterSetType.XMLName],
        .vParameterSet (Value.MarshalXML.children lib vs).2 m n t) := by
  simp only [Value.MarshalXML]

theorem values_cons (lib : GoLib) (v : Value) (r : List Value) :
    Value.MarshalXML.values lib (v :: r)
      = ((v.MarshalXML lib).1 ++ (Value.MarshalXML.values lib r).1,
        (v.MarshalXML lib).2 :: (Value.MarshalXML.values lib r).2) := by
  simp only [Value.MarshalXML.values]

theorem children_cons_other (lib : GoLib) (v : Value) (r : List Value)
    (h : v.Type ≠ .ParameterSetType) :
    Value.MarshalXML.children lib (v :: r)
      = ((v.MarshalXML lib).1 ++ (Value.MarshalXML.children lib r).1,
        (v.MarshalXML lib).2 :: (Value.MarshalXML.children lib r).2) := by
  cases v <;> first
    | exact absurd rfl h
    | simp only [Value.MarshalXML.children]

theorem children_cons_set (lib : GoLib) (cvs : List Value) (cm : gems.NullInt32)
    (cn : List Char) (ct : gems.Datatype) (r : List Value) :
    Value.MarshalXML.children lib (.vParameterSet cvs cm cn ct :: r)
      = ((Value.MarshalXML lib (clearAttributes (.vParameterSet cvs cm cn ct))).1
          ++ (Value.MarshalXML.children lib r).1,
        (Value.MarshalXML lib (clearAttributes (.vParameterSet cvs cm cn ct))).2
          :: (Value.MarshalXML.children lib r).2) := by
  simp only [Value.MarshalXML.children, clearAttributes, MarshalXML_set, List.cons_append,
    List.append_assoc, List.singleton_append, List.nil_append]

theorem scalar_element_name (T : gems.Datatype) (h : T ≠ .ParameterSetType) :
    T.XMLName.Local ≠ "ParameterSet".toList := by
  cases T <;> first
    | exact absurd rfl h
    | (simp only [gems.Datatype.XMLName, gems.Datatype.String]; decide)

theorem noSets_tokens (lib : GoLib) :
    (∀ v : Value, v.noSets = true → ∀ nm a, xml.Token.StartElement nm a ∈ (v.MarshalXML lib).1 →
        nm.Local ≠ "ParameterSet".toList)
    ∧ ∀ vs : List Value, Value.noSets.all vs = true →
        ∀ nm a, xml.Token.StartElement nm a ∈ (Value.MarshalXML.values lib vs).1 →
          nm.Local ≠ "ParameterSet".toList := by
  apply value_induction
  · intro v h1 h2 _ nm a hmem
    rw [MarshalXML_scalar lib v h1 h2] at hmem
    simp only [xml.stringElement, List.mem_cons, xml.Token.StartElement.injEq, List.mem_singleton,
      reduceCtorEq, or_false, List.not_mem_nil] at hmem
    rw [hmem.1]
    exact scalar_element_name _ h2
  · intro vs m n t ih h nm a hmem
    rw [MarshalXML_param] at hmem
    simp only [Value.noSets] at h
    simp only [List.mem_cons, List.mem_append, xml.Token.StartElement.injEq, List.mem_singleton,
      reduceCtorEq, or_false, List.not_mem_nil] at hmem
    rcases hmem with ⟨rfl, _⟩ | hmem
    · simp only [gems.Datatype.XMLName, gems.Datatype.String]
      decide
    · exact ih h nm a hmem
  · intro vs m n t _ h
    simp [Value.noSets] at h
  · intro _ nm a hmem
    simp [Value.MarshalXML.values] at hmem
  · intro v r ihv ihr h nm a hmem
    simp only [Value.noSets.all, Bool.and_eq_true] at h
    rw [values_cons] at hmem
    rcases List.mem_append.1 hmem with hm | hm
    · exact ihv h.1 nm a hm
    · exact ihr h.2 nm a hm

theorem setsInSets_tokens (lib : GoLib) :
    (∀ v : Value, v.setsInSets = true →
        (∀ nm a, xml.Token.StartElement nm a ∈ (v.MarshalXML lib).1.tail →
          nm.Local = "ParameterSet".toList → a = [])
        ∧ (v.Type ≠ .ParameterSetType → ∀ nm a,
            xml.Token.StartElement nm a ∈ (v.MarshalXML lib).1 →
              nm.Local = "ParameterSet".toList → a = []))
    ∧ ∀ vs : List Value, Value.setsInSets.all vs = true →
        ∀ nm a, xml.Token.StartElement nm a ∈ (Value.MarshalXML.children lib vs).1 →
          nm.Local = "ParameterSet".toList → a = [] := by
  apply value_induction
  · intro v h1 h2 _
    have key : ∀ nm a, xml.Token.StartElement nm a ∈ (v.MarshalXML lib).1 →
        nm.Local = "ParameterSet".toList → a = [] := by
      intro nm a hmem hnm
      exact absurd hnm ((noSets_tokens lib).1 v (by
        cases v <;> first
          | exact absurd rfl h1
          | exact absurd rfl h2
          | rfl) nm a hmem)
    exact ⟨fun nm a hmem => key nm a (List.mem_of_mem_tail hmem), fun _ => key⟩
  · intro vs m n t _ h
    simp only [Value.setsInSets] at h
    have key : ∀ nm a, xml.Token.StartElement nm a
        ∈ (Value.MarshalXML lib (.vParameter vs m n t)).1 →
        nm.Local = "ParameterSet".toList → a = [] := by
      intro nm a hmem hnm
      exact absurd hnm ((noSets_tokens lib).1 (.vParameter vs m n t)
        (by simpa [Value.noSets] using h) nm a hmem)
    exact ⟨fun nm a hmem => key nm a (List.mem_of_mem_tail hmem), fun _ => key⟩
  · intro vs m n t ih h
    simp only [Value.setsInSets] at h
    refine ⟨?_, fun hne => absurd rfl hne⟩
    intro nm a hmem hnm
    rw [MarshalXML_set] at hmem
    simp only [List.cons_append, List.tail_cons, List.mem_append, List.mem_singleton,
      reduceCtorEq, or_false] at hmem
    exact ih h nm a hmem hnm
  · intro _ nm a hmem
    simp [Value.MarshalXML.children] at hmem
  · intro v r ihv ihr h nm a hmem hnm
    simp only [Value.setsInSets.all, Bool.and_eq_true] at h
    by_cases hv : v.Type = .ParameterSetType
    · cases v <;> first
        | (simp [Value.Type] at hv; done)
        | skip
      rename_i cvs cm cn ct
      rw [children_cons_set, clearAttributes, MarshalXML_set] at hmem
      simp only [List.cons_append, List.append_assoc, List.mem_cons, List.mem_append,
        List.mem_singleton, List.not_mem_nil, List.nil_append, xml.Token.StartElement.injEq,
        reduceCtorEq, or_false, false_or] at hmem
      rcases hmem with ⟨_, rfl⟩ | hmem | hmem
      · simp [parameterAttrs]
      · have := (ihv h.1).1 nm a
        rw [MarshalXML_set] at this
        simp only [List.cons_append, List.tail_cons, List.mem_append] at this
        exact this (Or.inl hmem) hnm
      · exact ihr h.2 nm a hmem hnm
    · rw [children_cons_other lib v r hv] at hmem
      rcases List.mem_append.1 hmem with hm | hm
      · exact (ihv h.1).2 hv nm a hm hnm
      · exact ihr h.2 nm a hm hnm

theorem read_start (ts : List xml.Token) (nm : xml.Name) (a : List xml.Attr)
    (h : xml.Token.StartElement nm a ∈ xml.read ts) :
    ∃ a0, xml.Token.StartElement nm a0 ∈ ts
      ∧ a = xml.readAttrs nm a0 := by
  simp only [xml.read, List.mem_flatten, List.mem_map] at h
  obtain ⟨l, ⟨tok, htok, rfl⟩, hl⟩ := h
  cases tok with
  | StartElement n0 a0 =>
    simp only [xml.readToken, List.mem_singleton, xml.Token.StartElement.injEq] at hl
    obtain ⟨rfl, rfl⟩ := hl
    exact ⟨a0, htok, rfl⟩
  | EndElement n0 => simp [xml.readToken] at hl
  | CharData s =>
    simp only [xml.readToken] at hl
    split_ifs at hl <;> simp at hl

theorem readText_plain (s : List Char) (h : xmlPlain s) : xml.readText s = s := by
  induction s with
  | nil => rfl
  | cons c r ih =>
    have hc := (h c (by simp)).2
    have hr : xml.readText r = r := ih (fun x hx => h x (by simp [hx]))
    unfold xml.readText at hr ⊢
    simp only [List.map_cons, List.flatten_cons, hr]
    rw [if_neg]
    · rfl
    · rintro ⟨h1, h2, h3, h4⟩
      rcases hc with hc | hc | hc | hc
      · omega
      · exact h2 hc
      · exact h3 hc
      · exact h4 hc

theorem xmlPlain_append (a b : List Char) (ha : xmlPlain a) (hb : xmlPlain b) :
    xmlPlain (a ++ b) := by
  intro c hc
  rcases List.mem_append.1 hc with h | h
  · exact ha c h
  · exact hb c h

theorem xmlPlain_digits (s : List Char) (h : allDigits s) : xmlPlain s :=
  fun c hc => ⟨by have := h c hc; omega, Or.inl (by have := h c hc; omega)⟩

theorem FormatInt_plain (i : Int) : xmlPlain (FormatInt i) := by
  intro c hc
  rcases FormatInt_chars i c hc with h | h
  · subst h
    decide
  · exact ⟨by omega, Or.inl (by omega)⟩

theorem FormatBool_plain (b : Bool) : xmlPlain (FormatBool b) := by
  cases b <;> unfold xmlPlain <;> decide

theorem Time_String_plain (t : gems.Time) : xmlPlain t.String := by
  unfold gems.Time.String
  apply xmlPlain_append _ _ (FormatInt_plain _)
  intro c hc
  rcases List.mem_cons.1 hc with h | h
  · subst h
    decide
  · exact FormatInt_plain _ c h

theorem EncodeUpper_plain (d : List Char) (hd : ∀ c ∈ d, c.toNat < 256) :
    xmlPlain (hex.EncodeUpper d) := by
  intro c hc
  obtain ⟨n, hn, rfl⟩ := EncodeUpper_chars d hd c hc
  have : n = 0 ∨ n = 1 ∨ n = 2 ∨ n = 3 ∨ n = 4 ∨ n = 5 ∨ n = 6 ∨ n = 7 ∨ n = 8 ∨ n = 9
      ∨ n = 10 ∨ n = 11 ∨ n = 12 ∨ n = 13 ∨ n = 14 ∨ n = 15 := by omega
  rcases this with h | h | h | h | h | h | h | h | h | h | h | h | h | h | h | h <;>
    subst h <;> decide

theorem EncodeUpper_ne_nil (d : List Char) (h : d ≠ []) : hex.EncodeUpper d ≠ [] := by
  cases d with
  | nil => exact absurd rfl h
  | cons b r => simp [hex.EncodeUpper]

theorem appendInt_plain (x : Int) (w : Nat) : xmlPlain (gems.appendInt x w) := by
  unfold gems.appendInt
  intro c hc
  simp only [List.mem_append, List.mem_replicate] at hc
  rcases hc with (hc | hc) | hc
  · split_ifs at hc
    · simp only [List.mem_singleton] at hc
      subst hc
      decide
    · simp at hc
  · rw [hc.2]
    decide
  · exact xmlPlain_digits _ (FormatUint_allDigits _) c hc

theorem FormatUtime_plain (t : gems.Time) : xmlPlain t.FormatUtime := by
  unfold gems.Time.FormatUtime
  intro c hc
  simp only [List.mem_append, List.mem_cons, List.mem_replicate, List.mem_singleton,
    List.not_mem_nil, or_false] at hc
  have hd : ∀ x : Nat, c ∈ FormatUint x → c.toNat ≤ 127 ∧ (32 ≤ c.toNat ∨ c = '\t'
      ∨ c = '\n' ∨ c = '\r') := fun x hx => xmlPlain_digits _ (FormatUint_allDigits _) c hx
  have ha : ∀ (x : Int) (w : Nat), c ∈ gems.appendInt x w → c.toNat ≤ 127 ∧ (32 ≤ c.toNat
      ∨ c = '\t' ∨ c = '\n' ∨ c = '\r') := fun x w hx => appendInt_plain x w c hx
  casesm* _ ∨ _, _ ∧ _
  all_goals first
    | exact ha _ _ ‹_›
    | exact hd _ ‹_›
    | (subst_vars; decide)

theorem FormatUtime_ne_nil (t : gems.Time) : t.FormatUtime ≠ [] := by
  unfold gems.Time.FormatUtime
  simp

theorem read_append (a b : List xml.Token) : xml.read (a ++ b) = xml.read a ++ xml.read b := by
  simp [xml.read]

theorem read_cons (t : xml.Token) (ts : List xml.Token) :
    xml.read (t :: ts) = xml.readToken t ++ xml.read ts := by
  simp [xml.read]

theorem balanced_nil : xmlBalanced [] := by
  intro d rest
  simp only [List.nil_append]
  cases xml.elementEnd d rest <;> rfl

theorem balanced_append (X Y : List xml.Token) (hX : xmlBalanced X) (hY : xmlBalanced Y) :
    xmlBalanced (X ++ Y) := by
  intro d rest
  rw [List.append_assoc, hX, hY]
  cases h : xml.elementEnd d rest <;> simp

theorem balanced_text (s : List Char) : xmlBalanced [.CharData s] := by
  intro d rest
  simp only [List.singleton_append, xml.elementEnd]

theorem balanced_element (n m : xml.Name) (a : List xml.Attr) (X : List xml.Token)
    (hX : xmlBalanced X) : xmlBalanced (.StartElement n a :: X ++ [.EndElement m]) := by
  intro d rest
  have hX1 := hX (d + 1) (.EndElement m :: rest)
  simp only [List.cons_append, List.append_assoc, List.singleton_append, List.nil_append,
    xml.elementEnd]
  rw [hX1]
  simp only [xml.elementEnd]
  cases xml.elementEnd d rest <;> simp

theorem element_end (X : List xml.Token) (hX : xmlBalanced X) (m : xml.Name)
    (rest : List xml.Token) :
    xml.elementEnd 0 (X ++ .EndElement m :: rest) = some (X ++ [.EndElement m], rest) := by
  rw [hX]
  simp [xml.elementEnd]

theorem Namespace_ne_nil : gems.Namespace ≠ [] := by decide

theorem readAttrs_none (T : gems.Datatype) : xml.readAttrs T.XMLName [] = [xmlnsAttr] := by
  simp only [xml.readAttrs, gems.Datatype.XMLName, ne_eq, Namespace_ne_nil, not_false_eq_true,
    if_true, List.filter_nil, List.map_nil, List.append_nil, xmlnsAttr]

theorem DatatypeFromXML_String (T : gems.Datatype) : gems.DatatypeFromXML T.String = T := by
  cases T <;> rfl

theorem text_decode (s : List Char) (m : xml.Name) :
    xml.decodeString 0 [] (xml.read [.CharData s] ++ [.EndElement m])
      = .ok (xml.readText s, []) := by
  by_cases hs : s = []
  · subst hs
    rfl
  · simp [xml.read, xml.readToken, hs, xml.decodeString]

theorem attrs_read_back (T : gems.Datatype) (n : List Char) (t : gems.Datatype)
    (m : gems.NullInt32) (hn : xmlPlain n) (hm : multiplicityReadsBack m) :
    parameterAttrLoop (xml.readAttrs T.XMLName (parameterAttrs n t m))
      ([], .UndefinedType, ⟨0, false⟩) = (n, t, m) := by
  have hname : xml.readText n = n := readText_plain n hn
  have htype : gems.DatatypeFromXML (xml.readText t.String) = t := by
    cases t <;> rfl
  obtain ⟨i, v⟩ := m
  have hmul : v = true → gems.NullInt32.UnmarshalXMLAttr
      ⟨⟨[], "multiplicity".toList⟩, xml.readText (FormatInt i)⟩ = ⟨i, true⟩ := by
    intro hv
    subst hv
    rcases hm with ⟨h, _⟩ | ⟨_, h1, h2⟩
    · simp at h
    · simp only at h1 h2
      simp only [gems.NullInt32.UnmarshalXMLAttr, readText_plain _ (FormatInt_plain i),
        ParseInt_FormatInt i 32 (by norm_num) (by norm_num) (by norm_num; exact h1)
          (by norm_num; omega)]
  have hnov : v = false → i = 0 := by
    intro hv
    subst hv
    rcases hm with ⟨_, h⟩ | ⟨h, _⟩
    · exact h
    · simp at h
  simp only [xml.readAttrs, gems.Datatype.XMLName, ne_eq, Namespace_ne_nil, not_false_eq_true,
    if_true, parameterAttrs]
  by_cases h1 : n = [] <;> by_cases h2 : t = .UndefinedType <;> cases v
  all_goals
    simp only [h1, h2, ne_eq, not_true_eq_false, not_false_eq_true, if_true, if_false,
      Bool.false_eq_true, List.append_nil, List.nil_append, List.filter_nil, List.map_nil,
      List.singleton_append, List.cons_append, gems.NullInt32.MarshalXMLAttr,
      gems.NullInt32.String, Bool.not_true, Bool.not_false]
  all_goals
    simp [parameterAttrLoop, hname, htype, hnov, gems.Datatype.XMLName]
  all_goals exact hmul rfl

theorem unmarshalXMLFuel_scalar (lib : GoLib) (fuel : Nat) (T : gems.Datatype) (nm : xml.Name)
    (a : List xml.Attr) (ts : List xml.Token) (h1 : T ≠ .ParameterType)
    (h2 : T ≠ .ParameterSetType) :
    unmarshalXMLFuel lib (fuel + 1) T nm a ts = unmarshalXMLScalar lib T a ts := by
  cases T <;> first
    | exact absurd rfl h1
    | exact absurd rfl h2
    | simp only [unmarshalXMLFuel]

theorem Value_Type_defined (v : Value) : v.Type ≠ .UndefinedType := by
  cases v <;> simp [Value.Type]

theorem xml_scalar_read_back (lib : GoLib) (v : Value) (h : XMLScalarReadsBack lib v)
    (m : xml.Name) :
    unmarshalXMLScalar lib v.Type (xml.readAttrs v.Type.XMLName (scalarAttrs v))
      (xml.read [.CharData (v.String lib)] ++ [.EndElement m]) = .ok (v, []) := by
  cases v with
  | vString d e =>
    rcases h with ⟨rfl, rfl⟩ | ⟨rfl, hd, hp⟩
    · simp only [unmarshalXMLScalar, Value.Type, Value.String, text_decode]
      rfl
    · simp only [unmarshalXMLScalar, Value.Type, Value.String, text_decode,
        readText_plain d hp, if_neg hd]
  | vBoolean d e =>
    simp only [XMLScalarReadsBack, ScalarReadsBack] at h
    cases e with
    | true =>
      rcases h with h | rfl
      · simp at h
      · simp only [unmarshalXMLScalar, Value.Type, Value.String, text_decode]
        rfl
    | false =>
      simp only [unmarshalXMLScalar, Value.Type, Value.String, text_decode,
        Bool.false_eq_true, if_false, readText_plain _ (FormatBool_plain d)]
      cases d <;> rfl
  | vByte d e =>
    simp only [XMLScalarReadsBack, ScalarReadsBack] at h
    rcases h with ⟨rfl, rfl⟩ | ⟨rfl, h1, h2⟩
    · simp only [unmarshalXMLScalar, Value.Type, Value.String, text_decode]
      rfl
    · simp only [unmarshalXMLScalar, Value.Type, Value.String, text_decode,
        Bool.false_eq_true, if_false, readText_plain _ (FormatInt_plain d),
        if_neg (FormatInt_ne_nil d),
        ParseInt_FormatInt d 8 (by norm_num) (by norm_num) (by norm_num; exact h1)
          (by norm_num; omega)]
      rfl
  | vUbyte d e =>
    simp only [XMLScalarReadsBack, ScalarReadsBack] at h
    rcases h with ⟨rfl, rfl⟩ | ⟨rfl, h1, h2⟩
    · simp only [unmarshalXMLScalar, Value.Type, Value.String, text_decode]
      rfl
    · have hc : ((d.natAbs : Nat) : Int) = d := by omega
      simp only [unmarshalXMLScalar, Value.Type, Value.String, text_decode,
        Bool.false_eq_true, if_false, readText_plain _ (FormatInt_plain d),
        if_neg (FormatInt_ne_nil d),
        ParseUint_FormatInt d 8 (by norm_num) h1 (by norm_num; omega)]
      show Except.ok (Value.vUbyte (d.natAbs : Int) false, []) = _
      rw [hc]
  | vShort d e =>
    simp only [XMLScalarReadsBack, ScalarReadsBack] at h
    rcases h with ⟨rfl, rfl⟩ | ⟨rfl, h1, h2⟩
    · simp only [unmarshalXMLScalar, Value.Type, Value.String, text_decode]
      rfl
    · simp only [unmarshalXMLScalar, Value.Type, Value.String, text_decode,
        Bool.false_eq_true, if_false, readText_plain _ (FormatInt_plain d),
        if_neg (FormatInt_ne_nil d),
        ParseInt_FormatInt d 16 (by norm_num) (by norm_num) (by norm_num; exact h1)
          (by norm_num; omega)]
      rfl
  | vUshort d e =>
    simp only [XMLScalarReadsBack, ScalarReadsBack] at h
    rcases h with ⟨rfl, rfl⟩ | ⟨rfl, h1, h2⟩
    · simp only [unmarshalXMLScalar, Value.Type, Value.String, text_decode]
      rfl
    · have hc : ((d.natAbs : Nat) : Int) = d := by omega
      simp only [unmarshalXMLScalar, Value.Type, Value.String, text_decode,
        Bool.false_eq_true, if_false, readText_plain _ (FormatInt_plain d),
        if_neg (FormatInt_ne_nil d),
        ParseUint_FormatInt d 16 (by norm_num) h1 (by norm_num; omega)]
      show Except.ok (Value.vUshort (d.natAbs : Int) false, []) = _
      rw [hc]
  | vInt d e =>
    simp only [XMLScalarReadsBack, ScalarReadsBack] at h
    rcases h with ⟨rfl, rfl⟩ | ⟨rfl, h1, h2⟩
    · simp only [unmarshalXMLScalar, Value.Type, Value.String, text_decode]
      rfl
    · simp only [unmarshalXMLScalar, Value.Type, Value.String, text_decode,
        Bool.false_eq_true, if_false, readText_plain _ (FormatInt_plain d),
        if_neg (FormatInt_ne_nil d),
        ParseInt_FormatInt d 32 (by norm_num) (by norm_num) (by norm_num; exact h1)
          (by norm_num; omega)]
      rfl
  | vUint d e =>
    simp only [XMLScalarReadsBack, ScalarReadsBack] at h
    rcases h with ⟨rfl, rfl⟩ | ⟨rfl, h1, h2⟩
    · simp only [unmarshalXMLScalar, Value.Type, Value.String, text_decode]
      rfl
    · have hc : ((d.natAbs : Nat) : Int) = d := by omega
      simp only [unmarshalXMLScalar, Value.Type, Value.String, text_decode,
        Bool.false_eq_true, if_false, readText_plain _ (FormatInt_plain d),
        if_neg (FormatInt_ne_nil d),
        ParseUint_FormatInt d 32 (by norm_num) h1 (by norm_num; omega)]
      show Except.ok (Value.vUint (d.natAbs : Int) false, []) = _
      rw [hc]
  | vLong d e =>
    simp only [XMLScalarReadsBack, ScalarReadsBack] at h
    rcases h with ⟨rfl, rfl⟩ | ⟨rfl, h1, h2⟩
    · simp only [unmarshalXMLScalar, Value.Type, Value.String, text_decode]
      rfl
    · simp only [unmarshalXMLScalar, Value.Type, Value.String, text_decode,
        Bool.false_eq_true, if_false, readText_plain _ (FormatInt_plain d),
        if_neg (FormatInt_ne_nil d),
        ParseInt_FormatInt d 64 (by norm_num) (by norm_num) (by norm_num; exact h1)
          (by norm_num; omega)]
      rfl
  | vUlong d e =>
    simp only [XMLScalarReadsBack, ScalarReadsBack] at h
    rcases h with ⟨rfl, rfl⟩ | ⟨rfl, h1, h2⟩
    · simp only [unmarshalXMLScalar, Value.Type, Value.String, text_decode]
      rfl
    · have hc : ((d.natAbs : Nat) : Int) = d := by omega
      simp only [unmarshalXMLScalar, Value.Type, Value.String, text_decode,
        Bool.false_eq_true, if_false, readText_plain _ (FormatInt_plain d),
        if_neg (FormatInt_ne_nil d),
        ParseUint_FormatInt d 64 (by norm_num) h1 (by norm_num; omega)]
      show Except.ok (Value.vUlong (d.natAbs : Int) false, []) = _
      rw [hc]
  | vDouble d e =>
    rcases h with ⟨rfl, rfl⟩ | ⟨rfl, h1, h2, h3⟩
    · simp only [unmarshalXMLScalar, Value.Type, Value.String, text_decode]
      rfl
    · simp only [unmarshalXMLScalar, Value.Type, Value.String, text_decode,
        Bool.false_eq_true, if_false, readText_plain _ h3, if_neg h2, h1]
      rfl
  | vHexValue d bl e =>
    obtain ⟨rfl, hd, hbl, hbytes, hlo, hhi⟩ := h
    have hstr := (hex_round_trip lib d bl hbl (fun hh => hd hh.1) hbytes hlo hhi).1
    have hattr : xml.readAttrs gems.Datatype.HexValueType.XMLName
        (scalarAttrs (.vHexValue d bl false))
        = [xmlnsAttr, ⟨⟨[], "bit_length".toList⟩, FormatInt bl⟩] := by
      simp only [xml.readAttrs, gems.Datatype.XMLName, ne_eq, Namespace_ne_nil,
        not_false_eq_true, if_true, scalarAttrs, xmlnsAttr]
      simp [readText_plain _ (FormatInt_plain bl)]
    have hbit : hexBitLength [xmlnsAttr, ⟨⟨[], "bit_length".toList⟩, FormatInt bl⟩] 0
        = .ok bl := by
      simp only [hexBitLength, xmlnsAttr, Atoi_FormatInt bl ⟨hlo, hhi⟩]
      rfl
    simp only [Value.Type, hattr, unmarshalXMLScalar, hbit, if_neg hbl, Value.String, hstr,
      text_decode, readText_plain _ (EncodeUpper_plain d hbytes),
      if_neg (EncodeUpper_ne_nil d hd), DecodeString_EncodeUpper d hbytes]
    rfl
  | vTime t e =>
    simp only [XMLScalarReadsBack, ScalarReadsBack] at h
    rcases h with ⟨rfl, rfl⟩ | ⟨rfl, ht⟩
    · simp only [unmarshalXMLScalar, Value.Type, Value.String, text_decode]
      rfl
    · simp only [unmarshalXMLScalar, Value.Type, Value.String, text_decode,
        Bool.false_eq_true, if_false, gems.Time.FormatTime,
        readText_plain _ (Time_String_plain t), if_neg (Time_String_ne_nil t),
        TimeFromString_String t ht]
      rfl
  | vUtime t e =>
    rcases h with ⟨rfl, rfl⟩ | ⟨rfl, ht⟩
    · simp only [unmarshalXMLScalar, Value.Type, Value.String, text_decode]
      rfl
    · simp only [unmarshalXMLScalar, Value.Type, Value.String, text_decode,
        Bool.false_eq_true, if_false, readText_plain _ (FormatUtime_plain t),
        if_neg (FormatUtime_ne_nil t), ht]
      rfl
  | vParameter vs m n t => exact absurd h (by simp [XMLScalarReadsBack])
  | vParameterSet vs m n t => exact absurd h (by simp [XMLScalarReadsBack])

theorem scalar_in_class (lib : GoLib) (v : Value) (h1 : v.Type ≠ .ParameterType)
    (h2 : v.Type ≠ .ParameterSetType) (h : XMLReadsBack lib v) : XMLScalarReadsBack lib v := by
  cases v <;> first
    | exact absurd rfl h1
    | exact absurd rfl h2
    | (simp only [XMLReadsBack] at h; exact h)

theorem read_element (n : xml.Name) (a : List xml.Attr) (X : List xml.Token) :
    xml.read (.StartElement n a :: X ++ [.EndElement n])
      = .StartElement n (xml.readAttrs n a) :: xml.read X ++ [.EndElement n] := by
  rw [read_append, read_cons]
  rfl

theorem loop_step (lib : GoLib) (v : Value) (r : List Value) (Tv Tr : List xml.Token)
    (hv : ∃ a inner, Tv = .StartElement v.Type.XMLName a :: inner
          ++ [.EndElement v.Type.XMLName]
        ∧ xmlBalanced inner
        ∧ ∀ fuel, inner.length + 2 ≤ fuel →
            unmarshalXMLFuel lib fuel v.Type v.Type.XMLName a
              (inner ++ [.EndElement v.Type.XMLName]) = .ok (v, []))
    (hr : loopReadsBack lib r Tr) : loopReadsBack lib (v :: r) (Tv ++ Tr) := by
  obtain ⟨a, inner, rfl, hb, hdec⟩ := hv
  obtain ⟨hbr, hloop⟩ := hr
  refine ⟨balanced_append _ _ (balanced_element _ _ a inner hb) hbr, ?_⟩
  intro fuel start acc rest hf
  simp only [List.length_append, List.length_cons, List.length_nil] at hf
  obtain ⟨f, rfl⟩ : ∃ f, fuel = f + 1 := ⟨fuel - 1, by omega⟩
  have htyp : gems.DatatypeFromXML v.Type.XMLName.Local = v.Type :=
    DatatypeFromXML_String v.Type
  have hend := element_end inner hb v.Type.XMLName (Tr ++ .EndElement start :: rest)
  have hshape : (xml.Token.StartElement v.Type.XMLName a :: inner
      ++ [.EndElement v.Type.XMLName]) ++ Tr ++ .EndElement start :: rest
      = .StartElement v.Type.XMLName a
        :: (inner ++ .EndElement v.Type.XMLName :: (Tr ++ .EndElement start :: rest)) := by
    simp
  rw [hshape, tokenLoop, htyp, if_neg (Value_Type_defined v), xml.decodeElement, hend]
  simp only [hdec f (by omega), ne_eq, not_true_eq_false, if_false]
  rw [hloop f start (acc ++ [v]) rest (by omega)]
  simp

theorem cleared_id (lib : GoLib) (v : Value) (hc : clearedSet v) (h : XMLReadsBack lib v) :
    clearAttributes v = v := by
  cases v <;> first
    | rfl
    | skip
  rename_i vs m n t
  obtain ⟨rfl, rfl, hm⟩ := hc
  obtain ⟨i, b⟩ := m
  simp only at hm
  subst hm
  rfl

theorem children_cons_tokens (lib : GoLib) (v : Value) (r : List Value) (hc : clearedSet v)
    (h : XMLReadsBack lib v) :
    (Value.MarshalXML.children lib (v :: r)).1
      = (v.MarshalXML lib).1 ++ (Value.MarshalXML.children lib r).1 := by
  by_cases hv : v.Type = .ParameterSetType
  · have hid := cleared_id lib v hc h
    cases v <;> first
      | (simp [Value.Type] at hv; done)
      | skip
    rw [children_cons_set, hid]
  · rw [children_cons_other lib v r hv]

theorem xml_read_back (lib : GoLib) :
    (∀ v : Value, XMLReadsBack lib v →
      ∃ a inner, xml.read (v.MarshalXML lib).1
          = .StartElement v.Type.XMLName a :: inner ++ [.EndElement v.Type.XMLName]
        ∧ xmlBalanced inner
        ∧ ∀ fuel, inner.length + 2 ≤ fuel →
            unmarshalXMLFuel lib fuel v.Type v.Type.XMLName a
              (inner ++ [.EndElement v.Type.XMLName]) = .ok (v, []))
    ∧ ∀ vs : List Value,
        (XMLReadsBack.all lib vs →
          loopReadsBack lib vs (xml.read (Value.MarshalXML.values lib vs).1))
        ∧ (XMLReadsBack.children lib vs →
          loopReadsBack lib vs (xml.read (Value.MarshalXML.children lib vs).1)) := by
  apply value_induction
  · intro v h1 h2 h
    have hs := scalar_in_class lib v h1 h2 h
    refine ⟨xml.readAttrs v.Type.XMLName (scalarAttrs v), xml.read [.CharData (v.String lib)],
      ?_, ?_, ?_⟩
    · rw [MarshalXML_scalar lib v h1 h2]
      exact read_element _ _ [.CharData (v.String lib)]
    · by_cases hs0 : v.String lib = []
      · rw [hs0]
        exact balanced_nil
      · have : xml.read [.CharData (v.String lib)]
            = [.CharData (xml.readText (v.String lib))] := by
          simp [xml.read, xml.readToken, hs0]
        rw [this]
        exact balanced_text _
    · intro fuel hf
      obtain ⟨f, rfl⟩ : ∃ f, fuel = f + 1 := ⟨fuel - 1, by omega⟩
      rw [unmarshalXMLFuel_scalar lib f v.Type _ _ _ h1 h2]
      exact xml_scalar_read_back lib v hs _
  · intro vs m n t ih h
    simp only [XMLReadsBack] at h
    obtain ⟨hn, hm, hall⟩ := h
    obtain ⟨hb, hloop⟩ := ih.1 hall
    refine ⟨xml.readAttrs gems.Datatype.ParameterType.XMLName (parameterAttrs n t m),
      xml.read (Value.MarshalXML.values lib vs).1, ?_, hb, ?_⟩
    · rw [MarshalXML_param]
      exact read_element _ _ _
    · intro fuel hf
      obtain ⟨f, rfl⟩ : ∃ f, fuel = f + 1 := ⟨fuel - 1, by omega⟩
      have hl := hloop f gems.Datatype.ParameterType.XMLName [] [] (by omega)
      simp only [Value.Type, unmarshalXMLFuel, List.append_assoc, List.singleton_append, hl,
        attrs_read_back _ n t m hn hm, List.nil_append]
  · intro vs m n t ih h
    simp only [XMLReadsBack] at h
    obtain ⟨hn, hm, hall⟩ := h
    obtain ⟨hb, hloop⟩ := ih.2 hall
    refine ⟨xml.readAttrs gems.Datatype.ParameterSetType.XMLName (parameterAttrs n t m),
      xml.read (Value.MarshalXML.children lib vs).1, ?_, hb, ?_⟩
    · rw [MarshalXML_set]
      exact read_element _ _ _
    · intro fuel hf
      obtain ⟨f, rfl⟩ : ∃ f, fuel = f + 1 := ⟨fuel - 1, by omega⟩
      have hl := hloop f gems.Datatype.ParameterSetType.XMLName [] [] (by omega)
      simp only [Value.Type, unmarshalXMLFuel, List.append_assoc, List.singleton_append, hl,
        attrs_read_back _ n t m hn hm, List.nil_append]
  · have hnil : loopReadsBack lib [] (xml.read []) := by
      refine ⟨balanced_nil, ?_⟩
      intro fuel start acc rest hf
      obtain ⟨f, rfl⟩ : ∃ f, fuel = f + 1 := ⟨fuel - 1, by omega⟩
      simp [xml.read, tokenLoop]
    exact ⟨fun _ => hnil, fun _ => hnil⟩
  · intro v r ihv ihr
    constructor
    · intro h
      simp only [XMLReadsBack.all] at h
      rw [values_cons, read_append]
      exact loop_step lib v r _ _ (ihv h.1) (ihr.1 h.2)
    · intro h
      simp only [XMLReadsBack.children] at h
      rw [children_cons_tokens lib v r h.1 h.2.1, read_append]
      exact loop_step lib v r _ _ (ihv h.2.1) (ihr.2 h.2.2)

theorem scalar_noSets (v : Value) (h1 : v.Type ≠ .ParameterType)
    (h2 : v.Type ≠ .ParameterSetType) : v.noSets = true ∧ v.setsInSets = true := by
  cases v <;> first
    | exact absurd rfl h1
    | exact absurd rfl h2
    | exact ⟨rfl, rfl⟩

theorem noSets_all_of (vs : List Value) (h : ∀ v ∈ vs, v.noSets = true) :
    Value.noSets.all vs = true := by
  induction vs with
  | nil => rfl
  | cons v r ih =>
    simp only [Value.noSets.all, Bool.and_eq_true]
    exact ⟨h v (by simp), ih (fun x hx => h x (by simp [hx]))⟩

theorem setsInSets_all_of (vs : List Value) (h : ∀ v ∈ vs, v.setsInSets = true) :
    Value.setsInSets.all vs = true := by
  induction vs with
  | nil => rfl
  | cons v r ih =>
    simp only [Value.setsInSets.all, Bool.and_eq_true]
    exact ⟨h v (by simp), ih (fun x hx => h x (by simp [hx]))⟩

theorem unmarshalScalar_hex_type (lib : GoLib) (data : List Char) (v : Value)
    (h : unmarshalScalar lib .HexValueType data = .ok v) : v.Type = .HexValueType := by
  simp only [unmarshalScalar] at h
  split_ifs at h
  · injection h with h
    rw [← h]
    rfl
  · split at h
    · simp at h
    · revert h
      generalize hex.DecodeString _ = r
      intro h
      cases r with
      | error e => simp [Except.map] at h
      | ok d =>
        simp only [Except.map] at h
        injection h with h
        rw [← h]
        rfl

theorem setValues_setsInSets (pb : ParameterBuilder) (e : Value) (vs : List Value)
    (hpb : ∀ v ∈ pb.values, v.setsInSets = true) (he : e.setsInSets = true)
    (hvs : ∀ v ∈ vs, v.setsInSets = true) :
    ∀ v ∈ (pb.setValues e vs).values, v.setsInSets = true := by
  unfold ParameterBuilder.setValues
  split_ifs
  · intro v hv
    simp only [List.mem_append, List.mem_singleton] at hv
    rcases hv with hv | rfl
    · exact hpb v hv
    · exact he
  · exact hvs

theorem apply_setsInSets (lib : GoLib) (pb : ParameterBuilder) (s : Setter)
    (hpb : ∀ v ∈ pb.values, v.setsInSets = true)
    (hs : ∀ ps, s = .Parameters ps → ∀ p ∈ ps, p.toValue.setsInSets = true) :
    ∀ v ∈ (pb.apply lib s).values, v.setsInSets = true := by
  cases s with
  | Name n => exact hpb
  | Multiplicity i => exact hpb
  | Parameters ps =>
    simp only [ParameterBuilder.apply]
    refine setValues_setsInSets _ _ _ hpb rfl ?_
    intro v hv
    obtain ⟨p, hp, rfl⟩ := List.mem_map.1 hv
    exact hs ps rfl p hp
  | HexValue xs =>
    simp only [ParameterBuilder.apply]
    refine setValues_setsInSets _ _ _ hpb rfl ?_
    intro v hv
    obtain ⟨x, _, rfl⟩ := List.mem_map.1 hv
    unfold newHexValueFromASCII
    split_ifs
    · rfl
    · cases h : unmarshalScalar lib .HexValueType x with
      | error e => rfl
      | ok w =>
        exact (scalar_noSets w (by rw [unmarshalScalar_hex_type lib x w h]; decide)
          (by rw [unmarshalScalar_hex_type lib x w h]; decide)).2
  | Time xs =>
    simp only [ParameterBuilder.apply]
    refine setValues_setsInSets _ _ _ hpb rfl ?_
    intro v hv
    obtain ⟨x, _, rfl⟩ := List.mem_map.1 hv
    unfold newTimeValueFromString
    cases gems.TimeFromString x <;> rfl
  | Utime xs =>
    simp only [ParameterBuilder.apply]
    refine setValues_setsInSets _ _ _ hpb rfl ?_
    intro v hv
    obtain ⟨x, _, rfl⟩ := List.mem_map.1 hv
    unfold newUtimeFromString
    cases gems.TimeFromUtime lib x <;> rfl
  | _ =>
    simp only [ParameterBuilder.apply]
    refine setValues_setsInSets _ _ _ hpb rfl ?_
    intro v hv
    obtain ⟨x, _, rfl⟩ := List.mem_map.1 hv
    rfl

theorem Build_setsInSets (lib : GoLib) (pb : ParameterBuilder)
    (hpb : ∀ v ∈ pb.values, v.setsInSets = true) :
    (pb.Build lib).1.toValue.setsInSets = true := by
  unfold ParameterBuilder.Build
  split
  · rfl
  · exact setsInSets_all_of _ hpb
  · exact setsInSets_all_of _ hpb
  · rename_i T h1 h2 hT
    have hty := (buildTypeLoop_spec _ _ _ hT).2
    apply noSets_all_of
    intro v hv
    exact (scalar_noSets v (by rw [hty v hv]; exact h2) (by rw [hty v hv]; exact h1)).1

theorem buildWith_setsInSets (lib : GoLib) (calls : List Setter)
    (h : ∀ ps, Setter.Parameters ps ∈ calls → ∀ p ∈ ps, p.toValue.setsInSets = true) :
    (buildWith lib calls).1.toValue.setsInSets = true := by
  unfold buildWith
  apply Build_setsInSets
  have key : ∀ (cs : List Setter) (pb : ParameterBuilder),
      (∀ ps, Setter.Parameters ps ∈ cs → ∀ p ∈ ps, p.toValue.setsInSets = true) →
      (∀ v ∈ pb.values, v.setsInSets = true) →
      ∀ v ∈ (cs.foldl (ParameterBuilder.apply lib) pb).values, v.setsInSets = true := by
    intro cs
    induction cs with
    | nil => exact fun pb _ hpb => hpb
    | cons s r ih =>
      intro pb hcs hpb
      simp only [List.foldl_cons]
      apply ih _ (fun ps hps => hcs ps (by simp [hps]))
      exact apply_setsInSets lib pb s hpb (fun ps hs => hcs ps (by simp [hs]))
  exact key calls NewParameterBuilder h (by intro v hv; simp [NewParameterBuilder] at hv)

theorem occursAt_get (sep data : List Char) (i : Nat) (h : occursAt sep data i) :
    ∀ k, k < sep.length → data[i + k]? = sep[k]? := by
  intro k hk
  obtain ⟨t, ht⟩ := h
  have : (data.drop i)[k]? = sep[k]? := by
    rw [← ht, List.getElem?_append_left hk]
  rwa [List.getElem?_drop] at this

theorem no_end_in_fill (P : List Char) (n : Nat) (hP : indexOf "|END".toList P = none) :
    ∀ i, ¬ occursAt "|END".toList (P ++ List.replicate n 'A') i := by
  intro i h
  by_cases hi : i + 4 ≤ P.length
  · exact (indexOf_spec "|END".toList (by decide) P).2 hP i
      (occursAt_append _ P _ i (by simpa using hi) h)
  · have hg := occursAt_get _ _ i h
    have h3 := hg 3 (by decide)
    rw [List.getElem?_append_right (by omega)] at h3
    by_cases hn : i + 3 - P.length < n
    · rw [List.getElem?_replicate, if_pos hn] at h3
      exact absurd h3 (by decide)
    · rw [List.getElem?_replicate, if_neg hn] at h3
      exact absurd h3 (by decide)

theorem load_frame (c : List Char) (n : Nat) (hn : 68 + c.length = n) :
    marshalMessage sampleLib (.LoadConfigMessage examplePingHeader c)
      = .ok ("|GEMS|14|".toList ++ FormatPad10 n
          ++ "|1||1410819035.280000000|System/Device1|LOAD|".toList ++ c ++ "|END".toList) := by
  have e1 : examplePingHeader.transactionID.String = "1".toList := by rfl
  have e2 : examplePingHeader.token = [] := rfl
  have e3 : examplePingHeader.timestamp.String = "1410819035.280000000".toList := by rfl
  have e4 : examplePingHeader.target = "System/Device1".toList := rfl
  have e5 : gems.MessageType.LoadConfigMessageType.ASCII = "LOAD".toList := rfl
  simp only [marshalMessage, Message.MarshalASCII, marshalASCIIMessage, Message.header,
    Message.Type, e1, e2, e3, e4, e5]
  have hl : 20 + ("1".toList ++ '|' :: ([] : List Char) ++ '|' ::
      "1410819035.280000000".toList ++ '|' :: "System/Device1".toList ++ '|' ::
      ("LOAD".toList ++ '|' :: c ++ ['|']) ++ "END".toList).length = n := by
    have l1 : "1".toList.length = 1 := rfl
    have l2 : "1410819035.280000000".toList.length = 20 := rfl
    have l3 : "System/Device1".toList.length = 14 := rfl
    have l4 : "LOAD".toList.length = 4 := rfl
    have l5 : "END".toList.length = 3 := rfl
    simp only [List.length_append, List.length_cons, List.length_nil, l1, l2, l3, l4, l5]
    omega
  rw [hl]
  simp [asciiVersion, List.append_assoc]

theorem long_frame_marshal :
    marshalMessage sampleLib exampleLongConfig = .ok exampleLongFrame := by
  have hp : FormatPad10 65604 = "0000065604".toList := by rfl
  have hn : 68 + (List.replicate 65536 'A').length = 65604 := by rw [List.length_replicate]
  have key : ∀ R : List Char, "|GEMS|14|".toList ++ FormatPad10 65604
      ++ "|1||1410819035.280000000|System/Device1|LOAD|".toList ++ R ++ "|END".toList
      = "|GEMS|14|0000065604|1||1410819035.280000000|System/Device1|LOAD|".toList ++ R
        ++ "|END".toList := by
    intro R
    rw [hp]
    simp [List.append_assoc]
  exact (load_frame _ 65604 hn).trans (congrArg Except.ok (key _))

theorem long_frame_scan (n fuel : Nat) (hn : 65472 ≤ n) :
    scanTokens (fuel + 1)
      ("|GEMS|14|0000065604|1||1410819035.280000000|System/Device1|LOAD|".toList
        ++ List.replicate n 'A' ++ "|END".toList) = ([], some errTooLong) := by
  have hP : ("|GEMS|14|0000065604|1||1410819035.280000000|System/Device1|LOAD|".toList).length
      = 64 := by rfl
  generalize hPdef :
    "|GEMS|14|0000065604|1||1410819035.280000000|System/Device1|LOAD|".toList = P at hP ⊢
  have hnone : indexOf "|END".toList P = none := by
    rw [← hPdef]
    rfl
  have htake : (P ++ List.replicate n 'A' ++ "|END".toList).take maxScanTokenSize
      = P ++ List.replicate 65472 'A' := by
    rw [List.append_assoc, List.take_append_eq_append_take, List.take_of_length_le
      (by rw [hP]; decide), hP, List.take_append_eq_append_take, List.take_replicate,
      List.length_replicate]
    have h1 : min (maxScanTokenSize - 64) n = 65472 := by
      simp only [maxScanTokenSize]
      omega
    have h2 : maxScanTokenSize - 64 - n = 0 := by
      simp only [maxScanTokenSize]
      omega
    rw [h1, h2, List.take_zero, List.append_nil]
  have hlen : ¬ (P ++ List.replicate n 'A' ++ "|END".toList).length ≤ maxScanTokenSize := by
    have l4 : "|END".toList.length = 4 := rfl
    simp only [List.length_append, List.length_replicate, hP, maxScanTokenSize, l4]
    omega
  have hidx := indexOf_no_occurrence "|END".toList (by decide) _ (no_end_in_fill P 65472 hnone)
  simp only [scanTokens, htake, hlen, decide_False, ascii.SplitMessages, hidx,
    Bool.false_eq_true, false_and, if_false]

theorem split_window (F rest : List Char) (atEOF : Bool) (hend : "|END".toList <:+ F)
    (honly : ∀ j, occursAt "|END".toList F j → j + 4 = F.length)
    (hsize : F.length ≤ maxScanTokenSize) :
    ascii.SplitMessages ((F ++ rest).take maxScanTokenSize) atEOF = (F.length, some F, none) := by
  rw [List.take_append_eq_append_take, List.take_of_length_le hsize]
  exact split_first_frame F _ atEOF hend honly

theorem scanTokens_frames (frames : List (List Char)) :
    (∀ F ∈ frames, "|END".toList <:+ F
        ∧ (∀ j, occursAt "|END".toList F j → j + 4 = F.length)
        ∧ F.length ≤ maxScanTokenSize) →
    ∀ fuel, frames.length < fuel → scanTokens fuel frames.flatten = (frames, none) := by
  induction frames with
  | nil =>
    intro _ fuel hf
    cases fuel with
    | zero => omega
    | succ k => rfl
  | cons F r ih =>
    intro h fuel hf
    cases fuel with
    | zero => omega
    | succ k =>
      obtain ⟨hend, honly, hsize⟩ := h F (by simp)
      simp only [List.flatten_cons, scanTokens,
        split_window F r.flatten _ hend honly hsize, List.drop_left]
      rw [ih (fun G hG => h G (by simp [hG])) k (by simp at hf; omega)]

theorem long_frame_only (P : List Char) (n : Nat) (hn : 3 ≤ n)
    (hP : indexOf "|END".toList P = none) :
    ∀ j, occursAt "|END".toList (P ++ List.replicate n 'A' ++ "|END".toList) j →
      j + 4 = (P ++ List.replicate n 'A' ++ "|END".toList).length := by
  intro j h
  have l4 : "|END".toList.length = 4 := rfl
  have hlen : (P ++ List.replicate n 'A' ++ "|END".toList).length = P.length + n + 4 := by
    simp only [List.length_append, List.length_replicate, l4]
  rw [hlen]
  by_cases hj : j + 4 ≤ P.length + n
  · exact absurd (occursAt_append _ (P ++ List.replicate n 'A') _ j
      (by simp only [List.length_append, List.length_replicate, l4]; exact hj) h)
      (no_end_in_fill P n hP j)
  · rcases occursAt_length _ _ j h with h1 | h1
    · rw [hlen, l4] at h1
      by_cases he : j = P.length + n
      · omega
      · have h0 := occursAt_get _ _ j h 0 (by decide)
        rw [Nat.add_zero, List.append_assoc, List.getElem?_append_right (by omega),
          List.getElem?_append_left (by rw [List.length_replicate]; omega),
          List.getElem?_replicate, if_pos (by omega)] at h0
        exact absurd h0 (by decide)
    · exact absurd h1 (by decide)

theorem long_frame_length : exampleLongFrame.length = 65604 := by
  have l1 : ("|GEMS|14|0000065604|1||1410819035.280000000|System/Device1|LOAD|".toList).length
      = 64 := rfl
  have l4 : "|END".toList.length = 4 := rfl
  simp only [exampleLongFrame, List.length_append, List.length_replicate, l1, l4]

theorem long_frame_split (atEOF : Bool) :
    ascii.SplitMessages exampleLongFrame atEOF = (65604, some exampleLongFrame, none) := by
  have h := split_first_frame exampleLongFrame [] atEOF
    ⟨"|GEMS|14|0000065604|1||1410819035.280000000|System/Device1|LOAD|".toList
      ++ List.replicate 65536 'A', rfl⟩
    (long_frame_only _ 65536 (by decide) (by rfl))
  rw [List.append_nil, long_frame_length] at h
  exact h

end ReadBackLemmas

/-! ### The claims -/

section Claims
open strconv gemsV14

/-- C1 (amended): for every Parameter or ParameterSet `P` that satisfies `ReadsBack` (no
type attribute; a name of code points up to 127 without `=`; a multiplicity that is absent
or lies in 32 bits; for a Parameter: no multiplicity when it has no values, and values of one
scalar type that are empty markers with zero payload, non-empty ASCII strings, booleans,
integers in the range of their type, hex values with bytes below 256 and a bit length in 64
bits that is not zero and not negative without data, times whose nanoseconds are zero or at
least 100000000, and doubles and utimes that the library reads back; for a ParameterSet:
without multiplicity such Parameters as values, with multiplicity unnamed child sets without
multiplicity that each hold at least one such Parameter), the ASCII marshalling succeeds and
`UnmarshalParameterASCII` on the marshalled text succeeds and returns `P`. -/
theorem parameter_round_trip (lib : GoLib) (P : XMLParameter) (h : ReadsBack lib P) :
    marshalValue lib P.toValue = .ok (encoded lib P.toValue)
      ∧ UnmarshalParameterASCII lib (encoded lib P.toValue) = .ok P.toValue := by
  cases P with
  | Parameter p =>
    have h1 : ParameterReadsBack lib (.vParameter p.Values p.Multiplicity p.name p.typeAttr) := h
    have he := parameter_encoded lib _ _ _ _ h1
    simp only [XMLParameter.toValue, Parameter.toValue, marshalValue, encoded, he]
    exact ⟨trivial, parameter_top lib _ _ _ _ h1⟩
  | ParameterSet ps =>
    have h1 : SetReadsBack lib (.vParameterSet ps.Values ps.Multiplicity ps.name ps.typeAttr) := h
    have he := set_encoded lib _ _ _ _ h1
    simp only [XMLParameter.toValue, ParameterSet.toValue, marshalValue, encoded, he]
    exact ⟨trivial, set_top lib _ _ _ _ h1⟩

/-- Witness of C1 at the set `ParameterSetList` of the test suite, with multiplicity 3 and
three groups of three parameters. -/
theorem parameter_round_trip_witness :
    ReadsBack sampleLib (.ParameterSet exampleParameterSetList)
    ∧ marshalValue sampleLib (XMLParameter.ParameterSet exampleParameterSetList).toValue
        = .ok (encoded sampleLib (XMLParameter.ParameterSet exampleParameterSetList).toValue)
    ∧ UnmarshalParameterASCII sampleLib
        (encoded sampleLib (XMLParameter.ParameterSet exampleParameterSetList).toValue)
        = .ok (XMLParameter.ParameterSet exampleParameterSetList).toValue :=
  have h : ReadsBack sampleLib (.ParameterSet exampleParameterSetList) :=
    ⟨rfl, by decide, by decide, Or.inr ⟨rfl, by decide, by decide⟩, Or.inr ⟨rfl, by
      intro g hg
      simp only [exampleParameterSetList, exampleGroups, List.map_cons, List.map_nil,
        List.mem_cons, List.mem_singleton, List.not_mem_nil, or_false] at hg
      rcases hg with rfl | rfl | rfl
      · exact exampleChannel_reads_back 0 200 2000 (by decide) (by decide) (by decide)
      · exact exampleChannel_reads_back 1 400 4000 (by decide) (by decide) (by decide)
      · exact exampleChannel_reads_back 2 600 6000 (by decide) (by decide) (by decide)⟩⟩
  ⟨h, parameter_round_trip sampleLib (.ParameterSet exampleParameterSetList) h⟩

/-- Counterexample to C1 as stated: `Name("a=b").Int(1)` builds without error and marshals
without error to `a=b:int=1`, and `UnmarshalParameterASCII` on that text returns the error
`parameter missing ':' separator`, because the header is cut at the first `=`. -/
theorem parameter_round_trip_equals_sign_in_name :
    buildWith sampleLib [.Name "a=b".toList, .Int [1]] = (.Parameter exampleEqualsName, none)
    ∧ marshalValue sampleLib (XMLParameter.Parameter exampleEqualsName).toValue
      = .ok "a=b:int=1".toList
    ∧ UnmarshalParameterASCII sampleLib "a=b:int=1".toList
      = .error (.UnmarshalError (some "a=b:int=1".toList)
          "parameter missing ':' separator".toList) :=
  ⟨rfl, rfl, rfl⟩

/-- C2 (amended): for every message `M` of any of the nineteen variants that satisfies
`MessageReadsBack` (target and token without `|`; a timestamp whose seconds lie in 64 bits
and whose nanoseconds are zero or at least 100000000; a transaction id that is absent or
lies in 64 bits; result code, description, connection type, disconnect reason and
configuration name without `|`; parameter counts in 64 bits; desired-parameter names and
directive names of code points up to 127 without `|` that `unescape` leaves unchanged;
configuration names of code points up to 127; parameters as in C1 (amended); at least one
parameter in a SetConfigMessage; directive arguments `nil` or non-empty), the ASCII
marshalling succeeds, and when the frame is shorter than 10^10 bytes `ReceiveASCIIMessage`
on the frame succeeds and returns `M`. -/
theorem message_round_trip (lib : GoLib) (m : Message) (h : MessageReadsBack lib m) :
    marshalMessage lib m = .ok (frameText m.header m.Type.ASCII (bodyFields lib m))
      ∧ ((frameText m.header m.Type.ASCII (bodyFields lib m)).length < 10 ^ 10 →
        ReceiveASCIIMessage lib (frameText m.header m.Type.ASCII (bodyFields lib m)) = .ok m) := by
  obtain ⟨hh, hb⟩ := h
  have hm : m.MarshalASCII lib [] = (frameText m.header m.Type.ASCII (bodyFields lib m), none) := by
    rw [message_marshal lib m hb, marshal_frame]
  constructor
  · simp only [marshalMessage, hm]
  · intro hlen
    obtain ⟨htag1, htag2, htag3, htag4⟩ := tag_facts m
    obtain ⟨hle1, hle2⟩ := frameLength_le m.header m.Type.ASCII (bodyFields lib m)
    have hl : frameLength m.header m.Type.ASCII (bodyFields lib m) < 10 ^ 10 :=
      lt_of_le_of_lt hle1 hlen
    have hfree := bodyFields_free lib m hb
    obtain ⟨g, hg, hgt⟩ := generic_decode m.header m.Type.ASCII (bodyFields lib m) hh htag2 hfree hl
    have hdec := unmarshalASCIIHeader_frame m.header m.Type (bodyFields lib m) (minFields m.Type)
      hh htag2 hfree hl (minFields_le lib m)
    have hbody := body_decode lib m hb (by
      calc (bodyFields lib m).length ≤ frameLength m.header m.Type.ASCII (bodyFields lib m) := hle2
        _ < 10 ^ 10 := hl
        _ < 2 ^ 63 := by norm_num)
    unfold ReceiveASCIIMessage
    rw [hg]
    show receiveMessage lib _ g.Type = _
    rw [hgt, htag1]
    unfold receiveMessage
    rw [if_neg (by simp [htag3, htag4]), hdec]
    exact hbody

/-- Witness of C2 at the message `SET` with the parameter `BitRates:int[2]=200,2000`. -/
theorem message_round_trip_witness :
    MessageReadsBack sampleLib exampleSetConfigMessage
    ∧ marshalMessage sampleLib exampleSetConfigMessage = .ok exampleSetConfigFrame
    ∧ ReceiveASCIIMessage sampleLib exampleSetConfigFrame = .ok exampleSetConfigMessage :=
  have h : MessageReadsBack sampleLib exampleSetConfigMessage :=
    ⟨⟨by decide, by decide, ⟨by decide, by decide, Or.inr ⟨by decide, by decide⟩⟩,
        Or.inr ⟨rfl, by decide, by decide⟩⟩,
      by simp [exampleSetConfigMessage], by
        intro p hp
        simp only [List.mem_singleton] at hp
        subst hp
        exact exampleBitRates_reads_back⟩
  have e : frameText exampleSetConfigMessage.header exampleSetConfigMessage.Type.ASCII
      (bodyFields sampleLib exampleSetConfigMessage) = exampleSetConfigFrame := rfl
  ⟨h, (message_round_trip sampleLib exampleSetConfigMessage h).1.trans (congrArg _ e),
    e ▸ (message_round_trip sampleLib exampleSetConfigMessage h).2 (e ▸ (by decide))⟩

/-- Counterexample to C2 as stated: the ping message with the token `a|b` is built and
marshalled without error, and `ReceiveASCIIMessage` on its frame fails, because the token
is written as it is and the decoder then reads `b` as the timestamp. -/
theorem message_round_trip_pipe_in_token :
    MessageBuilder.Build gems.Time.zero examplePipeTokenBuilder = .ok examplePipeTokenMessage
    ∧ marshalMessage sampleLib examplePipeTokenMessage
      = .ok "|GEMS|14|0000000070|1|a|b|1410819035.280000000|System/Device1|PING|END".toList
    ∧ ReceiveASCIIMessage sampleLib
        "|GEMS|14|0000000070|1|a|b|1410819035.280000000|System/Device1|PING|END".toList
      = .error (.NumError "ParseInt".toList "b".toList .ErrSyntax) :=
  ⟨rfl, rfl, rfl⟩

/-- C3: for every message whose ASCII marshalling succeeds with a frame `S` shorter than
`10^10` bytes, the ten bytes 9..19 of `S` are decimal digits (`ParseUint` reads them) and
their value is the byte length of `S`. -/
theorem frame_length_field (lib : GoLib) (m : Message) (S : List Char)
    (h : marshalMessage lib m = .ok S) (hlen : S.length < 10 ^ 10) :
    ((S.drop 9).take 10).length = 10 ∧
      strconv.ParseUint ((S.drop 9).take 10) 64 = .ok S.length := by
  obtain ⟨msg, rfl⟩ := marshalMessage_layout lib m S h
  have hge := FormatPad10_length_ge (20 + msg.length)
  have h9 : ("|GEMS|14|".toList).length = 9 := rfl
  have hlt : 20 + msg.length < 10 ^ 10 := by
    simp only [List.length_append, List.length_cons, h9] at hlen
    omega
  have hpad := FormatPad10_length _ hlt
  have hS : ("|GEMS|14|".toList ++ FormatPad10 (20 + msg.length) ++ '|' :: msg).length
      = 20 + msg.length := by
    simp only [List.length_append, List.length_cons, h9, hpad]; omega
  have hfield : (("|GEMS|14|".toList ++ FormatPad10 (20 + msg.length) ++ '|' :: msg).drop 9).take 10
      = FormatPad10 (20 + msg.length) := by
    exact take_drop_frame _ _ _ h9 hpad
  rw [hfield, hS]
  exact ⟨hpad, ParseUint_FormatPad10 _ (by norm_num at hlt ⊢; omega)⟩

/-- Witness of C3 at the ping message of the test suite. -/
theorem frame_length_field_witness :
    (gemsV14.marshalMessage sampleLib (.PingMessage examplePingHeader) = .ok examplePingFrame
      ∧ examplePingFrame.length < 10 ^ 10)
    ∧ (((examplePingFrame.drop 9).take 10).length = 10 ∧
      strconv.ParseUint ((examplePingFrame.drop 9).take 10) 64 = .ok examplePingFrame.length) :=
  ⟨⟨rfl, by decide⟩,
    frame_length_field sampleLib (.PingMessage examplePingHeader) examplePingFrame rfl
      (by decide)⟩

/-- C5 (amended): for every byte string `F` on which `MessageHeader.UnmarshalASCII`
succeeds, the first five bytes of `F` are `|GEMS`, `F` ends with `|END`, bytes 6..8 are
`14`, and the field that starts at byte 9 and runs to the next `|` is read by `ParseInt`
as the number `len(F)`. -/
theorem header_accepts (F : List Char) (h : MessageHeader)
    (hok : MessageHeader.UnmarshalASCII F = .ok h) :
    F.take 5 = "|GEMS".toList ∧ endsWith F "|END".toList = true
      ∧ (F.drop 6).take 2 = "14".toList
      ∧ strconv.ParseInt ((splitOn "|".toList (F.drop 9)).getD 0 []) 64 = .ok (F.length : Int) := by
  unfold MessageHeader.UnmarshalASCII at hok
  by_cases h1 : F.length < 9
  · rw [if_pos h1] at hok; exact absurd hok (by simp)
  rw [if_neg h1] at hok
  by_cases h2 : F.take 5 ≠ "|GEMS".toList
  · rw [if_pos h2] at hok; exact absurd hok (by simp)
  rw [if_neg h2] at hok
  by_cases h3 : (F.drop 6).take 2 ≠ asciiVersion
  · rw [if_pos h3] at hok; exact absurd hok (by simp)
  rw [if_neg h3] at hok
  dsimp only at hok
  by_cases h4 : (splitOn "|".toList (F.drop 9)).length < 6
  · rw [if_pos h4] at hok; exact absurd hok (by simp)
  rw [if_neg h4] at hok
  by_cases h5 : (splitOn "|".toList (F.drop 9)).getLast? ≠ some "END".toList
  · rw [if_pos h5] at hok; exact absurd hok (by simp)
  rw [if_neg h5] at hok
  cases hparse : strconv.ParseInt ((splitOn "|".toList (F.drop 9)).getD 0 []) 64 with
  | error e => rw [hparse] at hok; exact absurd hok (by simp)
  | ok msgLen =>
    rw [hparse] at hok
    dsimp only at hok
    by_cases h6 : msgLen ≠ (F.length : Int)
    · rw [if_pos h6] at hok; exact absurd hok (by simp)
    push_neg at h2 h3 h5 h6
    simp only [not_lt] at h4
    refine ⟨h2, ?_, h3, ?_⟩
    · rw [endsWith_iff]
      have := suffix_of_split_last '|' (F.drop 9) "END".toList (by
        have : "|".toList = ['|'] := rfl
        rw [this] at h4; omega) h5
      exact this.trans (List.drop_suffix 9 F)
    · rw [h6]

/-- Witness of C5 at the ping frame of the test suite. -/
theorem header_accepts_witness :
    gemsV14.MessageHeader.UnmarshalASCII examplePingFrame = .ok examplePingHeader
    ∧ (examplePingFrame.take 5 = "|GEMS".toList ∧ endsWith examplePingFrame "|END".toList = true
      ∧ (examplePingFrame.drop 6).take 2 = "14".toList
      ∧ strconv.ParseInt ((splitOn "|".toList (examplePingFrame.drop 9)).getD 0 []) 64
        = .ok (examplePingFrame.length : Int)) :=
  ⟨rfl, header_accepts examplePingFrame examplePingHeader rfl⟩

/-- Counterexample to C5 as stated: the header decoder accepts the twenty-byte frame
`|GEMS|14|20|||0||END`, whose bytes 9..19 are `20|||0||EN` and not a decimal number. -/
theorem header_accepts_short_length_field :
    gemsV14.MessageHeader.UnmarshalASCII exampleShortLengthFrame
        = .ok ⟨[], ⟨0, 0⟩, [], ⟨0, false⟩⟩
    ∧ (exampleShortLengthFrame.drop 9).take 10 = "20|||0||EN".toList
    ∧ strconv.ParseInt ((exampleShortLengthFrame.drop 9).take 10) 64
        = .error (.NumError "ParseInt".toList "20|||0||EN".toList .ErrSyntax) :=
  ⟨rfl, rfl, rfl⟩

/-- C6: for every message variant `typ` and every frame `F` that starts with `|GEMS`, has
version `14`, has at least six `|`-separated fields after byte 9 of which the last is
`END`, and whose length field parses as a number `n ≠ len(F)`: decoding `F` as that variant
fails with the error "message length field does not match data length", whatever the type
tag and the body of `F` are. -/
theorem length_mismatch (lib : GoLib) (typ : gems.MessageType) (F : List Char) (n : Int)
    (htyp : typ ≠ .UndefinedMessageType ∧ typ ≠ .MessageSequenceType)
    (hstart : startsWith F "|GEMS".toList = true) (hver : (F.drop 6).take 2 = "14".toList)
    (hfields : 6 ≤ (splitOn "|".toList (F.drop 9)).length)
    (hend : (splitOn "|".toList (F.drop 9)).getLast? = some "END".toList)
    (hparse : strconv.ParseInt ((splitOn "|".toList (F.drop 9)).getD 0 []) 64 = .ok n)
    (hne : n ≠ (F.length : Int)) :
    receiveMessage lib F typ = .error (.UnmarshalError (some F)
      "message length field does not match data length".toList) := by
  have hlen : ¬ F.length < 9 := by
    have := splitOn_length_le '|' (F.drop 9)
    have e : "|".toList = ['|'] := rfl
    rw [e] at hfields
    simp at this
    omega
  have htake := take_of_startsWith F _ hstart
  have hhead : MessageHeader.UnmarshalASCII F = .error (.UnmarshalError (some F)
      "message length field does not match data length".toList) := by
    unfold MessageHeader.UnmarshalASCII
    rw [if_neg hlen, if_neg (by simpa using htake), if_neg (by simp [asciiVersion, hver])]
    dsimp only
    rw [if_neg (by omega), if_neg (by rw [hend]; simp), hparse]
    dsimp only
    rw [if_pos hne]
  unfold receiveMessage
  rw [if_neg (by simp [htyp.1, htyp.2])]
  unfold unmarshalASCIIHeader
  rw [hhead]

/-- Witness of C6 at the tampered frame of the test suite, decoded as an
`UnknownResponse`. -/
theorem length_mismatch_witness :
    ((gems.MessageType.UnknownResponseType ≠ .UndefinedMessageType
        ∧ gems.MessageType.UnknownResponseType ≠ .MessageSequenceType)
      ∧ startsWith exampleTamperedFrame "|GEMS".toList = true
      ∧ (exampleTamperedFrame.drop 6).take 2 = "14".toList
      ∧ 6 ≤ (splitOn "|".toList (exampleTamperedFrame.drop 9)).length
      ∧ (splitOn "|".toList (exampleTamperedFrame.drop 9)).getLast? = some "END".toList
      ∧ strconv.ParseInt ((splitOn "|".toList (exampleTamperedFrame.drop 9)).getD 0 []) 64
          = .ok 1
      ∧ (1 : Int) ≠ (exampleTamperedFrame.length : Int))
    ∧ gemsV14.receiveMessage sampleLib exampleTamperedFrame .UnknownResponseType
        = .error (.UnmarshalError (some exampleTamperedFrame)
            "message length field does not match data length".toList) :=
  ⟨⟨⟨by decide, by decide⟩, rfl, rfl, by decide, rfl, rfl, by decide⟩,
    length_mismatch sampleLib .UnknownResponseType exampleTamperedFrame 1
      ⟨by decide, by decide⟩ rfl rfl (by decide) rfl rfl (by decide)⟩


/-- C7: for every Ping message with optional transaction id, token, timestamp and target
whose frame fits the ten-digit length field, the ASCII encoding is exactly `|GEMS|14|`,
the frame length `L` as ten zero-padded digits, `|`, the decimal id (empty when absent),
`|`, the token, `|`, the text of the timestamp, `|`, the target and `|PING|END`; for target
`System/Device1`, timestamp 1410819035.28 and id 1 it is
`|GEMS|14|0000000067|1||1410819035.280000000|System/Device1|PING|END`. -/
theorem ping_frame (lib : GoLib) (h : MessageHeader) (body : List Char)
    (hbody : body = (if h.transactionID.Valid then FormatInt h.transactionID.Int64 else [])
      ++ "|".toList ++ h.token ++ "|".toList ++ h.timestamp.String ++ "|".toList ++ h.target
      ++ "|PING|END".toList)
    (hlen : 20 + body.length < 10 ^ 10) :
    (∃ L F, L = FormatPad10 F.length ∧ L.length = 10
      ∧ F = "|GEMS|14|".toList ++ L ++ "|".toList ++ body
      ∧ marshalMessage lib (.PingMessage h) = .ok F)
    ∧ marshalMessage lib (.PingMessage examplePingHeader) = .ok examplePingFrame := by
  refine ⟨?_, rfl⟩
  have hpad := FormatPad10_length _ hlen
  have h9 : ("|GEMS|14|".toList).length = 9 := rfl
  have hF : ("|GEMS|14|".toList ++ FormatPad10 (20 + body.length) ++ "|".toList ++ body).length
      = 20 + body.length := by
    simp only [List.length_append, h9, hpad]
    have : ("|".toList).length = 1 := rfl
    omega
  refine ⟨FormatPad10 (20 + body.length),
    "|GEMS|14|".toList ++ FormatPad10 (20 + body.length) ++ "|".toList ++ body, ?_, hpad, rfl, ?_⟩
  · rw [hF]
  · have hmsg : h.transactionID.String ++ '|' :: h.token ++ '|' :: h.timestamp.String
        ++ '|' :: h.target ++ '|' :: ((Message.PingMessage h).Type.ASCII ++ ['|']) ++ "END".toList
        = body := by
      rw [hbody]
      simp [gems.NullInt64.String, Message.Type, gems.MessageType.ASCII]
      split_ifs <;> simp_all
    simp only [marshalMessage, Message.MarshalASCII, marshalASCIIMessage, hmsg]
    simp [asciiVersion]

/-- Witness of C7 at the ping message of the test suite. -/
theorem ping_frame_witness :
    ("1||1410819035.280000000|System/Device1|PING|END".toList
        = (if examplePingHeader.transactionID.Valid
            then FormatInt examplePingHeader.transactionID.Int64 else [])
          ++ "|".toList ++ examplePingHeader.token ++ "|".toList
          ++ examplePingHeader.timestamp.String ++ "|".toList ++ examplePingHeader.target
          ++ "|PING|END".toList
      ∧ 20 + "1||1410819035.280000000|System/Device1|PING|END".toList.length < 10 ^ 10)
    ∧ ((∃ L F, L = FormatPad10 F.length ∧ L.length = 10
        ∧ F = "|GEMS|14|".toList ++ L ++ "|".toList
            ++ "1||1410819035.280000000|System/Device1|PING|END".toList
        ∧ marshalMessage sampleLib (.PingMessage examplePingHeader) = .ok F)
      ∧ marshalMessage sampleLib (.PingMessage examplePingHeader) = .ok examplePingFrame) :=
  ⟨⟨rfl, by decide⟩,
    ping_frame sampleLib examplePingHeader
      "1||1410819035.280000000|System/Device1|PING|END".toList rfl (by decide)⟩

/-- C8 (amended): for every Parameter whose name `n` has only code points up to 127:
without values it is written as `escape(n)` alone; with a non-empty list of values that
all have the same scalar datatype `T` and each marshal without error, it is written as
`escape(n)`, `:`, the ASCII name of `T`, `[m]` when the multiplicity `m` is present, `=`,
and the encoded values joined by `,`. -/
theorem parameter_encoding (lib : GoLib) (p : Parameter) (b : List Char)
    (hname : ascii.Valid p.name = true) :
    (p.Values = [] → p.MarshalASCII lib b = (b ++ escape p.name, none))
    ∧ (∀ T : gems.Datatype, p.Values ≠ [] → (∀ v ∈ p.Values, v.Type = T) →
        T ≠ .ParameterType → T ≠ .ParameterSetType →
        (∀ v ∈ p.Values, (Value.MarshalASCII lib v []).2 = none) →
        p.MarshalASCII lib b = (b ++ escape p.name ++ ":".toList ++ T.ASCIIName
          ++ (if p.Multiplicity.Valid then "[".toList ++ FormatInt p.Multiplicity.Int32 ++ "]".toList
              else [])
          ++ "=".toList
          ++ joinWith ",".toList (p.Values.map (fun v => (Value.MarshalASCII lib v []).1)),
          none)) := by
  constructor
  · intro hv
    simp [Parameter.MarshalASCII, Parameter.toValue, Value.MarshalASCII, hv,
      SafeWrite_escape _ _ hname, gemsV14.andThen, ValueType, valueTypeLoop]
  · intro T hne hT h1 h2 hok
    have hVT := ValueType_of_same T p.Values hne hT
    have hTu : T ≠ .UndefinedType := by
      rw [← hVT]
      cases hp : p.Values with
      | nil => exact absurd hp hne
      | cons v r =>
        rw [← hp, hVT, ← hT v (by simp [hp])]
        exact Value.Type_ne_undefined v
    simp only [Parameter.MarshalASCII, Parameter.toValue, Value.MarshalASCII,
      SafeWrite_escape _ _ hname, gemsV14.andThen, hVT, if_neg hTu]
    rw [slice_scalars lib p.Values _ (fun v hv => ⟨hT v hv ▸ h1, hT v hv ▸ h2, hok v hv⟩)]
    cases p.Multiplicity.Valid <;> simp [List.append_assoc]

/-- Witness of C8 at `BitRates:int[2]=200,2000`. -/
theorem parameter_encoding_witness :
    ascii.Valid exampleBitRates.name = true
    ∧ exampleBitRates.MarshalASCII sampleLib [] = ("BitRates:int[2]=200,2000".toList, none) :=
  ⟨rfl, (parameter_encoding sampleLib exampleBitRates [] rfl).2 .IntType
    (by simp [exampleBitRates])
    (by intro v hv; simp [exampleBitRates] at hv; rcases hv with rfl | rfl <;> rfl)
    (by decide) (by decide)
    (by intro v hv; simp [exampleBitRates] at hv; rcases hv with rfl | rfl <;> rfl)⟩

/-- Counterexample to C8 as stated: a Parameter named `é` (two bytes above 127) with the
one value `1` of type int, which marshals without error on its own, is not written at
all: `Parameter.MarshalASCII` leaves the buffer empty and returns the non-ASCII error. -/
theorem parameter_encoding_non_ascii_name :
    Parameter.MarshalASCII sampleLib
        ⟨[.vInt 1 false], ⟨0, false⟩, exampleNonASCIIName, .UndefinedType⟩ []
      = ([], some (.MarshalError ("unable to encode non-ASCII characters in '".toList
          ++ exampleNonASCIIName ++ "'".toList)))
    ∧ Value.MarshalASCII sampleLib (.vInt 1 false) [] = ("1".toList, none)
    ∧ escape exampleNonASCIIName = exampleNonASCIIName :=
  ⟨rfl, rfl, rfl⟩

/-- C9 (amended): for every ParameterSet whose name `n` has only code points up to 127
and whose parameters each marshal without error: with multiplicity `m` present and child
sets `g_1..g_k` of Parameters it is written as `escape(n)`, `:set_type[m]=` and the groups
joined by `,`, each group being its encoded parameters each followed by `;`; without
multiplicity and with Parameters as values it is written as `escape(n)`, `:set_type=` and
the encoded parameters each followed by `;`. -/
theorem parameter_set_encoding (lib : GoLib) (ps : ParameterSet) (b : List Char)
    (hname : ascii.Valid ps.name = true) :
    (∀ groups : List ParameterSet, ps.Multiplicity.Valid = true →
        ps.Values = groups.map ParameterSet.toValue →
        (∀ g ∈ groups, ∀ v ∈ g.Values,
          v.Type = .ParameterType ∧ (Value.MarshalASCII lib v []).2 = none) →
        ps.MarshalASCII lib b = (b ++ escape ps.name ++ ":set_type[".toList
          ++ FormatInt ps.Multiplicity.Int32 ++ "]=".toList
          ++ joinWith ",".toList (groups.map (fun g =>
              (g.Values.map (fun v => (Value.MarshalASCII lib v []).1 ++ ";".toList)).flatten)),
          none))
    ∧ (ps.Multiplicity.Valid = false →
        (∀ v ∈ ps.Values, v.Type = .ParameterType ∧ (Value.MarshalASCII lib v []).2 = none) →
        ps.MarshalASCII lib b = (b ++ escape ps.name ++ ":set_type=".toList
          ++ (ps.Values.map (fun v => (Value.MarshalASCII lib v []).1 ++ ";".toList)).flatten,
          none)) := by
  constructor
  · intro groups hm hv hg
    simp only [ParameterSet.MarshalASCII, ParameterSet.toValue, Value.MarshalASCII,
      SafeWrite_escape _ _ hname, gemsV14.andThen, hm, hv]
    rw [slice_sets lib groups _ hg]
    simp [List.append_assoc, gems.Datatype.ASCIIName]
  · intro hm hv
    simp only [ParameterSet.MarshalASCII, ParameterSet.toValue, Value.MarshalASCII,
      SafeWrite_escape _ _ hname, gemsV14.andThen, hm]
    rw [slice_params lib ps.Values _ hv]
    simp [List.append_assoc, gems.Datatype.ASCIIName]

/-- Witness of C9 at `ParameterSetList` with its three groups. -/
theorem parameter_set_encoding_witness :
    ascii.Valid exampleParameterSetList.name = true
    ∧ exampleParameterSetList.MarshalASCII sampleLib [] =
      (("ParameterSetList:set_type[3]="
        ++ "ChannelName:string=Channel0;ChannelID:int=0;BitRates:int[2]=200,2000;,"
        ++ "ChannelName:string=Channel1;ChannelID:int=1;BitRates:int[2]=400,4000;,"
        ++ "ChannelName:string=Channel2;ChannelID:int=2;BitRates:int[2]=600,6000;").toList, none) :=
  ⟨rfl, (parameter_set_encoding sampleLib exampleParameterSetList [] rfl).1 exampleGroups rfl rfl
    (by
      intro g hg v hv
      simp [exampleGroups] at hg
      rcases hg with rfl | rfl | rfl <;> simp [exampleChannel] at hv
        <;> rcases hv with rfl | rfl | rfl <;> exact ⟨rfl, rfl⟩)⟩

/-- Counterexample to C9 as stated: a single-group ParameterSet named `é` that holds the
parameter `BitRates:int[2]=200,2000` is not written at all: `ParameterSet.MarshalASCII`
leaves the buffer empty and returns the non-ASCII error. -/
theorem parameter_set_encoding_non_ascii_name :
    ParameterSet.MarshalASCII sampleLib
        ⟨[exampleBitRates.toValue], ⟨0, false⟩, exampleNonASCIIName, .UndefinedType⟩ []
      = ([], some (.MarshalError ("unable to encode non-ASCII characters in '".toList
          ++ exampleNonASCIIName ++ "'".toList)))
    ∧ Value.MarshalASCII sampleLib exampleBitRates.toValue []
      = ("BitRates:int[2]=200,2000".toList, none)
    ∧ escape exampleNonASCIIName = exampleNonASCIIName :=
  ⟨rfl, rfl, rfl⟩

/-- C10: for every sequence of setter calls on a new ParameterBuilder, if `Build` returns
no error then the returned parameter has a name without space, tab, newline, carriage
return, vertical tab or form feed; at most one value when the multiplicity is absent; at
most `multiplicity` values when it is present and not negative; values of one datatype; and
only code points up to 127 in the textual form of every value. -/
theorem build_invariants (lib : GoLib) (calls : List Setter) (P : XMLParameter)
    (h : buildWith lib calls = (P, none)) :
    (∀ c ∈ P.Name, c ≠ ' ' ∧ c ≠ '\t' ∧ c ≠ '\n' ∧ c ≠ '\r' ∧ c ≠ Char.ofNat 11
      ∧ c ≠ Char.ofNat 12)
    ∧ (P.Multiplicity.Valid = false → P.Values.length ≤ 1)
    ∧ (P.Multiplicity.Valid = true → 0 ≤ P.Multiplicity.Int32 →
        (P.Values.length : Int) ≤ P.Multiplicity.Int32)
    ∧ (∀ v ∈ P.Values, ∀ w ∈ P.Values, v.Type = w.Type)
    ∧ (∀ v ∈ P.Values, ∀ c ∈ v.String lib, c.toNat ≤ 127) := by
  obtain ⟨a1, a2, a3, a4, a5⟩ := Build_checks lib _ P h
  exact ⟨containsWhitespace_false _ a1, a2, a3, a4,
    fun v hv => (Valid_iff _).1 (a5 v hv)⟩

/-- Witness of C10 at `Name("BitRates").Int(200, 2000)`. -/
theorem build_invariants_witness :
    buildWith sampleLib [.Name "BitRates".toList, .Int [200, 2000]]
        = (.Parameter exampleBitRates, none)
    ∧ ((∀ c ∈ (XMLParameter.Parameter exampleBitRates).Name,
          c ≠ ' ' ∧ c ≠ '\t' ∧ c ≠ '\n' ∧ c ≠ '\r' ∧ c ≠ Char.ofNat 11 ∧ c ≠ Char.ofNat 12)
      ∧ ((XMLParameter.Parameter exampleBitRates).Multiplicity.Valid = false →
          (XMLParameter.Parameter exampleBitRates).Values.length ≤ 1)
      ∧ ((XMLParameter.Parameter exampleBitRates).Multiplicity.Valid = true →
          0 ≤ (XMLParameter.Parameter exampleBitRates).Multiplicity.Int32 →
          ((XMLParameter.Parameter exampleBitRates).Values.length : Int)
            ≤ (XMLParameter.Parameter exampleBitRates).Multiplicity.Int32)
      ∧ (∀ v ∈ (XMLParameter.Parameter exampleBitRates).Values,
          ∀ w ∈ (XMLParameter.Parameter exampleBitRates).Values, v.Type = w.Type)
      ∧ (∀ v ∈ (XMLParameter.Parameter exampleBitRates).Values,
          ∀ c ∈ v.String sampleLib, c.toNat ≤ 127)) :=
  ⟨rfl, build_invariants sampleLib [.Name "BitRates".toList, .Int [200, 2000]]
    (.Parameter exampleBitRates) rfl⟩

/-- What `Build` returns for a group of Parameters: for every name without whitespace and
every list `ps` of `n ≥ 1` Parameters that each pass `Validate`,
`Name(name).Parameters(ps...).Build()` (no multiplicity set) returns a ParameterSet of that
name without multiplicity that holds exactly `ps`, in order; for `n = 1` it returns no
error, and for `n ≥ 2` the guard of `ParameterSet.Validate` makes it return the error
`scalar ParameterSet contains multiple values` with the set. -/
theorem build_single_group (lib : GoLib) (name : List Char) (ps : List Parameter)
    (hname : containsWhitespace name = false) (hne : ps ≠ [])
    (hvalid : ∀ p ∈ ps, p.Validate lib = none) :
    (buildWith lib [.Name name, .Parameters (ps.map .Parameter)]).1
        = .ParameterSet ⟨ps.map Parameter.toValue, ⟨0, false⟩, name, .UndefinedType⟩
    ∧ (ps.length = 1 →
        (buildWith lib [.Name name, .Parameters (ps.map .Parameter)]).2 = none)
    ∧ (2 ≤ ps.length →
        (buildWith lib [.Name name, .Parameters (ps.map .Parameter)]).2
          = some (.Errorf "scalar ParameterSet contains multiple values".toList)) := by
  rw [build_parameters_eq lib name ps hne]
  refine ⟨rfl, ?_, ?_⟩
  · intro h1
    have hany : (ps.map Parameter.toValue).any (fun v => !ascii.Valid (v.String lib)) = false := by
      rw [List.any_eq_false]
      intro v hv
      obtain ⟨q, hq, rfl⟩ := List.mem_map.1 hv
      simp [parameter_text_valid lib q (hvalid q hq)]
    have hvt : ValueType (ps.map Parameter.toValue) = .ParameterType :=
      ValueType_of_same _ _ (by simpa using hne) (by
        intro v hv
        obtain ⟨q, _, rfl⟩ := List.mem_map.1 hv
        rfl)
    simp only [ParameterSet.Validate, hname, Bool.false_eq_true, if_false, List.length_map, h1,
      hany, hvt]
    simp
  · intro h2
    simp only [ParameterSet.Validate, hname, Bool.false_eq_true, if_false, List.length_map]
    rw [if_pos ⟨by simp, by omega⟩]

/-- The theorem `build_single_group` at `Name("SingleParameterSet").Parameters(ChannelName)`. -/
theorem build_single_group_witness :
    (containsWhitespace "SingleParameterSet".toList = false
      ∧ [exampleChannelName] ≠ []
      ∧ (∀ p ∈ [exampleChannelName], p.Validate sampleLib = none)
      ∧ [exampleChannelName].length = 1)
    ∧ (buildWith sampleLib [.Name "SingleParameterSet".toList,
          .Parameters ([exampleChannelName].map .Parameter)]).1
        = .ParameterSet ⟨[exampleChannelName].map Parameter.toValue, ⟨0, false⟩,
            "SingleParameterSet".toList, .UndefinedType⟩
    ∧ (buildWith sampleLib [.Name "SingleParameterSet".toList,
          .Parameters ([exampleChannelName].map .Parameter)]).2 = none :=
  have hv : ∀ p ∈ [exampleChannelName], p.Validate sampleLib = none := by
    intro p hp
    simp only [List.mem_singleton] at hp
    subst hp
    rfl
  ⟨⟨rfl, by simp, hv, rfl⟩,
    (build_single_group sampleLib "SingleParameterSet".toList [exampleChannelName] rfl
      (by simp) hv).1,
    (build_single_group sampleLib "SingleParameterSet".toList [exampleChannelName] rfl
      (by simp) hv).2.1 rfl⟩

/-- C11 fails on the code: `singleParameterSet` of the test suite,
`Name("SingleParameterSet").Parameters(ChannelName, ChannelID, BitRates)` with three
Parameters that each pass `Validate`, is returned by `Build` as the set without multiplicity
that holds the three Parameters, but together with the error `scalar ParameterSet contains
multiple values`; the set marshals to the text of the test suite, and the decoder returns
the same set from that text without error. -/
theorem build_three_parameters_error :
    containsWhitespace "SingleParameterSet".toList = false
    ∧ exampleChannelName.Validate sampleLib = none
    ∧ exampleChannelID.Validate sampleLib = none
    ∧ exampleBitRates.Validate sampleLib = none
    ∧ buildWith sampleLib [.Name "SingleParameterSet".toList,
          .Parameters [.Parameter exampleChannelName, .Parameter exampleChannelID,
            .Parameter exampleBitRates]]
        = (.ParameterSet ⟨[exampleChannelName.toValue, exampleChannelID.toValue,
              exampleBitRates.toValue], ⟨0, false⟩, "SingleParameterSet".toList, .UndefinedType⟩,
            some (.Errorf "scalar ParameterSet contains multiple values".toList))
    ∧ marshalValue sampleLib (.vParameterSet [exampleChannelName.toValue,
          exampleChannelID.toValue, exampleBitRates.toValue] ⟨0, false⟩
          "SingleParameterSet".toList .UndefinedType)
        = .ok ("SingleParameterSet:set_type=ChannelName:string=Channel0;ChannelID:int=0;"
            ++ "BitRates:int[2]=200,2000;").toList
    ∧ UnmarshalParameterASCII sampleLib
          ("SingleParameterSet:set_type=ChannelName:string=Channel0;ChannelID:int=0;"
            ++ "BitRates:int[2]=200,2000;").toList
        = .ok (.vParameterSet [exampleChannelName.toValue, exampleChannelID.toValue,
            exampleBitRates.toValue] ⟨0, false⟩ "SingleParameterSet".toList .UndefinedType) :=
  ⟨rfl, rfl, rfl, rfl, by rfl, by rfl, by rfl⟩

/-- C12: for every buffer content `b` and string `val`, `SafeWrite` returns an error exactly
when `val` is `|GEMS` or `|END|` or holds a byte above 127; with an error the buffer is
unchanged, without one the buffer is the old content followed by `val`. -/
theorem safe_write_spec (b val : List Char) :
    ((ascii.SafeWrite b val).2 ≠ none ↔
        (val = "|GEMS".toList ∨ val = "|END|".toList ∨ ∃ c ∈ val, 127 < c.toNat))
      ∧ ((ascii.SafeWrite b val).2 ≠ none → (ascii.SafeWrite b val).1 = b)
      ∧ ((ascii.SafeWrite b val).2 = none → (ascii.SafeWrite b val).1 = b ++ val) := by
  have hv : ascii.Valid val = false ↔ ∃ c ∈ val, 127 < c.toNat := by
    rw [← Bool.not_eq_true, Valid_iff]
    push_neg
    rfl
  unfold ascii.SafeWrite
  by_cases h1 : val = "|GEMS".toList ∨ val = "|END|".toList
  · rw [if_pos h1]
    refine ⟨⟨fun _ => ?_, fun _ => by simp⟩, fun _ => rfl, fun h => by simp at h⟩
    rcases h1 with h | h
    · exact Or.inl h
    · exact Or.inr (Or.inl h)
  · rw [if_neg h1]
    by_cases h2 : ascii.Valid val = true
    · have h3 : ¬ ∃ c ∈ val, 127 < c.toNat := by
        rw [← hv, h2]; simp
      simp only [h2, Bool.not_true, Bool.false_eq_true, if_false, ne_eq, not_true_eq_false,
        false_iff, not_or]
      exact ⟨⟨fun h => h1 (Or.inl h), fun h => h1 (Or.inr h), h3⟩, fun h => absurd h id,
        fun _ => trivial⟩
    · have h2f : ascii.Valid val = false := by simpa using h2
      have h3 := hv.1 h2f
      simp only [h2f, Bool.not_false, if_true]
      exact ⟨⟨fun _ => Or.inr (Or.inr h3), fun _ => by simp⟩, by simp, by simp⟩

/-- C13 (code defect): the parameter `Name("StringValue").String(s)` with a non-ASCII
string `s` fails to marshal on its own, and the five message encoders that hold it drop
that error: the SetConfig message marshals to a frame whose parameter field is cut off
after `StringValue:string=`, and the GetConfigResponse, the AsyncStatus message, the
Directive and the DirectiveResponse marshal to a frame as well. -/
theorem message_drops_parameter_error :
    marshalValue sampleLib exampleNonASCIIValue.toValue
        = .error (.MarshalError ("unable to encode non-ASCII characters in '".toList
            ++ exampleNonASCIIName ++ "'".toList))
    ∧ marshalMessage sampleLib (.SetConfigMessage examplePingHeader [.Parameter exampleNonASCIIValue])
        = .ok ("|GEMS|14|0000000088|1||1410819035.280000000|System/Device1|SET|1|"
            ++ "StringValue:string=|END").toList
    ∧ (∃ frame, marshalMessage sampleLib (.GetConfigResponse examplePingHeader
          ⟨gems.ResultCodeSuccess, []⟩ [.Parameter exampleNonASCIIValue]) = .ok frame)
    ∧ (∃ frame, marshalMessage sampleLib (.AsyncStatusMessage examplePingHeader
          ⟨gems.ResultCodeSuccess, []⟩ [.Parameter exampleNonASCIIValue]) = .ok frame)
    ∧ (∃ frame, marshalMessage sampleLib (.DirectiveMessage examplePingHeader "Reset".toList
          (some [.Parameter exampleNonASCIIValue])) = .ok frame)
    ∧ (∃ frame, marshalMessage sampleLib (.DirectiveResponse examplePingHeader
          ⟨gems.ResultCodeSuccess, []⟩ "Reset".toList
          (some [.Parameter exampleNonASCIIValue])) = .ok frame) :=
  ⟨rfl, rfl, ⟨_, rfl⟩, ⟨_, rfl⟩, ⟨_, rfl⟩, ⟨_, rfl⟩⟩

/-- C14 (amended): ASCII-marshalling a Parameter or ParameterSet whose name is exactly
`|GEMS` or `|END|` does not fail with the reserved-word error: the name is escaped before
`SafeWrite` sees it, so `&bGEMS` or `&bEND&b` is written after the old buffer content, any
error comes from the values and is never the reserved-word error, and a Parameter of that
name without values marshals without error to the escaped name alone. -/
theorem reserved_name_escaped (lib : GoLib) (vs : List Value) (m : gems.NullInt32)
    (t : gems.Datatype) (b n : List Char) (hn : n = "|GEMS".toList ∨ n = "|END|".toList) :
    (escape n = "&bGEMS".toList ∨ escape n = "&bEND&b".toList)
    ∧ (∀ v, v = .vParameter vs m n t ∨ v = .vParameterSet vs m n t →
        (b ++ escape n) <+: (Value.MarshalASCII lib v b).1
        ∧ ∀ e, (Value.MarshalASCII lib v b).2 = some e → ¬ isReservedError e)
    ∧ Value.MarshalASCII lib (.vParameter [] m n t) b = (b ++ escape n, none) := by
  have hv : ascii.Valid n = true := by
    rcases hn with rfl | rfl <;> rfl
  refine ⟨?_, ?_, ?_⟩
  · rcases hn with rfl | rfl
    · exact Or.inl rfl
    · exact Or.inr rfl
  · intro v hvv
    refine ⟨?_, fun e he => MarshalASCII_noReserved lib v b e he⟩
    rcases hvv with rfl | rfl
    · simp only [Value.MarshalASCII, SafeWrite_escape b n hv, gemsV14.andThen]
      split_ifs
      · exact List.prefix_refl _
      · exact List.prefix_refl _
      · rw [List.append_assoc]
        exact slice_prefix lib vs _ _
      · rw [List.append_assoc]
        exact slice_prefix lib vs _ _
    · simp only [Value.MarshalASCII, SafeWrite_escape b n hv, gemsV14.andThen]
      rw [List.append_assoc]
      exact slice_prefix lib vs _ _
  · simp [Value.MarshalASCII, SafeWrite_escape b n hv, gemsV14.andThen, ValueType, valueTypeLoop]

/-- Witness of C14 at the parameter `Name("|GEMS").String("MyString")`. -/
theorem reserved_name_escaped_witness :
    ("|GEMS".toList = "|GEMS".toList ∨ "|GEMS".toList = "|END|".toList)
    ∧ ((escape "|GEMS".toList = "&bGEMS".toList ∨ escape "|GEMS".toList = "&bEND&b".toList)
      ∧ (∀ v, v = .vParameter [.vString "MyString".toList false] ⟨0, false⟩ "|GEMS".toList
              .UndefinedType
            ∨ v = .vParameterSet [.vString "MyString".toList false] ⟨0, false⟩ "|GEMS".toList
              .UndefinedType →
          ([] ++ escape "|GEMS".toList) <+: (Value.MarshalASCII sampleLib v []).1
          ∧ ∀ e, (Value.MarshalASCII sampleLib v []).2 = some e → ¬ isReservedError e)
      ∧ Value.MarshalASCII sampleLib (.vParameter [] ⟨0, false⟩ "|GEMS".toList .UndefinedType) []
        = ([] ++ escape "|GEMS".toList, none)) :=
  ⟨Or.inl rfl, reserved_name_escaped sampleLib [.vString "MyString".toList false] ⟨0, false⟩
    .UndefinedType [] "|GEMS".toList (Or.inl rfl)⟩

/-- Counterexample to C14 as stated: the parameter `Name("|GEMS").String("MyString")`
marshals without error, to `&bGEMS:string=MyString`; and so does a value-less
ParameterSet named `|END|`, to `&bEND&b:set_type=`. -/
theorem reserved_name_marshals :
    marshalValue sampleLib exampleReservedName.toValue = .ok "&bGEMS:string=MyString".toList
    ∧ marshalValue sampleLib (.vParameterSet [] ⟨0, false⟩ "|END|".toList .UndefinedType)
      = .ok "&bEND&b:set_type=".toList :=
  ⟨rfl, rfl⟩

/-- C15 (code defect): for the directive name `A&aB`, whose escaped form is `A&aaB`, the
frames of the Directive and of the DirectiveResponse carry `A&aB` itself, and decoding
them returns the directive name `A&B`. -/
theorem directive_name_not_escaped :
    escape "A&aB".toList = "A&aaB".toList
    ∧ marshalMessage sampleLib (.DirectiveMessage examplePingHeader "A&aB".toList none)
        = .ok "|GEMS|14|0000000073|1||1410819035.280000000|System/Device1|DIR|A&aB|0|END".toList
    ∧ ReceiveASCIIMessage sampleLib
          "|GEMS|14|0000000073|1||1410819035.280000000|System/Device1|DIR|A&aB|0|END".toList
        = .ok (.DirectiveMessage examplePingHeader "A&B".toList none)
    ∧ marshalMessage sampleLib (.DirectiveResponse examplePingHeader ⟨gems.ResultCodeSuccess, []⟩
          "A&aB".toList none)
        = .ok ("|GEMS|14|0000000084|1||1410819035.280000000|System/Device1|DIR-R|SUCCESS||"
            ++ "A&aB|0|END").toList
    ∧ ReceiveASCIIMessage sampleLib
          ("|GEMS|14|0000000084|1||1410819035.280000000|System/Device1|DIR-R|SUCCESS||"
            ++ "A&aB|0|END").toList
        = .ok (.DirectiveResponse examplePingHeader ⟨gems.ResultCodeSuccess, []⟩
            "A&B".toList none) :=
  ⟨rfl, rfl, rfl, rfl, rfl⟩

/-- C16 (code defect): for the one desired parameter name `A&aB`, whose escaped form is
`A&aaB`, the frame of the GetConfig message carries `A&aB` itself, and decoding it returns
the list with the one name `A&B`. -/
theorem desired_name_not_escaped :
    escape "A&aB".toList = "A&aaB".toList
    ∧ marshalMessage sampleLib (.GetConfigMessage examplePingHeader ["A&aB".toList])
        = .ok "|GEMS|14|0000000073|1||1410819035.280000000|System/Device1|GET|1|A&aB|END".toList
    ∧ ReceiveASCIIMessage sampleLib
          "|GEMS|14|0000000073|1||1410819035.280000000|System/Device1|GET|1|A&aB|END".toList
        = .ok (.GetConfigMessage examplePingHeader ["A&B".toList]) :=
  ⟨rfl, rfl, rfl⟩

/-- C17 (code defect): for the instant with 1410804178 seconds and 49023000 nanoseconds,
`Time.String` returns `1410804178.49023000`, with eight digits after the dot, and
`TimeFromString` reads that text as 490230000 nanoseconds. -/
theorem time_text_not_padded :
    gems.Time.String ⟨1410804178, 49023000⟩ = "1410804178.49023000".toList
    ∧ gems.Time.FormatTime ⟨1410804178, 49023000⟩ = "1410804178.49023000".toList
    ∧ gems.TimeFromString "1410804178.49023000".toList = .ok ⟨1410804178, 490230000⟩ :=
  ⟨rfl, rfl, rfl⟩

/-- The shape of the `utime` text where the day needs no padding: for every instant with
nanoseconds below 10^9 whose year in UTC lies in 0..9999 and whose day of the year is at
least 100, the `utime` text of
`Time.FormatUtime` has the shape `YYYY-DDDTHH:MM:SS.nnnnnnnnnZ`: four decimal digits that
denote the year, a dash, three decimal digits that denote the day of the year (which is at
most 366), `T`, two digits each for hour, minute and second separated by colons, a dot,
nine decimal digits that denote the nanoseconds, and `Z`. -/
theorem utime_shape (t : gems.Time) (hn : t.nsec < 10 ^ 9)
    (hy : 0 ≤ (utcYearDay t).1 ∧ (utcYearDay t).1 ≤ 9999) (hd : 100 ≤ (utcYearDay t).2) :
    ∃ Y D hh mm ss n : List Char,
      t.FormatUtime = Y ++ '-' :: (D ++ 'T' :: (hh ++ ':' :: (mm ++ ':' :: (ss ++ '.' ::
        (n ++ ['Z'])))))
      ∧ (Y.length = 4 ∧ allDigits Y ∧ (decVal Y 0 : Int) = (utcYearDay t).1)
      ∧ (D.length = 3 ∧ allDigits D ∧ decVal D 0 = (utcYearDay t).2 ∧ (utcYearDay t).2 ≤ 366)
      ∧ (hh.length = 2 ∧ allDigits hh ∧ decVal hh 0 < 24)
      ∧ (mm.length = 2 ∧ allDigits mm ∧ decVal mm 0 < 60)
      ∧ (ss.length = 2 ∧ allDigits ss ∧ decVal ss 0 < 60)
      ∧ (n.length = 9 ∧ allDigits n ∧ decVal n 0 = t.nsec) := by
  obtain ⟨hy0, hy1⟩ := hy
  have hday := yearDay_day_le (t.sec / 86400 + 719162)
  simp only [utcYearDay] at hy0 hy1 hd ⊢
  obtain ⟨hD1, hD2⟩ := yday_three_digits _ hd hday.2
  have hsod : (t.sec % 86400).toNat < 86400 := by omega
  obtain ⟨aY, bY, cY⟩ := appendInt_nonneg (gems.yearDay (t.sec / 86400 + 719162)).1 3 hy0
    (by norm_num; omega)
  obtain ⟨aH, bH, cH⟩ := appendInt_nonneg (((t.sec % 86400).toNat / 3600 : Nat) : Int) 1
    (by omega) (by norm_num; omega)
  obtain ⟨aM, bM, cM⟩ := appendInt_nonneg (((t.sec % 86400).toNat % 3600 / 60 : Nat) : Int) 1
    (by omega) (by norm_num; omega)
  obtain ⟨aS, bS, cS⟩ := appendInt_nonneg (((t.sec % 86400).toNat % 60 : Nat) : Int) 1
    (by omega) (by norm_num; omega)
  obtain ⟨aN, bN, cN⟩ := appendInt_nonneg ((t.nsec : Nat) : Int) 8 (by omega)
    (by norm_num at hn ⊢; omega)
  refine ⟨_, _, _, _, _, _, ?_, ⟨aY, bY, ?_⟩, ⟨hD2, FormatUint_allDigits _, ?_, hday.2⟩,
    ⟨aH, bH, ?_⟩, ⟨aM, bM, ?_⟩, ⟨aS, bS, ?_⟩, ⟨aN, bN, ?_⟩⟩
  · simp only [gems.Time.FormatUtime, hD1]
    simp [List.append_assoc]
  · rw [cY]; omega
  · rw [FormatUint_eq, decVal_digitsRef]
  · rw [cH]; omega
  · rw [cM]; omega
  · rw [cS]; omega
  · rw [cN]; omega

/-- The theorem `utime_shape` at the instant of the test suite, day 273 of 2009. -/
theorem utime_shape_witness :
    exampleUtime.nsec < 10 ^ 9
    ∧ (0 ≤ (utcYearDay exampleUtime).1 ∧ (utcYearDay exampleUtime).1 ≤ 9999)
    ∧ 100 ≤ (utcYearDay exampleUtime).2
    ∧ ∃ Y D hh mm ss n : List Char,
      exampleUtime.FormatUtime = Y ++ '-' :: (D ++ 'T' :: (hh ++ ':' :: (mm ++ ':' ::
        (ss ++ '.' :: (n ++ ['Z'])))))
      ∧ (Y.length = 4 ∧ allDigits Y ∧ (decVal Y 0 : Int) = (utcYearDay exampleUtime).1)
      ∧ (D.length = 3 ∧ allDigits D ∧ decVal D 0 = (utcYearDay exampleUtime).2
          ∧ (utcYearDay exampleUtime).2 ≤ 366)
      ∧ (hh.length = 2 ∧ allDigits hh ∧ decVal hh 0 < 24)
      ∧ (mm.length = 2 ∧ allDigits mm ∧ decVal mm 0 < 60)
      ∧ (ss.length = 2 ∧ allDigits ss ∧ decVal ss 0 < 60)
      ∧ (n.length = 9 ∧ allDigits n ∧ decVal n 0 = exampleUtime.nsec) :=
  ⟨by decide, by decide, by decide,
    utime_shape exampleUtime (by decide) (by decide) (by decide)⟩

/-- More texts of `FormatUtime`: the first instant of the year 10000 is printed with a
five-digit year, and the first instant of 1970, on day 1 of the year, is printed with the
day as two blanks and one digit; the test suite's instant on day 273 of 2009 has four
digits for the year and three for the day. -/
theorem utime_five_digit_year :
    gems.Time.FormatUtime ⟨253402300800, 0⟩ = "10000-  1T00:00:00.000000000Z".toList
    ∧ gems.Time.FormatUtime ⟨253410854400, 0⟩ = "10000-100T00:00:00.000000000Z".toList
    ∧ gems.Time.FormatUtime ⟨0, 0⟩ = "1970-  1T00:00:00.000000000Z".toList
    ∧ exampleUtime.FormatUtime = "2009-273T09:14:50.020000000Z".toList :=
  ⟨by rfl, by rfl, by rfl, by rfl⟩

/-- C18 fails on the code: the first instant of 1970, on day 1 of the year, is printed as
`1970-  1T00:00:00.000000000Z`, with the day as two blanks and one digit, and day 99 of
that year with one blank and two digits, where the claim has three decimal digits; from day
100 on the day has three digits. -/
theorem utime_day_blank_padded :
    utcYearDay ⟨0, 0⟩ = (1970, 1)
    ∧ gems.Time.FormatUtime ⟨0, 0⟩ = "1970-  1T00:00:00.000000000Z".toList
    ∧ utcYearDay ⟨8467200, 0⟩ = (1970, 99)
    ∧ gems.Time.FormatUtime ⟨8467200, 0⟩ = "1970- 99T00:00:00.000000000Z".toList
    ∧ utcYearDay ⟨8553600, 0⟩ = (1970, 100)
    ∧ gems.Time.FormatUtime ⟨8553600, 0⟩ = "1970-100T00:00:00.000000000Z".toList :=
  ⟨by rfl, by rfl, by rfl, by rfl, by rfl, by rfl⟩

/-- C19: for every header `h` and request id `r`, `h.TransactionMatch(r)` is true exactly
when `r` is absent, or `r` and the transaction id of `h` are both present and equal. -/
theorem transaction_match_iff (h : MessageHeader) (r : gems.NullInt64) :
    h.TransactionMatch r = true ↔
      (r.Valid = false ∨ (r.Valid = true ∧ h.transactionID.Valid = true
        ∧ h.transactionID.Int64 = r.Int64)) := by
  unfold MessageHeader.TransactionMatch
  cases hr : r.Valid <;> cases hh : h.transactionID.Valid <;> simp

/-- C20 (amended): for every request `req` from a peer that is not in the connected set:
when the type of `req` is neither Connect nor Disconnect, the server writes the frame of
an `UnknownResponse` with the code `INVALID_STATE` and the description `Not connected`
(`rejectionResponse`), stays in its loop and leaves the connected set unchanged; when
`req` is a Disconnect message the server writes nothing, leaves its loop and leaves the
connected set unchanged. -/
theorem unconnected_peer_rejected (lib : GoLib)
    (handler : Message → Option Message × Option GoError) (authToken : List Char)
    (now : gems.Time) (conns : List (List Char)) (remoteAddr : List Char) (req : Message)
    (hp : remoteAddr ∉ conns) (hc : req.Type ≠ .ConnectMessageType) :
    (req.Type ≠ .DisconnectMessageType →
      ∃ frame, marshalMessage lib (rejectionResponse now req) = .ok frame
        ∧ gems.serverStep lib handler authToken now conns remoteAddr req
          = ⟨conns, some frame, false⟩)
    ∧ (req.Type = .DisconnectMessageType →
      gems.serverStep lib handler authToken now conns remoteAddr req = ⟨conns, none, true⟩) := by
  constructor
  · intro hd
    obtain ⟨frame, hf⟩ := marshal_unknown_response lib
      ⟨[], now, [], if req.header.transactionID.Valid then
        gems.NewNullInt64 req.header.transactionID.Int64 else ⟨0, false⟩⟩
      ⟨gems.ResultCodeInvalidState, "Not connected".toList⟩
    refine ⟨frame, hf, ?_⟩
    unfold gems.serverStep
    rw [if_neg hd, if_neg hp, connectionHandler_default now req authToken hc]
    simp only [gems.writeResponse]
    rw [show marshalMessage lib (rejectionResponse now req) = .ok frame from hf]
  · intro hd
    unfold gems.serverStep
    rw [if_pos hd, filter_ne_of_not_mem conns remoteAddr hp]

/-- Witness of C20 at a ping message from the peer `peer` while nobody is connected. -/
theorem unconnected_peer_rejected_witness :
    ("peer".toList ∉ ([] : List (List Char))
      ∧ (Message.PingMessage examplePingHeader).Type ≠ .ConnectMessageType
      ∧ (Message.PingMessage examplePingHeader).Type ≠ .DisconnectMessageType)
    ∧ ∃ frame, marshalMessage sampleLib (rejectionResponse ⟨5, 0⟩ (.PingMessage examplePingHeader))
          = .ok frame
        ∧ gems.serverStep sampleLib (fun _ => (none, none)) [] ⟨5, 0⟩ [] "peer".toList
            (.PingMessage examplePingHeader) = ⟨[], some frame, false⟩ :=
  ⟨⟨by simp, by decide, by decide⟩,
    (unconnected_peer_rejected sampleLib (fun _ => (none, none)) [] ⟨5, 0⟩ [] "peer".toList
      (.PingMessage examplePingHeader) (by simp) (by decide)).1 (by decide)⟩

/-- Counterexample to C20 as stated: a Disconnect message (its type is not Connect) from
the peer `peer`, which is not connected, gets no answer: the server writes nothing and
leaves its loop. -/
theorem unconnected_peer_disconnect_unanswered :
    exampleDisconnect.Type ≠ .ConnectMessageType
    ∧ "peer".toList ∉ ([] : List (List Char))
    ∧ gems.serverStep sampleLib (fun _ => (none, none)) [] ⟨5, 0⟩ [] "peer".toList
        exampleDisconnect = ⟨[], none, true⟩ :=
  ⟨by decide, by simp, rfl⟩

/-- C21: for every non-empty configured auth token and every Connect message from a peer
that is not in the connected set, whose token differs from the configured one: the
response of the server is a `ConnectResponse` with the code `ACCESS_DENIED`
(`deniedResponse`); the ASCII server writes its frame and the XML server writes what
`xml.Marshal` makes of it; and both leave the connected set as it was, so the peer is not
added. -/
theorem mismatched_token_denied (lib : GoLib)
    (xmlMarshal : Option Message → Except GoError (List Char))
    (handler : Message → Option Message × Option GoError) (authToken : List Char)
    (now : gems.Time) (conns : List (List Char)) (remoteAddr : List Char) (req : Message)
    (ha : authToken ≠ []) (hc : req.Type = .ConnectMessageType)
    (ht : req.header.token ≠ authToken) (hp : remoteAddr ∉ conns) :
    (deniedResponse now req).Type = .ConnectResponseType
    ∧ (∃ h, deniedResponse now req
        = .ConnectResponse h ⟨gems.ResultCodeAccessDenied, "Authentication failed.".toList⟩)
    ∧ gems.ResultCodeAccessDenied = "ACCESS_DENIED".toList
    ∧ (∃ frame, marshalMessage lib (deniedResponse now req) = .ok frame
        ∧ gems.serverStep lib handler authToken now conns remoteAddr req
          = ⟨conns, some frame, false⟩)
    ∧ gems.xmlServerStep xmlMarshal handler authToken now conns remoteAddr req
        = gems.xmlWriteResponse xmlMarshal conns (some (deniedResponse now req))
    ∧ (gems.xmlWriteResponse xmlMarshal conns (some (deniedResponse now req))).conns = conns
    ∧ remoteAddr ∉ (gems.serverStep lib handler authToken now conns remoteAddr req).conns := by
  have hd := connect_not_disconnect req hc
  have hk := connectionHandler_denied now req authToken hc ha ht
  obtain ⟨frame, hf⟩ := marshal_connect_response lib ⟨[], now, [], responseID req⟩
    ⟨gems.ResultCodeAccessDenied, "Authentication failed.".toList⟩
  have hs : gems.serverStep lib handler authToken now conns remoteAddr req
      = ⟨conns, some frame, false⟩ := by
    unfold gems.serverStep
    rw [if_neg hd, if_neg hp, hk]
    simp only [gems.writeResponse]
    rw [show marshalMessage lib (deniedResponse now req) = .ok frame from hf]
  refine ⟨rfl, ⟨_, rfl⟩, rfl, ⟨frame, hf, hs⟩, ?_, ?_, ?_⟩
  · unfold gems.xmlServerStep
    rw [if_neg hd, if_neg hp, hk]
  · unfold gems.xmlWriteResponse
    cases xmlMarshal (some (deniedResponse now req)) <;> rfl
  · rw [hs]
    exact hp

/-- Witness of C21 at the connect message of `Device1` with the token `secret`, sent to a
server whose auth token is `other` and to which nobody is connected. -/
theorem mismatched_token_denied_witness :
    ("other".toList ≠ [] ∧ exampleConnect.Type = .ConnectMessageType
      ∧ exampleConnect.header.token ≠ "other".toList
      ∧ "peer".toList ∉ ([] : List (List Char)))
    ∧ gems.serverStep sampleLib (fun _ => (none, none)) "other".toList ⟨5, 0⟩ [] "peer".toList
        exampleConnect
      = ⟨[], some "|GEMS|14|0000000074|7||5.0||CON-R|ACCESS_DENIED|Authentication failed.|END".toList,
          false⟩
    ∧ gems.xmlServerStep sampleXMLMarshal (fun _ => (none, none)) "other".toList ⟨5, 0⟩ []
        "peer".toList exampleConnect
      = gems.xmlWriteResponse sampleXMLMarshal [] (some (deniedResponse ⟨5, 0⟩ exampleConnect)) :=
  ⟨⟨by decide, rfl, by decide, by simp⟩, by rfl,
    (mismatched_token_denied sampleLib sampleXMLMarshal (fun _ => (none, none)) "other".toList
      ⟨5, 0⟩ [] "peer".toList exampleConnect (by decide) rfl (by decide) (by simp)).2.2.2.2.1⟩

/-- C22: for every Connect message from a peer that is not in the connected set, when the
configured auth token is empty or equals the token of the message: the response of the
server is a `ConnectResponse` with the code `SUCCESS` whose transaction id is that of the
request (present with the same number, or absent as in the request); the ASCII server
writes its frame and the XML server writes what `xml.Marshal` makes of it; and both add
the peer to the connected set. -/
theorem connect_accepted (lib : GoLib)
    (xmlMarshal : Option Message → Except GoError (List Char))
    (handler : Message → Option Message × Option GoError) (authToken : List Char)
    (now : gems.Time) (conns : List (List Char)) (remoteAddr : List Char) (req : Message)
    (hc : req.Type = .ConnectMessageType)
    (ht : authToken = [] ∨ req.header.token = authToken) (hp : remoteAddr ∉ conns) :
    (∃ h, acceptedResponse now req = .ConnectResponse h ⟨gems.ResultCodeSuccess, []⟩
        ∧ h.transactionID.Valid = req.header.transactionID.Valid
        ∧ (req.header.transactionID.Valid = true →
            h.transactionID.Int64 = req.header.transactionID.Int64))
    ∧ gems.ResultCodeSuccess = "SUCCESS".toList
    ∧ (∃ frame, marshalMessage lib (acceptedResponse now req) = .ok frame
        ∧ gems.serverStep lib handler authToken now conns remoteAddr req
          = ⟨remoteAddr :: conns, some frame, false⟩)
    ∧ gems.xmlServerStep xmlMarshal handler authToken now conns remoteAddr req
        = gems.xmlWriteResponse xmlMarshal (remoteAddr :: conns)
            (some (acceptedResponse now req))
    ∧ (gems.xmlWriteResponse xmlMarshal (remoteAddr :: conns)
        (some (acceptedResponse now req))).conns = remoteAddr :: conns
    ∧ remoteAddr ∈ (gems.serverStep lib handler authToken now conns remoteAddr req).conns := by
  have hd := connect_not_disconnect req hc
  have hk := connectionHandler_accepted now req authToken hc ht
  obtain ⟨frame, hf⟩ := marshal_connect_response lib
    ⟨[], now, gems.defaultToken, responseID req⟩ ⟨gems.ResultCodeSuccess, []⟩
  have hs : gems.serverStep lib handler authToken now conns remoteAddr req
      = ⟨remoteAddr :: conns, some frame, false⟩ := by
    unfold gems.serverStep
    rw [if_neg hd, if_neg hp, hk]
    simp only [gems.writeResponse]
    rw [show marshalMessage lib (acceptedResponse now req) = .ok frame from hf]
  refine ⟨⟨_, rfl, ?_, ?_⟩, rfl, ⟨frame, hf, hs⟩, ?_, ?_, ?_⟩
  · cases hv : req.header.transactionID.Valid <;> simp [responseID, hv, gems.NewNullInt64]
  · intro hv
    simp [responseID, hv, gems.NewNullInt64]
  · unfold gems.xmlServerStep
    rw [if_neg hd, if_neg hp, hk]
  · unfold gems.xmlWriteResponse
    cases xmlMarshal (some (acceptedResponse now req)) <;> rfl
  · rw [hs]
    exact List.mem_cons_self _ _

/-- Witness of C22 at the connect message of `Device1` with the token `secret`, sent to a
server whose auth token is `secret` and to which nobody is connected. -/
theorem connect_accepted_witness :
    (exampleConnect.Type = .ConnectMessageType
      ∧ ("secret".toList = [] ∨ exampleConnect.header.token = "secret".toList)
      ∧ "peer".toList ∉ ([] : List (List Char)))
    ∧ gems.serverStep sampleLib (fun _ => (none, none)) "secret".toList ⟨5, 0⟩ [] "peer".toList
        exampleConnect
      = ⟨["peer".toList],
          some "|GEMS|14|0000000078|7|TUlUUkUgQ2FsZGVyYShUTSkgZm9yIE9U|5.0||CON-R|SUCCESS||END".toList,
          false⟩
    ∧ "peer".toList ∈ (gems.serverStep sampleLib (fun _ => (none, none)) "secret".toList ⟨5, 0⟩
        [] "peer".toList exampleConnect).conns :=
  ⟨⟨rfl, Or.inr rfl, by simp⟩, by rfl,
    (connect_accepted sampleLib sampleXMLMarshal (fun _ => (none, none)) "secret".toList
      ⟨5, 0⟩ [] "peer".toList exampleConnect rfl (Or.inr rfl) (by simp)).2.2.2.2.2⟩

/-- C23: the transaction id of a new client is 0, and along every sequence of fewer than
2^63 calls of client methods (connect calls, `Send`, and the request methods built on
`Send`) that starts at a new client, no call makes the transaction id smaller, and every
call other than a connect call (`Send`, `Disconnect`, `GetConfig`, `SetConfig`,
`SaveConfig`, `LoadConfig`, `GetConfigList`, `Ping`, `Directive`) leaves it strictly larger
than it was before the call, whatever the transport answers. -/
theorem transaction_id_monotone (lib : GoLib) (psm : List Char) (c0 : gems.Client)
    (calls : List gems.ClientCall) (hnew : gems.NewClient psm = .ok c0)
    (hlen : calls.length < 2 ^ 63) :
    c0.transactionID = 0
    ∧ ∀ (pre post : List gems.ClientCall) (call : gems.ClientCall) (c c1 : gems.Client),
        calls = pre ++ call :: post → gems.Client.run lib c0 pre = some c →
        c.step lib call.now call.model call.op = some c1 →
        c.transactionID ≤ c1.transactionID
          ∧ (call.op.isConnect = false → c.transactionID < c1.transactionID) := by
  have h0 : c0.transactionID = 0 := by
    unfold gems.NewClient at hnew
    split_ifs at hnew
    injection hnew with hnew
    rw [← hnew]
  refine ⟨h0, ?_⟩
  intro pre post call c c1 hc hrun hstep
  have hl : pre.length + 1 ≤ calls.length := by
    rw [hc]
    simp
  have hpre : (pre.length : Int) + 1 < 2 ^ 63 := by
    have : ((pre.length + 1 : Nat) : Int) < 2 ^ 63 := by
      have h2 : pre.length + 1 < 2 ^ 63 := by omega
      exact_mod_cast h2
    simpa using this
  have hr := run_id lib pre c0 c hrun (by omega) (by omega)
  have hw := wrapInt_succ c.transactionID (by omega) (by omega)
  rcases step_id lib call.now call.model c c1 call.op hstep with ⟨e, hcon⟩ | e
  · refine ⟨by omega, fun hn => ?_⟩
    rw [hcon] at hn
    exact absurd hn (by simp)
  · rw [hw] at e
    exact ⟨by omega, fun _ => by omega⟩

/-- Witness of C23 at one call of `Ping` on a new ASCII client; two such calls take the
transaction id from 0 to 2. -/
theorem transaction_id_monotone_witness :
    (gems.NewClient "ascii".toList = .ok ⟨[], [], 0⟩ ∧ [examplePingCall].length < 2 ^ 63)
    ∧ gems.Client.run sampleLib ⟨[], [], 0⟩ [examplePingCall, examplePingCall]
        = some ⟨[], [], 2⟩
    ∧ ((⟨[], [], 0⟩ : gems.Client).transactionID = 0
      ∧ ∀ (pre post : List gems.ClientCall) (call : gems.ClientCall) (c c1 : gems.Client),
          [examplePingCall] = pre ++ call :: post →
          gems.Client.run sampleLib ⟨[], [], 0⟩ pre = some c →
          c.step sampleLib call.now call.model call.op = some c1 →
          c.transactionID ≤ c1.transactionID
            ∧ (call.op.isConnect = false → c.transactionID < c1.transactionID)) :=
  ⟨⟨by rfl, by norm_num⟩, by rfl,
    transaction_id_monotone sampleLib "ascii".toList ⟨[], [], 0⟩ [examplePingCall] (by rfl)
      (by norm_num)⟩

/-- C24 (amended): after every call of `Client.Connect` / `ConnectTLS` that returns no
error, the transaction id of the client is exactly one more than it was before the call
(for an id below the largest `int64`; the increment wraps there); after every call that
returns an error, whether the request could not be built, the transport failed or the
response was not a success, the transaction id is what it was before the call. -/
theorem connect_transaction_id (now : gems.Time) (model : gems.platformSpecificModel)
    (c c1 : gems.Client) (tls : Bool) (addr typ token target : List Char) (insecure : Bool)
    (e : Option GoError)
    (h : c.connect now model tls addr typ token target insecure = some (c1, e)) :
    (e = none → c1.transactionID = gems.wrapInt 64 (c.transactionID + 1)
        ∧ (-2 ^ 63 ≤ c.transactionID → c.transactionID + 1 < 2 ^ 63 →
            c1.transactionID = c.transactionID + 1))
    ∧ (e ≠ none → c1.transactionID = c.transactionID) := by
  have hc := connect_id now model c tls addr typ token target insecure c1 e h
  refine ⟨fun he => ⟨hc.1 he, fun h0 h1 => ?_⟩, hc.2⟩
  rw [hc.1 he, wrapInt_succ_int64 _ h0 h1]

/-- Witness of C24 at the connect call of a new XML client whose peer answers with a
response: the call returns no error and the transaction id is 1. -/
theorem connect_transaction_id_witness :
    (⟨[], [], 0⟩ : gems.Client).connect ⟨5, 0⟩ sampleXMLModel false "host:1".toList
        "CONTROL_ONLY".toList [] [] false = some (⟨"T".toList, [], 1⟩, none)
    ∧ (((none : Option GoError) = none →
        (⟨"T".toList, [], 1⟩ : gems.Client).transactionID
            = gems.wrapInt 64 ((⟨[], [], 0⟩ : gems.Client).transactionID + 1)
          ∧ (-2 ^ 63 ≤ (⟨[], [], 0⟩ : gems.Client).transactionID →
              (⟨[], [], 0⟩ : gems.Client).transactionID + 1 < 2 ^ 63 →
              (⟨"T".toList, [], 1⟩ : gems.Client).transactionID
                = (⟨[], [], 0⟩ : gems.Client).transactionID + 1))
      ∧ ((none : Option GoError) ≠ none →
          (⟨"T".toList, [], 1⟩ : gems.Client).transactionID
            = (⟨[], [], 0⟩ : gems.Client).transactionID)) :=
  ⟨by rfl, connect_transaction_id ⟨5, 0⟩ sampleXMLModel ⟨[], [], 0⟩ ⟨"T".toList, [], 1⟩ false
    "host:1".toList "CONTROL_ONLY".toList [] [] false none (by rfl)⟩

/-- Counterexample to C24 as stated: on a new client, whose transaction id is 0, a connect
call that fails because dialling fails, and a connect call that fails because the peer
answers `ACCESS_DENIED`, both leave the transaction id at 0. -/
theorem connect_failure_keeps_id :
    (⟨[], [], 0⟩ : gems.Client).connect ⟨5, 0⟩
        (gems.asciiModel sampleLib (some (.LibError "connection refused".toList)) [])
        false "host:1".toList "CONTROL_ONLY".toList [] [] false
      = some (⟨[], [], 0⟩, some (.LibError "connection refused".toList))
    ∧ (⟨[], [], 0⟩ : gems.Client).connect ⟨5, 0⟩
        (gems.asciiModel sampleLib none [.data exampleDeniedFrame])
        false "host:1".toList "CONTROL_ONLY".toList [] [] false
      = some (⟨[], [], 0⟩,
          some (.Errorf "gems response: ACCESS_DENIED, Authentication failed.".toList)) :=
  ⟨by rfl, by rfl⟩

/-- C25 (code defect): when the reply to the connect request is a `ConnectResponse` with
the header `h` and the result `r`, the ASCII client returns an error and keeps the token
of the call if the code of `r` is not `SUCCESS`, and returns no error and takes the token
of `h` if it is; the XML client, whose `Receive` does not look at the result, returns no
error and takes the token of `h` whatever the code of `r` is. -/
theorem connect_reply_code (lib : GoLib) (now : gems.Time) (c : gems.Client) (tls : Bool)
    (addr typ token target : List Char) (insecure : Bool) (h : MessageHeader)
    (r : gems.Result) :
    (∀ (frame : List Char) (rest : List gems.NetEvent),
        ReceiveASCIIMessage lib frame = .ok (.ConnectResponse h r) →
        h.TransactionMatch (gems.NewNullInt64 c.transactionID) = true →
        (r.Code ≠ gems.ResultCodeSuccess →
          c.connect now (gems.asciiModel lib none (.data frame :: rest)) tls addr typ token
              target insecure
            = some (⟨token, target, c.transactionID⟩,
                some (.Errorf ("gems response: ".toList ++ r.String))))
        ∧ (r.Code = gems.ResultCodeSuccess →
          c.connect now (gems.asciiModel lib none (.data frame :: rest)) tls addr typ token
              target insecure
            = some (⟨h.token, target, gems.wrapInt 64 (c.transactionID + 1)⟩, none)))
    ∧ (∀ (xmlMarshal : Message → Except GoError (List Char))
        (post : List Char → Except GoError gems.HTTPResponse)
        (recvXML : List Char → Option Message × Option GoError)
        (payload status body : List Char),
        xmlMarshal (connectRequest now c typ token target) = .ok payload →
        post payload = .ok ⟨200, status, .ok body⟩ →
        recvXML body = (some (.ConnectResponse h r), none) →
        c.connect now (gems.xmlModel xmlMarshal post recvXML) tls addr typ token target insecure
          = some (⟨h.token, target, gems.wrapInt 64 (c.transactionID + 1)⟩, none)) := by
  refine ⟨fun frame rest hrecv hmatch =>
    ascii_connect_checks_code lib now c tls addr typ token target insecure frame rest h r hrecv
      hmatch, ?_⟩
  intro xmlMarshal post recvXML payload status body hm hp hr
  have hmodel : (if tls then
        (gems.xmlModel xmlMarshal post recvXML).ConnectTLS addr
          (connectRequest now c typ token target) insecure
      else (gems.xmlModel xmlMarshal post recvXML).Connect addr
          (connectRequest now c typ token target))
      = gems.xmlClient.Send xmlMarshal post recvXML (connectRequest now c typ token target) := by
    cases tls <;> rfl
  have hsend : gems.xmlClient.Send xmlMarshal post recvXML
      (connectRequest now c typ token target) = (some (.ConnectResponse h r), none) := by
    simp [gems.xmlClient.Send, hm, hp, gems.xmlClient.Receive, hr, gems.asResponse]
  unfold gems.Client.connect
  simp only [connect_build now c typ token target, hmodel, hsend, Message.header]

/-- Witness of C25: the frame `exampleDeniedFrame` makes the connect call of a new ASCII
client fail, and the same response makes the connect call of a new XML client succeed and
take the token `T` of the response. -/
theorem connect_reply_code_witness :
    (⟨[], [], 0⟩ : gems.Client).connect ⟨5, 0⟩
        (gems.asciiModel sampleLib none [.data exampleDeniedFrame])
        false "host:1".toList "CONTROL_ONLY".toList "mine".toList [] false
      = some (⟨"mine".toList, [], 0⟩,
          some (.Errorf "gems response: ACCESS_DENIED, Authentication failed.".toList))
    ∧ exampleDenied = .ConnectResponse ⟨[], ⟨5, 0⟩, "T".toList, ⟨0, true⟩⟩
        ⟨"ACCESS_DENIED".toList, "Authentication failed.".toList⟩
    ∧ (⟨[], [], 0⟩ : gems.Client).connect ⟨5, 0⟩ sampleXMLModel false "host:1".toList
        "CONTROL_ONLY".toList "mine".toList [] false
      = some (⟨"T".toList, [], gems.wrapInt 64 ((⟨[], [], 0⟩ : gems.Client).transactionID + 1)⟩,
          none) :=
  ⟨by rfl, rfl,
    (connect_reply_code sampleLib ⟨5, 0⟩ ⟨[], [], 0⟩ false "host:1".toList
      "CONTROL_ONLY".toList "mine".toList [] false ⟨[], ⟨5, 0⟩, "T".toList, ⟨0, true⟩⟩
      ⟨gems.ResultCodeAccessDenied, "Authentication failed.".toList⟩).2
      (fun _ => .ok "<q/>".toList) (fun _ => .ok ⟨200, "200 OK".toList, .ok "<r/>".toList⟩)
      (fun _ => (some exampleDenied, none)) "<q/>".toList "200 OK".toList "<r/>".toList
      rfl rfl rfl⟩

/-- C26: for every buffer `data` and flag `atEOF`: when `|END` has its first occurrence in
`data` at index `i`, `SplitMessages` returns the advance `i + 4`, the token `data[0..i+4]`
and no error; when `|END` does not occur in `data`, it fails with the partial-message error
if `atEOF` holds and `data` is not empty, returns `io.EOF` if `atEOF` holds and `data` is
empty, and returns advance 0, no token and no error if `atEOF` does not hold. -/
theorem split_messages_spec (data : List Char) (atEOF : Bool) :
    (∀ i, occursAt "|END".toList data i ∧ (∀ j < i, ¬ occursAt "|END".toList data j) →
        ascii.SplitMessages data atEOF = (i + 4, some (data.take (i + 4)), none))
    ∧ ((∀ i, ¬ occursAt "|END".toList data i) →
        (atEOF = true ∧ data ≠ [] → ascii.SplitMessages data atEOF
            = (0, none, some (.Errorf "received partial GEMS-ASCII message".toList)))
        ∧ (atEOF = true ∧ data = [] → ascii.SplitMessages data atEOF = (0, none, some ioEOF))
        ∧ (atEOF = false → ascii.SplitMessages data atEOF = (0, none, none))) := by
  have hsep : "|END".toList ≠ [] := by decide
  refine ⟨fun i h => ?_, fun h => ?_⟩
  · have hi := indexOf_first_occurrence _ hsep data i h.1 h.2
    simp only [ascii.SplitMessages, hi]
    rfl
  · have hi := indexOf_no_occurrence _ hsep data h
    refine ⟨fun h1 => ?_, fun h1 => ?_, fun h1 => ?_⟩
    · have hl : data.length > 0 := List.length_pos.2 h1.2
      simp only [ascii.SplitMessages, hi, h1.1, hl, and_self, if_true]
    · obtain ⟨ha, hd⟩ := h1
      subst hd
      simp only [ascii.SplitMessages, hi, ha]
      simp
    · simp only [ascii.SplitMessages, hi, h1]
      simp

/-- C27: the decoder of every message variant asks for its minimum number `k` of fields
after the type tag (0 for Ping and GetConfigList, 1 for Connect, Disconnect, GetConfig,
SetConfig, LoadConfig and SaveConfig, 2 for ConnectResponse, PingResponse, UnknownResponse
and Directive, 3 for GetConfigResponse, AsyncStatus, SetConfigResponse, LoadConfigResponse,
SaveConfigResponse and GetConfigListResponse, 4 for DirectiveResponse), and for every frame
`F` on which the header decoder succeeds and which has fewer than `k + 6` fields between
byte 9 and the trailer (the five header fields, the tag and `k` more), decoding `F` as that
variant fails with the error `incomplete <name of the variant> message`. -/
theorem incomplete_message (lib : GoLib) (typ : gems.MessageType) (F : List Char)
    (h : MessageHeader) (htyp : typ ≠ .UndefinedMessageType ∧ typ ≠ .MessageSequenceType)
    (hh : MessageHeader.UnmarshalASCII F = .ok h)
    (hfew : (splitOn "|".toList (trimSuffix (F.drop 9) "|END".toList)).length
      < minFields typ + 6) :
    receiveMessage lib F typ = .error (.UnmarshalError none
        ("incomplete ".toList ++ typ.String ++ " message".toList))
    ∧ (typ ∈ [gems.MessageType.PingMessageType, .GetConfigListMessageType] →
        minFields typ = 0)
    ∧ (typ ∈ [gems.MessageType.ConnectMessageType, .DisconnectMessageType,
          .GetConfigMessageType, .SetConfigMessageType, .LoadConfigMessageType,
          .SaveConfigMessageType] → minFields typ = 1)
    ∧ (typ ∈ [gems.MessageType.ConnectResponseType, .PingResponseType, .UnknownResponseType,
          .DirectiveMessageType] → minFields typ = 2)
    ∧ (typ ∈ [gems.MessageType.GetConfigResponseType, .AsyncStatusMessageType,
          .SetConfigResponseType, .LoadConfigResponseType, .SaveConfigResponseType,
          .GetConfigListResponseType] → minFields typ = 3)
    ∧ (typ = .DirectiveResponseType → minFields typ = 4) := by
  refine ⟨?_, ?_, ?_, ?_, ?_, ?_⟩
  · unfold receiveMessage
    rw [if_neg (by simp [htyp.1, htyp.2])]
    unfold unmarshalASCIIHeader
    rw [hh]
    dsimp only
    rw [if_pos hfew]
  all_goals
    intro ht
    revert ht
    cases typ <;> simp [minFields]

/-- Witness of C27 at the `UKN-R` frame of the test suite that has one field after the
tag. -/
theorem incomplete_message_witness :
    ((gems.MessageType.UnknownResponseType ≠ .UndefinedMessageType
        ∧ gems.MessageType.UnknownResponseType ≠ .MessageSequenceType)
      ∧ MessageHeader.UnmarshalASCII exampleIncompleteFrame = .ok exampleTokenHeader
      ∧ (splitOn "|".toList (trimSuffix (exampleIncompleteFrame.drop 9) "|END".toList)).length
          < minFields .UnknownResponseType + 6)
    ∧ receiveMessage sampleLib exampleIncompleteFrame .UnknownResponseType
        = .error (.UnmarshalError none "incomplete UnknownResponse message".toList) :=
  ⟨⟨⟨by decide, by decide⟩, rfl, by decide⟩,
    (incomplete_message sampleLib .UnknownResponseType exampleIncompleteFrame
      exampleTokenHeader ⟨by decide, by decide⟩ rfl (by decide)).1⟩

/-- C28: for every message variant `typ` and every frame `F` that starts with `|GEMS`, has
version `14` and has at least six `|`-separated fields after byte 9 of which the last is not
`END`: the header decoder, and with it the decoding of `F` as that variant, fails with the
error "missing message trailer", whatever the length field of `F` holds. -/
theorem missing_trailer (lib : GoLib) (typ : gems.MessageType) (F : List Char)
    (htyp : typ ≠ .UndefinedMessageType ∧ typ ≠ .MessageSequenceType)
    (hstart : startsWith F "|GEMS".toList = true) (hver : (F.drop 6).take 2 = "14".toList)
    (hfields : 6 ≤ (splitOn "|".toList (F.drop 9)).length)
    (hend : (splitOn "|".toList (F.drop 9)).getLast? ≠ some "END".toList) :
    MessageHeader.UnmarshalASCII F
        = .error (.UnmarshalError (some F) "missing message trailer".toList)
    ∧ receiveMessage lib F typ
        = .error (.UnmarshalError (some F) "missing message trailer".toList) := by
  have hlen : ¬ F.length < 9 := by
    have := splitOn_length_le '|' (F.drop 9)
    have e : "|".toList = ['|'] := rfl
    rw [e] at hfields
    simp at this
    omega
  have htake := take_of_startsWith F _ hstart
  have hhead : MessageHeader.UnmarshalASCII F = .error (.UnmarshalError (some F)
      "missing message trailer".toList) := by
    unfold MessageHeader.UnmarshalASCII
    rw [if_neg hlen, if_neg (by simpa using htake), if_neg (by simp [asciiVersion, hver])]
    dsimp only
    rw [if_neg (by omega), if_pos hend]
  refine ⟨hhead, ?_⟩
  unfold receiveMessage
  rw [if_neg (by simp [htyp.1, htyp.2])]
  unfold unmarshalASCIIHeader
  rw [hhead]

/-- Witness of C28 at the frame without trailer of the test suite, whose length field does
not hold its length. -/
theorem missing_trailer_witness :
    ((gems.MessageType.UnknownResponseType ≠ .UndefinedMessageType
        ∧ gems.MessageType.UnknownResponseType ≠ .MessageSequenceType)
      ∧ startsWith exampleMissingTrailerFrame "|GEMS".toList = true
      ∧ (exampleMissingTrailerFrame.drop 6).take 2 = "14".toList
      ∧ 6 ≤ (splitOn "|".toList (exampleMissingTrailerFrame.drop 9)).length
      ∧ (splitOn "|".toList (exampleMissingTrailerFrame.drop 9)).getLast? ≠ some "END".toList)
    ∧ (MessageHeader.UnmarshalASCII exampleMissingTrailerFrame
        = .error (.UnmarshalError (some exampleMissingTrailerFrame)
            "missing message trailer".toList)
      ∧ receiveMessage sampleLib exampleMissingTrailerFrame .UnknownResponseType
        = .error (.UnmarshalError (some exampleMissingTrailerFrame)
            "missing message trailer".toList)) :=
  ⟨⟨⟨by decide, by decide⟩, rfl, rfl, by decide, by decide⟩,
    missing_trailer sampleLib .UnknownResponseType exampleMissingTrailerFrame
      ⟨by decide, by decide⟩ rfl rfl (by decide) (by decide)⟩

/-- C29: each of the nineteen message variants has the tag that the specification lists,
and `MessageTypeFromASCII` maps that tag back to the variant; `MessageTypeFromASCII` maps
`DIS` to Disconnect, `DIS-R` and `ERR-R` to UnknownResponse, and every other string to the
undefined type. -/
theorem message_type_tags :
    (∀ p ∈ messageTags, p.1.ASCII = p.2 ∧ gems.MessageTypeFromASCII p.1.ASCII = p.1)
    ∧ (∀ t : gems.MessageType, t ≠ .UndefinedMessageType → t ≠ .MessageSequenceType →
        t ∈ messageTags.map Prod.fst)
    ∧ messageTags.length = 19
    ∧ gems.MessageTypeFromASCII "DIS".toList = .DisconnectMessageType
    ∧ gems.MessageTypeFromASCII "DIS-R".toList = .UnknownResponseType
    ∧ gems.MessageTypeFromASCII "ERR-R".toList = .UnknownResponseType
    ∧ (∀ s : List Char, s ∉ messageTags.map Prod.snd → s ≠ "DIS".toList →
        s ≠ "DIS-R".toList → s ≠ "ERR-R".toList →
        gems.MessageTypeFromASCII s = .UndefinedMessageType) := by
  refine ⟨by decide, ?_, rfl, by decide, by decide, by decide, ?_⟩
  · intro t h1 h2
    cases t <;> first | exact absurd rfl h1 | exact absurd rfl h2 | decide
  · intro s hs h1 h2 h3
    simp only [messageTags, List.map_cons, List.map_nil, List.mem_cons, List.mem_singleton,
      List.not_mem_nil, or_false, not_or] at hs
    obtain ⟨a1, a2, a3, a4, a5, a6, a7, a8, a9, a10, a11, a12, a13, a14, a15, a16, a17, a18,
      a19⟩ := hs
    simp only [gems.MessageTypeFromASCII, a1, a2, a3, a4, a5, a6, a7, a8, a9, a10, a11, a12,
      a13, a14, a15, a16, a17, a18, a19, h1, h2, h3, if_false, or_self]

/-- C30 (code defect): the frame of a Disconnect message decodes, but the same frame with
the tag `DIS` and the length field adjusted is rejected by `ReceiveASCIIMessage` with the
error `invalid type for DisconnectMessage message`; likewise the `UKN-R` frame of an
UnknownResponse decodes, and the same frame with the tag `ERR-R` or `DIS-R` is rejected
with `invalid type for UnknownResponse message`. -/
theorem alias_tag_rejected :
    ReceiveASCIIMessage sampleLib exampleDisconnectFrame = .ok exampleDisconnect
    ∧ exampleDisFrame.length = 85
    ∧ ReceiveASCIIMessage sampleLib exampleDisFrame
        = .error (.UnmarshalError (some "DIS".toList)
            "invalid type for DisconnectMessage message".toList)
    ∧ ReceiveASCIIMessage sampleLib (exampleUnknownFrame "UKN-R".toList)
        = .ok (.UnknownResponse exampleTokenHeader
            ⟨"MALFORMED_MESSAGE".toList, "Not a GEMS message".toList⟩)
    ∧ (exampleUnknownFrame "ERR-R".toList).length = 102
    ∧ ReceiveASCIIMessage sampleLib (exampleUnknownFrame "ERR-R".toList)
        = .error (.UnmarshalError (some "ERR-R".toList)
            "invalid type for UnknownResponse message".toList)
    ∧ ReceiveASCIIMessage sampleLib (exampleUnknownFrame "DIS-R".toList)
        = .error (.UnmarshalError (some "DIS-R".toList)
            "invalid type for UnknownResponse message".toList) :=
  ⟨by rfl, by rfl, by rfl, by rfl, by rfl, by rfl, by rfl⟩

/-- C31: a `GetConfigMessage` with an empty list of desired parameters marshals, and its
frame ends with `|GET||END`; and for every frame with a valid header and the tag `GET`
whose count field is empty, or is `0` with no field after it, the decoding succeeds and
gives a `GetConfigMessage` with the header of the frame and no desired parameters. -/
theorem get_config_all (lib : GoLib) (h : MessageHeader) :
    (∃ F, marshalMessage lib (.GetConfigMessage h []) = .ok F ∧ "|GET||END".toList <:+ F)
    ∧ ∀ (F : List Char) (h1 : MessageHeader) (c : List (List Char)),
        unmarshalASCIIHeader F .GetConfigMessageType 1 = .ok (h1, c) →
        c.getD 0 [] = [] ∨ c = ["0".toList] →
        receiveMessage lib F .GetConfigMessageType = .ok (.GetConfigMessage h1 []) := by
  constructor
  · refine ⟨_, rfl, ?_⟩
    simp only [Message.MarshalASCII, List.length_nil, if_true, marshalASCIIMessage,
      Message.Type, gems.MessageType.ASCII]
    generalize FormatPad10 _ = pad
    exact ⟨'|' :: 'G' :: 'E' :: 'M' :: 'S' :: '|' :: (asciiVersion ++ '|' :: (pad ++ '|' ::
      (h.transactionID.String ++ '|' :: (h.token ++ '|' :: (h.timestamp.String ++ '|' ::
        h.target))))), by simp [List.append_assoc]⟩
  · intro F h1 c hh hc
    unfold receiveMessage
    rw [if_neg (by decide)]
    rw [show minFields .GetConfigMessageType = 1 from rfl, hh]
    rcases hc with hc | hc
    · simp only [unmarshalBody]
      rw [if_pos hc]
    · subst hc
      rfl

/-- Witness of C31 at the two frames `…|GET||END` (the frame of the test suite) and
`…|GET|0|END`, decoded with `ReceiveASCIIMessage`. -/
theorem get_config_all_witness :
    marshalMessage sampleLib (.GetConfigMessage examplePingHeader []) = .ok exampleGetAllFrame
    ∧ ReceiveASCIIMessage sampleLib exampleGetAllFrame
        = .ok (.GetConfigMessage examplePingHeader [])
    ∧ ReceiveASCIIMessage sampleLib exampleGetZeroFrame
        = .ok (.GetConfigMessage examplePingHeader [])
    ∧ receiveMessage sampleLib exampleGetZeroFrame .GetConfigMessageType
        = .ok (.GetConfigMessage examplePingHeader []) :=
  ⟨by rfl, by rfl, by rfl,
    (get_config_all sampleLib examplePingHeader).2 exampleGetZeroFrame examplePingHeader
      ["0".toList] (by rfl) (Or.inr rfl)⟩

/-- C32 (amended): in the tokens that `ParameterSet.MarshalXML` writes for a set in which
sets occur only as values of sets, never as values of a Parameter (as in every set that the
builder returns), the first token is the start tag `ParameterSet` with the attributes
`name`, `type` and `multiplicity` of the set itself, every later start tag `ParameterSet` has no attribute at all, whatever name, type
attribute and multiplicity the child sets have, and in the document read back such a start
tag carries only the attribute `xmlns`. -/
theorem inner_sets_bare (lib : GoLib) (ps : ParameterSet)
    (h : ps.toValue.setsInSets = true) :
    ∃ body, (ps.MarshalXML lib).1
        = .StartElement gems.Datatype.ParameterSetType.XMLName
            (parameterAttrs ps.name ps.typeAttr ps.Multiplicity) :: body
      ∧ (∀ nm a, xml.Token.StartElement nm a ∈ body →
          nm.Local = "ParameterSet".toList → a = [])
      ∧ ∀ nm a, xml.Token.StartElement nm a ∈ xml.read body →
          nm.Local = "ParameterSet".toList →
            ∀ x ∈ a, x.Name.Local ≠ "name".toList ∧ x.Name.Local ≠ "type".toList
              ∧ x.Name.Local ≠ "multiplicity".toList := by
  have hb := ((setsInSets_tokens lib).1 ps.toValue h).1
  simp only [ParameterSet.MarshalXML, ParameterSet.toValue, MarshalXML_set, List.tail_cons]
    at hb ⊢
  refine ⟨_, rfl, hb, ?_⟩
  intro nm a hmem hnm x hx
  obtain ⟨a0, h0, rfl⟩ := read_start _ nm a hmem
  rw [hb nm a0 h0 hnm] at hx
  simp only [xml.readAttrs, List.filter_nil, List.map_nil, List.append_nil] at hx
  split_ifs at hx
  · simp only [List.mem_singleton] at hx
    subst hx
    simp
  · simp at hx

/-- Witness of C32 at the set `channelConfigList` of the test suite, whose three child sets
are named `Channel0`, `Channel1` and `Channel2`. -/
theorem inner_sets_bare_witness :
    exampleChannelConfigList.toValue.setsInSets = true
    ∧ childAttributes exampleChannelConfigList.toValue
        = [("Channel0".toList, .UndefinedType, ⟨0, false⟩),
            ("Channel1".toList, .UndefinedType, ⟨0, false⟩),
            ("Channel2".toList, .UndefinedType, ⟨0, false⟩)]
    ∧ ∃ body, (exampleChannelConfigList.MarshalXML sampleLib).1
        = .StartElement gems.Datatype.ParameterSetType.XMLName
            (parameterAttrs "ChannelConfigList".toList .UndefinedType ⟨3, true⟩) :: body
      ∧ (∀ nm a, xml.Token.StartElement nm a ∈ body →
          nm.Local = "ParameterSet".toList → a = [])
      ∧ ∀ nm a, xml.Token.StartElement nm a ∈ xml.read body →
          nm.Local = "ParameterSet".toList →
            ∀ x ∈ a, x.Name.Local ≠ "name".toList ∧ x.Name.Local ≠ "type".toList
              ∧ x.Name.Local ≠ "multiplicity".toList :=
  ⟨by rfl, by rfl, inner_sets_bare sampleLib exampleChannelConfigList (by rfl)⟩

/-- Counterexample to C32 as stated: the set `exampleSetInParameter` has a multiplicity and
holds a child set; the start tag of the set `Deep`, which is a value of a Parameter of that
child set, is written with the attributes `name` and `multiplicity`, because
`Parameter.MarshalXML` encodes its values as they are.  `Parameter.Validate` rejects the
Parameter `Holder`, so the builder does not return such a set, but the XML decoder does: it
reads the set back from its own encoding. -/
theorem set_in_parameter_keeps_attributes :
    exampleSetInParameter.Multiplicity = ⟨1, true⟩
    ∧ (exampleSetInParameter.MarshalXML sampleLib).1
      = [.StartElement gems.Datatype.ParameterSetType.XMLName
            [⟨⟨[], "name".toList⟩, "Outer".toList⟩, ⟨⟨[], "multiplicity".toList⟩, "1".toList⟩],
          .StartElement gems.Datatype.ParameterSetType.XMLName [],
          .StartElement gems.Datatype.ParameterType.XMLName
            [⟨⟨[], "name".toList⟩, "Holder".toList⟩],
          .StartElement gems.Datatype.ParameterSetType.XMLName
            [⟨⟨[], "name".toList⟩, "Deep".toList⟩, ⟨⟨[], "multiplicity".toList⟩, "2".toList⟩],
          .EndElement gems.Datatype.ParameterSetType.XMLName,
          .EndElement gems.Datatype.ParameterType.XMLName,
          .EndElement gems.Datatype.ParameterSetType.XMLName,
          .EndElement gems.Datatype.ParameterSetType.XMLName]
    ∧ exampleSetInParameter.toValue.setsInSets = false
    ∧ Parameter.Validate sampleLib
        ⟨[.vParameterSet [] ⟨2, true⟩ "Deep".toList .UndefinedType], ⟨0, false⟩,
          "Holder".toList, .UndefinedType⟩
      = some (.Errorf "Parameter contains Parameter or ParameterSet values".toList)
    ∧ xmlUnmarshal sampleLib .ParameterSetType
        (xml.read (exampleSetInParameter.MarshalXML sampleLib).1)
      = .ok exampleSetInParameter.toValue :=
  ⟨by rfl, by rfl, by rfl, by rfl, by rfl⟩

/-- C33 fails on the code: after `ParameterSet.MarshalXML` on the set `channelConfigList` of
the test suite, its three child sets, built with the names `Channel0`, `Channel1` and
`Channel2`, have the empty name; and in general the call leaves every child set with the
assignments of `clearAttributes` done. -/
theorem marshal_clears_child_sets :
    childAttributes exampleChannelConfigList.toValue
      = [("Channel0".toList, .UndefinedType, ⟨0, false⟩),
          ("Channel1".toList, .UndefinedType, ⟨0, false⟩),
          ("Channel2".toList, .UndefinedType, ⟨0, false⟩)]
    ∧ childAttributes (exampleChannelConfigList.MarshalXML sampleLib).2
      = [([], .UndefinedType, ⟨0, false⟩), ([], .UndefinedType, ⟨0, false⟩),
          ([], .UndefinedType, ⟨0, false⟩)]
    ∧ ∀ (lib : GoLib) (cvs : List Value) (cm m : gems.NullInt32) (cn n : List Char)
        (ct t : gems.Datatype) (r : List Value),
        ∃ cvs1 r1, (Value.MarshalXML lib (.vParameterSet (.vParameterSet cvs cm cn ct :: r)
            m n t)).2
          = .vParameterSet (.vParameterSet cvs1 ⟨cm.Int32, false⟩ [] .UndefinedType :: r1)
              m n t := by
  refine ⟨by rfl, by rfl, ?_⟩
  intro lib cvs cm m cn n ct t r
  rw [MarshalXML_set, children_cons_set, clearAttributes, MarshalXML_set]
  exact ⟨_, _, rfl⟩

/-- C34 (amended): for every Parameter or ParameterSet of the class `XMLReadsBack` (names and
texts of printable ASCII, no string value with an empty text, hex values with data and a bit
length that is not zero, times with zero or nine-digit nanoseconds, doubles and `utime`
values that the library reads back, child sets without name, type attribute and
multiplicity), decoding the XML encoding yields the same value. -/
theorem xml_round_trip (lib : GoLib) (P : XMLParameter) (h : XMLReadsBack lib P.toValue) :
    xmlRoundTrip lib P.toValue = .ok P.toValue := by
  obtain ⟨a, inner, htok, hb, hdec⟩ := (xml_read_back lib).1 P.toValue h
  have hend := element_end inner hb P.toValue.Type.XMLName []
  unfold xmlRoundTrip
  rw [htok, List.cons_append, xmlUnmarshal, xml.decodeElement, hend]
  simp only [List.length_append, List.length_cons, List.length_nil]
  simp only [hdec (inner.length + (0 + 1) + 1) (by omega), ne_eq, not_true_eq_false, if_false,
    Except.map]

/-- Witness of C34 at the set `parameterSetList` of the test suite, as the builder returns
it from three unnamed child sets. -/
theorem xml_round_trip_witness :
    buildWith sampleLib [.Name "ParameterSetList".toList,
        .Parameters (exampleGroups.map XMLParameter.ParameterSet)]
      = (.ParameterSet exampleParameterSetList, none)
    ∧ XMLReadsBack sampleLib (XMLParameter.ParameterSet exampleParameterSetList).toValue
    ∧ xmlRoundTrip sampleLib (XMLParameter.ParameterSet exampleParameterSetList).toValue
      = .ok (XMLParameter.ParameterSet exampleParameterSetList).toValue :=
  have h : XMLReadsBack sampleLib (XMLParameter.ParameterSet exampleParameterSetList).toValue := by
    simp only [XMLParameter.toValue, exampleParameterSetList, exampleGroups, exampleChannel,
      ParameterSet.toValue, List.map, XMLReadsBack, XMLReadsBack.all, XMLReadsBack.children,
      XMLScalarReadsBack, ScalarReadsBack, clearedSet, multiplicityReadsBack, xmlPlain]
    iterate 12 (all_goals (try apply And.intro))
    all_goals decide
  ⟨by rfl, h, xml_round_trip sampleLib (.ParameterSet exampleParameterSetList) h⟩

/-- Counterexample to C34 as stated: each of these parameters is returned by `Build` without
error, and decoding its XML encoding does not give it back.  `String("")` comes back as the
empty marker; the empty marker of `HexValue()` is not decoded at all; the time `1.05` comes
back as `1.5`; a control character comes back as the replacement character; and the child
sets of `channelConfigList` come back without their names. -/
theorem xml_round_trip_differs :
    (buildWith sampleLib [.Name "Note".toList, .String [[]]] = (.Parameter exampleEmptyText, none)
      ∧ xmlRoundTrip sampleLib exampleEmptyText.toValue
        = .ok (.vParameter [.vString [] true] ⟨0, false⟩ "Note".toList .UndefinedType))
    ∧ (buildWith sampleLib [.Name "Mask".toList, .HexValue []]
        = (.Parameter exampleEmptyHex, none)
      ∧ xmlRoundTrip sampleLib exampleEmptyHex.toValue
        = .error (.Errorf ("xml: (*gemsV14.HexValue).UnmarshalXML did not consume entire "
            ++ "<hex_value> element").toList))
    ∧ (buildWith sampleLib [.Name "Start".toList, .Time ["1.05".toList]]
        = (.Parameter exampleShortNanos, none)
      ∧ xmlRoundTrip sampleLib exampleShortNanos.toValue
        = .ok (.vParameter [.vTime ⟨1, 500000000⟩ false] ⟨0, false⟩ "Start".toList
            .UndefinedType))
    ∧ (buildWith sampleLib [.Name "Bell".toList, .String [[Char.ofNat 7]]]
        = (.Parameter exampleControlText, none)
      ∧ xmlRoundTrip sampleLib exampleControlText.toValue
        = .ok (.vParameter [.vString [Char.ofNat 239, Char.ofNat 191, Char.ofNat 189] false]
            ⟨0, false⟩ "Bell".toList .UndefinedType))
    ∧ (buildWith sampleLib [.Name "ChannelConfigList".toList,
          .Parameters [.ParameterSet (exampleChannelConfig 0 200000),
            .ParameterSet (exampleChannelConfig 1 400000),
            .ParameterSet (exampleChannelConfig 2 600000)]]
        = (.ParameterSet exampleChannelConfigList, none)
      ∧ childAttributes exampleChannelConfigList.toValue
        = [("Channel0".toList, .UndefinedType, ⟨0, false⟩),
            ("Channel1".toList, .UndefinedType, ⟨0, false⟩),
            ("Channel2".toList, .UndefinedType, ⟨0, false⟩)]
      ∧ (xmlRoundTrip sampleLib exampleChannelConfigList.toValue).map childAttributes
        = .ok [([], .UndefinedType, ⟨0, false⟩), ([], .UndefinedType, ⟨0, false⟩),
            ([], .UndefinedType, ⟨0, false⟩)]) :=
  ⟨⟨by rfl, by rfl⟩, ⟨by rfl, by rfl⟩, ⟨by rfl, by rfl⟩, ⟨by rfl, by rfl⟩,
    ⟨by rfl, by rfl, by rfl⟩⟩

/-- C35 (amended): for every string `s` of the form that `escape` produces, that is without
`|`, `,` and `;` and with every `&` immediately followed by `a`, `b`, `c` or `d`,
`escape(unescape(s)) = s`; the strings `escape(t)` have that form. -/
theorem escape_unescape (s : List Char) (h : escapedForm s) :
    escape (unescape s) = s ∧ ∀ t : List Char, escapedForm (escape t) :=
  ⟨escape_unescape_form s.length s (Nat.le_refl _) h, escape_form⟩

/-- Witness of C35 at `A&aB&b`, the escaped form of `A&B|`. -/
theorem escape_unescape_witness :
    escapedForm (escape "A&B|".toList)
    ∧ escape "A&B|".toList = "A&aB&b".toList
    ∧ escape (unescape (escape "A&B|".toList)) = escape "A&B|".toList :=
  ⟨escape_form _, rfl, (escape_unescape (escape "A&B|".toList) (escape_form _)).1⟩

/-- Counterexample to C35 as stated: the ASCII strings `|` and `&` are left as they are by
`unescape`, and `escape` turns them into `&b` and `&a`. -/
theorem escape_unescape_raw_delimiter :
    (∀ c ∈ "|".toList, c.toNat ≤ 127) ∧ escape (unescape "|".toList) = "&b".toList
    ∧ (∀ c ∈ "&".toList, c.toNat ≤ 127) ∧ escape (unescape "&".toList) = "&a".toList
    ∧ escape (unescape "A&B".toList) = "A&aB".toList :=
  ⟨by decide, rfl, by decide, rfl, rfl⟩

/-- C36: for every frame with a valid header that is decoded as a SetConfig,
GetConfigResponse, AsyncStatus, Directive or DirectiveResponse message, with `fields` the
count field and the fields after it: the decoding fails with the error `invalid number of
parameters` when `Atoi` does not read the count field as a number, and when it reads a
number other than the number of fields after the count; when the count is that number,
the decoder decodes each of these fields with `UnmarshalParameterASCII`, from the left, and
a message it returns holds exactly the parameters decoded from them, in the order of the
frame. -/
theorem parameter_count_checked (lib : GoLib) (typ : gems.MessageType) (F : List Char)
    (h : MessageHeader) (c : List (List Char))
    (htyp : typ ∈ [gems.MessageType.SetConfigMessageType, .GetConfigResponseType,
      .AsyncStatusMessageType, .DirectiveMessageType, .DirectiveResponseType])
    (hh : unmarshalASCIIHeader F typ (minFields typ) = .ok (h, c)) :
    (∀ e, Atoi ((c.drop (parameterStart typ)).getD 0 []) = .error e →
        receiveMessage lib F typ
          = .error (.UnmarshalError (some (joinWith "|".toList (c.drop (parameterStart typ))))
              "invalid number of parameters".toList))
    ∧ (∀ n, Atoi ((c.drop (parameterStart typ)).getD 0 []) = .ok n →
        n ≠ ((c.drop (parameterStart typ)).length : Int) - 1 →
        receiveMessage lib F typ
          = .error (.UnmarshalError (some (joinWith "|".toList (c.drop (parameterStart typ))))
              "invalid number of parameters".toList))
    ∧ (Atoi ((c.drop (parameterStart typ)).getD 0 [])
          = .ok (((c.drop (parameterStart typ)).length : Int) - 1) →
        (∃ mk : List XMLParameter → Message,
          receiveMessage lib F typ
              = ((c.drop (parameterStart typ + 1)).mapM (unmarshalXMLParameter lib)).map mk
            ∧ ∀ ps, messageParameters (mk ps) = ps)
        ∧ ∀ m, receiveMessage lib F typ = .ok m →
            List.Forall₂ (fun field p => unmarshalXMLParameter lib field = .ok p)
              (c.drop (parameterStart typ + 1)) (messageParameters m)) := by
  obtain ⟨ht1, ht2, hmin⟩ := slice_types typ htyp
  have hc := unmarshalASCIIHeader_fields F typ _ h c hh
  have hl : 1 ≤ (c.drop (parameterStart typ)).length := by
    rw [List.length_drop]
    omega
  obtain ⟨mk, hmk, hps⟩ := body_of_slice lib typ h c htyp
  have hrecv : receiveMessage lib F typ
      = (unmarshalParameterSliceASCII lib (c.drop (parameterStart typ))).map mk := by
    unfold receiveMessage
    rw [if_neg (by simp [ht1, ht2]), hh]
    exact hmk
  obtain ⟨s1, s2, s3⟩ := slice_count lib (c.drop (parameterStart typ)) hl
  refine ⟨fun e he => ?_, fun n hn hne => ?_, fun hn => ?_⟩
  · rw [hrecv, s1 e he]
    rfl
  · rw [hrecv, s2 n hn hne]
    rfl
  · have hd : (c.drop (parameterStart typ)).drop 1 = c.drop (parameterStart typ + 1) := by
      rw [List.drop_drop, Nat.add_comm]
    rw [hrecv, s3 hn, hd]
    refine ⟨⟨mk, rfl, fun ps => (hps ps).1⟩, fun m hm => ?_⟩
    cases hmap : (c.drop (parameterStart typ + 1)).mapM (unmarshalXMLParameter lib) with
    | error e => rw [hmap] at hm; cases hm
    | ok ps =>
      rw [hmap] at hm
      have hm1 : mk ps = m := by
        simpa [Except.map] using hm
      rw [← hm1, (hps ps).1]
      exact mapM_forall2 _ _ _ hmap

/-- Witness of C36 at a `SetConfigMessage` frame whose count field says 2 while one
parameter follows. -/
theorem parameter_count_checked_witness :
    (gems.MessageType.SetConfigMessageType ∈ [gems.MessageType.SetConfigMessageType,
        .GetConfigResponseType, .AsyncStatusMessageType, .DirectiveMessageType,
        .DirectiveResponseType]
      ∧ unmarshalASCIIHeader exampleWrongCountFrame .SetConfigMessageType
          (minFields .SetConfigMessageType)
        = .ok (examplePingHeader, ["2".toList, "A:int=1".toList])
      ∧ Atoi "2".toList = .ok 2)
    ∧ receiveMessage sampleLib exampleWrongCountFrame .SetConfigMessageType
        = .error (.UnmarshalError (some "2|A:int=1".toList)
            "invalid number of parameters".toList) :=
  ⟨⟨by simp, by rfl, by rfl⟩,
    (parameter_count_checked sampleLib .SetConfigMessageType exampleWrongCountFrame
      examplePingHeader ["2".toList, "A:int=1".toList] (by simp) (by rfl)).2.1 2 (by rfl)
      (by decide)⟩

/-- C37 (amended): for every message whose ASCII marshalling succeeds with a frame `F`, `F`
ends with `|END`; when `|END` occurs in `F` only as its last four bytes (which the encoder
does not ensure: a header or body field that starts with `END` or contains `|END` puts it
earlier), `SplitMessages(F, atEOF)` returns the advance `len(F)` and the token `F`; and the
scanner of the server and of the client delivers the frames of a stream of such frames one
by one, without error, when none of them is longer than `bufio.MaxScanTokenSize`. -/
theorem frames_split (lib : GoLib) (frames : List (List Char))
    (hm : ∀ F ∈ frames, ∃ m, marshalMessage lib m = .ok F)
    (honly : ∀ F ∈ frames, ∀ j, occursAt "|END".toList F j → j + 4 = F.length) :
    (∀ F ∈ frames, "|END".toList <:+ F
        ∧ ∀ atEOF, ascii.SplitMessages F atEOF = (F.length, some F, none))
    ∧ ((∀ F ∈ frames, F.length ≤ maxScanTokenSize) →
        ∀ fuel, frames.length < fuel → scanTokens fuel frames.flatten = (frames, none)) := by
  have hend : ∀ F ∈ frames, "|END".toList <:+ F := by
    intro F hF
    obtain ⟨m, h⟩ := hm F hF
    exact frame_trailer lib m F h
  refine ⟨fun F hF => ⟨hend F hF, fun atEOF => ?_⟩, fun hsize =>
    scanTokens_frames frames (fun F hF => ⟨hend F hF, honly F hF, hsize F hF⟩)⟩
  have := split_first_frame F [] atEOF (hend F hF) (honly F hF)
  simpa using this

/-- Witness of C37 at the stream of two ping frames of the test suite. -/
theorem frames_split_witness :
    ((∀ F ∈ [examplePingFrame, examplePingFrame],
        ∃ m, marshalMessage sampleLib m = .ok F)
      ∧ ∀ F ∈ [examplePingFrame, examplePingFrame],
          ∀ j, occursAt "|END".toList F j → j + 4 = F.length)
    ∧ ascii.SplitMessages examplePingFrame false
        = (examplePingFrame.length, some examplePingFrame, none)
    ∧ (∀ F ∈ [examplePingFrame, examplePingFrame], F.length ≤ maxScanTokenSize)
    ∧ scanTokens 3 (examplePingFrame ++ examplePingFrame)
        = ([examplePingFrame, examplePingFrame], none) :=
  have h1 : ∀ F ∈ [examplePingFrame, examplePingFrame],
      ∃ m, marshalMessage sampleLib m = .ok F := by
    intro F hF
    simp only [List.mem_cons, List.mem_singleton, List.not_mem_nil, or_false, or_self] at hF
    subst hF
    exact ⟨.PingMessage examplePingHeader, by rfl⟩
  have h2 : ∀ F ∈ [examplePingFrame, examplePingFrame],
      ∀ j, occursAt "|END".toList F j → j + 4 = F.length := by
    intro F hF
    simp only [List.mem_cons, List.mem_singleton, List.not_mem_nil, or_false, or_self] at hF
    subst hF
    exact only_at_end "|END".toList examplePingFrame (by decide) 63 (by rfl) (by rfl)
  have h3 : ∀ F ∈ [examplePingFrame, examplePingFrame], F.length ≤ maxScanTokenSize := by
    decide
  ⟨⟨h1, h2⟩,
    ((frames_split sampleLib [examplePingFrame, examplePingFrame] h1 h2).1 examplePingFrame
      (by simp)).2 false, h3,
    by
      have := (frames_split sampleLib [examplePingFrame, examplePingFrame] h1 h2).2 h3 3
        (by decide)
      simpa using this⟩

/-- Counterexample to C37 as stated.  The `LoadConfigMessage` for the configuration
`ENDURANCE` marshals to a frame of 77 bytes in which `|END` first occurs at index 63, so
`SplitMessages` returns the advance 67 and a token that is cut off after `|LOAD|END`, and
the scanner delivers that token and then the rest `URANCE|END` as a second one.  The
`LoadConfigMessage` whose configuration name is `A` 65536 times marshals to a frame of
65604 bytes that `SplitMessages` returns whole, but the scanner, whose buffer holds at most
65536 bytes, delivers nothing and stops with `bufio.ErrTooLong`. -/
theorem frame_cut_at_field :
    marshalMessage sampleLib exampleLoadConfig
      = .ok ("|GEMS|14|0000000077|1||1410819035.280000000|System/Device1|LOAD|ENDURANCE"
          ++ "|END").toList
    ∧ ascii.SplitMessages ("|GEMS|14|0000000077|1||1410819035.280000000|System/Device1|LOAD"
          ++ "|ENDURANCE|END").toList true
      = (67, some "|GEMS|14|0000000077|1||1410819035.280000000|System/Device1|LOAD|END".toList,
          none)
    ∧ scanTokens 3 ("|GEMS|14|0000000077|1||1410819035.280000000|System/Device1|LOAD"
          ++ "|ENDURANCE|END").toList
      = (["|GEMS|14|0000000077|1||1410819035.280000000|System/Device1|LOAD|END".toList,
          "URANCE|END".toList], none)
    ∧ marshalMessage sampleLib exampleLongConfig = .ok exampleLongFrame
    ∧ exampleLongFrame.length = 65604
    ∧ ascii.SplitMessages exampleLongFrame true = (65604, some exampleLongFrame, none)
    ∧ scanTokens 1 exampleLongFrame = ([], some errTooLong) :=
  ⟨by rfl, by rfl, by rfl, long_frame_marshal, long_frame_length, long_frame_split true,
    long_frame_scan 65536 0 (by decide)⟩

/-- C38: for every string `s`, `escape(s)` contains none of the delimiters `|`, `,` and
`;`, and every `&` in `escape(s)` is immediately followed by `a`, `b`, `c` or `d`. -/
theorem escape_output_form (s : List Char) :
    (∀ c ∈ escape s, c ≠ '|' ∧ c ≠ ',' ∧ c ≠ ';')
    ∧ ∀ i : Nat, (escape s)[i]? = some '&' →
        (escape s)[i + 1]? = some 'a' ∨ (escape s)[i + 1]? = some 'b'
          ∨ (escape s)[i + 1]? = some 'c' ∨ (escape s)[i + 1]? = some 'd' :=
  escape_form s

/-- C39: for every name `n` with code points up to 127 that contains no `=`, every
non-empty list `vs` of 32-bit signed integers and a multiplicity that is absent (with one
value) or any 32-bit integer: the Int parameter `(n, multiplicity, vs)` marshals without
error, its text is the escaped name, `:int`, the multiplicity in brackets when present, `=`
and the decimal values joined by `,`, and `Parameter.UnmarshalASCII` on that text succeeds
and returns the parameter with the same name, multiplicity and values. -/
theorem int_parameter_round_trip (lib : GoLib) (n : List Char) (vs : List Int)
    (m : gems.NullInt32) (hn : ∀ c ∈ n, c.toNat ≤ 127) (heq : '=' ∉ n) (hvs : vs ≠ [])
    (hrange : ∀ v ∈ vs, -2147483648 ≤ v ∧ v ≤ 2147483647)
    (hm : (m = ⟨0, false⟩ ∧ vs.length = 1)
      ∨ (m.Valid = true ∧ -2147483648 ≤ m.Int32 ∧ m.Int32 ≤ 2147483647)) :
    ∃ text, marshalValue lib (intParameter n m vs) = .ok text
      ∧ text = escape n ++ ":int".toList
          ++ (if m.Valid then '[' :: (FormatInt m.Int32 ++ [']']) else [])
          ++ '=' :: joinWith ",".toList (vs.map FormatInt)
      ∧ unmarshalFuel lib (text.length + 1) .ParameterType text
          = .ok (intParameter n m vs) := by
  have hm1 : m = ⟨0, false⟩
      ∨ (m.Valid = true ∧ -2147483648 ≤ m.Int32 ∧ m.Int32 ≤ 2147483647) := by
    rcases hm with h | h
    · exact Or.inl h.1
    · exact Or.inr h
  have hr := intParameter_reads_back lib n vs m hn heq hvs hrange hm1
  have he := parameter_encoded lib _ m n .UndefinedType hr
  have hd := fun fuel => parameter_decode lib fuel _ m n .UndefinedType hr
  obtain ⟨v, r, rfl⟩ := List.exists_cons_of_ne_nil hvs
  refine ⟨parameterText lib ((v :: r).map (fun v => .vInt v false)) m n, ?_, ?_, ?_⟩
  · simp only [marshalValue, intParameter]
    rw [he]
  · have henc : ∀ ws : List Int, (ws.map (fun v => Value.vInt v false)).map (encoded lib)
        = ws.map FormatInt := by
      intro ws
      simp [encoded, Value.MarshalASCII]
    simp only [List.map_cons, parameterText, headedText, typeText, Value.Type]
    rw [← List.map_cons (encoded lib), ← List.map_cons (fun v => Value.vInt v false), henc]
    simp [gems.Datatype.ASCIIName, List.append_assoc]
  · have hl := headedText_length n .IntType m
      (joinWith ",".toList (((v :: r).map (fun v => Value.vInt v false)).map (encoded lib)))
    have ht : parameterText lib ((v :: r).map (fun v => .vInt v false)) m n
        = headedText n .IntType m
          (joinWith ",".toList (((v :: r).map (fun v => Value.vInt v false)).map
            (encoded lib))) := rfl
    rw [ht] at hd ⊢
    have := hd ((headedText n .IntType m (joinWith ",".toList
      (((v :: r).map (fun v => Value.vInt v false)).map (encoded lib)))).length - 1)
    rw [show (headedText n .IntType m (joinWith ",".toList
        (((v :: r).map (fun v => Value.vInt v false)).map (encoded lib)))).length + 1
      = (headedText n .IntType m (joinWith ",".toList
        (((v :: r).map (fun v => Value.vInt v false)).map (encoded lib)))).length - 1 + 2
      by omega]
    exact this

/-- Witness of C39 at the parameters `IntValue:int=-2147483648` and
`IntList:int[3]=1,-2,3`. -/
theorem int_parameter_round_trip_witness :
    ((∀ c ∈ "IntList".toList, c.toNat ≤ 127) ∧ '=' ∉ "IntList".toList
      ∧ ([1, -2, 3] : List Int) ≠ []
      ∧ (∀ v ∈ ([1, -2, 3] : List Int), -2147483648 ≤ v ∧ v ≤ 2147483647))
    ∧ marshalValue sampleLib (intParameter "IntList".toList ⟨3, true⟩ [1, -2, 3])
        = .ok "IntList:int[3]=1,-2,3".toList
    ∧ marshalValue sampleLib (intParameter "IntValue".toList ⟨0, false⟩ [-2147483648])
        = .ok "IntValue:int=-2147483648".toList
    ∧ ∃ text, marshalValue sampleLib (intParameter "IntList".toList ⟨3, true⟩ [1, -2, 3])
          = .ok text
        ∧ text = escape "IntList".toList ++ ":int".toList
            ++ (if (⟨3, true⟩ : gems.NullInt32).Valid then
                '[' :: (FormatInt (⟨3, true⟩ : gems.NullInt32).Int32 ++ [']']) else [])
            ++ '=' :: joinWith ",".toList (([1, -2, 3] : List Int).map FormatInt)
        ∧ unmarshalFuel sampleLib (text.length + 1) .ParameterType text
            = .ok (intParameter "IntList".toList ⟨3, true⟩ [1, -2, 3]) :=
  ⟨⟨by decide, by decide, by simp, by decide⟩, by rfl, by rfl,
    int_parameter_round_trip sampleLib "IntList".toList [1, -2, 3] ⟨3, true⟩ (by decide)
      (by decide) (by simp) (by decide) (Or.inr ⟨rfl, by decide, by decide⟩)⟩

/-- What `Build` returns for an empty array: for every name without whitespace and every
scalar datatype, the empty array parameter that the builder produces from the value setter called with no values,
followed by `Multiplicity(0)`, holds one empty marker and the multiplicity 0 and marshals
to `name:type[0]=`; `Build` returns it together with the error `array Parameter has invalid
multiplicity value`, because `Validate` counts the empty marker as one value, which is
more than the multiplicity. -/
theorem empty_array_rejected (lib : GoLib) (name : List Char) (s : Setter)
    (hname : containsWhitespace name = false) (hs : s ∈ emptySetters) :
    buildWith lib [.Name name, s, .Multiplicity 0]
      = (.Parameter ⟨[emptyMarker s], ⟨0, true⟩, name, .UndefinedType⟩,
          some (.Errorf "array Parameter has invalid multiplicity value".toList))
    ∧ (ascii.Valid name = true →
        marshalValue lib (.vParameter [emptyMarker s] ⟨0, true⟩ name .UndefinedType)
          = .ok (escape name ++ ':' :: ((emptyMarker s).Type.ASCIIName ++ "[0]=".toList))) := by
  obtain ⟨happ, h1, h2, h3, hmar⟩ := marker_facts lib s hs
  have hb : buildTypeLoop [emptyMarker s] .UndefinedType = some (emptyMarker s).Type := by
    simp [buildTypeLoop]
  constructor
  · have hpb : ([Setter.Name name, s, Setter.Multiplicity 0].foldl (ParameterBuilder.apply lib)
        NewParameterBuilder)
        = ⟨name, gems.NewNullInt32 0, [emptyMarker s]⟩ := by
      simp only [List.foldl_cons, List.foldl_nil]
      have := happ (ParameterBuilder.apply lib NewParameterBuilder (.Name name))
      generalize hq : ParameterBuilder.apply lib
        (ParameterBuilder.apply lib NewParameterBuilder (.Name name)) s = q at this ⊢
      obtain ⟨qn, qm, qv⟩ := q
      simp only [ParameterBuilder.apply, NewParameterBuilder, List.nil_append] at this ⊢
      obtain ⟨a1, a2, a3⟩ := this
      subst a1 a2 a3
      rfl
    unfold buildWith
    rw [hpb]
    unfold ParameterBuilder.Build
    simp only [hb]
    cases hT : (emptyMarker s).Type <;> first
      | exact absurd hT h1
      | exact absurd hT h2
      | exact absurd hT h3
      | (simp [Parameter.Validate, hname, gems.NewNullInt32, gems.wrapInt])
  · intro hv
    have hVT : ValueType [emptyMarker s] = (emptyMarker s).Type := by
      simp [ValueType, valueTypeLoop]
    have hsl := fun b => slice_scalars lib [emptyMarker s] b
      (fun v hv1 => by
        rw [List.mem_singleton.1 hv1, hmar]
        exact ⟨h1, h2, rfl⟩)
    simp only [List.map_cons, List.map_nil, joinWith, hmar, List.append_nil] at hsl
    simp only [marshalValue, Value.MarshalASCII, SafeWrite_escape [] name hv, gemsV14.andThen,
      hVT, if_neg h3]
    have hfmt : (if (!(⟨0, true⟩ : gems.NullInt32).Valid) = true then ['=']
        else '[' :: FormatInt (⟨0, true⟩ : gems.NullInt32).Int32 ++ "]=".toList)
        = "[0]=".toList := by
      rfl
    rw [hfmt, List.nil_append, hsl]
    simp [List.append_assoc]

/-- The theorem `empty_array_rejected` at `emptyStringList` of the test suite,
`Name("EmptyStringList").String().Multiplicity(0)`. -/
theorem empty_array_rejected_witness :
    (containsWhitespace "EmptyStringList".toList = false ∧ Setter.String [] ∈ emptySetters)
    ∧ buildWith sampleLib [.Name "EmptyStringList".toList, .String [], .Multiplicity 0]
        = (.Parameter ⟨[.vString [] true], ⟨0, true⟩, "EmptyStringList".toList, .UndefinedType⟩,
            some (.Errorf "array Parameter has invalid multiplicity value".toList)) :=
  ⟨⟨rfl, by simp [emptySetters]⟩,
    (empty_array_rejected sampleLib "EmptyStringList".toList (.String []) rfl
      (by simp [emptySetters])).1⟩

/-- C40 fails on the code: `emptyStringList` and `emptyIntList` of the test suite,
`Name(...).String().Multiplicity(0)` and `Name(...).Int().Multiplicity(0)`, are returned by
`Build` with one empty marker and the multiplicity 0, but together with the error `array
Parameter has invalid multiplicity value`; they marshal to `EmptyStringList:string[0]=` and
`EmptyIntList:int[0]=`, and the decoder returns the same parameters from these texts
without error. -/
theorem empty_list_build_error :
    buildWith sampleLib [.Name "EmptyStringList".toList, .String [], .Multiplicity 0]
        = (.Parameter ⟨[.vString [] true], ⟨0, true⟩, "EmptyStringList".toList, .UndefinedType⟩,
            some (.Errorf "array Parameter has invalid multiplicity value".toList))
    ∧ marshalValue sampleLib
        (.vParameter [.vString [] true] ⟨0, true⟩ "EmptyStringList".toList .UndefinedType)
        = .ok "EmptyStringList:string[0]=".toList
    ∧ UnmarshalParameterASCII sampleLib "EmptyStringList:string[0]=".toList
        = .ok (.vParameter [.vString [] true] ⟨0, true⟩ "EmptyStringList".toList
            .UndefinedType)
    ∧ buildWith sampleLib [.Name "EmptyIntList".toList, .Int [], .Multiplicity 0]
        = (.Parameter ⟨[.vInt 0 true], ⟨0, true⟩, "EmptyIntList".toList, .UndefinedType⟩,
            some (.Errorf "array Parameter has invalid multiplicity value".toList))
    ∧ marshalValue sampleLib
        (.vParameter [.vInt 0 true] ⟨0, true⟩ "EmptyIntList".toList .UndefinedType)
        = .ok "EmptyIntList:int[0]=".toList
    ∧ UnmarshalParameterASCII sampleLib "EmptyIntList:int[0]=".toList
        = .ok (.vParameter [.vInt 0 true] ⟨0, true⟩ "EmptyIntList".toList .UndefinedType) :=
  ⟨by rfl, by rfl, by rfl, by rfl, by rfl, by rfl⟩

end Claims

/-- C4: for every string `s`, `unescape (escape s) = s`: the single left-to-right pass of
the unescaper undoes the byte-wise escaper. -/
theorem unescape_escape (s : List Char) : gemsV14.unescape (gemsV14.escape s) = s := by
  induction s with
  | nil => rfl
  | cons c s ih =>
    simp only [gemsV14.escape, gemsV14.escapeByte]
    split_ifs with h1 h2 h3 h4
    · subst h1; simp [gemsV14.unescape, ih]
    · subst h2; simp [gemsV14.unescape, ih]
    · subst h3; simp [gemsV14.unescape, ih]
    · subst h4; simp [gemsV14.unescape, ih]
    · cases hs : gemsV14.escape s with
      | nil =>
        rw [hs] at ih
        simp [gemsV14.unescape, ← ih]
      | cons d t =>
        rw [hs] at ih
        simp only [List.singleton_append, gemsV14.unescape]
        simp [h1, ih]

end Gems
